import Mathlib

/-!
# Reactivity core of `vue`: observer, dep, watcher

A shallow embedding of `src/core/observer/index.js`, `src/core/observer/dep.js`,
`src/core/observer/watcher.js` and the parts of `src/core/instance/state.js` that use them.

JavaScript objects, Deps, Observers, Watchers and the closures created by `defineReactive`
live in explicit stores of a `State`; a reference is an index into its store.  Functions that
can call back into user code are written with open recursion over a `Call` (one `Task` per
source function) and tied together by `exec`, which decreases a fuel counter at every call.
-/

namespace Vue

/-! ## Values -/

abbrev Addr := Nat
abbrev Key := String

/-- JavaScript values.  `ref a` is a reference to the heap object at address `a`. -/
inductive Val
  | undefined
  | null
  | bool (b : Bool)
  | num (n : Int)
  | nan
  | str (s : String)
  | ref (a : Addr)
  deriving DecidableEq, Repr, Inhabited

/-- The operator `===`: `NaN` is not equal to itself, references compare by identity. -/
def strictEq : Val → Val → Bool
  | .nan, _ => false
  | _, .nan => false
  | a, b => decide (a = b)

/-- Modelled from the spec: `isObject` of `util/index` (not under src), true exactly for
objects and lists. -/
def isObject : Val → Bool
  | .ref _ => true
  | _ => false

/-- JavaScript truthiness, as used by `c ? t : e`. -/
def truthy : Val → Bool
  | .undefined => false
  | .null => false
  | .bool b => b
  | .num n => decide (n ≠ 0)
  | .nan => false
  | .str s => decide (s ≠ "")
  | .ref _ => true

/-! ## User code -/

/-- Bodies of user functions (watcher getters, callbacks, accessor functions). -/
inductive Code
  | lit (v : Val)
  | arg (i : Nat)
  | prop (o : Code) (k : Key)
  | assign (o : Code) (k : Key) (e : Code)
  | cond (c t e : Code)
  | seq (a b : Code)
  | teardown (w : Nat)
  | throw (e : Code)
  deriving DecidableEq, Repr

/-- Function values: user code, or one of the two closures made by `defineReactive`. -/
inductive Fn
  | code (c : Code)
  | reactiveGetter (cell : Nat)
  | reactiveSetter (cell : Nat)
  deriving DecidableEq, Repr

/-- The function `noop`. -/
def noop : Fn := .code (.lit .undefined)

/-! ## Heap objects -/

inductive Slot
  | data (v : Val)
  | accessor (get set : Option Fn)
  deriving DecidableEq, Repr

/-- An own property with its descriptor; `writable` is the attribute of a data property (an
accessor has none). -/
structure Property where
  key : Key
  enumerable : Bool
  configurable : Bool
  slot : Slot
  writable : Bool := true
  deriving DecidableEq, Repr

inductive ObjKind
  | plain
  | array
  | vnode
  | other
  deriving DecidableEq, Repr

/-- A heap object.  `props` are the own properties in creation order, `elems` the items of an
array, `__ob__` the hidden back-reference to its Observer, `augmented` records that the array
mutators have been intercepted.  The items and the length of an array and the `__ob__`
reference are own properties without an entry in `props`: they are writable and can be
removed unless the object is not extensible and `frozen` (`Object.freeze` has been applied to
it).  The items of an array are all present, and the prototype of an object is
`Object.prototype` or `Array.prototype`. -/
structure Obj where
  kind : ObjKind
  extensible : Bool
  _isVue : Bool
  props : List Property
  elems : List Val
  __ob__ : Option Nat
  augmented : Bool
  frozen : Bool := false
  deriving DecidableEq, Repr

/-- The closure variables of one `defineReactive` call. -/
structure Cell where
  obj : Addr
  key : Key
  dep : Nat
  val : Val
  childOb : Option Nat
  getter : Option Fn
  setter : Option Fn
  customSetter : Option Fn
  shallow : Bool
  deriving DecidableEq, Repr

/-! ## Dep, Observer, Watcher -/

structure Dep where
  id : Nat
  subs : List Nat
  deriving DecidableEq, Repr

structure Observer where
  value : Addr
  dep : Nat
  vmCount : Nat
  deriving DecidableEq, Repr

structure Watcher where
  vm : Nat
  cb : Fn
  id : Nat
  deep : Bool
  user : Bool
  lazy : Bool
  sync : Bool
  dirty : Bool
  active : Bool
  deps : List Nat
  newDeps : List Nat
  depIds : List Nat
  newDepIds : List Nat
  getter : Fn
  value : Val
  deriving DecidableEq, Repr

/-- The `options` argument of the Watcher constructor. -/
structure WatcherOptions where
  deep : Bool
  user : Bool
  lazy : Bool
  sync : Bool
  deriving DecidableEq, Repr

/-- The fields of a component instance used by the watcher. -/
structure Component where
  _watchers : List Nat
  _isBeingDestroyed : Bool
  _watcher : Option Nat
  deriving DecidableEq, Repr

/-- Constants of the environment: `process.env.NODE_ENV === 'production'`, `config.async`,
`isServerRendering()`. -/
structure Env where
  production : Bool
  async : Bool
  isServerRendering : Bool
  deriving DecidableEq, Repr

/-- Ghost trace of the calls that the claims count. -/
inductive Event
  | getter (w : Nat)
  | cb (w : Nat) (value oldValue : Val)
  | update (w : Nat)
  | notify (dep : Nat)
  | call (f : Fn) (args : List Val)
  | customSetter (cell : Nat)
  | handleError (e : Val)
  | queue (w : Nat)
  deriving DecidableEq, Repr

/-- The whole program state. -/
structure State where
  heap : List Obj
  cells : List Cell
  deps : List Dep
  depUid : Nat
  observers : List Observer
  watchers : List Watcher
  watcherUid : Nat
  vms : List Component
  target : Option Nat
  targetStack : List (Option Nat)
  shouldObserve : Bool
  env : Env
  queue : List Nat
  has : List Nat
  deferred : List Nat
  current : Nat
  waiting : Bool
  flushing : Bool
  seenObjects : List Nat
  trace : List Event
  deriving DecidableEq, Repr

/-- How a call ends: with a value, an Observer (or none), a Watcher, or an exception. -/
inductive Completion
  | ret (v : Val)
  | retOb (ob : Option Nat)
  | retW (w : Nat)
  | thrown (e : Val)
  deriving DecidableEq, Repr

/-- Result of a call: `none` when the fuel ran out (or a reference dangles). -/
abbrev Res := Option (Completion × State)

/-- One constructor per source function that is called through the interpreter. -/
inductive Task
  | callFn (f : Fn) (args : List Val)
  | propGet (o : Addr) (k : Key)
  | propSet (o : Addr) (k : Key) (v : Val)
  | observe (value : Val) (asRootData : Bool)
  | defineReactive (obj : Addr) (key : Key) (val : Option Val) (customSetter : Option Fn)
      (shallow : Bool)
  | dependArray (value : Addr)
  | traverse (val : Val)
  | notify (dep : Nat)
  | update (w : Nat)
  | run (w : Nat)
  | get (w : Nat)
  | evaluate (w : Nat)
  | newWatcher (vm : Nat) (expOrFn cb : Fn) (options : Option WatcherOptions)
      (isRenderWatcher : Bool)
  | queueWatcher (w : Nat)
  | flushSchedulerQueue
  | flushLoop
  deriving DecidableEq, Repr

abbrev Call := Task → State → Res

/-- Sequencing on a normal completion with a value; an exception propagates. -/
def andThen (r : Res) (k : Val → State → Res) : Res :=
  match r with
  | some (.ret v, s) => k v s
  | some (.thrown e, s) => some (.thrown e, s)
  | _ => none

/-- Sequencing on a call that returns an Observer or nothing. -/
def andThenOb (r : Res) (k : Option Nat → State → Res) : Res :=
  match r with
  | some (.retOb ob, s) => k ob s
  | some (.thrown e, s) => some (.thrown e, s)
  | _ => none

def State.log (s : State) (e : Event) : State :=
  { s with trace := s.trace ++ [e] }

def State.modifyDep (s : State) (d : Nat) (f : Dep → Dep) : State :=
  { s with deps := s.deps.modify f d }

def State.modifyWatcher (s : State) (w : Nat) (f : Watcher → Watcher) : State :=
  { s with watchers := s.watchers.modify f w }

def State.modifyCell (s : State) (c : Nat) (f : Cell → Cell) : State :=
  { s with cells := s.cells.modify f c }

def State.modifyObj (s : State) (a : Addr) (f : Obj → Obj) : State :=
  { s with heap := s.heap.modify f a }

def State.modifyVm (s : State) (v : Nat) (f : Component → Component) : State :=
  { s with vms := s.vms.modify f v }

def State.modifyObserver (s : State) (o : Nat) (f : Observer → Observer) : State :=
  { s with observers := s.observers.modify f o }

/-- Modelled from the spec: `remove` of `util/index` (not under src), which removes the first
matching item from the list. -/
def remove (arr : List Nat) (item : Nat) : List Nat :=
  arr.erase item

/-! ## dep.js -/

/-- `new Dep()`: `this.id = uid++; this.subs = []`.  Returns the reference of the new Dep. -/
def Dep.new (s : State) : Nat × State :=
  (s.deps.length,
    { s with deps := s.deps ++ [{ id := s.depUid, subs := [] }], depUid := s.depUid + 1 })

/-- `addSub (sub) { this.subs.push(sub) }` -/
def Dep.addSub (d sub : Nat) (s : State) : State :=
  s.modifyDep d fun x => { x with subs := x.subs ++ [sub] }

/-- `removeSub (sub) { remove(this.subs, sub) }` -/
def Dep.removeSub (d sub : Nat) (s : State) : State :=
  s.modifyDep d fun x => { x with subs := remove x.subs sub }

/-- `pushTarget (target) { targetStack.push(target); Dep.target = target }` -/
def pushTarget (target : Option Nat) (s : State) : State :=
  { s with targetStack := s.targetStack ++ [target], target := target }

/-- `popTarget () { targetStack.pop(); Dep.target = targetStack[targetStack.length - 1] }` -/
def popTarget (s : State) : State :=
  { s with targetStack := s.targetStack.dropLast, target := s.targetStack.dropLast.getLast?.join }

/-! ## watcher.js: the functions that call no user code -/

/-- `addDep (dep)`: register `dep` for the current evaluation; subscribe unless it was
already a dependency of the previous evaluation. -/
def Watcher.addDep (w d : Nat) (s : State) : State :=
  match s.watchers[w]?, s.deps[d]? with
  | some wt, some dep =>
    let id := dep.id
    if id ∈ wt.newDepIds then s
    else
      let s1 := s.modifyWatcher w fun x =>
        { x with newDepIds := x.newDepIds ++ [id], newDeps := x.newDeps ++ [d] }
      if id ∈ wt.depIds then s1 else Dep.addSub d w s1
  | _, _ => s

/-- `depend () { if (Dep.target) Dep.target.addDep(this) }` -/
def Dep.depend (d : Nat) (s : State) : State :=
  match s.target with
  | some w => Watcher.addDep w d s
  | none => s

/-- The body of the loop of `cleanupDeps`: `if (!this.newDepIds.has(dep.id)) dep.removeSub(this)`. -/
def Watcher.cleanupStep (w : Nat) (newDepIds : List Nat) (acc : State) (d : Nat) : State :=
  match acc.deps[d]? with
  | some dep => if dep.id ∈ newDepIds then acc else Dep.removeSub d w acc
  | none => acc

/-- `cleanupDeps ()`: walk `deps` from the last to the first, unsubscribe from those whose id
is not in `newDepIds`, then swap the two generations and clear the new one. -/
def Watcher.cleanupDeps (w : Nat) (s : State) : State :=
  match s.watchers[w]? with
  | none => s
  | some wt =>
    let s1 := wt.deps.reverse.foldl (Watcher.cleanupStep w wt.newDepIds) s
    s1.modifyWatcher w fun x =>
      { x with depIds := x.newDepIds, newDepIds := [], deps := x.newDeps, newDeps := [] }

/-- `teardown ()`: when active, remove the watcher from `vm._watchers` (unless the vm is
being destroyed), unsubscribe from every Dep of `deps`, and clear `active`. -/
def Watcher.teardown (w : Nat) (s : State) : State :=
  match s.watchers[w]? with
  | none => s
  | some wt =>
    if wt.active then
      let s1 :=
        match s.vms[wt.vm]? with
        | some vm =>
          if !vm._isBeingDestroyed then
            s.modifyVm wt.vm fun x => { x with _watchers := remove x._watchers w }
          else s
        | none => s
      let s2 := wt.deps.reverse.foldl (fun acc d => Dep.removeSub d w acc) s1
      s2.modifyWatcher w fun x => { x with active := false }
    else s

/-- The id of the watcher behind a reference. -/
def watcherId (s : State) (w : Nat) : Nat :=
  match s.watchers[w]? with
  | some wt => wt.id
  | none => 0

/-- `subs.sort((a, b) => a.id - b.id)` (a stable sort). -/
def sortById (s : State) (subs : List Nat) : List Nat :=
  subs.insertionSort fun a b => watcherId s a ≤ watcherId s b

/-! ## Objects and properties -/

/-- `Object.getOwnPropertyDescriptor(obj, key)` -/
def Obj.getOwnProperty (o : Obj) (k : Key) : Option Property :=
  o.props.find? fun p => decide (p.key = k)

/-- `Object.keys(obj)` -/
def Obj.keys (o : Obj) : List Key :=
  (o.props.filter fun p => p.enumerable).map fun p => p.key

def typeError : Val := .str "TypeError"

/-- The object with its property of the key of `p` replaced by `p`. -/
def Obj.replaceProp (o : Obj) (p : Property) : Obj :=
  { o with props := o.props.map fun q => if q.key = p.key then p else q }

/-- The object with the new property `p`. -/
def Obj.addProp (o : Obj) (p : Property) : Obj :=
  { o with props := o.props ++ [p] }

/-- `Object.defineProperty(obj, key, descriptor)` with a full descriptor. -/
def defineProperty (a : Addr) (p : Property) (s : State) : Res :=
  match s.heap[a]? with
  | none => none
  | some obj =>
    match obj.getOwnProperty p.key with
    | some old =>
      if old.configurable then some (.ret .undefined, s.modifyObj a fun x => x.replaceProp p)
      else some (.thrown typeError, s)
    | none =>
      if obj.extensible then some (.ret .undefined, s.modifyObj a fun x => x.addProp p)
      else some (.thrown typeError, s)

/-- The read `obj[key]`: a data property yields its value, an accessor calls its getter. -/
def propGet (call : Call) (a : Addr) (k : Key) (s : State) : Res :=
  match s.heap[a]? with
  | none => none
  | some obj =>
    match obj.getOwnProperty k with
    | none => some (.ret .undefined, s)
    | some p =>
      match p.slot with
      | .data v => some (.ret v, s)
      | .accessor (some g) _ => call (.callFn g []) s
      | .accessor none _ => some (.ret .undefined, s)

/-- The write `obj[key] = v` of user code: a writable data property is overwritten, an
accessor calls its setter, a missing property is added to an extensible object, and a write
that cannot be performed is ignored. -/
def propSet (call : Call) (a : Addr) (k : Key) (v : Val) (s : State) : Res :=
  match s.heap[a]? with
  | none => none
  | some obj =>
    match obj.getOwnProperty k with
    | none =>
      if obj.extensible then
        some (.ret .undefined, s.modifyObj a fun x =>
          { x with props := x.props ++
              [{ key := k, enumerable := true, configurable := true, slot := .data v }] })
      else some (.ret .undefined, s)
    | some p =>
      match p.slot with
      | .data _ =>
        if p.writable then
          some (.ret .undefined, s.modifyObj a fun x =>
            { x with props := x.props.map fun q =>
                if q.key = k then { q with slot := .data v } else q })
        else some (.ret .undefined, s)
      | .accessor _ (some st) => call (.callFn st [v]) s
      | .accessor _ none => some (.ret .undefined, s)

/-- Evaluation of a user function body with arguments `args`. -/
def evalCode (call : Call) (args : List Val) : Code → State → Res
  | .lit v, s => some (.ret v, s)
  | .arg i, s => some (.ret (args.getD i .undefined), s)
  | .prop o k, s =>
    andThen (evalCode call args o s) fun ov s1 =>
      match ov with
      | .ref a => call (.propGet a k) s1
      | .undefined => some (.thrown typeError, s1)
      | .null => some (.thrown typeError, s1)
      | _ => some (.ret .undefined, s1)
  | .assign o k e, s =>
    andThen (evalCode call args o s) fun ov s1 =>
      andThen (evalCode call args e s1) fun v s2 =>
        match ov with
        | .ref a => andThen (call (.propSet a k v) s2) fun _ s3 => some (.ret v, s3)
        | .undefined => some (.thrown typeError, s2)
        | .null => some (.thrown typeError, s2)
        | _ => some (.ret v, s2)
  | .cond c t e, s =>
    andThen (evalCode call args c s) fun cv s1 =>
      if truthy cv then evalCode call args t s1 else evalCode call args e s1
  | .seq a b, s =>
    andThen (evalCode call args a s) fun _ s1 => evalCode call args b s1
  | .teardown w, s => some (.ret .undefined, Watcher.teardown w s)
  | .throw e, s =>
    andThen (evalCode call args e s) fun v s1 => some (.thrown v, s1)

/-! ## observer/index.js -/

/-- `dependArray (value)`: register the active watcher on the Observer Dep of every observed
element, recursively through nested arrays.  The items are read by index. -/
def dependArrayLoop (call : Call) (a : Addr) : List Nat → State → Res
  | [], s => some (.ret .undefined, s)
  | i :: is, s =>
    match s.heap[a]? with
    | none => none
    | some arr =>
      match arr.elems.getD i .undefined with
      | .ref e =>
        match s.heap[e]? with
        | none => none
        | some eo =>
          let s1 :=
            match eo.__ob__ with
            | some ob =>
              match s.observers[ob]? with
              | some o => Dep.depend o.dep s
              | none => s
            | none => s
          if eo.kind = .array then
            andThen (call (.dependArray e) s1) fun _ s2 => dependArrayLoop call a is s2
          else dependArrayLoop call a is s1
      | _ => dependArrayLoop call a is s

def dependArray (call : Call) (a : Addr) (s : State) : Res :=
  match s.heap[a]? with
  | none => none
  | some arr => dependArrayLoop call a (List.range arr.elems.length) s

/-- The current value of a reactive property: `getter ? getter.call(obj) : val`. -/
def Cell.read (cell : Cell) (call : Call) (s : State) : Res :=
  match cell.getter with
  | some g => call (.callFn g []) s
  | none => some (.ret cell.val, s)

/-- The closure `reactiveGetter` of the `defineReactive` call with variables `cells[c]`. -/
def reactiveGetter (call : Call) (c : Nat) (s : State) : Res :=
  match s.cells[c]? with
  | none => none
  | some cell =>
    andThen (cell.read call s) fun value s1 =>
      match s1.target with
      | none => some (.ret value, s1)
      | some _ =>
        let s2 := Dep.depend cell.dep s1
        match s2.cells[c]? with
        | none => none
        | some cell2 =>
          match cell2.childOb with
          | none => some (.ret value, s2)
          | some ob =>
            match s2.observers[ob]? with
            | none => none
            | some o =>
              let s3 := Dep.depend o.dep s2
              match value with
              | .ref a =>
                match s3.heap[a]? with
                | none => none
                | some vo =>
                  if vo.kind = .array then
                    andThen (call (.dependArray a) s3) fun _ s4 => some (.ret value, s4)
                  else some (.ret value, s3)
              | _ => some (.ret value, s3)

/-- The closure `reactiveSetter` of the `defineReactive` call with variables `cells[c]`. -/
def reactiveSetter (call : Call) (c : Nat) (newVal : Val) (s : State) : Res :=
  match s.cells[c]? with
  | none => none
  | some cell =>
    andThen (cell.read call s) fun value s1 =>
      if strictEq newVal value || (!strictEq newVal newVal && !strictEq value value) then
        some (.ret .undefined, s1)
      else
        andThen
          (match (if s1.env.production then none else cell.customSetter) with
           | some f => call (.callFn f []) (s1.log (.customSetter c))
           | none => some (.ret .undefined, s1)) fun _ s2 =>
          if cell.getter.isSome && cell.setter.isNone then some (.ret .undefined, s2)
          else
            andThen
              (match cell.setter with
               | some st => call (.callFn st [newVal]) s2
               | none => some (.ret .undefined, s2.modifyCell c fun x => { x with val := newVal }))
              fun _ s3 =>
              andThenOb
                (if cell.shallow then some (.retOb none, s3)
                 else call (.observe newVal false) s3) fun ob s4 =>
                call (.notify cell.dep) (s4.modifyCell c fun x => { x with childOb := ob })

/-- `walk (obj)`: `defineReactive(obj, keys[i])` for the keys that `Object.keys` returned. -/
def walk (call : Call) (a : Addr) : List Key → State → Res
  | [], s => some (.ret .undefined, s)
  | k :: ks, s =>
    andThen (call (.defineReactive a k none none false) s) fun _ s1 => walk call a ks s1

/-- `observeArray (items)`: `observe(items[i])` for every index below the initial length. -/
def observeArray (call : Call) (a : Addr) : List Nat → State → Res
  | [], s => some (.ret .undefined, s)
  | i :: is, s =>
    match s.heap[a]? with
    | none => none
    | some arr =>
      andThenOb (call (.observe (arr.elems.getD i .undefined) false) s) fun _ s1 =>
        observeArray call a is s1

/-- The beginning of the `Observer` constructor: `this.dep = new Dep()`, `this.vmCount = 0`
and `def(value, '__ob__', this)`. -/
def Observer.init (a : Addr) (s : State) : State :=
  let d := (Dep.new s).1
  let s1 : State := (Dep.new s).2
  let ob := s1.observers.length
  let s2 : State := { s1 with observers := s1.observers ++ [{ value := a, dep := d, vmCount := 0 }] }
  s2.modifyObj a fun x => { x with __ob__ := some ob }

/-- `protoAugment (target, src)` and `copyAugment`: the array gets the intercepted mutators. -/
def protoAugment (a : Addr) (s : State) : State :=
  s.modifyObj a fun x => { x with augmented := true }

/-- The `Observer` constructor: after the beginning, the array is augmented and its items
observed, or the object is walked.  Returns the new Observer. -/
def Observer.new (call : Call) (a : Addr) (s : State) : Res :=
  let ob := s.observers.length
  let s3 := Observer.init a s
  match s3.heap[a]? with
  | none => none
  | some obj =>
    if obj.kind = .array then
      andThen (observeArray call a (List.range obj.elems.length) (protoAugment a s3)) fun _ s5 =>
        some (.retOb (some ob), s5)
    else
      andThen (walk call a obj.keys s3) fun _ s5 => some (.retOb (some ob), s5)

/-- `observe (value, asRootData)` -/
def observe (call : Call) (value : Val) (asRootData : Bool) (s : State) : Res :=
  match value with
  | .ref a =>
    match s.heap[a]? with
    | none => none
    | some obj =>
      if obj.kind = .vnode then some (.retOb none, s)
      else
        andThenOb
          (match obj.__ob__ with
           | some ob => some (.retOb (some ob), s)
           | none =>
             if s.shouldObserve && !s.env.isServerRendering &&
                 (obj.kind = .array || obj.kind = .plain) && obj.extensible && !obj._isVue then
               Observer.new call a s
             else some (.retOb none, s)) fun ob s1 =>
          match ob with
          | some o =>
            if asRootData then
              some (.retOb ob, s1.modifyObserver o fun x => { x with vmCount := x.vmCount + 1 })
            else some (.retOb ob, s1)
          | none => some (.retOb none, s1)
  | _ => some (.retOb none, s)

/-- `defineReactive (obj, key, val, customSetter, shallow)`; `val = none` stands for a call
with two arguments. -/
def defineReactive (call : Call) (a : Addr) (key : Key) (val : Option Val)
    (customSetter : Option Fn) (shallow : Bool) (s : State) : Res :=
  let d := (Dep.new s).1
  let s1 : State := (Dep.new s).2
  match s1.heap[a]? with
  | none => none
  | some obj =>
    let property := obj.getOwnProperty key
    if (property.map fun p => p.configurable) = some false then some (.ret .undefined, s1)
    else
      let getter : Option Fn :=
        match property with
        | some { slot := .accessor g _, .. } => g
        | _ => none
      let setter : Option Fn :=
        match property with
        | some { slot := .accessor _ st, .. } => st
        | _ => none
      andThen
        (match val with
         | none =>
           if getter.isNone || setter.isSome then call (.propGet a key) s1
           else some (.ret .undefined, s1)
         | some v => some (.ret v, s1)) fun v s2 =>
        andThenOb
          (if shallow then some (.retOb none, s2) else call (.observe v false) s2)
          fun childOb s3 =>
          let c := s3.cells.length
          let s4 : State := { s3 with cells := s3.cells ++
            [{ obj := a, key := key, dep := d, val := v, childOb := childOb, getter := getter,
               setter := setter, customSetter := customSetter, shallow := shallow }] }
          defineProperty a
            { key := key, enumerable := true, configurable := true,
              slot := .accessor (some (.reactiveGetter c)) (some (.reactiveSetter c)) } s4

/-! ## dep.js: notify -/

/-- The loop of `notify`: `subs[i].update()` over the snapshot. -/
def Dep.notifyLoop (call : Call) : List Nat → State → Res
  | [], s => some (.ret .undefined, s)
  | w :: ws, s => andThen (call (.update w) s) fun _ s1 => Dep.notifyLoop call ws s1

/-- `notify ()`: snapshot of `subs`, sorted by id when not in production and `config.async`
is off, then `update()` on each. -/
def Dep.notify (call : Call) (d : Nat) (s : State) : Res :=
  match s.deps[d]? with
  | none => none
  | some dep =>
    let subs := dep.subs
    let subs := if !s.env.production && !s.env.async then sortById s subs else subs
    Dep.notifyLoop call subs (s.log (.notify d))

/-! ## traverse and scheduler -/

/-- Modelled from the spec: `traverse` of `observer/traverse` (not under src), which
"recursively touches every reachable nested value of the result"; `seenObjects` keeps the
objects already visited. -/
def traverseItems (call : Call) : List Val → State → Res
  | [], s => some (.ret .undefined, s)
  | v :: vs, s => andThen (call (.traverse v) s) fun _ s1 => traverseItems call vs s1

/-- Modelled from the spec: the part of `traverse` (not under src) that reads every
enumerable key of an object and descends into what it read. -/
def traverseKeys (call : Call) (a : Addr) : List Key → State → Res
  | [], s => some (.ret .undefined, s)
  | k :: ks, s =>
    andThen (call (.propGet a k) s) fun v s1 =>
      andThen (call (.traverse v) s1) fun _ s2 => traverseKeys call a ks s2

/-- Modelled from the spec: `traverse` of `observer/traverse` (not under src) on one value. -/
def traverse (call : Call) (val : Val) (s : State) : Res :=
  match val with
  | .ref a =>
    match s.heap[a]? with
    | none => none
    | some obj =>
      if a ∈ s.seenObjects then some (.ret .undefined, s)
      else
        let s1 : State := { s with seenObjects := a :: s.seenObjects }
        if obj.kind = .array then traverseItems call obj.elems s1
        else traverseKeys call a obj.keys s1
  | _ => some (.ret .undefined, s)

/-- Insert `w` into the remaining list of a flush, before the first watcher with a larger id. -/
def insertById (s : State) (w : Nat) : List Nat → List Nat
  | [] => [w]
  | x :: xs => if watcherId s w < watcherId s x then w :: x :: xs else x :: insertById s w xs

/-- Modelled from the spec: `queueWatcher` of `observer/scheduler` (not under src).
Deduplicates by watcher id against the pending batch; during a flush the watcher is inserted
by id into the list being flushed when its id is greater than the one being processed, and
otherwise waits for the next flush; the first request of a tick asks for one flush, which runs
at once when changes are forced to flush synchronously (`config.async` off). -/
def queueWatcher (call : Call) (w : Nat) (s : State) : Res :=
  match s.watchers[w]? with
  | none => none
  | some wt =>
    let s0 := s.log (.queue w)
    if wt.id ∈ s0.has then some (.ret .undefined, s0)
    else
      let s1 : State := { s0 with has := wt.id :: s0.has }
      let s2 : State :=
        if !s1.flushing then { s1 with queue := s1.queue ++ [w] }
        else if s1.current < wt.id then { s1 with queue := insertById s1 w s1.queue }
        else { s1 with deferred := s1.deferred ++ [w] }
      if !s2.waiting then
        let s3 : State := { s2 with waiting := true }
        if !s3.env.async then call .flushSchedulerQueue s3 else some (.ret .undefined, s3)
      else some (.ret .undefined, s2)

/-- Modelled from the spec: the loop of the flush of `observer/scheduler` (not under src).
The pending watchers run in ascending id order; a watcher leaves the pending set when its
turn comes; after the batch the pending state is cleared, and the watchers that had to wait
form the next batch. -/
def flushLoop (call : Call) (s : State) : Res :=
  match s.queue with
  | [] =>
    some (.ret .undefined,
      { s with queue := s.deferred, deferred := [], has := s.deferred.map (watcherId s),
               current := 0, flushing := false,
               waiting := !s.deferred.isEmpty && s.env.async })
  | w :: rest =>
    let id := watcherId s w
    let s1 : State := { s with queue := rest, current := id, has := s.has.erase id }
    andThen (call (.run w) s1) fun _ s2 => call .flushLoop s2

/-- Modelled from the spec: the flush of `observer/scheduler` (not under src): the pending
list is sorted by watcher id and then processed. -/
def flushSchedulerQueue (call : Call) (s : State) : Res :=
  call .flushLoop { s with flushing := true, current := 0, queue := sortById s s.queue }

/-! ## watcher.js: the functions that run user code -/

/-- The `finally` block of `get ()`: traverse the value of a deep watcher, pop the target and
clean up the dependencies.  An exception of `traverse` leaves the block at once. -/
def Watcher.getFinally (call : Call) (w : Nat) (deep : Bool) (value : Val) (s : State) : Res :=
  andThen
    (if deep then
      andThen (call (.traverse value) s) fun _ s1 =>
        some (.ret .undefined, { s1 with seenObjects := [] })
     else some (.ret .undefined, s)) fun _ s1 =>
    some (.ret value, Watcher.cleanupDeps w (popTarget s1))

/-- `get ()`: push the watcher as target, call the getter, route a failure to `handleError`
(user watchers) or rethrow it after the `finally` block. -/
def Watcher.get (call : Call) (w : Nat) (s : State) : Res :=
  match s.watchers[w]? with
  | none => none
  | some wt =>
    match call (.callFn wt.getter []) ((pushTarget (some w) s).log (.getter w)) with
    | some (.ret value, s1) => Watcher.getFinally call w wt.deep value s1
    | some (.thrown e, s1) =>
      if wt.user then
        Watcher.getFinally call w wt.deep .undefined (s1.log (.handleError e))
      else
        andThen (Watcher.getFinally call w wt.deep .undefined s1) fun _ s2 =>
          some (.thrown e, s2)
    | _ => none

/-- `run ()`: when active, re-evaluate; fire the callback when the value changed, is an
object, or the watcher is deep. -/
def Watcher.run (call : Call) (w : Nat) (s : State) : Res :=
  match s.watchers[w]? with
  | none => none
  | some wt =>
    if wt.active then
      andThen (call (.get w) s) fun value s1 =>
        match s1.watchers[w]? with
        | none => none
        | some wt1 =>
          if !strictEq value wt1.value || isObject value || wt.deep then
            let oldValue := wt1.value
            let s2 := (s1.modifyWatcher w fun x => { x with value := value }).log
              (.cb w value oldValue)
            if wt.user then
              match call (.callFn wt.cb [value, oldValue]) s2 with
              | some (.thrown e, s3) => some (.ret .undefined, s3.log (.handleError e))
              | r => andThen r fun _ s3 => some (.ret .undefined, s3)
            else
              andThen (call (.callFn wt.cb [value, oldValue]) s2) fun _ s3 =>
                some (.ret .undefined, s3)
          else some (.ret .undefined, s1)
    else some (.ret .undefined, s)

/-- `update ()`: lazy watchers become dirty, sync watchers run, the others are queued. -/
def Watcher.update (call : Call) (w : Nat) (s : State) : Res :=
  match s.watchers[w]? with
  | none => none
  | some wt =>
    let s1 := s.log (.update w)
    if wt.lazy then some (.ret .undefined, s1.modifyWatcher w fun x => { x with dirty := true })
    else if wt.sync then call (.run w) s1
    else call (.queueWatcher w) s1

/-- `evaluate () { this.value = this.get(); this.dirty = false }` -/
def Watcher.evaluate (call : Call) (w : Nat) (s : State) : Res :=
  andThen (call (.get w) s) fun value s1 =>
    some (.ret .undefined, s1.modifyWatcher w fun x => { x with value := value, dirty := false })

/-- The Watcher constructor for a function `expOrFn`, up to the first evaluation: the vm
fields, the flags from `options`, the id `++uid` and the empty dependency lists. -/
def Watcher.init (vm : Nat) (expOrFn cb : Fn) (options : Option WatcherOptions)
    (isRenderWatcher : Bool) (s : State) : State :=
  let w := s.watchers.length
  let s1 := if isRenderWatcher then s.modifyVm vm fun x => { x with _watcher := some w } else s
  let s2 := s1.modifyVm vm fun x => { x with _watchers := x._watchers ++ [w] }
  let o : WatcherOptions :=
    match options with
    | some o => o
    | none => { deep := false, user := false, lazy := false, sync := false }
  let wt : Watcher :=
    { vm := vm, cb := cb, id := s2.watcherUid + 1, deep := o.deep, user := o.user,
      lazy := o.lazy, sync := o.sync, dirty := o.lazy, active := true, deps := [],
      newDeps := [], depIds := [], newDepIds := [], getter := expOrFn, value := .undefined }
  { s2 with watchers := s2.watchers ++ [wt], watcherUid := s2.watcherUid + 1 }

/-- The Watcher constructor: `this.value = this.lazy ? undefined : this.get()`. -/
def Watcher.new (call : Call) (vm : Nat) (expOrFn cb : Fn) (options : Option WatcherOptions)
    (isRenderWatcher : Bool) (s : State) : Res :=
  let w := s.watchers.length
  let s3 := Watcher.init vm expOrFn cb options isRenderWatcher s
  if (match options with
      | some o => o.lazy
      | none => false) then some (.retW w, s3)
  else
    andThen (call (.get w) s3) fun value s4 =>
      some (.retW w, s4.modifyWatcher w fun x => { x with value := value })

/-! ## The interpreter -/

/-- Calling a function value. -/
def callFn (call : Call) (f : Fn) (args : List Val) (s : State) : Res :=
  match f with
  | .code c => evalCode call args c (s.log (.call f args))
  | .reactiveGetter c => reactiveGetter call c (s.log (.call f args))
  | .reactiveSetter c => reactiveSetter call c (args.getD 0 .undefined) (s.log (.call f args))

/-- One call, with the calls it makes itself delegated to `call`. -/
def dispatch (call : Call) : Task → State → Res
  | .callFn f args, s => callFn call f args s
  | .propGet o k, s => propGet call o k s
  | .propSet o k v, s => propSet call o k v s
  | .observe value asRootData, s => observe call value asRootData s
  | .defineReactive obj key val customSetter shallow, s =>
    defineReactive call obj key val customSetter shallow s
  | .dependArray value, s => dependArray call value s
  | .traverse val, s => traverse call val s
  | .notify dep, s => Dep.notify call dep s
  | .update w, s => Watcher.update call w s
  | .run w, s => Watcher.run call w s
  | .get w, s => Watcher.get call w s
  | .evaluate w, s => Watcher.evaluate call w s
  | .newWatcher vm expOrFn cb options isRenderWatcher, s =>
    Watcher.new call vm expOrFn cb options isRenderWatcher s
  | .queueWatcher w, s => queueWatcher call w s
  | .flushSchedulerQueue, s => flushSchedulerQueue call s
  | .flushLoop, s => flushLoop call s

/-- The interpreter: every call costs one unit of fuel. -/
def exec : Nat → Call
  | 0 => fun _ _ => none
  | n + 1 => dispatch (exec n)

/-- An empty state. -/
def State.empty : State :=
  { heap := [], cells := [], deps := [], depUid := 0, observers := [], watchers := [],
    watcherUid := 0, vms := [], target := none, targetStack := [], shouldObserve := true,
    env := { production := false, async := true, isServerRendering := false },
    queue := [], has := [], deferred := [], current := 0, waiting := false, flushing := false,
    seenObjects := [], trace := [] }

/-- A fresh plain extensible object with the given data properties. -/
def Obj.plain (fields : List (Key × Val)) : Obj :=
  { kind := .plain, extensible := true, _isVue := false,
    props := fields.map fun kv =>
      { key := kv.1, enumerable := true, configurable := true, slot := .data kv.2 },
    elems := [], __ob__ := none, augmented := false }

/-- A fresh array with the given items. -/
def Obj.array (items : List Val) : Obj :=
  { kind := .array, extensible := true, _isVue := false, props := [], elems := items,
    __ob__ := none, augmented := false }


/-! ## Relations respected by every call -/

/-- The active-watcher precondition of the calls that evaluate a getter. -/
def TaskOK (s : State) : Task → Prop
  | .get w => ∃ wt, s.watchers[w]? = some wt ∧ wt.active = true
  | .evaluate w => ∃ wt, s.watchers[w]? = some wt ∧ wt.active = true
  | _ => True

/-- A relation between states that every primitive state change of the interpreter
respects. -/
structure Closed (R : State → State → Prop) : Prop where
  refl : ∀ s, R s s
  trans : ∀ a b c, R a b → R b c → R a c
  log : ∀ s e, (∀ w, e ≠ .getter w) → (∀ w v o, e ≠ .cb w v o) → R s (s.log e)
  logGetter : ∀ s w wt, s.watchers[w]? = some wt → wt.active = true →
    R s ((pushTarget (some w) s).log (.getter w))
  cb : ∀ s s1 w wt v o, s.watchers[w]? = some wt → wt.active = true → R s s1 →
    R s ((s1.modifyWatcher w fun x => { x with value := v }).log (.cb w v o))
  teardown : ∀ s w, R s (Watcher.teardown w s)
  depend : ∀ s d, R s (Dep.depend d s)
  setProps : ∀ s a (g : List Property → List Property),
    R s (s.modifyObj a fun x => { x with props := g x.props })
  setOb : ∀ s a obj ob, s.heap[a]? = some obj → obj.__ob__ = none →
    R s (s.modifyObj a fun x => { x with __ob__ := some ob })
  setAugmented : ∀ s a, R s (s.modifyObj a fun x => { x with augmented := true })
  allocCell : ∀ s cell, R s { s with cells := s.cells ++ [cell] }
  setCellVal : ∀ s c v, R s (s.modifyCell c fun x => { x with val := v })
  setCellChildOb : ∀ s c ob, R s (s.modifyCell c fun x => { x with childOb := ob })
  depNew : ∀ s, R s (Dep.new s).2
  allocObserver : ∀ s o, R s { s with observers := s.observers ++ [o] }
  vmCount : ∀ s o, R s (s.modifyObserver o fun x => { x with vmCount := x.vmCount + 1 })
  sched : ∀ s q h d c w f so,
    R s { s with
      queue := q, has := h, deferred := d, current := c, waiting := w, flushing := f,
      seenObjects := so }
  popTarget : ∀ s, R s (popTarget s)
  cleanupDeps : ∀ s w, R s (Watcher.cleanupDeps w s)
  setValue : ∀ s w (f : Watcher → Val) (g : Watcher → Bool),
    R s (s.modifyWatcher w fun x => { x with value := f x, dirty := g x })
  setVm : ∀ s v f, R s (s.modifyVm v f)
  allocWatcher : ∀ s wt, wt.active = true → wt.id = s.watcherUid + 1 →
    wt.deps = [] ∧ wt.newDeps = [] ∧ wt.depIds = [] ∧ wt.newDepIds = [] →
    R s { s with watchers := s.watchers ++ [wt], watcherUid := s.watcherUid + 1 }


/-- The relation "the object at `a` keeps its kind `k` and its Observer `ob`". -/
def KeepsOb (a : Addr) (ob : Nat) (k : ObjKind) (s s' : State) : Prop :=
  (∃ obj, s.heap[a]? = some obj ∧ obj.__ob__ = some ob ∧ obj.kind = k) →
    ∃ obj', s'.heap[a]? = some obj' ∧ obj'.__ob__ = some ob ∧ obj'.kind = k

/-- Whether an event is an invocation of the getter or of the callback of `w`. -/
def isEventOf (w : Nat) : Event → Bool
  | .getter v => decide (v = w)
  | .cb v _ _ => decide (v = w)
  | _ => false

/-- The events of the trace that are invocations of the getter or the callback of `w`. -/
def wEvents (w : Nat) (tr : List Event) : List Event :=
  tr.filter (isEventOf w)

/-- The relation "if `w` is inactive then it stays inactive and neither its getter nor its
callback is invoked". -/
def StaysDown (w : Nat) (s s' : State) : Prop :=
  ∀ wt, s.watchers[w]? = some wt → wt.active = false →
    (∃ wt', s'.watchers[w]? = some wt' ∧ wt'.active = false) ∧
      wEvents w s'.trace = wEvents w s.trace

/-- A sequence of top-level calls, each with fuel `n`; an exception of one call does not
stop the later ones. -/
def execAll (n : Nat) : List Task → State → Option State
  | [], s => some s
  | t :: ts, s =>
    match exec n t s with
    | some (_, s1) => execAll n ts s1
    | none => none

/-! ## Example states -/

/-- A sync watcher subscribed to Dep 0. -/
def exWatcher : Watcher :=
  { vm := 0, cb := noop, id := 1, deep := false, user := false, lazy := false, sync := true,
    dirty := false, active := true, deps := [0], newDeps := [], depIds := [0], newDepIds := [],
    getter := noop, value := .undefined }

/-- One component with one watcher that is subscribed to one Dep. -/
def exTeardown : State :=
  { State.empty with
    watchers := [exWatcher],
    vms := [{ _watchers := [0], _isBeingDestroyed := false, _watcher := none }],
    deps := [{ id := 0, subs := [0] }], depUid := 1, watcherUid := 1 }

/-- Two plain objects that refer to each other: `{a: 1, b: o1}` and `o1 = {c: o0}`. -/
def exGraph : State :=
  { State.empty with
    heap := [Obj.plain [("a", .num 1), ("b", .ref 1)], Obj.plain [("c", .ref 0)]] }

/-- The state of `exGraph` after `observe` of the first object. -/
def exObserved : State :=
  match exec 9 (.observe (.ref 0) false) exGraph with
  | some (_, s) => s
  | none => State.empty

/-- The state of `exTeardown` after `teardown` of its watcher, an `update()`, a `run()` and a
`notify()` of its former Dep. -/
def exAfterTeardown : State :=
  match execAll 4 [.update 0, .run 0, .notify 0] (Watcher.teardown 0 exTeardown) with
  | some s => s
  | none => State.empty

/-- One plain object `{x: 2}`. -/
def exPlainX : State :=
  { State.empty with heap := [Obj.plain [("x", .num 2)]] }

/-- The state after `defineReactive(obj, 'x', 2)` on `exPlainX`. -/
def exReactiveX : State :=
  match exec 3 (.defineReactive 0 "x" (some (.num 2)) none false) exPlainX with
  | some (_, s) => s
  | none => State.empty

/-- One object whose property `x` is an accessor with the getter `() => 1` and no setter. -/
def exGetterOnly : State :=
  { State.empty with
    heap := [{ kind := .plain, extensible := true, _isVue := false,
               props := [{ key := "x", enumerable := true, configurable := true,
                           slot := .accessor (some (.code (.lit (.num 1)))) none }],
               elems := [], __ob__ := none, augmented := false }] }

/-- The state after `defineReactive(obj, 'x')` on `exGetterOnly`. -/
def exGetterOnlyReactive : State :=
  match exec 3 (.defineReactive 0 "x" none none false) exGetterOnly with
  | some (_, s) => s
  | none => State.empty

/-- The state of `exGetterOnlyReactive` after two writes `obj.x = NaN`. -/
def exGetterOnlyWritten : State :=
  match execAll 5 [.propSet 0 "x" .nan, .propSet 0 "x" .nan] exGetterOnlyReactive with
  | some s => s
  | none => State.empty

/-! ## Observation of a graph of plain objects and arrays -/

/-- The reactive accessor property installed by `defineReactive` for cell `c`. -/
def reactiveProperty (k : Key) (c : Nat) : Property :=
  { key := k, enumerable := true, configurable := true,
    slot := .accessor (some (.reactiveGetter c)) (some (.reactiveSetter c)) }

/-- The end of `defineReactive`: the closure variables are stored in a new cell and the
property `k` of the object at `a` is replaced by the reactive accessor of that cell. -/
def installCell (a : Addr) (k : Key) (cell : Cell) (s : State) : State :=
  ({ s with cells := s.cells ++ [cell] } : State).modifyObj a fun o =>
    o.replaceProp (reactiveProperty k s.cells.length)

/-- Whether the object at `a` exists and carries no Observer. -/
def unobserved (s : State) (a : Addr) : Bool :=
  match s.heap[a]? with
  | some obj => obj.__ob__.isNone
  | none => false

/-- The object at `a` carries an Observer. -/
def observed (s : State) (a : Addr) : Prop :=
  ∃ obj i, s.heap[a]? = some obj ∧ obj.__ob__ = some i

/-- The number of objects of the graph `g` that carry no Observer yet. -/
def pending (g : Addr → Bool) (s : State) : Nat :=
  ((List.range s.heap.length).filter fun a => g a && unobserved s a).length

/-- The objects that `observe` visits from an object: the items of an array, the values of
the enumerable data properties of another object. -/
def Child (obj : Obj) (b : Addr) : Prop :=
  (obj.kind = .array ∧ Val.ref b ∈ obj.elems) ∨
  (obj.kind ≠ .array ∧ ∃ p ∈ obj.props, p.enumerable = true ∧ p.slot = .data (.ref b))

/-- Reachability in the graph of the state `s`. -/
inductive Reach (s : State) : Addr → Addr → Prop
  | refl (a : Addr) : Reach s a a
  | step (a b c : Addr) (obj : Obj) : Reach s a b → s.heap[b]? = some obj → Child obj c →
      Reach s a c

/-- An object of the graph before observation: a plain extensible object or array without
Observer, whose enumerable properties are configurable data properties, and whose children
belong to the graph. -/
structure GoodObj (g : Addr → Bool) (obj : Obj) : Prop where
  kind : obj.kind = .plain ∨ obj.kind = .array
  extensible : obj.extensible = true
  notVue : obj._isVue = false
  fresh : obj.__ob__ = none
  props : ∀ p ∈ obj.props, p.enumerable = true → p.configurable = true ∧ ∃ v, p.slot = .data v
  nodup : (obj.props.map fun p => p.key).Nodup
  closed : ∀ b, Child obj b → g b = true

/-- The graph `g` of the state `s0` is ready to be observed: its objects are good, observation
is enabled, and no Observer exists for any of them. -/
structure GoodGraph (g : Addr → Bool) (s0 : State) : Prop where
  objs : ∀ a, g a = true → ∃ obj, s0.heap[a]? = some obj ∧ GoodObj g obj
  flags : s0.shouldObserve = true ∧ s0.env.isServerRendering = false
  observers : ∀ (j : Nat) (ob : Observer), s0.observers[j]? = some ob → g ob.value = false

/-- The key `k` of the object has been made reactive and its cell holds the former value. -/
def Converted (s : State) (obj0 obj : Obj) (k : Key) : Prop :=
  ∃ p0 x c cell, obj0.getOwnProperty k = some p0 ∧ p0.enumerable = true ∧ p0.slot = .data x ∧
    obj.getOwnProperty k = some (reactiveProperty k c) ∧ s.cells[c]? = some cell ∧
    cell.val = x ∧ cell.getter = none ∧ cell.setter = none

/-- How an object of the graph relates to what it was before observation. -/
structure ObjRel (s : State) (obj0 obj : Obj) : Prop where
  kind : obj.kind = obj0.kind
  extensible : obj.extensible = obj0.extensible
  notVue : obj._isVue = obj0._isVue
  elems : obj.elems = obj0.elems
  same : obj.__ob__ = none → obj = obj0
  props : ∀ k, obj.getOwnProperty k = obj0.getOwnProperty k ∨ Converted s obj0 obj k
  shape : (obj.props.map fun p => (p.key, p.enumerable)) =
    obj0.props.map fun p => (p.key, p.enumerable)

/-- The invariant of the traversal, relative to the initial state `s0`. -/
structure ObsInv (g : Addr → Bool) (s0 s : State) : Prop where
  flags : s.shouldObserve = true ∧ s.env.isServerRendering = false
  objs : ∀ a obj0, g a = true → s0.heap[a]? = some obj0 →
    ∃ obj, s.heap[a]? = some obj ∧ ObjRel s obj0 obj
  observers : ∀ (j : Nat) (ob : Observer), s.observers[j]? = some ob → g ob.value = true →
    ∃ obj, s.heap[ob.value]? = some obj ∧ obj.__ob__ = some j

/-- The object at `a` is observed by its own Observer, its enumerable keys are reactive (for
an object that is not an array), and its children are observed. -/
def FullyDone (s0 s : State) (a : Addr) : Prop :=
  ∃ obj0 obj i ob, s0.heap[a]? = some obj0 ∧ s.heap[a]? = some obj ∧
    obj.__ob__ = some i ∧ s.observers[i]? = some ob ∧ ob.value = a ∧
    (obj0.kind ≠ .array → ∀ p0 ∈ obj0.props, p0.enumerable = true →
      Converted s obj0 obj p0.key) ∧
    (∀ b, Child obj0 b → observed s b)

/-- What a part of the traversal guarantees; the objects in `skip` are being walked and may
change. -/
structure ObsStep (g : Addr → Bool) (s0 : State) (skip : Addr → Prop) (s s' : State) :
    Prop where
  inv : ObsInv g s0 s'
  stable : ∀ a obj, ¬ skip a → s.heap[a]? = some obj → (g a = false ∨ obj.__ob__.isSome) →
    s'.heap[a]? = some obj
  obMono : ∀ a, observed s a → observed s' a
  heapLen : s'.heap.length = s.heap.length
  cells : ∃ l, s'.cells = s.cells ++ l
  observers : ∃ l, s'.observers = s.observers ++ l
  deps : ∃ l, s'.deps = s.deps ++ l ∧ ∀ d ∈ l, d.subs = []
  newDone : ∀ a, g a = true → unobserved s a = true → observed s' a → FullyDone s0 s' a
  watchers : s'.watchers = s.watchers
  target : s'.target = s.target
  trace : s'.trace = s.trace

/-- The induction hypothesis of the traversal: with at most `m` pending objects and fuel
`2 * m + 1`, `observe` returns, keeps the invariant and leaves its argument observed. -/
def ObsOK (g : Addr → Bool) (s0 : State) (m : Nat) : Prop :=
  ∀ s, ObsInv g s0 s → pending g s ≤ m → ∀ v, (∀ b, v = Val.ref b → g b = true) →
    ∀ n, 2 * m + 1 ≤ n →
      ∃ r s', exec n (.observe v false) s = some (.retOb r, s') ∧
        ObsStep g s0 (fun _ => False) s s' ∧ ∀ b, v = Val.ref b → observed s' b



/-! ## Lazy watchers and computed properties -/

/-- `depend ()` of a watcher: `this.deps[i].depend()` from the last Dep to the first. -/
def Watcher.depend (w : Nat) (s : State) : State :=
  match s.watchers[w]? with
  | none => s
  | some wt => wt.deps.reverse.foldl (fun acc d => Dep.depend d acc) s

/-- The function made by `createComputedGetter (key)` of `instance/state.js`, for the lazy
watcher `this._computedWatchers[key]`: evaluate when dirty, propagate the dependencies to the
active watcher, return the cached value. -/
def computedGetter (call : Call) (watcher : Option Nat) (s : State) : Res :=
  match watcher with
  | none => some (.ret .undefined, s)
  | some w =>
    match s.watchers[w]? with
    | none => none
    | some wt =>
      andThen (if wt.dirty then call (.evaluate w) s else some (.ret .undefined, s)) fun _ s1 =>
        let s2 :=
          match s1.target with
          | some _ => Watcher.depend w s1
          | none => s1
        match s2.watchers[w]? with
        | none => none
        | some wt2 => some (.ret wt2.value, s2)

/-- Successive reads of a computed property: the values read and the final state. -/
def computedReads (call : Call) (w : Nat) : Nat → State → Option (List Val × State)
  | 0, s => some ([], s)
  | k + 1, s =>
    match computedGetter call (some w) s with
    | some (.ret v, s1) =>
      match computedReads call w k s1 with
      | some (vs, s2) => some (v :: vs, s2)
      | none => none
    | _ => none

/-- A stand-in for the callee of `notify`: `update()` of the watcher `w` has the arbitrary
effect `f w` on the state and returns; no other call is answered. -/
def updateWith (f : Nat → State → State) : Call
  | .update w, s => some (.ret .undefined, f w s)
  | _, _ => none

/-- The target is the top of the target stack (no target on an empty stack), as after any
sequence of `pushTarget` and `popTarget`. -/
def TargetOnTop (s : State) : Prop :=
  s.target = s.targetStack.getLast?.join

/-- The state of the watcher `w` records a subscription for every Dep id it holds. -/
def Subscribed (w : Nat) (s : State) : Prop :=
  ∀ (wt : Watcher), s.watchers[w]? = some wt → ∀ (d : Nat) (dep : Dep), s.deps[d]? = some dep →
    dep.id ∈ wt.depIds ∨ dep.id ∈ wt.newDepIds → w ∈ dep.subs

/-- The fields of a watcher that only the constructor assigns. -/
def Watcher.sameFlags (a b : Watcher) : Prop :=
  b.vm = a.vm ∧ b.cb = a.cb ∧ b.id = a.id ∧ b.deep = a.deep ∧ b.user = a.user ∧
    b.lazy = a.lazy ∧ b.sync = a.sync ∧ b.getter = a.getter

/-- The fields of the closure of `defineReactive` that are never assigned. -/
def Cell.sameConsts (a b : Cell) : Prop :=
  b.obj = a.obj ∧ b.key = a.key ∧ b.dep = a.dep ∧ b.getter = a.getter ∧ b.setter = a.setter ∧
    b.customSetter = a.customSetter ∧ b.shallow = a.shallow

/-- The relation "the trace is extended, and every watcher, Dep and reactive property that
exists keeps its place and its constant fields". -/
structure Persists (s s' : State) : Prop where
  trace : ∃ l, s'.trace = s.trace ++ l
  watchers : ∀ (w : Nat) (wt : Watcher), s.watchers[w]? = some wt →
    ∃ wt', s'.watchers[w]? = some wt' ∧ wt.sameFlags wt'
  deps : ∀ (d : Nat) (dep : Dep), s.deps[d]? = some dep →
    ∃ dep', s'.deps[d]? = some dep' ∧ dep'.id = dep.id
  cells : ∀ (c : Nat) (cell : Cell), s.cells[c]? = some cell →
    ∃ cell', s'.cells[c]? = some cell' ∧ cell.sameConsts cell'
  env : s'.env = s.env

/-- Every Dep of the first store is in the second store, at the same place and with the same
id. -/
def DepIds (ds ds' : List Dep) : Prop :=
  ∀ (d : Nat) (dep : Dep), ds[d]? = some dep → ∃ dep', ds'[d]? = some dep' ∧ dep'.id = dep.id

/-- No two Deps of the store have the same id (`uid++` in the constructor). -/
def UniqueDepIds (s : State) : Prop :=
  ∀ (i j : Nat) (di dj : Dep), s.deps[i]? = some di → s.deps[j]? = some dj →
    di.id = dj.id → i = j

/-- A list of Deps and the list of their ids, as a watcher holds them: every listed Dep
exists, has its id in the id list and (for an active watcher) has the watcher `W` among its
subscribers; every id of the id list is the id of a listed Dep. -/
def ListedIn (W : Nat) (active : Bool) (ds : List Dep) (deps depIds : List Nat) : Prop :=
  (∀ d ∈ deps, ∃ dep, ds[d]? = some dep ∧ dep.id ∈ depIds ∧ (active = true → W ∈ dep.subs)) ∧
  (∀ id ∈ depIds, ∃ d ∈ deps, ∃ dep, ds[d]? = some dep ∧ dep.id = id)

/-- The dependency records of the watcher `W` are consistent with the Dep store: ids are
unique and below the counter, and both generations of `W` are `ListedIn`. -/
structure DepsOK (W : Nat) (s : State) : Prop where
  unique : UniqueDepIds s
  bound : ∀ (d : Nat) (dep : Dep), s.deps[d]? = some dep → dep.id < s.depUid
  watcher : ∃ wt, s.watchers[W]? = some wt ∧
    ListedIn W wt.active s.deps wt.deps wt.depIds ∧
    ListedIn W wt.active s.deps wt.newDeps wt.newDepIds

/-- The relation "consistent dependency records of `W` stay consistent". -/
def KeepsDeps (W : Nat) (s s' : State) : Prop :=
  DepsOK W s → DepsOK W s'

/-- A change of the Dep store that keeps every Dep in place with its id and, when `keep` is
set, keeps `W` among the subscribers it had. -/
def DepsStep (W : Nat) (keep : Bool) (ds ds' : List Dep) : Prop :=
  ds'.length = ds.length ∧
    ∀ (d : Nat) (dep : Dep), ds[d]? = some dep →
      ∃ dep', ds'[d]? = some dep' ∧ dep'.id = dep.id ∧
        (keep = true → W ∈ dep.subs → W ∈ dep'.subs)


/-! ## Example states for the watcher claims -/

/-- A frozen plain object `{x: 1}`. -/
def exFrozen : State :=
  { State.empty with
    heap := [{ kind := .plain, extensible := false, _isVue := false,
               props := [{ key := "x", enumerable := true, configurable := false,
                           slot := .data (.num 1), writable := false }],
               elems := [], __ob__ := none, augmented := false, frozen := true }] }

/-- One component and one plain object `{x: 1}`. -/
def exData : State :=
  { State.empty with
    heap := [Obj.plain [("x", .num 1)]],
    vms := [{ _watchers := [], _isBeingDestroyed := false, _watcher := none }] }

/-- The state of `exData` after `observe` of its object. -/
def exDataObserved : State :=
  match exec 5 (.observe (.ref 0) false) exData with
  | some (_, s) => s
  | none => State.empty

/-- The getter `() => obj.x` for the object at address 0. -/
def exReadX : Fn := .code (.prop (.lit (.ref 0)) "x")

/-- The state of `exDataObserved` after `new Watcher(vm, () => obj.x, noop)`. -/
def exWatched : State :=
  match exec 6 (.newWatcher 0 exReadX noop none false) exDataObserved with
  | some (_, s) => s
  | none => State.empty

/-- The state of `exWatched` after the write `obj.x = 5`, which queues the watcher. -/
def exWritten : State :=
  match exec 6 (.propSet 0 "x" (.num 5)) exWatched with
  | some (_, s) => s
  | none => State.empty

/-- The state of `exWritten` after `get()` of the watcher. -/
def exGot : State :=
  match exec 5 (.get 0) exWritten with
  | some (_, s) => s
  | none => State.empty

/-- A user watcher whose getter throws `"boom"`. -/
def exThrowing : Watcher :=
  { vm := 0, cb := noop, id := 1, deep := false, user := true, lazy := false, sync := false,
    dirty := false, active := true, deps := [], newDeps := [], depIds := [], newDepIds := [],
    getter := .code (.throw (.lit (.str "boom"))), value := .undefined }

/-- One component with the watcher `exThrowing`. -/
def exThrower : State :=
  { State.empty with
    watchers := [exThrowing],
    vms := [{ _watchers := [0], _isBeingDestroyed := false, _watcher := none }],
    watcherUid := 1 }

/-- A lazy watcher with the given id. -/
def exLazy (id : Nat) : Watcher :=
  { vm := 0, cb := noop, id := id, deep := false, user := false, lazy := true, sync := false,
    dirty := false, active := true, deps := [0], newDeps := [], depIds := [0], newDepIds := [],
    getter := noop, value := .undefined }

/-- A development build with `config.async` off: two lazy watchers, created in the order 0, 1,
subscribed to Dep 0 in the order 1, 0. -/
def exDev : State :=
  { State.empty with
    watchers := [exLazy 1, exLazy 2],
    vms := [{ _watchers := [0, 1], _isBeingDestroyed := false, _watcher := none }],
    deps := [{ id := 0, subs := [1, 0] }], depUid := 1, watcherUid := 2,
    env := { production := false, async := false, isServerRendering := false } }

/-- The state `exDev` in a production build. -/
def exProd : State :=
  { exDev with env := { production := true, async := false, isServerRendering := false } }

/-- The state `exDev` while its watcher 1 is being evaluated. -/
def exDevTarget : State :=
  { exDev with target := some 1, targetStack := [some 1] }

/-- The state of `exDataObserved` after the lazy watcher of a computed property
`() => obj.x` has been made. -/
def exComputed : State :=
  match exec 6 (.newWatcher 0 exReadX noop
      (some { deep := false, user := false, lazy := true, sync := false }) false)
      exDataObserved with
  | some (_, s) => s
  | none => State.empty

/-- The state of `exComputed` after the first `get()` of the lazy watcher. -/
def exComputedGot : State :=
  match exec 5 (.get 0) exComputed with
  | some (_, s) => s
  | none => State.empty


/-! ## Dependency collection by a read -/

/-- The watcher `W` is registered on the Dep `d` for the current evaluation: the id of the
Dep is in `W.newDepIds` and `W` is among its subscribers. -/
def Registered (W d : Nat) (s : State) : Prop :=
  ∃ wt dep, s.watchers[W]? = some wt ∧ s.deps[d]? = some dep ∧ dep.id ∈ wt.newDepIds ∧
    W ∈ dep.subs

/-- The watcher `W` is being evaluated: it is the target, it is subscribed to every Dep
whose id it holds, and Dep ids are unique. -/
def Collecting (W : Nat) (s : State) : Prop :=
  s.target = some W ∧ (∃ wt, s.watchers[W]? = some wt) ∧ Subscribed W s ∧ UniqueDepIds s

/-- The Dep of every Observer exists. -/
def ObDepsExist (s : State) : Prop :=
  ∀ (ob : Nat) (o : Observer), s.observers[ob]? = some o → ∃ dep, s.deps[o.dep]? = some dep

/-- The object at `e` is an item of the array at `a`, or of an array nested in it. -/
inductive Nested (s : State) : Addr → Addr → Prop
  | item (a e : Addr) (arr : Obj) : s.heap[a]? = some arr → Val.ref e ∈ arr.elems →
      Nested s a e
  | deep (a e f : Addr) (arr : Obj) : Nested s a e → s.heap[e]? = some arr →
      arr.kind = .array → Val.ref f ∈ arr.elems → Nested s a f

/-- The arrays nested in the array at `a` are nested less than `k` levels deep, and every
item that is a reference refers to an object. -/
def ArrDepth (s : State) : Nat → Addr → Prop
  | 0, _ => False
  | k + 1, a =>
    ∃ arr, s.heap[a]? = some arr ∧
      ∀ e, Val.ref e ∈ arr.elems → ∃ eo, s.heap[e]? = some eo ∧
        (eo.kind = .array → ArrDepth s k e)

/-- What a part of the dependency collection of `W` guarantees: `W` is still collecting, only
the Dep store and the watchers have changed, and what was registered stays registered. -/
def CollectStep (W : Nat) (s s' : State) : Prop :=
  Collecting W s' ∧ s'.heap = s.heap ∧ s'.observers = s.observers ∧ s'.cells = s.cells ∧
    s'.trace = s.trace ∧ DepIds s.deps s'.deps ∧
    ∀ d, Registered W d s → Registered W d s'

/-- If the object at `f` carried an Observer in the state `s`, then `W` is registered on the
Dep of that Observer in the state `t`. -/
def ObRegistered (W : Nat) (s t : State) (f : Addr) : Prop :=
  ∀ (fo : Obj) (ob : Nat) (o : Observer), s.heap[f]? = some fo → fo.__ob__ = some ob →
    s.observers[ob]? = some o → Registered W o.dep t


/-! ## observer/index.js: `set` and `del` -/

/-- The key argument of `set` and `del`: `index i` is a key for which `isValidArrayIndex`
holds (a non-negative integer `i`), `name k` is any other key. -/
inductive PropKey
  | index (i : Nat)
  | name (k : Key)
  deriving DecidableEq, Repr

/-- The property key that the key argument denotes on an object. -/
def PropKey.toKey : PropKey → Key
  | .index i => toString i
  | .name k => k

/-- `Array.isArray(target) && isValidArrayIndex(key)`: the index, when both hold. -/
def arrayIndex (obj : Obj) : PropKey → Option Nat
  | .index i => if obj.kind = .array then some i else none
  | .name _ => none

/-- The largest length of an array, `2^32 - 1`. -/
def maxArrayLength : Nat := 4294967295

def rangeError : Val := .str "RangeError"

/-- Whether `Object.freeze` has been applied to the object: the items and the length of an
array and the `__ob__` reference can then be neither written nor removed. -/
def Obj.isFrozen (o : Obj) : Bool :=
  !o.extensible && o.frozen

/-- The assignment `target.length = n` on an array in the strict code of a module: on a
frozen array it throws a TypeError; otherwise the items from `n` on are dropped, the missing
ones are holes, which read as `undefined` and are kept as items with that value.  A length
above `2^32 - 1` is refused with a RangeError. -/
def setLength (a : Addr) (n : Nat) (s : State) : Res :=
  match s.heap[a]? with
  | none => none
  | some arr =>
    if arr.isFrozen then some (.thrown typeError, s)
    else if n > maxArrayLength then some (.thrown rangeError, s)
    else
      some (.ret .undefined, s.modifyObj a fun x =>
        { x with elems := x.elems.take n ++ List.replicate (n - x.elems.length) .undefined })

/-- The items of an array after `splice(start, deleteCount, ...items)` with a non-negative
`start`: `start` is clamped to the length, `deleteCount` to what follows `start`. -/
def spliceItems (elems : List Val) (start deleteCount : Nat) (items : List Val) : List Val :=
  let actualStart := min start elems.length
  let actualDeleteCount := min deleteCount (elems.length - actualStart)
  elems.take actualStart ++ items ++ elems.drop (actualStart + actualDeleteCount)

/-- The native `Array.prototype.splice`.  Its result, the array of the removed items, is
discarded by `set` and `del` and is not allocated here.  On a frozen array the first write
throws a TypeError, and so does the first write of a call that makes an array longer that is
not extensible; the array is unchanged then.  A resulting length above `2^32 - 1` is refused
with a RangeError (the writes that precede that failure are left out). -/
def nativeSplice (a : Addr) (start deleteCount : Nat) (items : List Val) (s : State) : Res :=
  match s.heap[a]? with
  | none => none
  | some arr =>
    if arr.isFrozen then some (.thrown typeError, s)
    else if !arr.extensible &&
        decide (arr.elems.length < (spliceItems arr.elems start deleteCount items).length) then
      some (.thrown typeError, s)
    else if (spliceItems arr.elems start deleteCount items).length > maxArrayLength then
      some (.thrown rangeError, s)
    else
      some (.ret .undefined, s.modifyObj a fun x =>
        { x with elems := spliceItems x.elems start deleteCount items })

/-- `observeArray (items)` of the Observer on a list of values that is not a heap array (the
inserted arguments of a mutator). -/
def observeItems (call : Call) : List Val → State → Res
  | [], s => some (.ret .undefined, s)
  | v :: vs, s => andThenOb (call (.observe v false) s) fun _ s1 => observeItems call vs s1

/-- Modelled from the spec: the part of an intercepted array mutator of `observer/array` (not
under src) that follows the native call: the mutators "after performing the mutation, also
observe any newly inserted elements and call `notify()` on the Observer's own Dep". -/
def mutatorTail (call : Call) (a : Addr) (inserted : List Val) (s : State) : Res :=
  match s.heap[a]? with
  | none => none
  | some arr =>
    match arr.__ob__ with
    | none => some (.thrown typeError, s)
    | some r =>
      match s.observers[r]? with
      | none => none
      | some o =>
        andThen (observeItems call inserted s) fun _ s1 => call (.notify o.dep) s1

/-- The call `target.splice(start, deleteCount, ...items)`: the native method, and on an
augmented array the intercepted one. -/
def splice (call : Call) (a : Addr) (start deleteCount : Nat) (items : List Val) (s : State) :
    Res :=
  match s.heap[a]? with
  | none => none
  | some arr =>
    andThen (nativeSplice a start deleteCount items s) fun result s1 =>
      if arr.augmented then
        andThen (mutatorTail call a items s1) fun _ s2 => some (.ret result, s2)
      else some (.ret result, s1)

/-- The names of the properties of `Object.prototype`. -/
def objectPrototypeKeys : List Key :=
  ["constructor", "__defineGetter__", "__defineSetter__", "hasOwnProperty",
   "__lookupGetter__", "__lookupSetter__", "isPrototypeOf", "propertyIsEnumerable",
   "toString", "valueOf", "__proto__", "toLocaleString"]

/-- `key in Object.prototype` -/
def inObjectPrototype (k : Key) : Bool :=
  decide (k ∈ objectPrototypeKeys)

/-- The names of the properties of `Array.prototype` (ECMAScript 2023). -/
def arrayPrototypeKeys : List Key :=
  ["length", "constructor", "at", "concat", "copyWithin", "fill", "find", "findIndex",
   "findLast", "findLastIndex", "lastIndexOf", "pop", "push", "reverse", "shift", "unshift",
   "slice", "sort", "splice", "includes", "indexOf", "join", "keys", "entries", "values",
   "forEach", "filter", "flat", "flatMap", "map", "every", "some", "reduce", "reduceRight",
   "toLocaleString", "toString", "toReversed", "toSorted", "toSpliced", "with"]

/-- `Object.prototype.hasOwnProperty.call(obj, key)` for a key that is not an index of an
array: a property of `props`, the `__ob__` reference of an observed object
(`def(value, '__ob__', this)`), or the length of an array. -/
def Obj.hasOwnProperty (o : Obj) (k : Key) : Bool :=
  (o.getOwnProperty k).isSome || (decide (k = "__ob__") && o.__ob__.isSome) ||
    (decide (o.kind = .array) && decide (k = "length"))

/-- `key in obj` for a key that is not an index of an array: an own property, or one
inherited from `Object.prototype` or, by an array, from `Array.prototype`. -/
def Obj.hasProperty (o : Obj) (k : Key) : Bool :=
  o.hasOwnProperty k || inObjectPrototype k ||
    (decide (o.kind = .array) && decide (k ∈ arrayPrototypeKeys))

/-- Modelled from the spec: `hasOwn` of `util/index` (not under src), whether the object has
the property itself. -/
def hasOwn (o : Obj) (k : Key) : Bool :=
  o.hasOwnProperty k

/-- The assignment `target.length = v` of an arbitrary value: the value is converted to a
number, which must be an array length.  The conversion of a string or of an object is not
represented (no result). -/
def assignLength (a : Addr) (v : Val) (s : State) : Res :=
  match s.heap[a]? with
  | none => none
  | some arr =>
    if arr.isFrozen then some (.thrown typeError, s)
    else
      match v with
      | .num n => if 0 ≤ n then setLength a n.toNat s else some (.thrown rangeError, s)
      | .null => setLength a 0 s
      | .bool b => setLength a (if b then 1 else 0) s
      | .undefined => some (.thrown rangeError, s)
      | .nan => some (.thrown rangeError, s)
      | .str _ => none
      | .ref _ => none

/-- The assignment `obj[key] = v` in the strict code of a module, for a key that is not an
index of an array: as `propSet`, but a write that cannot be performed (a new property on a
non-extensible object, a data property that is not writable, an accessor without setter)
throws a TypeError.  On an array the key `length` sets the length.  Two assignments are not
represented (no result): the one that replaces the Observer in `__ob__` by another value, and
the one to `__proto__`, which changes the prototype. -/
def propSetStrict (call : Call) (a : Addr) (k : Key) (v : Val) (s : State) : Res :=
  match s.heap[a]? with
  | none => none
  | some obj =>
    match obj.getOwnProperty k with
    | none =>
      if k = "__ob__" ∧ obj.__ob__.isSome = true then none
      else if k = "__proto__" then none
      else if obj.kind = .array ∧ k = "length" then assignLength a v s
      else if obj.extensible then propSet call a k v s
      else some (.thrown typeError, s)
    | some p =>
      match p.slot with
      | .accessor _ none => some (.thrown typeError, s)
      | .accessor _ (some _) => propSet call a k v s
      | .data _ => if p.writable then propSet call a k v s else some (.thrown typeError, s)

/-- The object without its own property `k`. -/
def Obj.removeProp (o : Obj) (k : Key) : Obj :=
  { o with props := o.props.filter fun q => decide (q.key ≠ k) }

/-- The operation `delete obj[key]` in the strict code of a module, for a key that is not an
index of an array: a configurable own property is removed, a non-configurable one throws a
TypeError.  The `__ob__` reference of an observed object is configurable unless the object
is frozen; the length of an array is not configurable. -/
def deleteProperty (a : Addr) (k : Key) (s : State) : Res :=
  match s.heap[a]? with
  | none => none
  | some obj =>
    match obj.getOwnProperty k with
    | none =>
      if k = "__ob__" ∧ obj.__ob__.isSome = true then
        if obj.isFrozen then some (.thrown typeError, s)
        else some (.ret (.bool true), s.modifyObj a fun x => { x with __ob__ := none })
      else if obj.kind = .array ∧ k = "length" then some (.thrown typeError, s)
      else some (.ret (.bool true), s)
    | some p =>
      if p.configurable then some (.ret (.bool true), s.modifyObj a fun x => x.removeProp k)
      else some (.thrown typeError, s)

/-- The Observer behind `target.__ob__`, if the object has one; `none` when the reference
dangles. -/
def Obj.observer (o : Obj) (s : State) : Option (Option Observer) :=
  match o.__ob__ with
  | none => some none
  | some r =>
    match s.observers[r]? with
    | some ob => some (some ob)
    | none => none

/-- `set (target, key, val)`.  The development warnings are left out. -/
def set (call : Call) (target : Addr) (key : PropKey) (val : Val) (s : State) : Res :=
  match s.heap[target]? with
  | none => none
  | some obj =>
    match arrayIndex obj key with
    | some i =>
      andThen (setLength target (max obj.elems.length i) s) fun _ s1 =>
        andThen (splice call target i 1 [val] s1) fun _ s2 => some (.ret val, s2)
    | none =>
      let k := key.toKey
      if obj.hasProperty k && !inObjectPrototype k then
        andThen (propSetStrict call target k val s) fun _ s1 => some (.ret val, s1)
      else
        match obj.observer s with
        | none => none
        | some ob =>
          if obj._isVue ||
              (match ob with
               | some o => decide (o.vmCount ≠ 0)
               | none => false) then
            some (.ret val, s)
          else
            match ob with
            | none => andThen (propSetStrict call target k val s) fun _ s1 => some (.ret val, s1)
            | some o =>
              andThen (call (.defineReactive o.value k (some val) none false) s) fun _ s1 =>
                andThen (call (.notify o.dep) s1) fun _ s2 => some (.ret val, s2)

/-- `del (target, key)`.  The development warnings are left out. -/
def del (call : Call) (target : Addr) (key : PropKey) (s : State) : Res :=
  match s.heap[target]? with
  | none => none
  | some obj =>
    match arrayIndex obj key with
    | some i => andThen (splice call target i 1 [] s) fun _ s1 => some (.ret .undefined, s1)
    | none =>
      let k := key.toKey
      match obj.observer s with
      | none => none
      | some ob =>
        if obj._isVue ||
            (match ob with
             | some o => decide (o.vmCount ≠ 0)
             | none => false) then
          some (.ret .undefined, s)
        else if !hasOwn obj k then some (.ret .undefined, s)
        else
          andThen (deleteProperty target k s) fun _ s1 =>
            match ob with
            | none => some (.ret .undefined, s1)
            | some o => call (.notify o.dep) s1

/-- The items of an array after `target.length = Math.max(target.length, i)` followed by
`target.splice(i, 1, val)`. -/
def setItems (elems : List Val) (i : Nat) (val : Val) : List Val :=
  spliceItems (elems.take (max elems.length i) ++
    List.replicate (max elems.length i - elems.length) .undefined) i 1 [val]

/-- The state in which the array at `a` has the items `l`. -/
def State.setElems (s : State) (a : Addr) (l : List Val) : State :=
  s.modifyObj a fun x => { x with elems := l }

/-- The relation "the items of every array stay what they are". -/
def KeepsElems (s s' : State) : Prop :=
  ∀ (a : Addr) (obj : Obj), s.heap[a]? = some obj →
    ∃ obj' : Obj, s'.heap[a]? = some obj' ∧ obj'.elems = obj.elems

/-- The end of `defineReactive` on a key that the object does not have: the closure variables
are stored in a new cell and the reactive accessor of that cell is added to the object at
`a`. -/
def addReactive (a : Addr) (k : Key) (cell : Cell) (s : State) : State :=
  ({ s with cells := s.cells ++ [cell] } : State).modifyObj a fun o =>
    o.addProp (reactiveProperty k s.cells.length)


/-! ## Example states for the claims on properties, `set` and `del` -/

/-- One plain object whose property `x` is a non-configurable data property holding `1`. -/
def exSealed : State :=
  { State.empty with
    heap := [{ kind := .plain, extensible := true, _isVue := false,
               props := [{ key := "x", enumerable := true, configurable := false,
                           slot := .data (.num 1) }],
               elems := [], __ob__ := none, augmented := false }] }

/-- The state `exWatched` while its watcher is being evaluated again. -/
def exReading : State :=
  { exWatched with target := some 0, targetStack := [some 0] }

/-- Two plain objects `{x: 1}` and `{y: 2}`, the first one observed. -/
def exTwo : State :=
  match exec 5 (.observe (.ref 0) false)
      { State.empty with heap := [Obj.plain [("x", .num 1)], Obj.plain [("y", .num 2)]] } with
  | some (_, s) => s
  | none => State.empty

/-- The state of `exTwo` after `obj0.x = obj1` has stored and observed the new value, when
`notify` is about to be called. -/
def exTwoStored : State :=
  match exec 5 (.observe (.ref 1) false)
      (exTwo.modifyCell 0 fun x => { x with val := .ref 1 }) with
  | some (_, s) => s
  | none => State.empty

/-- One array `[1, 2]` that is not observed. -/
def exArr : State :=
  { State.empty with heap := [Obj.array [.num 1, .num 2]] }

/-- The array `[1, 2]` of `exArr`, observed. -/
def exArrObserved : State :=
  match exec 5 (.observe (.ref 0) false) exArr with
  | some (_, s) => s
  | none => State.empty

/-- The state of `exArrObserved` after `set(arr, 3, 9)`. -/
def exArrSet : State :=
  match set (exec 5) 0 (.index 3) (.num 9) exArrObserved with
  | some (_, s) => s
  | none => State.empty

/-- The object of `exSealed`, observed: its property `x` is still a non-configurable data
property. -/
def exSealedObserved : State :=
  match exec 5 (.observe (.ref 0) false) exSealed with
  | some (_, s) => s
  | none => State.empty

/-- One component and one plain object `{a: 1, b: 2}`, observed. -/
def exPair : State :=
  match exec 6 (.observe (.ref 0) false)
      { State.empty with
        heap := [Obj.plain [("a", .num 1), ("b", .num 2)]],
        vms := [{ _watchers := [], _isBeingDestroyed := false, _watcher := none }] } with
  | some (_, s) => s
  | none => State.empty

/-- The state `exPair` with a watcher of `obj.b, obj.a`, whose value is `obj.a`. -/
def exBatch : State :=
  match exec 7 (.newWatcher 0
      (.code (.seq (.prop (.lit (.ref 0)) "b") (.prop (.lit (.ref 0)) "a"))) noop none false)
      exPair with
  | some (_, s) => s
  | none => State.empty

/-- The state `exPair` with a watcher of `obj.a, obj.b, 0`, whose value is always `0`. -/
def exBatchConst : State :=
  match exec 7 (.newWatcher 0
      (.code (.seq (.prop (.lit (.ref 0)) "a")
        (.seq (.prop (.lit (.ref 0)) "b") (.lit (.num 0))))) noop none false)
      exPair with
  | some (_, s) => s
  | none => State.empty

/-- The state after the writes `obj.a = 5; obj.b = 6` and the flush, from `s`. -/
def exBatchRun (s : State) : State :=
  match execAll 9 [.propSet 0 "a" (.num 5), .propSet 0 "b" (.num 6), .flushSchedulerQueue] s with
  | some s1 => s1
  | none => State.empty

/-- The state `exTwo` after `Object.preventExtensions(obj0)`: the observed object still has
its Observer and is no longer extensible. -/
def exTwoClosed : State :=
  exTwo.modifyObj 0 fun o => { o with extensible := false }


/-! ## instance/events.js: `$on`, `$once`, `$off`, `$emit` -/

/-- Function values registered as event handlers: a user function, or the closure `on` that
one call `$once(event, fn)` creates (`on.fn = fn`).  The `id` is the identity of the function
object. -/
inductive Handler
  | fn (id : Nat)
  | wrapper (id : Nat) (event : String) (fn : Handler)
  deriving DecidableEq, Repr

/-- The calls on the instance that the body of a user handler makes. -/
inductive VmCall
  | emit (event : String) (args : List Val)
  | on (event : String) (fn : Handler)
  | once (event : String) (fn : Handler)
  | off (event : Option String) (fn : Option Handler)
  deriving DecidableEq, Repr

/-- The event fields of a component instance: `_events` maps an event name to its handler
list (an entry set to `null` is an absent entry), `_hasHookEvent` is the hook flag.  `bodies`
holds the bodies of the user functions by id, `closures` counts the closures created by
`$once`, and the ghost list `calls` records the invocations of user functions in order. -/
structure EventVm where
  _events : List (String × List Handler)
  _hasHookEvent : Bool
  bodies : List (List VmCall)
  closures : Nat
  calls : List (Handler × List Val)
  deriving DecidableEq, Repr

/-- `vm._events[event]` -/
def EventVm.cbs (vm : EventVm) (event : String) : Option (List Handler) :=
  (vm._events.find? fun e => decide (e.1 = event)).map fun e => e.2

/-- `vm._events[event] = cbs`, also the effect of a mutation of the list in place. -/
def EventVm.setCbs (vm : EventVm) (event : String) (cbs : List Handler) : EventVm :=
  match vm.cbs event with
  | some _ =>
    { vm with _events := vm._events.map fun e => if e.1 = event then (event, cbs) else e }
  | none => { vm with _events := vm._events ++ [(event, cbs)] }

/-- `vm._events[event] = null` -/
def EventVm.clearCbs (vm : EventVm) (event : String) : EventVm :=
  { vm with _events := vm._events.filter fun e => decide (e.1 ≠ event) }

/-- `$on (event, fn)` for one event name: push `fn` on the handler list of the event, which
is created when missing, and mark hook events. -/
def vmOn (event : String) (fn : Handler) (vm : EventVm) : EventVm :=
  let vm1 := vm.setCbs event ((vm.cbs event).getD [] ++ [fn])
  if "hook:".isPrefixOf event then { vm1 with _hasHookEvent := true } else vm1

/-- `$once (event, fn)`: create the closure `on` with `on.fn = fn` and register it. -/
def vmOnce (event : String) (fn : Handler) (vm : EventVm) : EventVm :=
  vmOn event (.wrapper vm.closures event fn) { vm with closures := vm.closures + 1 }

/-- The test `cb === fn || cb.fn === fn` of `$off`. -/
def sameHandler (cb fn : Handler) : Bool :=
  decide (cb = fn) ||
    (match cb with
     | .wrapper _ _ f => decide (f = fn)
     | .fn _ => false)

/-- The loop of `$off`: `while (i--)`, remove the first match found from the end. -/
def offLoop (fn : Handler) : Nat → List Handler → List Handler
  | 0, cbs => cbs
  | i + 1, cbs =>
    match cbs[i]? with
    | some cb => if sameHandler cb fn then cbs.eraseIdx i else offLoop fn i cbs
    | none => offLoop fn i cbs

/-- `$off (event, fn)` for at most one event name: without arguments every list is dropped,
without `fn` the list of the event, otherwise the last handler that is `fn` or wraps it. -/
def vmOff (event : Option String) (fn : Option Handler) (vm : EventVm) : EventVm :=
  match event with
  | none => { vm with _events := [] }
  | some e =>
    match vm.cbs e with
    | none => vm
    | some cbs =>
      match fn with
      | none => vm.clearCbs e
      | some f => vm.setCbs e (offLoop f cbs.length cbs)

/-- One constructor per function of the event system that is called through the
interpreter. -/
inductive EvTask
  | emit (event : String) (args : List Val)
  | invoke (h : Handler) (args : List Val)
  deriving DecidableEq, Repr

abbrev EvCall := EvTask → EventVm → Option EventVm

/-- Modelled from the spec: `toArray` of `util/index` (not under src), a copy of the list. -/
def toArray (cbs : List Handler) : List Handler :=
  cbs

/-- The loop of `$emit` over the handlers read at its start.  Modelled from the spec:
`invokeWithErrorHandling` of `util/index` (not under src) is the call of the handler with the
arguments. -/
def emitLoop (call : EvCall) (args : List Val) : List Handler → EventVm → Option EventVm
  | [], vm => some vm
  | cb :: cbs, vm => (call (.invoke cb args) vm).bind fun vm1 => emitLoop call args cbs vm1

/-- `$emit (event, ...args)`: the handlers of the event, copied when there is more than one
(the loop bound is read once, so a list of at most one handler is read before any handler
runs), are invoked in order.  The development tip is left out. -/
def vmEmit (call : EvCall) (event : String) (args : List Val) (vm : EventVm) : Option EventVm :=
  match vm.cbs event with
  | none => some vm
  | some cbs =>
    let cbs := if cbs.length > 1 then toArray cbs else cbs
    emitLoop call args cbs vm

/-- One call of the body of a user handler. -/
def vmCall (call : EvCall) : VmCall → EventVm → Option EventVm
  | .emit event args, vm => call (.emit event args) vm
  | .on event fn, vm => some (vmOn event fn vm)
  | .once event fn, vm => some (vmOnce event fn vm)
  | .off event fn, vm => some (vmOff event fn vm)

/-- The body of a user handler, call after call. -/
def runBody (call : EvCall) : List VmCall → EventVm → Option EventVm
  | [], vm => some vm
  | c :: cs, vm => (vmCall call c vm).bind fun vm1 => runBody call cs vm1

/-- The invocation of a handler: a user function is recorded and its body run; the closure
`on` of `$once` does `vm.$off(event, on)` and then `fn.apply(vm, arguments)`. -/
def invokeHandler (call : EvCall) (h : Handler) (args : List Val) (vm : EventVm) :
    Option EventVm :=
  match h with
  | .fn id => runBody call (vm.bodies.getD id []) { vm with calls := vm.calls ++ [(h, args)] }
  | .wrapper _ event fn => call (.invoke fn args) (vmOff (some event) (some h) vm)

/-- One call of the event system, with the calls it makes itself delegated to `call`. -/
def dispatchEv (call : EvCall) : EvTask → EventVm → Option EventVm
  | .emit event args, vm => vmEmit call event args vm
  | .invoke h args, vm => invokeHandler call h args vm

/-- The interpreter of the event system: every call costs one unit of fuel. -/
def execEv : Nat → EvCall
  | 0 => fun _ _ => none
  | n + 1 => dispatchEv (execEv n)

/-- The invocations of the user function `f` recorded so far, with their arguments. -/
def EventVm.callsOf (vm : EventVm) (f : Handler) : List (List Val) :=
  (vm.calls.filter fun c => decide (c.1 = f)).map fun c => c.2

/-- An instance without handlers and with two user functions: `h1` (id 0), whose body is
`vm.$off('e', h1); vm.$emit('e', 2)`, and `f` (id 1), whose body is empty. -/
def exEvents : EventVm :=
  { _events := [], _hasHookEvent := false,
    bodies := [[.off (some "e") (some (.fn 0)), .emit "e" [.num 2]], []],
    closures := 0, calls := [] }

/-- The instance `exEvents` after `vm.$on('e', h1)` and `vm.$once('e', f)`. -/
def exOnce : EventVm :=
  vmOnce "e" (.fn 1) (vmOn "e" (.fn 0) exEvents)

/-- The instance `exEvents` after `vm.$once('e', f)` alone. -/
def exOnceAlone : EventVm :=
  vmOnce "e" (.fn 1) exEvents


/-! ## Batching of updates by the scheduler -/

/-- The state after the reactive setter of cell `c` has stored the value `v` and the Dep `d`
of the property has notified its only subscriber `w`, whose `update` has called
`queueWatcher`. -/
def State.written (s : State) (c : Nat) (v : Val) (d w : Nat) : State :=
  (((((s.modifyCell c fun x => { x with val := v }).modifyCell c fun x =>
    { x with childOb := none }).log (.notify d)).log (.update w)).log (.queue w))

/-- The scheduler fields after the first request of a tick, for the watcher `w` of id `id`:
`w` is pending and a flush is asked for. -/
def State.enqueued (s : State) (w id : Nat) : State :=
  { s with has := id :: s.has, queue := s.queue ++ [w], waiting := true }

/-- The scheduler fields while the flush runs the watcher of id `id`, the only one of the
batch. -/
def State.flushingAt (s : State) (id : Nat) : State :=
  { s with flushing := true, current := id, queue := [], has := s.has.erase id }

/-- The scheduler fields after the flush has processed its batch. -/
def State.flushed (s : State) : State :=
  { s with queue := s.deferred, deferred := [], has := s.deferred.map (watcherId s),
           current := 0, flushing := false, waiting := !s.deferred.isEmpty && s.env.async }

/-- The state after two writes within one tick, the first one on an idle scheduler: to the
cell `c1` (value `v1`, Dep `d1`) and to the cell `c2` (value `v2`, Dep `d2`), both with the
only subscriber `w` of id `id`. -/
def State.batched (s : State) (c1 : Nat) (v1 : Val) (d1 c2 : Nat) (v2 : Val) (d2 w id : Nat) :
    State :=
  ((s.written c1 v1 d1 w).enqueued w id).written c2 v2 d2 w


/-! ## Round trip through a reactive property -/

/-- The object after a successful `Object.defineProperty(obj, p.key, p)`: the property of
that key is replaced, or added when the object has none. -/
def Obj.putProp (o : Obj) (p : Property) : Obj :=
  match o.getOwnProperty p.key with
  | some _ => o.replaceProp p
  | none => o.addProp p

/-- The end of a successful `defineReactive`: the closure variables are stored in a new cell
and the property `k` of the object at `a` becomes the reactive accessor of that cell. -/
def putReactive (a : Addr) (k : Key) (cell : Cell) (s : State) : State :=
  ({ s with cells := s.cells ++ [cell] } : State).modifyObj a fun o =>
    o.putProp (reactiveProperty k s.cells.length)

/-- The relation "the object at `a`, the cell `c`, the Dep `d` and the active watcher are
what they were". -/
def Untouched (a : Addr) (c d : Nat) (s s' : State) : Prop :=
  s'.heap[a]? = s.heap[a]? ∧ s'.cells[c]? = s.cells[c]? ∧ s'.deps[d]? = s.deps[d]? ∧
    s'.target = s.target

/-- The state after `defineReactive(obj, k, v)` and a read of `obj[k]`, when `obj[k] = v2`
is about to call the reactive setter of cell `c`. -/
def afterRead (sR : State) (c : Nat) : State :=
  sR.log (.call (.reactiveGetter c) [])


/-! ## A watcher of one property -/

/-- The function `() => obj[k]` for the object at `o`. -/
def readProp (o : Addr) (k : Key) : Fn :=
  .code (.prop (.lit (.ref o)) k)

/-- The state at the end of the evaluation of `() => obj[k]` by the watcher `w`, before the
`finally` block of `get`. -/
def evaluated (s : State) (w : Nat) (o : Addr) (k : Key) (c d : Nat) : State :=
  Dep.depend d
    ((((pushTarget (some w) s).log (.getter w)).log (.call (readProp o k) [])).log
      (.call (.reactiveGetter c) []))

/-- The state in which the reactive setter of cell `c` has stored `b` and the Dep `d` has
called `update` on the sync watcher `w`, which is about to run. -/
def syncWritten (t : State) (c : Nat) (b : Val) (d w : Nat) : State :=
  (((((t.log (.call (.reactiveSetter c) [b])).modifyCell c fun x =>
    { x with val := b }).modifyCell c fun x => { x with childOb := none }).log
      (.notify d)).log (.update w))

/-- The state in which `run` calls the callback of the watcher `w` of `() => obj[k]` with
the new value `b` and the old value `a`, after the evaluation that started in the state
`u`. -/
def ranCallback (u : State) (w : Nat) (o : Addr) (k : Key) (c d : Nat) (a b : Val) : State :=
  ((Watcher.cleanupDeps w (popTarget (evaluated u w o k c d))).modifyWatcher
    w fun x => { x with value := b }).log (.cb w b a)

/-- The state in which the scheduler, forced to flush synchronously, runs the watcher `w` of
id `id` after the write of `b` through the reactive setter of cell `c`. -/
def forcedWritten (t : State) (c : Nat) (b : Val) (d w id : Nat) : State :=
  (((syncWritten t c b d w).log (.queue w)).enqueued w id).flushingAt id


/-! ## Example states for the watcher of one property -/

/-- One component and one plain object `{x: NaN}`, observed, with a sync watcher of
`() => obj.x`. -/
def exNaNWatched : State :=
  match exec 6 (.observe (.ref 0) false)
      { State.empty with
        heap := [Obj.plain [("x", .nan)]],
        vms := [{ _watchers := [], _isBeingDestroyed := false, _watcher := none }] } with
  | some (_, s) =>
    (match exec 6 (.newWatcher 0 (readProp 0 "x") noop
        (some { deep := false, user := false, lazy := false, sync := true }) false) s with
     | some (_, s1) => s1
     | none => State.empty)
  | none => State.empty


/-! ## A watcher that chooses between two properties -/

/-- The function `() => flag ? obj[ka] : obj[kb]`, `flag` being the property `kf` of the
object at `f`. -/
def chooseProp (f : Addr) (kf : Key) (o : Addr) (ka kb : Key) : Fn :=
  .code (.cond (.prop (.lit (.ref f)) kf) (.prop (.lit (.ref o)) ka) (.prop (.lit (.ref o)) kb))

/-- The state at the end of the evaluation of the getter `g` by the watcher `w`, when the
evaluation has read one reactive property (cell `c`, Dep `d`), before the `finally` block
of `get`. -/
def evaluatedBy (g : Fn) (s : State) (w c d : Nat) : State :=
  Dep.depend d
    ((((pushTarget (some w) s).log (.getter w)).log (.call g [])).log
      (.call (.reactiveGetter c) []))

/-- The state after the evaluation `get()`. -/
def afterGet (g : Fn) (s : State) (w c d : Nat) : State :=
  Watcher.cleanupDeps w (popTarget (evaluatedBy g s w c d))

/-- The state in which the data property `k` of the object at `a` holds `v`. -/
def State.setData (s : State) (a : Addr) (k : Key) (v : Val) : State :=
  s.modifyObj a fun x =>
    { x with props := x.props.map fun q => if q.key = k then { q with slot := .data v } else q }

/-- The state after the reactive setter of cell `c` has been called with `v` and has stored
it. -/
def stored (s : State) (c : Nat) (v : Val) : State :=
  ((s.log (.call (.reactiveSetter c) [v])).modifyCell c fun x =>
    { x with val := v }).modifyCell c fun x => { x with childOb := none }

/-- The state after the watcher `w` of `g` has been evaluated with the flag true (reading the
cell `ca` of Dep `da`), the flag `f[kf]` has been set to `fv`, and `w` has been evaluated
again (reading the cell `cb` of Dep `db`). -/
def reevaluated (g : Fn) (s : State) (w ca da : Nat) (f : Addr) (kf : Key) (fv : Val)
    (cb db : Nat) : State :=
  afterGet g ((afterGet g s w ca da).setData f kf fv) w cb db


/-! ## Example state for dependency pruning -/

/-- One component, the plain object `{a: 1, b: 2}`, observed, the plain object
`{flag: true}`, and a watcher of `() => flag ? obj.a : obj.b` as the constructor leaves it
before its first evaluation. -/
def exChoose : State :=
  match exec 6 (.observe (.ref 0) false)
      { State.empty with
        heap := [Obj.plain [("a", .num 1), ("b", .num 2)], Obj.plain [("flag", .bool true)]],
        vms := [{ _watchers := [], _isBeingDestroyed := false, _watcher := none }] } with
  | some (_, s) => Watcher.init 0 (chooseProp 1 "flag" 0 "a" "b") noop none false s
  | none => State.empty


/-! ## The target stack -/

/-- A call of `pushTarget (target)` or of `popTarget ()`. -/
inductive TargetOp
  | push (target : Option Nat)
  | pop
  deriving DecidableEq, Repr

/-- The effect of one call of `pushTarget` or `popTarget`. -/
def TargetOp.run : TargetOp → State → State
  | .push t, s => pushTarget t s
  | .pop, s => popTarget s

/-- The effect of a sequence of calls of `pushTarget` and `popTarget`. -/
def runTargetOps (ops : List TargetOp) (s : State) : State :=
  ops.foldl (fun acc op => op.run acc) s

/-- A sequence of calls is balanced from the depth `d`: every `popTarget` matches an earlier
`pushTarget` of the sequence or one of `d` earlier ones, and every push is matched. -/
def balancedFrom : Nat → List TargetOp → Bool
  | d, [] => d == 0
  | d, .push _ :: ops => balancedFrom (d + 1) ops
  | 0, .pop :: _ => false
  | d + 1, .pop :: ops => balancedFrom d ops

/-! ## Ids of Deps and watchers -/


/-- The ids of the Deps of the store, in the order of their construction. -/
def State.depIdList (s : State) : List Nat :=
  s.deps.map fun d => d.id

/-- The ids of the watchers of the store, in the order of their construction. -/
def State.watcherIdList (s : State) : List Nat :=
  s.watchers.map fun w => w.id

/-- The relation "the Deps and the watchers of the first state keep their place and their id,
and the `k` Deps and `j` watchers constructed since have the ids `uid, uid + 1, ...` and
`uid + 1, uid + 2, ...` of their counters, in the order of their construction". -/
def IdsStep (s s' : State) : Prop :=
  ∃ k j : Nat,
    s'.depIdList = s.depIdList ++ (List.range k).map (fun i => s.depUid + i) ∧
    s'.depUid = s.depUid + k ∧
    s'.watcherIdList = s.watcherIdList ++ (List.range j).map (fun i => s.watcherUid + 1 + i) ∧
    s'.watcherUid = s.watcherUid + j

/-- The ids of the store are those of a program run from the start: the Deps have the ids
`0, 1, ...` and the watchers the ids `1, 2, ...` in the order of their construction, and the
counters stand at the numbers of Deps and watchers constructed. -/
def IdsInOrder (s : State) : Prop :=
  s.depIdList = List.range s.depUid ∧
    s.watcherIdList = (List.range s.watcherUid).map (fun i => i + 1)

/-! ## The subscription protocol -/


/-- Every subscriber of a Dep is a watcher of the store. -/
def SubsWF (s : State) : Prop :=
  ∀ (d : Nat) (dep : Dep), s.deps[d]? = some dep → ∀ w ∈ dep.subs, w < s.watchers.length

/-- The subscriptions of the watcher `W` on the side of the Deps: `W` is at most once in the
subs of a Dep, and only in the subs of the Deps that it lists in `deps` or `newDeps`. -/
def SubsListed (W : Nat) (s : State) : Prop :=
  ∀ (wt : Watcher), s.watchers[W]? = some wt → ∀ (d : Nat) (dep : Dep), s.deps[d]? = some dep →
    dep.subs.count W ≤ 1 ∧ (W ∈ dep.subs → d ∈ wt.deps ∨ d ∈ wt.newDeps)

/-- The state of the subscriptions that the Watcher protocol maintains: Dep ids are unique
and below the counter, every subscriber exists, both generations of the dependency lists of
every watcher are `ListedIn`, and every watcher is `SubsListed`. -/
structure ProtocolOK (s : State) : Prop where
  unique : UniqueDepIds s
  bound : ∀ (d : Nat) (dep : Dep), s.deps[d]? = some dep → dep.id < s.depUid
  subsExist : SubsWF s
  records : ∀ (W : Nat) (wt : Watcher), s.watchers[W]? = some wt →
    ListedIn W wt.active s.deps wt.deps wt.depIds ∧
      ListedIn W wt.active s.deps wt.newDeps wt.newDepIds
  subs : ∀ W : Nat, SubsListed W s

/-- The relation "the state of the subscriptions stays one that the protocol maintains". -/
def KeepsProtocol (s s' : State) : Prop :=
  ProtocolOK s → ProtocolOK s'

/-- The second Dep store is the first one in which `v` has been removed some number of times
from the subs of each Dep. -/
def EraseRel (v : Nat) (ds ds' : List Dep) : Prop :=
  ∀ d : Nat, ∃ k : Nat, ds'[d]? =
    (ds[d]?).map fun dep : Dep => { dep with subs := (fun l => remove l v)^[k] dep.subs }

/-! ## Cancelled watchers -/


/-- The watcher `W` is cancelled: it is inactive, it is not being evaluated (it is neither
the target nor in the target stack), and it is in the subs of no Dep. -/
def Cancelled (W : Nat) (s : State) : Prop :=
  (∃ wt, s.watchers[W]? = some wt ∧ wt.active = false) ∧ s.target ≠ some W ∧
    some W ∉ s.targetStack ∧
    ∀ (d : Nat) (dep : Dep), s.deps[d]? = some dep → W ∉ dep.subs

/-- The relation "a cancelled watcher stays cancelled". -/
def StaysCancelled (W : Nat) (s s' : State) : Prop :=
  Cancelled W s → Cancelled W s'

/-! ## Reached states and calls on a watcher -/


/-- The states reached from a state without Deps and watchers through calls of the
interpreter (constructions, evaluations, reads, writes, notifications, flushes, with the user
code they run), `teardown()`, `depend()`, `addDep(dep)` and `cleanupDeps()` of a watcher,
`depend()` of a Dep, and changes that leave the Deps and the watchers alone. -/
inductive Reached : State → Prop
  | init (s : State) : s.deps = [] → s.watchers = [] → Reached s
  | call (n : Nat) (t : Task) (s : State) (c : Completion) (s' : State) :
      Reached s → exec n t s = some (c, s') → Reached s'
  | teardown (w : Nat) (s : State) : Reached s → Reached (Watcher.teardown w s)
  | depend (w : Nat) (s : State) : Reached s → Reached (Watcher.depend w s)
  | addDep (w d : Nat) (s : State) : Reached s → Reached (Watcher.addDep w d s)
  | cleanupDeps (w : Nat) (s : State) : Reached s → Reached (Watcher.cleanupDeps w s)
  | depDepend (d : Nat) (s : State) : Reached s → Reached (Dep.depend d s)
  | other (s s' : State) : Reached s → s'.deps = s.deps → s'.watchers = s.watchers →
      s'.depUid = s.depUid → Reached s'

/-- The methods of a watcher that other code calls on it: `update()`, `run()`, `evaluate()`
and `depend()`. -/
inductive WatcherCall
  | update
  | run
  | evaluate
  | depend
  deriving DecidableEq, Repr

/-- One call on the watcher `w`, with fuel `n` for the interpreter; the state it leaves. -/
def WatcherCall.apply (n : Nat) (w : Nat) : WatcherCall → State → Option State
  | .update, s => (exec n (.update w) s).map fun r => r.2
  | .run, s => (exec n (.run w) s).map fun r => r.2
  | .evaluate, s => (exec n (.evaluate w) s).map fun r => r.2
  | .depend, s => some (Watcher.depend w s)

/-- A sequence of calls on the watcher `w`. -/
def watcherCalls (n : Nat) (w : Nat) : List WatcherCall → State → Option State
  | [], s => some s
  | c :: cs, s => (c.apply n w s).bind fun s1 => watcherCalls n w cs s1


/-! ## Example states for the claims on subscriptions -/

/-- A Dep with the subscribers `[2, 1, 2]`, as direct calls of `addSub` can produce. -/
def exSubs : State :=
  { State.empty with deps := [{ id := 0, subs := [2, 1, 2] }], depUid := 1 }

/-- A watcher at the end of an evaluation that read Dep 1 again and Dep 0 no more. -/
def exStale : State :=
  { State.empty with
    watchers := [{ exWatcher with deps := [0, 1], depIds := [0, 1], newDeps := [1],
                                  newDepIds := [1] }],
    vms := [{ _watchers := [0], _isBeingDestroyed := false, _watcher := none }],
    deps := [{ id := 0, subs := [0] }, { id := 1, subs := [0] }], depUid := 2, watcherUid := 1 }

/-- The object `{x: 1}` of `exData`, observed as the root data of a component. -/
def exRoot : State :=
  match exec 5 (.observe (.ref 0) true) exData with
  | some (_, s) => s
  | none => State.empty

/-- The Observer of the object of `exRoot`. -/
def exRootObserver : Observer :=
  { value := 0, dep := 0, vmCount := 1 }

/-- The watcher of `exGot`. -/
def exGotWatcher : Watcher :=
  (exGot.watchers[0]?).getD exWatcher

/-- The watcher of `exWatched`. -/
def exWatchedWatcher : Watcher :=
  (exWatched.watchers[0]?).getD exWatcher

/-- The state of `exDataObserved` after `new Watcher(vm, () => (obj.x, obj.x), noop)`, whose
getter reads the property twice. -/
def exTwice : State :=
  match exec 7 (.newWatcher 0 (.code (.seq (.prop (.lit (.ref 0)) "x") (.prop (.lit (.ref 0)) "x")))
      noop none false) exDataObserved with
  | some (_, s) => s
  | none => State.empty

/-- The state of `exTwice` after a second evaluation of its watcher. -/
def exTwiceAgain : State :=
  match exec 6 (.get 0) exTwice with
  | some (_, s) => s
  | none => State.empty

/-- The state of `exWatched` after `teardown()` of its watcher followed by `update()`,
`run()` and `depend()` of the watcher. -/
def exCancelled : State :=
  match watcherCalls 3 0 [.update, .run, .depend] (Watcher.teardown 0 exWatched) with
  | some s => s
  | none => State.empty

/-- The state of `exComputed`, whose lazy watcher has not been evaluated yet, after
`teardown()` and then `evaluate()` of the watcher. -/
def exRevived : State :=
  match watcherCalls 6 0 [.evaluate] (Watcher.teardown 0 exComputed) with
  | some s => s
  | none => State.empty

/-- A plain object `{}` that was observed while empty and then got the property `x` by the
plain assignment `obj.x = 1`. -/
def exLate : State :=
  match execAll 5 [.observe (.ref 0) false, .propSet 0 "x" (.num 1)]
      { State.empty with heap := [Obj.plain []] } with
  | some s => s
  | none => State.empty


/-! ## A program with a computed property -/

/-- One call in a program with one computed property `vm[key]`, backed by the lazy watcher
`watcher`: the read of that property is the call of `computedGetter` for the watcher (the
accessor that `defineComputed` installs on the target), every other call is that of
`dispatch`. -/
def dispatchComputed (watcher : Nat) (vm : Addr) (key : Key) (call : Call) :
    Task → State → Res
  | .propGet o k, s =>
    if o = vm ∧ k = key then computedGetter call (some watcher) s else propGet call o k s
  | t, s => dispatch call t s

/-- The interpreter for a program with one computed property. -/
def execComputed (watcher : Nat) (vm : Addr) (key : Key) : Nat → Call
  | 0 => fun _ _ => none
  | n + 1 => dispatchComputed watcher vm key (execComputed watcher vm key n)

/-- `toggleObserving (value) { shouldObserve = value }` -/
def toggleObserving (value : Bool) (s : State) : State :=
  { s with shouldObserve := value }


/-! ## Example states for failing evaluations -/

/-- One component, the plain object `{x: 1}` and the object `{ get bad () { throw 'boom' } }`. -/
def exTrapData : State :=
  { State.empty with
    heap := [Obj.plain [("x", .num 1)],
             { kind := .plain, extensible := true, _isVue := false,
               props := [{ key := "bad", enumerable := true, configurable := true,
                           slot := .accessor (some (.code (.throw (.lit (.str "boom"))))) none }],
               elems := [], __ob__ := none, augmented := false }],
    vms := [{ _watchers := [], _isBeingDestroyed := false, _watcher := none }] }

/-- The state of `exTrapData` after `observe` of its first object. -/
def exTrap : State :=
  match exec 5 (.observe (.ref 0) false) exTrapData with
  | some (_, s) => s
  | none => State.empty

/-- The options `{ deep: true }`. -/
def exDeep : WatcherOptions :=
  { deep := true, user := false, lazy := false, sync := false }

/-- The state of `exTrap` after `new Watcher(vm, () => o, noop, { deep: true })` for the
second object `o`, whose traversal throws. -/
def exTrapped : State :=
  match exec 8 (.newWatcher 0 (.code (.lit (.ref 1))) noop (some exDeep) false) exTrap with
  | some (_, s) => s
  | none => State.empty

/-- The state of `exTrap` after `new Watcher(vm, () => (obj.x, o), noop, { deep: true })`,
whose getter reads the reactive property `x` and returns the second object `o`. -/
def exTrappedRead : State :=
  match exec 8 (.newWatcher 0 (.code (.seq (.prop (.lit (.ref 0)) "x") (.lit (.ref 1)))) noop
      (some exDeep) false) exTrap with
  | some (_, s) => s
  | none => State.empty

/-- The state of `exComputedGot` after `new Watcher(vm, noop, noop)`: the lazy watcher 0 has
read `obj.x`, the watcher 1 has read nothing. -/
def exBoth : State :=
  match exec 6 (.newWatcher 0 noop noop none false) exComputedGot with
  | some (_, s) => s
  | none => State.empty

/-- The state `exBoth` while its watcher 1 is being evaluated. -/
def exBothTarget : State :=
  pushTarget (some 1) exBoth

/-- The state of `exComputedGot` after `new Watcher(vm, () => obj.x, noop)`, `teardown()` of
that watcher 1, and the start of another evaluation of it. -/
def exTornTarget : State :=
  match exec 6 (.newWatcher 0 exReadX noop none false) exComputedGot with
  | some (_, s) => pushTarget (some 1) (Watcher.teardown 1 s)
  | none => State.empty

/-- One component, the plain object `{flag: false, x: 1}` and the object that carries the
computed property `comp`. -/
def exCompData : State :=
  { State.empty with
    heap := [Obj.plain [("flag", .bool false), ("x", .num 1)], Obj.plain []],
    vms := [{ _watchers := [], _isBeingDestroyed := false, _watcher := none }] }

/-- The getter `() => data.flag ? vm.comp : 0`. -/
def exReadComp : Fn :=
  .code (.cond (.prop (.lit (.ref 0)) "flag") (.prop (.lit (.ref 1)) "comp") (.lit (.num 0)))

/-- The state of `exCompData` after `observe(data)`, the construction of the lazy watcher 0
of `comp = () => data.x`, the construction of the sync watcher 1 of
`() => data.flag ? vm.comp : 0`, and `teardown()` of the lazy watcher 0, which has not been
evaluated. -/
def exCompDown : State :=
  match execAll 8 [.observe (.ref 0) false,
      .newWatcher 0 exReadX noop
        (some { deep := false, user := false, lazy := true, sync := false }) false,
      .newWatcher 0 exReadComp noop
        (some { deep := false, user := false, lazy := false, sync := true }) false]
      exCompData with
  | some s => Watcher.teardown 0 s
  | none => State.empty

/-- The state of `exCompDown` after the write `data.flag = true`. -/
def exCompWritten : State :=
  match execComputed 0 1 "comp" 14 (.propSet 0 "flag" (.bool true)) exCompDown with
  | some (_, s) => s
  | none => State.empty

/-- The state `exData` in a development build with `config.async` off. -/
def exForcedData : State :=
  { exData with env := { production := false, async := false, isServerRendering := false } }

/-- The state of `exForcedData` after `observe(data)` and `new Watcher(vm, () => data.x,
noop)`. -/
def exForced : State :=
  match execAll 6 [.observe (.ref 0) false, .newWatcher 0 exReadX noop none false]
      exForcedData with
  | some s => s
  | none => State.empty

/-- The getter `() => { if (data.x) return 1; throw 'boom' }`. -/
def exThrowLater : Fn :=
  .code (.cond (.prop (.lit (.ref 0)) "x") (.lit (.num 1)) (.throw (.lit (.str "boom"))))

/-- The state of `exDataObserved` after `new Watcher(vm, exThrowLater, noop, { sync: true })`
and `new Watcher(vm, () => data.x, noop)`: both watchers are subscribed to the Dep of `x`. -/
def exTwoSubs : State :=
  match execAll 8 [.newWatcher 0 exThrowLater noop
        (some { deep := false, user := false, lazy := false, sync := true }) false,
      .newWatcher 0 exReadX noop none false] exDataObserved with
  | some s => s
  | none => State.empty

/-- One component, the plain object `{a: 1, b: 2}`, observed, and the plain object
`{flag: true}`; the watcher 0 of `() => flag ? obj.a : obj.b` has been evaluated with the
flag true, the flag has been set to `false` and the watcher evaluated again; then the sync
watcher 1 of `() => obj.a` has been made, whose callback is `v => { obj.b = v }`. -/
def exChooseBusy : State :=
  match execAll 8 [.observe (.ref 0) false,
      .newWatcher 0 (chooseProp 1 "flag" 0 "a" "b") noop none false,
      .propSet 1 "flag" (.bool false),
      .get 0,
      .newWatcher 0 (readProp 0 "a") (.code (.assign (.lit (.ref 0)) "b" (.arg 0)))
        (some { deep := false, user := false, lazy := false, sync := true }) false]
      { State.empty with
        heap := [Obj.plain [("a", .num 1), ("b", .num 2)], Obj.plain [("flag", .bool true)]],
        vms := [{ _watchers := [], _isBeingDestroyed := false, _watcher := none }] } with
  | some s => s
  | none => State.empty

/-- One plain object `{x: 2}` that has been made non-extensible
(`Object.preventExtensions`). -/
def exClosedX : State :=
  exPlainX.modifyObj 0 fun o => { o with extensible := false }

/-- Three plain objects: the empty `obj`, `o1 = {c: 1}` and `o2 = {d: 2}`. -/
def exHolder : State :=
  { State.empty with
    heap := [Obj.plain [], Obj.plain [("c", .num 1)], Obj.plain [("d", .num 2)]] }

/-- The state in which `defineReactive(obj, 'y', 1)` on `exClosedX` ends. -/
def exClosedThrown : State :=
  match defineReactive (exec 1) 0 "y" (some (.num 1)) none false exClosedX with
  | some (_, s) => s
  | none => State.empty

/-- One component, `obj = {x: prev}`, the plain object `prev = {}` and the array
`v = [prev]`. -/
def exPrevData : State :=
  { State.empty with
    heap := [Obj.plain [("x", .ref 1)], Obj.plain [], Obj.array [.ref 1]],
    vms := [{ _watchers := [], _isBeingDestroyed := false, _watcher := none }] }

/-- The state of `exPrevData` after `observe(obj)`. -/
def exPrevObserved : State :=
  match exec 7 (.observe (.ref 0) false) exPrevData with
  | some (_, s) => s
  | none => State.empty

/-- The state of `exPrevObserved` after the write `obj.x = v`. -/
def exPrevWritten : State :=
  match exec 7 (.propSet 0 "x" (.ref 2)) exPrevObserved with
  | some (_, s) => s
  | none => State.empty

/-- The state of `exPrevWritten` after `new Watcher(vm, () => obj.x, noop)`. -/
def exPrevWatched : State :=
  match exec 8 (.newWatcher 0 (.code (.prop (.lit (.ref 0)) "x")) noop none false)
      exPrevWritten with
  | some (_, s) => s
  | none => State.empty

/-- The plain objects `obj = {x: 1}` and `v = { get y () { throw 'boom' }, set y (_) {} }`. -/
def exBoomData : State :=
  { State.empty with
    heap := [Obj.plain [("x", .num 1)],
             { kind := .plain, extensible := true, _isVue := false,
               props := [{ key := "y", enumerable := true, configurable := true,
                           slot := .accessor (some (.code (.throw (.lit (.str "boom")))))
                             (some noop) }],
               elems := [], __ob__ := none, augmented := false }] }

/-- The state of `exBoomData` after `observe(obj)`. -/
def exBoomObserved : State :=
  match exec 7 (.observe (.ref 0) false) exBoomData with
  | some (_, s) => s
  | none => State.empty

/-- The state of `exBoomObserved` after the write `obj.x = v`. -/
def exBoomWritten : State :=
  match exec 9 (.propSet 0 "x" (.ref 1)) exBoomObserved with
  | some (_, s) => s
  | none => State.empty

/-- One component, the plain objects `obj = {}` and `flag = {first: true}`. -/
def exReentData : State :=
  { State.empty with
    heap := [Obj.plain [], Obj.plain [("first", .bool true)]],
    vms := [{ _watchers := [], _isBeingDestroyed := false, _watcher := none }] }

/-- The state of `exReentData` after `defineReactive(obj, 'k', 1)`. -/
def exReentDefined : State :=
  match exec 3 (.defineReactive 0 "k" (some (.num 1)) none false) exReentData with
  | some (_, s) => s
  | none => State.empty

/-- The getter
`() => flag.first ? (obj.k, flag.first = false, obj.k = 2, obj.k) : (obj.k = 3, 7)`. -/
def exReentGetter : Fn :=
  .code (.cond (.prop (.lit (.ref 1)) "first")
    (.seq (.prop (.lit (.ref 0)) "k")
      (.seq (.assign (.lit (.ref 1)) "first" (.lit (.bool false)))
        (.seq (.assign (.lit (.ref 0)) "k" (.lit (.num 2))) (.prop (.lit (.ref 0)) "k"))))
    (.seq (.assign (.lit (.ref 0)) "k" (.lit (.num 3))) (.lit (.num 7))))

/-- The state of `exReentDefined` after `new Watcher(vm, exReentGetter, noop, {sync: true})`. -/
def exReentWatched : State :=
  match exec 20 (.newWatcher 0 exReentGetter noop
      (some { deep := false, user := false, lazy := false, sync := true }) false)
      exReentDefined with
  | some (_, s) => s
  | none => State.empty

/-- The state in which `defineReactive(obj, 'x', v)` on `exBoomData` ends. -/
def exBoomDefined : State :=
  match exec 9 (.defineReactive 0 "x" (some (.ref 1)) none false) exBoomData with
  | some (_, s) => s
  | none => State.empty

/-- One component and the plain objects `obj = {}` and `o1 = {y: 1}`. -/
def exGateData : State :=
  { State.empty with
    heap := [Obj.plain [], Obj.plain [("y", .num 1)]],
    vms := [{ _watchers := [], _isBeingDestroyed := false, _watcher := none }] }

/-- The state of `exGateData` after `toggleObserving(false)` and
`defineReactive(obj, 'x', o1)`. -/
def exGateDefined : State :=
  match exec 3 (.defineReactive 0 "x" (some (.ref 1)) none false)
      (toggleObserving false exGateData) with
  | some (_, s) => s
  | none => State.empty

/-- The state of `exGateDefined` after `toggleObserving(true)` and `observe(o1)`. -/
def exGateObserved : State :=
  match exec 5 (.observe (.ref 1) false) (toggleObserving true exGateDefined) with
  | some (_, s) => s
  | none => State.empty

/-- The state of `exGateObserved` after `new Watcher(vm, () => obj.x, noop)`. -/
def exGateWatched : State :=
  match exec 7 (.newWatcher 0 (.code (.prop (.lit (.ref 0)) "x")) noop none false)
      exGateObserved with
  | some (_, s) => s
  | none => State.empty

/-- The state of `exDataObserved` after
`new Watcher(vm, function () { this.teardown() }, noop)`. -/
def exSelfDown : State :=
  match exec 5 (.newWatcher 0 (.code (.teardown 0)) noop none false) exDataObserved with
  | some (_, s) => s
  | none => State.empty


/-! ## Lemmas on the functions that call no user code -/

@[simp] theorem modifyDep_watchers (s : State) (d : Nat) (f : Dep → Dep) :
    (s.modifyDep d f).watchers = s.watchers := rfl
@[simp] theorem modifyDep_vms (s : State) (d : Nat) (f : Dep → Dep) :
    (s.modifyDep d f).vms = s.vms := rfl
@[simp] theorem modifyDep_deps (s : State) (d : Nat) (f : Dep → Dep) :
    (s.modifyDep d f).deps = s.deps.modify f d := rfl
@[simp] theorem modifyWatcher_watchers (s : State) (w : Nat) (f : Watcher → Watcher) :
    (s.modifyWatcher w f).watchers = s.watchers.modify f w := rfl
@[simp] theorem modifyWatcher_deps (s : State) (w : Nat) (f : Watcher → Watcher) :
    (s.modifyWatcher w f).deps = s.deps := rfl
@[simp] theorem modifyWatcher_vms (s : State) (w : Nat) (f : Watcher → Watcher) :
    (s.modifyWatcher w f).vms = s.vms := rfl
@[simp] theorem modifyVm_watchers (s : State) (v : Nat) (f : Component → Component) :
    (s.modifyVm v f).watchers = s.watchers := rfl
@[simp] theorem modifyVm_deps (s : State) (v : Nat) (f : Component → Component) :
    (s.modifyVm v f).deps = s.deps := rfl
@[simp] theorem modifyVm_vms (s : State) (v : Nat) (f : Component → Component) :
    (s.modifyVm v f).vms = s.vms.modify f v := rfl

@[simp] theorem removeSub_watchers (d w : Nat) (s : State) :
    (Dep.removeSub d w s).watchers = s.watchers := rfl
@[simp] theorem removeSub_vms (d w : Nat) (s : State) :
    (Dep.removeSub d w s).vms = s.vms := rfl

theorem removeSubs_watchers (w : Nat) (ds : List Nat) (s : State) :
    (ds.foldl (fun acc d => Dep.removeSub d w acc) s).watchers = s.watchers := by
  induction ds generalizing s with
  | nil => rfl
  | cons d ds ih => rw [List.foldl_cons, ih, removeSub_watchers]

theorem removeSubs_vms (w : Nat) (ds : List Nat) (s : State) :
    (ds.foldl (fun acc d => Dep.removeSub d w acc) s).vms = s.vms := by
  induction ds generalizing s with
  | nil => rfl
  | cons d ds ih => rw [List.foldl_cons, ih, removeSub_vms]

theorem teardown_of_inactive (w : Nat) (s : State) (wt : Watcher)
    (h : s.watchers[w]? = some wt) (ha : wt.active = false) : Watcher.teardown w s = s := by
  simp [Watcher.teardown, h, ha]

theorem teardown_lookup (w : Nat) (s : State) (wt : Watcher)
    (h : s.watchers[w]? = some wt) :
    (Watcher.teardown w s).watchers[w]? = some { wt with active := false } := by
  unfold Watcher.teardown
  simp only [h]
  split
  · simp only [modifyWatcher_watchers, removeSubs_watchers, List.getElem?_modify_eq]
    split <;> (try split) <;> simp [h]
  · rename_i ha
    simp only [Bool.not_eq_true] at ha
    rw [h]
    cases wt; simp_all

theorem teardown_idem (w : Nat) (s : State) :
    Watcher.teardown w (Watcher.teardown w s) = Watcher.teardown w s := by
  cases h : s.watchers[w]? with
  | none => simp [Watcher.teardown, h]
  | some wt => exact teardown_of_inactive w _ _ (teardown_lookup w s wt h) rfl

@[simp] theorem removeSub_deps (d w : Nat) (s : State) :
    (Dep.removeSub d w s).deps = s.deps.modify (fun x => { x with subs := remove x.subs w }) d :=
  rfl

/-- Unsubscribing `w` from the Deps `ds` erases `w` from the subs of `d` once per occurrence
of `d` in `ds`. -/
theorem removeSubs_deps (w : Nat) (ds : List Nat) (s : State) (d : Nat) :
    (ds.foldl (fun acc d => Dep.removeSub d w acc) s).deps[d]? =
      (s.deps[d]?).map fun dep =>
        { dep with subs := (fun l => remove l w)^[ds.count d] dep.subs } := by
  induction ds generalizing s with
  | nil => cases h : s.deps[d]? <;> simp [h]
  | cons d0 ds ih =>
    rw [List.foldl_cons, ih, removeSub_deps, List.getElem?_modify]
    by_cases hd : d0 = d
    · subst hd
      cases h : s.deps[d0]? with
      | none => simp
      | some dep => simp [List.count_cons, Function.iterate_succ]
    · cases h : s.deps[d]? with
      | none => simp
      | some dep => simp [hd, List.count_cons]

theorem count_remove_iterate (w : Nat) (k : Nat) (l : List Nat) :
    ((fun l => remove l w)^[k] l).count w = l.count w - k := by
  induction k generalizing l with
  | zero => simp
  | succ k ih =>
    rw [Function.iterate_succ, Function.comp_apply, ih]
    simp only [remove, List.count_erase_self]
    omega

theorem remove_eq_filter (w : Nat) (l : List Nat) (h : l.count w ≤ 1) :
    remove l w = l.filter fun x => decide (x ≠ w) := by
  induction l with
  | nil => rfl
  | cons a l ih =>
    by_cases ha : a = w
    · subst ha
      have h0 : l.count a = 0 := by
        simp only [List.count_cons_self] at h
        omega
      have hn : a ∉ l := List.count_eq_zero.mp h0
      simp only [remove, List.erase_cons_head, ne_eq, not_true_eq_false, decide_False,
        Bool.false_eq_true, not_false_eq_true, List.filter_cons_of_neg]
      symm
      rw [List.filter_eq_self]
      intro x hx
      simp only [decide_not, Bool.not_eq_eq_eq_not, Bool.not_true, decide_eq_false_iff_not]
      rintro rfl
      exact hn hx
    · have h1 : l.count w ≤ 1 := by
        rw [List.count_cons_of_ne (Ne.symm ha)] at h
        exact h
      have := ih h1
      simp only [remove] at this ⊢
      rw [List.erase_cons_tail (by simpa using ha), this]
      simp [ha]

/-- After `teardown` of an active watcher whose vm is not being destroyed, the watcher is
gone from `vm._watchers` and from the subs of every Dep in its `deps`. -/
theorem teardown_unsubscribes (s : State) (w : Nat) (wt : Watcher) (vm : Component)
    (hw : s.watchers[w]? = some wt) (ha : wt.active = true)
    (hvm : s.vms[wt.vm]? = some vm) (hd : vm._isBeingDestroyed = false)
    (h1 : vm._watchers.count w ≤ 1)
    (h2 : ∀ d ∈ wt.deps, ∀ dep, s.deps[d]? = some dep → dep.subs.count w ≤ 1) :
    (∃ vm', (Watcher.teardown w s).vms[wt.vm]? = some vm' ∧ w ∉ vm'._watchers ∧
        vm'._watchers = vm._watchers.filter fun x => decide (x ≠ w)) ∧
    (∃ wt', (Watcher.teardown w s).watchers[w]? = some wt' ∧ wt'.deps = wt.deps ∧
        wt'.active = false) ∧
    (∀ d ∈ wt.deps, ∀ dep', (Watcher.teardown w s).deps[d]? = some dep' → w ∉ dep'.subs) := by
  refine ⟨?_, ⟨_, teardown_lookup w s wt hw, rfl, rfl⟩, ?_⟩
  · refine ⟨{ vm with _watchers := remove vm._watchers w }, ?_, ?_, ?_⟩
    · simp only [Watcher.teardown, hw, ha, hvm, hd, if_true, modifyWatcher_vms, removeSubs_vms,
        Bool.not_false, modifyVm_vms, List.getElem?_modify_eq, Option.map_some']
      simp [hd]
    · simp only [remove_eq_filter w _ h1]
      simp
    · exact remove_eq_filter w _ h1
  · intro d hdm dep' hdep'
    have hdeps : (Watcher.teardown w s).deps[d]? =
        (s.deps[d]?).map fun dep =>
          { dep with subs := (fun l => remove l w)^[wt.deps.reverse.count d] dep.subs } := by
      simp only [Watcher.teardown, hw, ha, hvm, hd, if_true, modifyWatcher_deps]
      rw [removeSubs_deps]
      rfl
    rw [hdeps] at hdep'
    cases hs : s.deps[d]? with
    | none => simp [hs] at hdep'
    | some dep =>
      simp only [hs, Option.map_some', Option.some.injEq] at hdep'
      subst hdep'
      have hc : 0 < wt.deps.reverse.count d := by
        rw [List.count_reverse]
        exact List.count_pos_iff.mpr hdm
      have := count_remove_iterate w (wt.deps.reverse.count d) dep.subs
      have h3 := h2 d hdm dep hs
      apply List.count_eq_zero.mp
      simp only
      omega


/-! ## Every call respects a closed relation -/

section closed
variable {R : State → State → Prop} (hR : Closed R)
include hR

theorem andThen_closed {r : Res} {k : Val → State → Res} {s : State} {c : Completion}
    {s' : State} (h : andThen r k = some (c, s'))
    (hr : ∀ c1 s1, r = some (c1, s1) → R s s1)
    (hk : ∀ v s1, r = some (.ret v, s1) → k v s1 = some (c, s') → R s1 s') : R s s' := by
  unfold andThen at h
  split at h
  · rename_i v s1
    exact hR.trans _ _ _ (hr _ _ rfl) (hk v s1 rfl h)
  · rename_i e s1
    simp only [Option.some.injEq, Prod.mk.injEq] at h
    obtain ⟨-, rfl⟩ := h
    exact hr _ _ rfl
  · exact absurd h (by simp)

theorem andThenOb_closed {r : Res} {k : Option Nat → State → Res} {s : State} {c : Completion}
    {s' : State} (h : andThenOb r k = some (c, s'))
    (hr : ∀ c1 s1, r = some (c1, s1) → R s s1)
    (hk : ∀ v s1, r = some (.retOb v, s1) → k v s1 = some (c, s') → R s1 s') : R s s' := by
  unfold andThenOb at h
  split at h
  · rename_i v s1
    exact hR.trans _ _ _ (hr _ _ rfl) (hk v s1 rfl h)
  · rename_i e s1
    simp only [Option.some.injEq, Prod.mk.injEq] at h
    obtain ⟨-, rfl⟩ := h
    exact hr _ _ rfl
  · exact absurd h (by simp)

omit hR in
theorem andThen_base {r : Res} {k : Val → State → Res} {s : State} {c : Completion}
    {s' : State} (h : andThen r k = some (c, s'))
    (hr : ∀ e s1, r = some (.thrown e, s1) → R s s1)
    (hk : ∀ v s1, r = some (.ret v, s1) → k v s1 = some (c, s') → R s s') : R s s' := by
  unfold andThen at h
  split at h
  · rename_i v s1
    exact hk v s1 rfl h
  · rename_i e s1
    simp only [Option.some.injEq, Prod.mk.injEq] at h
    obtain ⟨-, rfl⟩ := h
    exact hr _ _ rfl
  · exact absurd h (by simp)

omit hR in
theorem ret_closed {x : Completion} {s s1 : State} {c : Completion} {s' : State}
    (h : some (x, s1) = some (c, s')) (hr : R s s1) : R s s' := by
  cases h
  exact hr

variable {call : Call}
  (hcall : ∀ t s c s', call t s = some (c, s') → TaskOK s t → R s s')
include hcall

theorem propGet_closed {a : Addr} {k : Key} {s : State} {c : Completion} {s' : State}
    (h : propGet call a k s = some (c, s')) : R s s' := by
  unfold propGet at h
  split at h
  · exact absurd h (by simp)
  · split at h
    · exact ret_closed h (hR.refl _)
    · split at h
      · exact ret_closed h (hR.refl _)
      · exact hcall _ _ _ _ h trivial
      · exact ret_closed h (hR.refl _)

theorem propSet_closed {a : Addr} {k : Key} {v : Val} {s : State} {c : Completion}
    {s' : State} (h : propSet call a k v s = some (c, s')) : R s s' := by
  unfold propSet at h
  split at h
  · exact absurd h (by simp)
  · split at h
    · split at h
      · exact ret_closed h (hR.setProps s a fun ps => ps ++ _)
      · exact ret_closed h (hR.refl _)
    · split at h
      · split at h
        · exact ret_closed h (hR.setProps s a fun ps => ps.map _)
        · exact ret_closed h (hR.refl _)
      · exact hcall _ _ _ _ h trivial
      · exact ret_closed h (hR.refl _)

theorem evalCode_closed {args : List Val} (e : Code) {s : State} {c : Completion}
    {s' : State} (h : evalCode call args e s = some (c, s')) : R s s' := by
  induction e generalizing s c s' with
  | lit v => exact ret_closed h (hR.refl _)
  | arg i => exact ret_closed h (hR.refl _)
  | prop o k ih =>
    simp only [evalCode] at h
    refine andThen_closed hR h (fun c1 s1 h1 => ih h1) ?_
    intro v s1 _ h2
    split at h2
    · exact hcall _ _ _ _ h2 trivial
    · exact ret_closed h2 (hR.refl _)
    · exact ret_closed h2 (hR.refl _)
    · exact ret_closed h2 (hR.refl _)
  | assign o k e iho ihe =>
    simp only [evalCode] at h
    refine andThen_closed hR h (fun c1 s1 h1 => iho h1) ?_
    intro ov s1 _ h2
    refine andThen_closed hR h2 (fun c1 s1 h1 => ihe h1) ?_
    intro v s2 _ h3
    split at h3
    · refine andThen_closed hR h3 (fun c1 s1 h1 => hcall _ _ _ _ h1 trivial) ?_
      intro _ s3 _ h4
      exact ret_closed h4 (hR.refl _)
    · exact ret_closed h3 (hR.refl _)
    · exact ret_closed h3 (hR.refl _)
    · exact ret_closed h3 (hR.refl _)
  | cond c0 t e ihc iht ihe =>
    simp only [evalCode] at h
    refine andThen_closed hR h (fun c1 s1 h1 => ihc h1) ?_
    intro cv s1 _ h2
    split at h2
    · exact iht h2
    · exact ihe h2
  | seq a b iha ihb =>
    simp only [evalCode] at h
    exact andThen_closed hR h (fun c1 s1 h1 => iha h1) (fun _ s1 _ h2 => ihb h2)
  | teardown w => exact ret_closed h (hR.teardown _ _)
  | throw e ih =>
    simp only [evalCode] at h
    refine andThen_closed hR h (fun c1 s1 h1 => ih h1) ?_
    intro v s1 _ h2
    exact ret_closed h2 (hR.refl _)

omit hcall in
theorem defineProperty_closed {a : Addr} {p : Property} {s : State} {c : Completion}
    {s' : State} (h : defineProperty a p s = some (c, s')) : R s s' := by
  unfold defineProperty at h
  split at h
  · exact absurd h (by simp)
  · split at h
    · split at h
      · exact ret_closed h (hR.setProps s a fun ps => ps.map _)
      · exact ret_closed h (hR.refl _)
    · split at h
      · exact ret_closed h (hR.setProps s a fun ps => ps ++ _)
      · exact ret_closed h (hR.refl _)

theorem dependArrayLoop_closed {a : Addr} (is : List Nat) {s : State} {c : Completion}
    {s' : State} (h : dependArrayLoop call a is s = some (c, s')) : R s s' := by
  induction is generalizing s with
  | nil => exact ret_closed h (hR.refl _)
  | cons i is ih =>
    simp only [dependArrayLoop] at h
    split at h
    · exact absurd h (by simp)
    · split at h
      · split at h
        · exact absurd h (by simp)
        · rename_i eo _
          have h1 : R s (match eo.__ob__ with
              | some ob =>
                match s.observers[ob]? with
                | some o => Dep.depend o.dep s
                | none => s
              | none => s) := by
            split
            · split
              · exact hR.depend _ _
              · exact hR.refl _
            · exact hR.refl _
          split at h
          · refine hR.trans _ _ _ h1 (andThen_closed hR h ?_ ?_)
            · intro c1 s1 hc1
              exact hcall _ _ _ _ hc1 trivial
            · intro _ s2 _ h2
              exact ih h2
          · exact hR.trans _ _ _ h1 (ih h)
      · exact ih h

theorem dependArray_closed {a : Addr} {s : State} {c : Completion}
    {s' : State} (h : dependArray call a s = some (c, s')) : R s s' := by
  unfold dependArray at h
  split at h
  · exact absurd h (by simp)
  · exact dependArrayLoop_closed hR hcall _ h

theorem reactiveGetter_closed {cid : Nat} {s : State} {c : Completion}
    {s' : State} (h : reactiveGetter call cid s = some (c, s')) : R s s' := by
  unfold reactiveGetter at h
  split at h
  · exact absurd h (by simp)
  · rename_i cell _
    refine andThen_closed hR h ?_ ?_
    · intro c1 s1 h1
      unfold Cell.read at h1
      split at h1
      · exact hcall _ _ _ _ h1 trivial
      · exact ret_closed h1 (hR.refl _)
    · intro value s1 _ h2
      split at h2
      · exact ret_closed h2 (hR.refl _)
      · have h12 := hR.depend s1
        dsimp only at h2
        split at h2
        · exact absurd h2 (by simp)
        · split at h2
          · exact ret_closed h2 (h12 _)
          · split at h2
            · exact absurd h2 (by simp)
            · rename_i o _
              have h13 := hR.trans _ _ _ (h12 cell.dep) (hR.depend (Dep.depend cell.dep s1) o.dep)
              split at h2
              · split at h2
                · exact absurd h2 (by simp)
                · split at h2
                  · refine hR.trans _ _ _ h13 (andThen_closed hR h2 ?_ ?_)
                    · intro c1 s3 hc1
                      exact hcall _ _ _ _ hc1 trivial
                    · intro _ s4 _ h4
                      exact ret_closed h4 (hR.refl _)
                  · exact ret_closed h2 h13
              · exact ret_closed h2 h13

theorem reactiveSetter_closed {cid : Nat} {newVal : Val} {s : State} {c : Completion}
    {s' : State} (h : reactiveSetter call cid newVal s = some (c, s')) : R s s' := by
  unfold reactiveSetter at h
  split at h
  · exact absurd h (by simp)
  · refine andThen_closed hR h ?_ ?_
    · intro c1 s1 h1
      unfold Cell.read at h1
      split at h1
      · exact hcall _ _ _ _ h1 trivial
      · exact ret_closed h1 (hR.refl _)
    · intro value s1 _ h2
      split at h2
      · exact ret_closed h2 (hR.refl _)
      · refine andThen_closed hR h2 ?_ ?_
        · intro c1 s2 h3
          split at h3
          · exact hR.trans _ _ _ (hR.log _ _ (by simp) (by simp)) (hcall _ _ _ _ h3 trivial)
          · exact ret_closed h3 (hR.refl _)
        · intro _ s2 _ h3
          split at h3
          · exact ret_closed h3 (hR.refl _)
          · refine andThen_closed hR h3 ?_ ?_
            · intro c1 s3 h4
              split at h4
              · exact hcall _ _ _ _ h4 trivial
              · exact ret_closed h4 (hR.setCellVal _ _ _)
            · intro _ s3 _ h4
              refine andThenOb_closed hR h4 ?_ ?_
              · intro c1 s4 h5
                split at h5
                · exact ret_closed h5 (hR.refl _)
                · exact hcall _ _ _ _ h5 trivial
              · intro ob s4 _ h5
                exact hR.trans _ _ _ (hR.setCellChildOb _ _ _) (hcall _ _ _ _ h5 trivial)

theorem walk_closed {a : Addr} (ks : List Key) {s : State} {c : Completion}
    {s' : State} (h : walk call a ks s = some (c, s')) : R s s' := by
  induction ks generalizing s with
  | nil => exact ret_closed h (hR.refl _)
  | cons k ks ih =>
    simp only [walk] at h
    exact andThen_closed hR h (fun c1 s1 h1 => hcall _ _ _ _ h1 trivial) (fun _ s1 _ h2 => ih h2)

theorem observeArray_closed {a : Addr} (is : List Nat) {s : State} {c : Completion}
    {s' : State} (h : observeArray call a is s = some (c, s')) : R s s' := by
  induction is generalizing s with
  | nil => exact ret_closed h (hR.refl _)
  | cons i is ih =>
    simp only [observeArray] at h
    split at h
    · exact absurd h (by simp)
    · exact andThenOb_closed hR h (fun c1 s1 h1 => hcall _ _ _ _ h1 trivial)
        (fun _ s1 _ h2 => ih h2)

omit hcall in
theorem Observer_init_closed {a : Addr} {s : State} {obj : Obj} (ho : s.heap[a]? = some obj)
    (hob : obj.__ob__ = none) : R s (Observer.init a s) := by
  unfold Observer.init
  exact hR.trans _ _ _ (hR.depNew s) (hR.trans _ _ _ (hR.allocObserver _ _)
    (hR.setOb _ a obj _ ho hob))

theorem Observer_new_closed {a : Addr} {s : State} {obj : Obj} (ho : s.heap[a]? = some obj)
    (hob : obj.__ob__ = none) {c : Completion} {s' : State}
    (h : Observer.new call a s = some (c, s')) : R s s' := by
  unfold Observer.new at h
  dsimp only at h
  have h3 := Observer_init_closed hR ho hob
  split at h
  · exact absurd h (by simp)
  · split at h
    · refine hR.trans _ _ _ h3 (hR.trans _ _ _ (hR.setAugmented _ a) ?_)
      refine andThen_closed hR h (fun c1 s1 h1 => observeArray_closed hR hcall _ h1) ?_
      intro _ s5 _ h5
      exact ret_closed h5 (hR.refl _)
    · refine hR.trans _ _ _ h3 ?_
      refine andThen_closed hR h (fun c1 s1 h1 => walk_closed hR hcall _ h1) ?_
      intro _ s5 _ h5
      exact ret_closed h5 (hR.refl _)

theorem observe_closed {value : Val} {asRootData : Bool} {s : State} {c : Completion}
    {s' : State} (h : observe call value asRootData s = some (c, s')) : R s s' := by
  unfold observe at h
  split at h
  · split at h
    · exact absurd h (by simp)
    · rename_i obj ho
      split at h
      · exact ret_closed h (hR.refl _)
      · refine andThenOb_closed hR h ?_ ?_
        · intro c1 s1 h1
          split at h1
          · exact ret_closed h1 (hR.refl _)
          · rename_i hob
            split at h1
            · exact Observer_new_closed hR hcall ho hob h1
            · exact ret_closed h1 (hR.refl _)
        · intro ob s1 _ h2
          split at h2
          · split at h2
            · exact ret_closed h2 (hR.vmCount _ _)
            · exact ret_closed h2 (hR.refl _)
          · exact ret_closed h2 (hR.refl _)
  · exact ret_closed h (hR.refl _)

theorem defineReactive_closed {a : Addr} {key : Key} {val : Option Val}
    {customSetter : Option Fn} {shallow : Bool} {s : State} {c : Completion} {s' : State}
    (h : defineReactive call a key val customSetter shallow s = some (c, s')) : R s s' := by
  unfold defineReactive at h
  dsimp only at h
  split at h
  · exact absurd h (by simp)
  · split at h
    · exact ret_closed h (hR.depNew s)
    · refine hR.trans _ _ _ (hR.depNew s) (andThen_closed hR h ?_ ?_)
      · intro c1 s1 h1
        split at h1
        · split at h1
          · exact hcall _ _ _ _ h1 trivial
          · exact ret_closed h1 (hR.refl _)
        · exact ret_closed h1 (hR.refl _)
      · intro v s2 _ h2
        refine andThenOb_closed hR h2 ?_ ?_
        · intro c1 s3 h3
          split at h3
          · exact ret_closed h3 (hR.refl _)
          · exact hcall _ _ _ _ h3 trivial
        · intro childOb s3 _ h3
          exact hR.trans _ _ _ (hR.allocCell s3 _) (defineProperty_closed hR h3)

theorem notifyLoop_closed (ws : List Nat) {s : State} {c : Completion}
    {s' : State} (h : Dep.notifyLoop call ws s = some (c, s')) : R s s' := by
  induction ws generalizing s with
  | nil => exact ret_closed h (hR.refl _)
  | cons w ws ih =>
    simp only [Dep.notifyLoop] at h
    exact andThen_closed hR h (fun c1 s1 h1 => hcall _ _ _ _ h1 trivial) (fun _ s1 _ h2 => ih h2)

theorem notify_closed {d : Nat} {s : State} {c : Completion}
    {s' : State} (h : Dep.notify call d s = some (c, s')) : R s s' := by
  unfold Dep.notify at h
  split at h
  · exact absurd h (by simp)
  · exact hR.trans _ _ _ (hR.log s _ (by simp) (by simp)) (notifyLoop_closed hR hcall _ h)

theorem traverseItems_closed (vs : List Val) {s : State} {c : Completion}
    {s' : State} (h : traverseItems call vs s = some (c, s')) : R s s' := by
  induction vs generalizing s with
  | nil => exact ret_closed h (hR.refl _)
  | cons v vs ih =>
    simp only [traverseItems] at h
    exact andThen_closed hR h (fun c1 s1 h1 => hcall _ _ _ _ h1 trivial) (fun _ s1 _ h2 => ih h2)

theorem traverseKeys_closed {a : Addr} (ks : List Key) {s : State} {c : Completion}
    {s' : State} (h : traverseKeys call a ks s = some (c, s')) : R s s' := by
  induction ks generalizing s with
  | nil => exact ret_closed h (hR.refl _)
  | cons k ks ih =>
    simp only [traverseKeys] at h
    refine andThen_closed hR h (fun c1 s1 h1 => hcall _ _ _ _ h1 trivial) ?_
    intro v s1 _ h2
    exact andThen_closed hR h2 (fun c1 s1 h1 => hcall _ _ _ _ h1 trivial)
      (fun _ s1 _ h3 => ih h3)

theorem traverse_closed {val : Val} {s : State} {c : Completion}
    {s' : State} (h : traverse call val s = some (c, s')) : R s s' := by
  unfold traverse at h
  split at h
  · split at h
    · exact absurd h (by simp)
    · split at h
      · exact ret_closed h (hR.refl _)
      · dsimp only at h
        rename_i a _ _ _ _
        have h1 : R s { s with seenObjects := a :: s.seenObjects } :=
          hR.sched s s.queue s.has s.deferred s.current s.waiting s.flushing _
        split at h
        · exact hR.trans _ _ _ h1 (traverseItems_closed hR hcall _ h)
        · exact hR.trans _ _ _ h1 (traverseKeys_closed hR hcall _ h)
  · exact ret_closed h (hR.refl _)

theorem queueWatcher_closed {w : Nat} {s : State} {c : Completion}
    {s' : State} (h : queueWatcher call w s = some (c, s')) : R s s' := by
  unfold queueWatcher at h
  split at h
  · exact absurd h (by simp)
  · rename_i wt _
    dsimp only at h
    have h0 : R s (s.log (.queue w)) := hR.log s _ (by simp) (by simp)
    split at h
    · exact ret_closed h h0
    · have h2 : ∀ q d wa, R s { s.log (.queue w) with
          has := wt.id :: (s.log (.queue w)).has, queue := q, deferred := d, waiting := wa } :=
        fun q d wa => hR.trans _ _ _ h0 (hR.sched _ q _ d _ wa _ _)
      split at h
      · split at h
        · split at h
          · exact hR.trans _ _ _ (h2 _ _ true) (hcall _ _ _ _ h trivial)
          · exact ret_closed h (h2 _ _ true)
        · exact ret_closed h (h2 _ _ _)
      · split at h
        · split at h
          · split at h
            · exact hR.trans _ _ _ (h2 _ _ true) (hcall _ _ _ _ h trivial)
            · exact ret_closed h (h2 _ _ true)
          · exact ret_closed h (h2 _ _ _)
        · split at h
          · split at h
            · exact hR.trans _ _ _ (h2 _ _ true) (hcall _ _ _ _ h trivial)
            · exact ret_closed h (h2 _ _ true)
          · exact ret_closed h (h2 _ _ _)

theorem flushLoop_closed {s : State} {c : Completion}
    {s' : State} (h : flushLoop call s = some (c, s')) : R s s' := by
  unfold flushLoop at h
  split at h
  · exact ret_closed h (hR.sched s _ _ _ _ _ _ _)
  · dsimp only at h
    rename_i w rest _
    have h1 : R s { s with queue := rest, current := watcherId s w, has := s.has.erase (watcherId s w) } :=
      hR.sched s _ _ _ _ _ _ _
    exact hR.trans _ _ _ h1 (andThen_closed hR h (fun c1 s1 h1 => hcall _ _ _ _ h1 trivial)
      (fun _ s1 _ h2 => hcall _ _ _ _ h2 trivial))

theorem flushSchedulerQueue_closed {s : State} {c : Completion}
    {s' : State} (h : flushSchedulerQueue call s = some (c, s')) : R s s' := by
  unfold flushSchedulerQueue at h
  have h1 : R s { s with flushing := true, current := 0, queue := sortById s s.queue } :=
    hR.sched s _ _ _ _ _ _ _
  exact hR.trans _ _ _ h1 (hcall _ _ _ _ h trivial)

theorem getFinally_closed {w : Nat} {deep : Bool} {value : Val} {s : State} {c : Completion}
    {s' : State} (h : Watcher.getFinally call w deep value s = some (c, s')) : R s s' := by
  unfold Watcher.getFinally at h
  refine andThen_closed hR h ?_ ?_
  · intro c1 s4 h4
    split at h4
    · refine andThen_closed hR h4 (fun c1 s1 h1 => hcall _ _ _ _ h1 trivial) ?_
      intro _ s5 _ h5
      exact ret_closed h5 (hR.sched s5 _ _ _ _ _ _ _)
    · exact ret_closed h4 (hR.refl _)
  · intro _ s4 _ h4
    exact ret_closed h4 (hR.trans _ _ _ (hR.popTarget s4) (hR.cleanupDeps _ w))

theorem Watcher_get_closed {w : Nat} {s : State} (hok : TaskOK s (.get w)) {c : Completion}
    {s' : State} (h : Watcher.get call w s = some (c, s')) : R s s' := by
  unfold Watcher.get at h
  obtain ⟨wt0, hw0, hact⟩ := hok
  split at h
  · exact absurd h (by simp)
  · rename_i wt hw
    rw [hw0] at hw
    cases hw
    have h1 := hR.logGetter s w wt0 hw0 hact
    split at h
    · rename_i value s1 hc
      have h2 : R s s1 := hR.trans _ _ _ h1 (hcall _ _ _ _ hc trivial)
      exact hR.trans _ _ _ h2 (getFinally_closed hR hcall h)
    · rename_i e s1 hc
      have h2 : R s s1 := hR.trans _ _ _ h1 (hcall _ _ _ _ hc trivial)
      split at h
      · exact hR.trans _ _ _ (hR.trans _ _ _ h2 (hR.log _ _ (by simp) (by simp)))
          (getFinally_closed hR hcall h)
      · refine hR.trans _ _ _ h2 (andThen_closed hR h ?_ ?_)
        · intro c1 s2 hf
          exact getFinally_closed hR hcall hf
        · intro _ s2 _ h3
          exact ret_closed h3 (hR.refl _)
    · exact absurd h (by simp)

theorem Watcher_run_closed {w : Nat} {s : State} {c : Completion}
    {s' : State} (h : Watcher.run call w s = some (c, s')) : R s s' := by
  unfold Watcher.run at h
  split at h
  · exact absurd h (by simp)
  · rename_i wt hw
    split at h
    · rename_i hact
      refine andThen_base h (fun e s1 h1 => hcall _ _ _ _ h1 ⟨wt, hw, hact⟩) ?_
      intro value s1 hget h2
      have h01 : R s s1 := hcall _ _ _ _ hget ⟨wt, hw, hact⟩
      split at h2
      · exact absurd h2 (by simp)
      · rename_i wt1 _
        split at h2
        · dsimp only at h2
          have hcb := hR.cb s s1 w wt value wt1.value hw hact h01
          refine hR.trans _ _ _ hcb ?_
          split at h2
          · split at h2
            · rename_i e s3 hc
              exact ret_closed h2 (hR.trans _ _ _ (hcall _ _ _ _ hc trivial)
                (hR.log _ _ (by simp) (by simp)))
            · refine andThen_closed hR h2 (fun c1 s3 h3 => hcall _ _ _ _ h3 trivial) ?_
              intro _ s3 _ h3
              exact ret_closed h3 (hR.refl _)
          · refine andThen_closed hR h2 (fun c1 s3 h3 => hcall _ _ _ _ h3 trivial) ?_
            intro _ s3 _ h3
            exact ret_closed h3 (hR.refl _)
        · exact ret_closed h2 h01
    · exact ret_closed h (hR.refl _)

theorem Watcher_update_closed {w : Nat} {s : State} {c : Completion}
    {s' : State} (h : Watcher.update call w s = some (c, s')) : R s s' := by
  unfold Watcher.update at h
  split at h
  · exact absurd h (by simp)
  · dsimp only at h
    have h0 : R s (s.log (.update w)) := hR.log s _ (by simp) (by simp)
    split at h
    · exact ret_closed h (hR.trans _ _ _ h0
        (hR.setValue _ w (fun x => x.value) fun _ => true))
    · split at h
      · exact hR.trans _ _ _ h0 (hcall _ _ _ _ h trivial)
      · exact hR.trans _ _ _ h0 (hcall _ _ _ _ h trivial)

theorem Watcher_evaluate_closed {w : Nat} {s : State} (hok : TaskOK s (.evaluate w))
    {c : Completion} {s' : State} (h : Watcher.evaluate call w s = some (c, s')) : R s s' := by
  unfold Watcher.evaluate at h
  refine andThen_closed hR h (fun c1 s1 h1 => hcall _ _ _ _ h1 hok) ?_
  intro value s1 _ h2
  exact ret_closed h2 (hR.setValue _ w (fun _ => value) fun _ => false)

omit hcall in
theorem Watcher_init_closed (vm : Nat) (expOrFn cb : Fn) (options : Option WatcherOptions)
    (isRenderWatcher : Bool) (s : State) :
    R s (Watcher.init vm expOrFn cb options isRenderWatcher s) := by
  unfold Watcher.init
  dsimp only
  have h1 : R s (if isRenderWatcher = true then
      s.modifyVm vm fun x => { x with _watcher := some s.watchers.length } else s) := by
    split
    · exact hR.setVm _ _ _
    · exact hR.refl _
  exact hR.trans _ _ _ h1 (hR.trans _ _ _ (hR.setVm _ _ _) (hR.allocWatcher _ _ rfl rfl ⟨rfl, rfl, rfl, rfl⟩))

omit hR hcall in
theorem Watcher_init_lookup (vm : Nat) (expOrFn cb : Fn) (options : Option WatcherOptions)
    (isRenderWatcher : Bool) (s : State) :
    ∃ wt, (Watcher.init vm expOrFn cb options isRenderWatcher s).watchers[s.watchers.length]?
      = some wt ∧ wt.active = true := by
  unfold Watcher.init
  dsimp only
  have hlen : (if isRenderWatcher = true then
      s.modifyVm vm fun x => { x with _watcher := some s.watchers.length } else s).watchers
      = s.watchers := by
    split <;> rfl
  simp only [modifyVm_watchers, hlen]
  simp

theorem Watcher_new_closed {vm : Nat} {expOrFn cb : Fn} {options : Option WatcherOptions}
    {isRenderWatcher : Bool} {s : State} {c : Completion} {s' : State}
    (h : Watcher.new call vm expOrFn cb options isRenderWatcher s = some (c, s')) :
    R s s' := by
  unfold Watcher.new at h
  dsimp only at h
  have h3 := Watcher_init_closed hR vm expOrFn cb options isRenderWatcher s
  split at h
  · exact ret_closed h h3
  · refine hR.trans _ _ _ h3 (andThen_closed hR h ?_ ?_)
    · intro c1 s1 hg
      exact hcall _ _ _ _ hg (Watcher_init_lookup vm expOrFn cb options isRenderWatcher s)
    · intro value s4 _ h4
      exact ret_closed h4 (hR.setValue _ _ (fun _ => value) fun x => x.dirty)

theorem callFn_closed {f : Fn} {args : List Val} {s : State} {c : Completion} {s' : State}
    (h : callFn call f args s = some (c, s')) : R s s' := by
  unfold callFn at h
  have h0 : R s (s.log (.call f args)) := hR.log s _ (by simp) (by simp)
  split at h
  · exact hR.trans _ _ _ h0 (evalCode_closed hR hcall _ h)
  · exact hR.trans _ _ _ h0 (reactiveGetter_closed hR hcall h)
  · exact hR.trans _ _ _ h0 (reactiveSetter_closed hR hcall h)

theorem dispatch_closed {t : Task} {s : State} (hok : TaskOK s t) {c : Completion}
    {s' : State} (h : dispatch call t s = some (c, s')) : R s s' := by
  cases t with
  | callFn f args => exact callFn_closed hR hcall h
  | propGet o k => exact propGet_closed hR hcall h
  | propSet o k v => exact propSet_closed hR hcall h
  | observe value asRootData => exact observe_closed hR hcall h
  | defineReactive obj key val customSetter shallow => exact defineReactive_closed hR hcall h
  | dependArray value => exact dependArray_closed hR hcall h
  | traverse val => exact traverse_closed hR hcall h
  | notify dep => exact notify_closed hR hcall h
  | update w => exact Watcher_update_closed hR hcall h
  | run w => exact Watcher_run_closed hR hcall h
  | get w => exact Watcher_get_closed hR hcall hok h
  | evaluate w => exact Watcher_evaluate_closed hR hcall hok h
  | newWatcher vm expOrFn cb options isRenderWatcher => exact Watcher_new_closed hR hcall h
  | queueWatcher w => exact queueWatcher_closed hR hcall h
  | flushSchedulerQueue => exact flushSchedulerQueue_closed hR hcall h
  | flushLoop => exact flushLoop_closed hR hcall h

omit hcall in
/-- Every call of the interpreter respects a closed relation. -/
theorem exec_closed (n : Nat) : ∀ (t : Task) (s : State) (c : Completion) (s' : State),
    exec n t s = some (c, s') → TaskOK s t → R s s' := by
  induction n with
  | zero => intro t s c s' h; exact absurd h (by simp [exec])
  | succ n ih =>
    intro t s c s' h hok
    exact dispatch_closed hR ih hok h

end closed

/-! ## Frame equations and the attached Observer -/

/-- Unsubscribing changes the Deps only. -/
theorem removeSubs_eq (w : Nat) (ds : List Nat) (s : State) :
    ds.foldl (fun acc d => Dep.removeSub d w acc) s =
      { s with deps := (ds.foldl (fun acc d => Dep.removeSub d w acc) s).deps } := by
  induction ds generalizing s with
  | nil => rfl
  | cons d ds ih =>
    rw [List.foldl_cons, ih]
    rfl

/-- `teardown` changes the Deps, the watchers and the vms only. -/
theorem teardown_eq (w : Nat) (s : State) :
    Watcher.teardown w s =
      { s with deps := (Watcher.teardown w s).deps, watchers := (Watcher.teardown w s).watchers,
               vms := (Watcher.teardown w s).vms } := by
  unfold Watcher.teardown
  split
  · rfl
  · split
    · dsimp only
      split
      · split
        · rw [removeSubs_eq]; rfl
        · rw [removeSubs_eq]; rfl
      · rw [removeSubs_eq]; rfl
    · rfl

/-- `addDep` changes the Deps and the watchers only. -/
theorem addDep_eq (w d : Nat) (s : State) :
    Watcher.addDep w d s =
      { s with deps := (Watcher.addDep w d s).deps, watchers := (Watcher.addDep w d s).watchers } := by
  unfold Watcher.addDep
  split
  · dsimp only
    split
    · rfl
    · split <;> rfl
  · rfl

/-- `depend` changes the Deps and the watchers only. -/
theorem depend_eq (d : Nat) (s : State) :
    Dep.depend d s =
      { s with deps := (Dep.depend d s).deps, watchers := (Dep.depend d s).watchers } := by
  unfold Dep.depend
  split
  · exact addDep_eq _ _ _
  · rfl

theorem cleanupFold_eq (w : Nat) (ids : List Nat) (ds : List Nat) (s : State) :
    ds.foldl (Watcher.cleanupStep w ids) s =
      { s with deps := (ds.foldl (Watcher.cleanupStep w ids) s).deps } := by
  induction ds generalizing s with
  | nil => rfl
  | cons d ds ih =>
    rw [List.foldl_cons, ih]
    unfold Watcher.cleanupStep
    split
    · split <;> rfl
    · rfl

/-- `cleanupDeps` changes the Deps and the watchers only. -/
theorem cleanupDeps_eq (w : Nat) (s : State) :
    Watcher.cleanupDeps w s =
      { s with deps := (Watcher.cleanupDeps w s).deps,
               watchers := (Watcher.cleanupDeps w s).watchers } := by
  unfold Watcher.cleanupDeps
  split
  · rfl
  · dsimp only
    rw [cleanupFold_eq]
    rfl

theorem keepsOb_of_heap {a : Addr} {ob : Nat} {k : ObjKind} {s s' : State}
    (h : s'.heap = s.heap) : KeepsOb a ob k s s' := by
  intro ⟨obj, h1, h2⟩
  exact ⟨obj, by rw [h]; exact h1, h2⟩

theorem keepsOb_modifyObj {a : Addr} {ob : Nat} {k : ObjKind} (s : State) (b : Addr)
    (f : Obj → Obj)
    (hf : ∀ x, b = a → x.__ob__ = some ob → (f x).__ob__ = some ob)
    (hk : ∀ x, (f x).kind = x.kind) :
    KeepsOb a ob k s (s.modifyObj b f) := by
  intro ⟨obj, h1, h2, h3⟩
  by_cases hb : b = a
  · subst hb
    refine ⟨f obj, ?_, hf obj rfl h2, by rw [hk]; exact h3⟩
    simp [State.modifyObj, h1]
  · refine ⟨obj, ?_, h2, h3⟩
    simp [State.modifyObj, List.getElem?_modify, hb, h1]

theorem keepsOb_closed (a : Addr) (ob : Nat) (k : ObjKind) : Closed (KeepsOb a ob k) where
  refl := fun s h => h
  trans := fun _ _ _ h1 h2 h => h2 (h1 h)
  log := fun s e _ _ => keepsOb_of_heap rfl
  logGetter := fun s w wt _ _ => keepsOb_of_heap rfl
  cb := fun s s1 w wt v o _ _ h01 h => h01 h
  teardown := fun s w => keepsOb_of_heap (by rw [teardown_eq])
  depend := fun s d => keepsOb_of_heap (by rw [depend_eq])
  setProps := fun s b g => keepsOb_modifyObj s b _ (fun x _ h => h) (fun _ => rfl)
  setOb := by
    intro s b obj ob' hb hob ⟨obj0, h1, h2, h3⟩
    by_cases hba : b = a
    · subst hba
      rw [hb] at h1
      cases h1
      rw [hob] at h2
      cases h2
    · exact ⟨obj0, by simp [State.modifyObj, List.getElem?_modify, hba, h1], h2, h3⟩
  setAugmented := fun s b => keepsOb_modifyObj s b _ (fun x _ h => h) (fun _ => rfl)
  allocCell := fun s cell => keepsOb_of_heap rfl
  setCellVal := fun s c v => keepsOb_of_heap rfl
  setCellChildOb := fun s c o => keepsOb_of_heap rfl
  depNew := fun s => keepsOb_of_heap rfl
  allocObserver := fun s o => keepsOb_of_heap rfl
  vmCount := fun s o => keepsOb_of_heap rfl
  sched := fun s q h d c w f so => keepsOb_of_heap rfl
  popTarget := fun s => keepsOb_of_heap rfl
  cleanupDeps := fun s w => keepsOb_of_heap (by rw [cleanupDeps_eq])
  setValue := fun s w f g => keepsOb_of_heap rfl
  setVm := fun s v f => keepsOb_of_heap rfl
  allocWatcher := fun s wt _ _ _ => keepsOb_of_heap rfl

/-! ## Observing twice -/

/-- The Observer constructor returns the Observer that it attached to the object. -/
theorem Observer_new_attached {call : Call} {a : Addr} {s : State} {obj : Obj}
    (hcall : ∀ ob k t s0 c s1, call t s0 = some (c, s1) → TaskOK s0 t → KeepsOb a ob k s0 s1)
    (ho : s.heap[a]? = some obj) {r : Option Nat} {s' : State}
    (h : Observer.new call a s = some (.retOb r, s')) :
    r = some s.observers.length ∧
      ∃ obj', s'.heap[a]? = some obj' ∧ obj'.__ob__ = some s.observers.length ∧
        obj'.kind = obj.kind := by
  have hR := keepsOb_closed a s.observers.length obj.kind
  unfold Observer.new at h
  dsimp only at h
  have h3 : ∃ obj3, (Observer.init a s).heap[a]? = some obj3 ∧
      obj3.__ob__ = some s.observers.length ∧ obj3.kind = obj.kind :=
    ⟨{ obj with __ob__ := some s.observers.length }, by
      simp [Observer.init, State.modifyObj, Dep.new, ho], rfl, rfl⟩
  split at h
  · exact absurd h (by simp)
  · split at h
    · unfold andThen at h
      split at h
      · rename_i v s5 hl
        cases h
        refine ⟨rfl, ?_⟩
        refine observeArray_closed hR (hcall _ _) _ hl ?_
        exact (hR.setAugmented _ a) h3
      · cases h
      · exact absurd h (by simp)
    · unfold andThen at h
      split at h
      · rename_i v s5 hl
        cases h
        exact ⟨rfl, walk_closed hR (hcall _ _) _ hl h3⟩
      · cases h
      · exact absurd h (by simp)

/-- A call of `observe` that returns an Observer leaves it attached to the value, which is
not a VNode. -/
theorem observe_attached {call : Call} {a : Addr} {asRootData : Bool} {s : State}
    (hcall : ∀ ob k t s0 c s1, call t s0 = some (c, s1) → TaskOK s0 t → KeepsOb a ob k s0 s1)
    {ob : Nat} {s' : State}
    (h : observe call (.ref a) asRootData s = some (.retOb (some ob), s')) :
    ∃ obj', s'.heap[a]? = some obj' ∧ obj'.__ob__ = some ob ∧ obj'.kind ≠ .vnode := by
  unfold observe at h
  dsimp only at h
  split at h
  · exact absurd h (by simp)
  · rename_i obj ho
    split at h
    · cases h
    · rename_i hk
      unfold andThenOb at h
      split at h
      · rename_i r s1 h1
        have key : r = some ob →
            ∃ obj', s1.heap[a]? = some obj' ∧ obj'.__ob__ = some ob ∧ obj'.kind ≠ .vnode := by
          intro hr
          subst hr
          split at h1
          · rename_i ob0 hob
            cases h1
            exact ⟨obj, ho, hob, hk⟩
          · split at h1
            · obtain ⟨h2, obj', h3, h4, h5⟩ := Observer_new_attached hcall ho h1
              cases h2
              exact ⟨obj', h3, h4, by rw [h5]; exact hk⟩
            · cases h1
        cases r with
        | none => simp at h
        | some o =>
          have hs : s'.heap = s1.heap ∧ o = ob := by
            by_cases hr : asRootData = true
            · simp only [hr, if_true, Option.some.injEq, Prod.mk.injEq, Completion.retOb.injEq]
                at h
              obtain ⟨h1, h2⟩ := h
              subst h1 h2
              exact ⟨rfl, rfl⟩
            · simp only [hr, if_false, Option.some.injEq, Prod.mk.injEq, Completion.retOb.injEq,
                Bool.false_eq_true] at h
              obtain ⟨h1, h2⟩ := h
              subst h1 h2
              exact ⟨rfl, rfl⟩
          obtain ⟨hh, rfl⟩ := hs
          rw [hh]
          exact key rfl
      · cases h
      · exact absurd h (by simp)

/-- Observing an already observed value returns its Observer and changes nothing. -/
theorem observe_again (call : Call) (a : Addr) (s : State) (obj : Obj) (ob : Nat)
    (ho : s.heap[a]? = some obj) (hob : obj.__ob__ = some ob) (hk : obj.kind ≠ .vnode) :
    observe call (.ref a) false s = some (.retOb (some ob), s) := by
  simp [observe, ho, hob, hk, andThenOb]


/-! ## An inactive watcher stays inactive and silent -/

theorem staysDown_of {w : Nat} {s s' : State}
    (hw : ∀ wt, s.watchers[w]? = some wt →
      ∃ wt', s'.watchers[w]? = some wt' ∧ wt'.active = wt.active)
    (ht : s'.trace = s.trace) : StaysDown w s s' := by
  intro wt h1 h2
  obtain ⟨wt', h3, h4⟩ := hw wt h1
  exact ⟨⟨wt', h3, by rw [h4, h2]⟩, by rw [ht]⟩

theorem staysDown_same {w : Nat} {s s' : State} (hw : s'.watchers = s.watchers)
    (ht : s'.trace = s.trace) : StaysDown w s s' :=
  staysDown_of (fun wt h => ⟨wt, by rw [hw]; exact h, rfl⟩) ht

theorem wEvents_append_other (w : Nat) (tr : List Event) (e : Event)
    (h1 : e ≠ .getter w) (h2 : ∀ v o, e ≠ .cb w v o) :
    wEvents w (tr ++ [e]) = wEvents w tr := by
  unfold wEvents
  rw [List.filter_append]
  have : isEventOf w e = false := by
    cases e with
    | getter v =>
      have : v ≠ w := fun h => h1 (by rw [h])
      simp [isEventOf, this]
    | cb v x o =>
      have : v ≠ w := fun h => h2 x o (by rw [h])
      simp [isEventOf, this]
    | _ => rfl
  simp [this]

theorem modify_lookup_active (ws : List Watcher) (v w : Nat) (f : Watcher → Watcher)
    (hf : ∀ x, (f x).active = x.active) (wt : Watcher) (h : ws[w]? = some wt) :
    ∃ wt', (ws.modify f v)[w]? = some wt' ∧ wt'.active = wt.active := by
  rw [List.getElem?_modify, h]
  by_cases hv : v = w
  · exact ⟨f wt, by simp [hv], hf wt⟩
  · exact ⟨wt, by simp [hv], rfl⟩

theorem addDep_active (v d : Nat) (s : State) (w : Nat) (wt : Watcher)
    (h : s.watchers[w]? = some wt) :
    ∃ wt', (Watcher.addDep v d s).watchers[w]? = some wt' ∧ wt'.active = wt.active := by
  unfold Watcher.addDep
  split
  · dsimp only
    split
    · exact ⟨wt, h, rfl⟩
    · split
      · refine modify_lookup_active _ _ _ _ ?_ wt h
        intro x
        rfl
      · refine modify_lookup_active _ _ _ _ ?_ wt h
        intro x
        rfl
  · exact ⟨wt, h, rfl⟩

theorem depend_active (d : Nat) (s : State) (w : Nat) (wt : Watcher)
    (h : s.watchers[w]? = some wt) :
    ∃ wt', (Dep.depend d s).watchers[w]? = some wt' ∧ wt'.active = wt.active := by
  unfold Dep.depend
  split
  · exact addDep_active _ _ _ _ _ h
  · exact ⟨wt, h, rfl⟩

theorem cleanupFold_watchers (w : Nat) (ids : List Nat) (ds : List Nat) (s : State) :
    (ds.foldl (Watcher.cleanupStep w ids) s).watchers = s.watchers := by
  rw [cleanupFold_eq]

theorem cleanupDeps_active (v : Nat) (s : State) (w : Nat) (wt : Watcher)
    (h : s.watchers[w]? = some wt) :
    ∃ wt', (Watcher.cleanupDeps v s).watchers[w]? = some wt' ∧ wt'.active = wt.active := by
  unfold Watcher.cleanupDeps
  split
  · exact ⟨wt, h, rfl⟩
  · dsimp only
    refine modify_lookup_active _ _ _ _ ?_ wt ?_
    · intro x
      rfl
    · rw [cleanupFold_watchers]
      exact h

theorem teardown_down (v : Nat) (s : State) (w : Nat) (wt : Watcher)
    (h : s.watchers[w]? = some wt) (ha : wt.active = false) :
    ∃ wt', (Watcher.teardown v s).watchers[w]? = some wt' ∧ wt'.active = false := by
  by_cases hv : v = w
  · subst hv
    exact ⟨_, teardown_lookup v s wt h, rfl⟩
  · refine ⟨wt, ?_, ha⟩
    unfold Watcher.teardown
    split
    · exact h
    · split
      · dsimp only
        simp only [modifyWatcher_watchers, removeSubs_watchers]
        rw [List.getElem?_modify_ne _ _ hv]
        split
        · split <;> exact h
        · exact h
      · exact h

theorem staysDown_closed (w : Nat) : Closed (StaysDown w) where
  refl := fun s wt h1 h2 => ⟨⟨wt, h1, h2⟩, rfl⟩
  trans := by
    intro a b c hab hbc wt h1 h2
    obtain ⟨⟨wt', h3, h4⟩, h5⟩ := hab wt h1 h2
    obtain ⟨h6, h7⟩ := hbc wt' h3 h4
    exact ⟨h6, by rw [h7, h5]⟩
  log := by
    intro s e hg hc wt h1 h2
    exact ⟨⟨wt, h1, h2⟩, wEvents_append_other w s.trace e (hg w) (fun v o => hc w v o)⟩
  logGetter := by
    intro s v wt hv ha wt0 h1 h2
    have hne : v ≠ w := by
      rintro rfl
      rw [hv] at h1
      cases h1
      rw [ha] at h2
      cases h2
    exact ⟨⟨wt0, h1, h2⟩, wEvents_append_other w s.trace _
      (fun h => hne (by cases h; rfl)) (fun _ _ h => by cases h)⟩
  cb := by
    intro s s1 v wt x o hv ha h01 wt0 h1 h2
    have hne : v ≠ w := by
      rintro rfl
      rw [hv] at h1
      cases h1
      rw [ha] at h2
      cases h2
    obtain ⟨⟨wt', h3, h4⟩, h5⟩ := h01 wt0 h1 h2
    refine ⟨⟨wt', ?_, h4⟩, ?_⟩
    · show (s1.watchers.modify _ v)[w]? = some wt'
      rw [List.getElem?_modify_ne _ _ hne]
      exact h3
    · show wEvents w (s1.trace ++ [_]) = _
      rw [wEvents_append_other w s1.trace _ (fun h => by cases h)
        (fun _ _ h => hne (by cases h; rfl))]
      exact h5
  teardown := by
    intro s v wt h1 h2
    exact ⟨teardown_down v s w wt h1 h2, by rw [teardown_eq]⟩
  depend := fun s d => staysDown_of (depend_active d s w) (by rw [depend_eq])
  setProps := fun s b g => staysDown_same rfl rfl
  setOb := fun s b obj ob _ _ => staysDown_same rfl rfl
  setAugmented := fun s b => staysDown_same rfl rfl
  allocCell := fun s cell => staysDown_same rfl rfl
  setCellVal := fun s c v => staysDown_same rfl rfl
  setCellChildOb := fun s c o => staysDown_same rfl rfl
  depNew := fun s => staysDown_same rfl rfl
  allocObserver := fun s o => staysDown_same rfl rfl
  vmCount := fun s o => staysDown_same rfl rfl
  sched := fun s q h d c w f so => staysDown_same rfl rfl
  popTarget := fun s => staysDown_same rfl rfl
  cleanupDeps := fun s v => staysDown_of (cleanupDeps_active v s w) (by rw [cleanupDeps_eq])
  setValue := by
    intro s v f g
    refine staysDown_of (fun wt h => ?_) rfl
    refine modify_lookup_active s.watchers v w _ ?_ wt h
    intro x
    rfl
  setVm := fun s v f => staysDown_same rfl rfl
  allocWatcher := by
    intro s wt0 _ _ _
    refine staysDown_of (fun wt h => ⟨wt, ?_, rfl⟩) rfl
    show (s.watchers ++ [wt0])[w]? = some wt
    rw [List.getElem?_append_left (List.getElem?_eq_some.mp h).1]
    exact h

theorem taskOK_of (s : State) (t : Task) (h : ∀ v, t ≠ .get v ∧ t ≠ .evaluate v) :
    TaskOK s t := by
  cases t with
  | get v => exact absurd rfl (h v).1
  | evaluate v => exact absurd rfl (h v).2
  | _ => trivial

/-- A sequence of calls other than `get` and `evaluate` respects a closed relation. -/
theorem execAll_closed {R : State → State → Prop} (hR : Closed R) (n : Nat) :
    ∀ (ts : List Task) (s s' : State), (∀ t ∈ ts, ∀ v, t ≠ .get v ∧ t ≠ .evaluate v) →
      execAll n ts s = some s' → R s s' := by
  intro ts
  induction ts with
  | nil =>
    intro s s' _ h
    simp only [execAll, Option.some.injEq] at h
    subst h
    exact hR.refl _
  | cons t ts ih =>
    intro s s' hts h
    simp only [execAll] at h
    split at h
    · rename_i c s1 h1
      exact hR.trans _ _ _
        (exec_closed hR n t s c s1 h1 (taskOK_of s t (hts t (List.mem_cons_self _ _))))
        (ih s1 s' (fun t ht => hts t (List.mem_cons_of_mem _ ht)) h)
    · exact absurd h (by simp)

theorem logGetter_other (w v : Nat) (s : State) (hv : v ≠ w) :
    StaysDown w s ((pushTarget (some v) s).log (.getter v)) := by
  intro wt h1 h2
  refine ⟨⟨wt, h1, h2⟩, ?_⟩
  show wEvents w (s.trace ++ [.getter v]) = wEvents w s.trace
  exact wEvents_append_other w s.trace (.getter v)
    (fun h => hv (by cases h; rfl)) (fun _ _ h => by cases h)

/-- `get()` of another watcher leaves an inactive watcher inactive and silent. -/
theorem get_staysDown (w v : Nat) (hv : v ≠ w) (n : Nat) (s : State) (c : Completion)
    (s' : State) (h : exec n (.get v) s = some (c, s')) : StaysDown w s s' := by
  cases n with
  | zero => exact absurd h (by simp [exec])
  | succ n =>
    have hR := staysDown_closed w
    have hcall : ∀ t s c s', exec n t s = some (c, s') → TaskOK s t → StaysDown w s s' :=
      fun t s c s' h hok => exec_closed hR n t s c s' h hok
    have h0 : Watcher.get (exec n) v s = some (c, s') := h
    unfold Watcher.get at h0
    split at h0
    · exact absurd h0 (by simp)
    · rename_i wt hw
      have h1 := logGetter_other w v s hv
      split at h0
      · rename_i value s1 hc
        have h2 : StaysDown w s s1 := hR.trans _ _ _ h1 (hcall _ _ _ _ hc trivial)
        exact hR.trans _ _ _ h2 (getFinally_closed hR hcall h0)
      · rename_i e s1 hc
        have h2 : StaysDown w s s1 := hR.trans _ _ _ h1 (hcall _ _ _ _ hc trivial)
        split at h0
        · exact hR.trans _ _ _ (hR.trans _ _ _ h2 (hR.log _ _ (by simp) (by simp)))
            (getFinally_closed hR hcall h0)
        · refine hR.trans _ _ _ h2 (andThen_closed hR h0 ?_ ?_)
          · intro c1 s2 hf
            exact getFinally_closed hR hcall hf
          · intro _ s2 _ h3
            exact ret_closed h3 (hR.refl _)
      · exact absurd h0 (by simp)

/-- Every call other than `get()` and `evaluate()` of the watcher `w` itself leaves an
inactive `w` inactive and silent. -/
theorem exec_staysDown (w : Nat) (n : Nat) (t : Task) (s : State) (c : Completion)
    (s' : State) (ht : t ≠ .get w ∧ t ≠ .evaluate w) (h : exec n t s = some (c, s')) :
    StaysDown w s s' := by
  have hR := staysDown_closed w
  cases t with
  | get v => exact get_staysDown w v (fun hv => ht.1 (by rw [hv])) n s c s' h
  | evaluate v =>
    have hv : v ≠ w := fun hv => ht.2 (by rw [hv])
    cases n with
    | zero => exact absurd h (by simp [exec])
    | succ n =>
      have h0 : Watcher.evaluate (exec n) v s = some (c, s') := h
      unfold Watcher.evaluate at h0
      refine andThen_closed hR h0 (fun c1 s1 h1 => get_staysDown w v hv n s c1 s1 h1) ?_
      intro value s1 _ h2
      exact ret_closed h2 (hR.setValue _ v (fun _ => value) fun _ => false)
  | callFn f args => exact exec_closed hR n _ s c s' h trivial
  | propGet o k => exact exec_closed hR n _ s c s' h trivial
  | propSet o k v => exact exec_closed hR n _ s c s' h trivial
  | observe value asRootData => exact exec_closed hR n _ s c s' h trivial
  | defineReactive obj key val customSetter shallow => exact exec_closed hR n _ s c s' h trivial
  | dependArray value => exact exec_closed hR n _ s c s' h trivial
  | traverse val => exact exec_closed hR n _ s c s' h trivial
  | notify dep => exact exec_closed hR n _ s c s' h trivial
  | update v => exact exec_closed hR n _ s c s' h trivial
  | run v => exact exec_closed hR n _ s c s' h trivial
  | newWatcher vm expOrFn cb options isRenderWatcher => exact exec_closed hR n _ s c s' h trivial
  | queueWatcher v => exact exec_closed hR n _ s c s' h trivial
  | flushSchedulerQueue => exact exec_closed hR n _ s c s' h trivial
  | flushLoop => exact exec_closed hR n _ s c s' h trivial

theorem execAll_staysDown (w : Nat) (n : Nat) :
    ∀ (ts : List Task) (s s' : State), (∀ t ∈ ts, t ≠ .get w ∧ t ≠ .evaluate w) →
      execAll n ts s = some s' → StaysDown w s s' := by
  intro ts
  induction ts with
  | nil =>
    intro s s' _ h
    simp only [execAll, Option.some.injEq] at h
    subst h
    exact (staysDown_closed w).refl _
  | cons t ts ih =>
    intro s s' hts h
    simp only [execAll] at h
    split at h
    · rename_i c s1 h1
      exact (staysDown_closed w).trans _ _ _
        (exec_staysDown w n t s c s1 (hts t (List.mem_cons_self _ _)) h1)
        (ih s1 s' (fun t ht => hts t (List.mem_cons_of_mem _ ht)) h)
    · exact absurd h (by simp)


/-! ## The reactive setter -/

@[simp] theorem log_heap (s : State) (e : Event) : (s.log e).heap = s.heap := rfl
@[simp] theorem log_cells (s : State) (e : Event) : (s.log e).cells = s.cells := rfl
@[simp] theorem log_deps (s : State) (e : Event) : (s.log e).deps = s.deps := rfl
@[simp] theorem log_watchers (s : State) (e : Event) : (s.log e).watchers = s.watchers := rfl
@[simp] theorem log_observers (s : State) (e : Event) : (s.log e).observers = s.observers := rfl
@[simp] theorem log_target (s : State) (e : Event) : (s.log e).target = s.target := rfl
@[simp] theorem log_env (s : State) (e : Event) : (s.log e).env = s.env := rfl
@[simp] theorem log_trace (s : State) (e : Event) : (s.log e).trace = s.trace ++ [e] := rfl

theorem exec_succ (n : Nat) (t : Task) (s : State) : exec (n + 1) t s = dispatch (exec n) t s :=
  rfl

/-- A write to a property whose setter is the reactive setter of cell `c` is a call of that
setter. -/
theorem propSet_reactive (n : Nat) (s : State) (o : Addr) (k : Key) (obj : Obj) (p : Property)
    (g : Option Fn) (c : Nat) (v : Val)
    (ho : s.heap[o]? = some obj) (hp : obj.getOwnProperty k = some p)
    (hslot : p.slot = .accessor g (some (.reactiveSetter c))) :
    exec (n + 2) (.propSet o k v) s =
      reactiveSetter (exec n) c v (s.log (.call (.reactiveSetter c) [v])) := by
  simp only [exec_succ, dispatch, propSet, ho, hp, hslot, callFn]
  rfl

/-- The reactive setter returns at once when the new value equals the current one, or both
are `NaN`. -/
theorem reactiveSetter_same (call : Call) (c : Nat) (cell : Cell) (newVal value : Val)
    (s s1 : State) (hc : s.cells[c]? = some cell)
    (hcur : cell.read call s = some (.ret value, s1))
    (heq : (strictEq newVal value || (!strictEq newVal newVal && !strictEq value value)) = true) :
    reactiveSetter call c newVal s = some (.ret .undefined, s1) := by
  unfold reactiveSetter
  simp only [hc]
  rw [hcur]
  simp only [andThen, heq, if_true]

@[simp] theorem modifyCell_cells (s : State) (c : Nat) (f : Cell → Cell) :
    (s.modifyCell c f).cells = s.cells.modify f c := rfl
@[simp] theorem modifyCell_heap (s : State) (c : Nat) (f : Cell → Cell) :
    (s.modifyCell c f).heap = s.heap := rfl
@[simp] theorem modifyCell_deps (s : State) (c : Nat) (f : Cell → Cell) :
    (s.modifyCell c f).deps = s.deps := rfl
@[simp] theorem modifyCell_env (s : State) (c : Nat) (f : Cell → Cell) :
    (s.modifyCell c f).env = s.env := rfl
@[simp] theorem modifyCell_trace (s : State) (c : Nat) (f : Cell → Cell) :
    (s.modifyCell c f).trace = s.trace := rfl
@[simp] theorem modifyCell_watchers (s : State) (c : Nat) (f : Cell → Cell) :
    (s.modifyCell c f).watchers = s.watchers := rfl
@[simp] theorem modifyCell_target (s : State) (c : Nat) (f : Cell → Cell) :
    (s.modifyCell c f).target = s.target := rfl

/-- Observing a value that is not an object does nothing. -/
theorem observe_primitive (call : Call) (v : Val) (b : Bool) (s : State)
    (h : isObject v = false) : observe call v b s = some (.retOb none, s) := by
  cases v <;> simp [isObject] at h <;> rfl

/-- The reactive setter of a property without pre-existing accessor and without custom
setter, on a value that is not an object and differs from the current one: store the value,
then notify. -/
theorem reactiveSetter_store (n : Nat) (c : Nat) (cell : Cell) (newVal : Val) (s : State)
    (hc : s.cells[c]? = some cell) (hg : cell.getter = none) (hs : cell.setter = none)
    (hcs : s.env.production = true ∨ cell.customSetter = none)
    (hne : (strictEq newVal cell.val || (!strictEq newVal newVal && !strictEq cell.val cell.val))
      = false)
    (hv : cell.shallow = true ∨ isObject newVal = false) :
    reactiveSetter (exec (n + 1)) c newVal s =
      exec (n + 1) (.notify cell.dep)
        ((s.modifyCell c fun x => { x with val := newVal }).modifyCell c fun x =>
          { x with childOb := none }) := by
  unfold reactiveSetter
  simp only [hc, Cell.read, hg, andThen, hne, hs]
  have h2 : (if s.env.production = true then none else cell.customSetter) = none := by
    rcases hcs with h | h
    · simp [h]
    · simp [h]
  simp only [h2, Option.isSome_none, Bool.false_and, Bool.false_eq_true, if_false]
  rcases hv with h | h
  · simp [h, andThenOb]
  · by_cases hsh : cell.shallow = true
    · simp [hsh, andThenOb]
    · simp [hsh, exec_succ, dispatch, observe_primitive _ _ _ _ h, andThenOb]

/-- `notify` on a Dep without subscribers only records the call. -/
theorem notify_no_subs (n : Nat) (d : Nat) (dep : Dep) (s : State)
    (hd : s.deps[d]? = some dep) (hsubs : dep.subs = []) :
    exec (n + 1) (.notify d) s = some (.ret .undefined, s.log (.notify d)) := by
  simp [exec_succ, dispatch, Dep.notify, hd, hsubs, sortById, Dep.notifyLoop]


/-! ## Observation of a graph: the invariant of the traversal -/

theorem getElem?_append_some {α : Type} (l l' : List α) (i : Nat) (x : α)
    (h : l[i]? = some x) : (l ++ l')[i]? = some x := by
  rw [List.getElem?_append_left (List.getElem?_eq_some.mp h).1]
  exact h

theorem observed_iff_not_unobserved {s : State} {a : Addr} {obj : Obj}
    (h : s.heap[a]? = some obj) : observed s a ↔ unobserved s a = false := by
  unfold observed unobserved
  rw [h]
  cases hob : obj.__ob__ with
  | none => simp [hob]
  | some i => simp [hob]

theorem filter_length_le_of_imp {α : Type} (p q : α → Bool) (l : List α)
    (h : ∀ x ∈ l, p x = true → q x = true) : (l.filter p).length ≤ (l.filter q).length := by
  induction l with
  | nil => simp
  | cons x l ih =>
    have ih' := ih (fun y hy => h y (List.mem_cons_of_mem _ hy))
    have hx := h x (List.mem_cons_self _ _)
    cases hp : p x <;> cases hq : q x <;> simp [List.filter_cons, hp, hq] <;> first | omega | skip
    simp [hp, hq] at hx

theorem filter_length_lt_of_imp {α : Type} (p q : α → Bool) (l : List α)
    (h : ∀ x ∈ l, p x = true → q x = true) (a : α) (ha : a ∈ l) (hpa : p a = false)
    (hqa : q a = true) : (l.filter p).length < (l.filter q).length := by
  induction l with
  | nil => simp at ha
  | cons x l ih =>
    have hle := filter_length_le_of_imp p q l (fun y hy => h y (List.mem_cons_of_mem _ hy))
    have hx := h x (List.mem_cons_self _ _)
    rcases List.mem_cons.mp ha with rfl | hal
    · simp [List.filter_cons, hpa, hqa]
      omega
    · have ih' := ih (fun y hy => h y (List.mem_cons_of_mem _ hy)) hal
      cases hp : p x <;> cases hq : q x <;> simp [List.filter_cons, hp, hq] <;>
        first | omega | skip
      simp [hp, hq] at hx

/-- The pending count does not grow when no object loses its Observer. -/
theorem pending_mono (g : Addr → Bool) (s s' : State) (hlen : s'.heap.length = s.heap.length)
    (h : ∀ a, unobserved s' a = true → unobserved s a = true) :
    pending g s' ≤ pending g s := by
  unfold pending
  rw [hlen]
  apply filter_length_le_of_imp
  intro x _ hx
  simp only [Bool.and_eq_true] at hx ⊢
  exact ⟨hx.1, h x hx.2⟩

/-- The pending count drops when an object of the graph gets its Observer. -/
theorem pending_lt (g : Addr → Bool) (s s' : State) (hlen : s'.heap.length = s.heap.length)
    (h : ∀ a, unobserved s' a = true → unobserved s a = true) (a : Addr) (hg : g a = true)
    (h1 : unobserved s a = true) (h2 : unobserved s' a = false) :
    pending g s' < pending g s := by
  unfold pending
  rw [hlen]
  apply filter_length_lt_of_imp _ _ _ _ a
  · rw [List.mem_range]
    unfold unobserved at h1
    split at h1
    · rename_i obj ho
      exact (List.getElem?_eq_some.mp ho).1
    · simp at h1
  · simp [h2]
  · simp [hg, h1]
  · intro x _ hx
    simp only [Bool.and_eq_true] at hx ⊢
    exact ⟨hx.1, h x hx.2⟩

theorem converted_mono {s s' : State} {obj0 obj : Obj} {k : Key}
    (hc : ∃ l, s'.cells = s.cells ++ l) (h : Converted s obj0 obj k) :
    Converted s' obj0 obj k := by
  obtain ⟨p0, x, c, cell, h1, h2, h3, h4, h5, h6⟩ := h
  obtain ⟨l, hl⟩ := hc
  exact ⟨p0, x, c, cell, h1, h2, h3, h4, by rw [hl]; exact getElem?_append_some _ _ _ _ h5,
    h6⟩

theorem objRel_mono {s s' : State} {obj0 obj : Obj}
    (hc : ∃ l, s'.cells = s.cells ++ l) (h : ObjRel s obj0 obj) : ObjRel s' obj0 obj :=
  { kind := h.kind, extensible := h.extensible, notVue := h.notVue, elems := h.elems,
    same := h.same, shape := h.shape,
    props := fun k => (h.props k).imp id (converted_mono hc) }

theorem objRel_refl (s : State) (obj : Obj) : ObjRel s obj obj :=
  { kind := rfl, extensible := rfl, notVue := rfl, elems := rfl, same := fun _ => rfl,
    shape := rfl, props := fun _ => Or.inl rfl }

theorem fullyDone_mono {s0 s s' : State} {a : Addr}
    (hst : ∀ obj, s.heap[a]? = some obj → obj.__ob__.isSome → s'.heap[a]? = some obj)
    (hmono : ∀ b, observed s b → observed s' b)
    (hc : ∃ l, s'.cells = s.cells ++ l) (ho : ∃ l, s'.observers = s.observers ++ l)
    (h : FullyDone s0 s a) : FullyDone s0 s' a := by
  obtain ⟨obj0, obj, i, ob, h1, h2, h3, h4, h5, h6, h7⟩ := h
  obtain ⟨l, hl⟩ := ho
  refine ⟨obj0, obj, i, ob, h1, hst obj h2 (by simp [h3]), h3, ?_, h5, ?_, ?_⟩
  · rw [hl]
    exact getElem?_append_some _ _ _ _ h4
  · intro hk p0 hp0 he
    exact converted_mono hc (h6 hk p0 hp0 he)
  · intro b hb
    exact hmono b (h7 b hb)

theorem unobserved_exists {s : State} {a : Addr} (h : unobserved s a = true) :
    ∃ obj, s.heap[a]? = some obj ∧ obj.__ob__ = none := by
  unfold unobserved at h
  split at h
  · rename_i obj ho
    exact ⟨obj, ho, by simpa using h⟩
  · simp at h

theorem observed_not_unobserved {s : State} {a : Addr} (h : observed s a) :
    unobserved s a = false := by
  obtain ⟨obj, i, h1, h2⟩ := h
  exact (observed_iff_not_unobserved h1).mp ⟨obj, i, h1, h2⟩

theorem obsStep_refl {g : Addr → Bool} {s0 s : State} (skip : Addr → Prop)
    (h : ObsInv g s0 s) : ObsStep g s0 skip s s :=
  { inv := h, stable := fun _ _ _ ho _ => ho, obMono := fun _ h => h, heapLen := rfl,
    cells := ⟨[], by simp⟩, observers := ⟨[], by simp⟩, deps := ⟨[], by simp⟩,
    newDone := fun a _ h1 h2 => absurd (observed_not_unobserved h2) (by simp [h1]),
    watchers := rfl, target := rfl, trace := rfl }

theorem obsStep_pending_le {g : Addr → Bool} {s0 s s' : State} {skip : Addr → Prop}
    (h : ObsStep g s0 skip s s') : pending g s' ≤ pending g s := by
  apply pending_mono g s s' h.heapLen
  intro a ha
  obtain ⟨obj', ho', hob'⟩ := unobserved_exists ha
  have hlt : a < s.heap.length := by
    rw [← h.heapLen]
    exact (List.getElem?_eq_some.mp ho').1
  by_contra hne
  have hobs : observed s a := by
    have : s.heap[a]? = some s.heap[a] := List.getElem?_eq_getElem hlt
    exact (observed_iff_not_unobserved this).mpr (by simpa using hne)
  have := observed_not_unobserved (h.obMono a hobs)
  rw [this] at ha
  cases ha

theorem obsStep_trans {g : Addr → Bool} {s0 s s1 s2 : State} {skip : Addr → Prop}
    (hskip : ∀ a, skip a → observed s a)
    (h1 : ObsStep g s0 skip s s1) (h2 : ObsStep g s0 skip s1 s2) :
    ObsStep g s0 skip s s2 := by
  refine
    { inv := h2.inv, stable := ?_, obMono := fun a h => h2.obMono a (h1.obMono a h),
      heapLen := h2.heapLen.trans h1.heapLen, cells := ?_, observers := ?_, deps := ?_,
      newDone := ?_, watchers := h2.watchers.trans h1.watchers,
      target := h2.target.trans h1.target, trace := h2.trace.trans h1.trace }
  · intro a obj hs ho hc
    exact h2.stable a obj hs (h1.stable a obj hs ho hc) hc
  · obtain ⟨l1, e1⟩ := h1.cells
    obtain ⟨l2, e2⟩ := h2.cells
    exact ⟨l1 ++ l2, by rw [e2, e1, List.append_assoc]⟩
  · obtain ⟨l1, e1⟩ := h1.observers
    obtain ⟨l2, e2⟩ := h2.observers
    exact ⟨l1 ++ l2, by rw [e2, e1, List.append_assoc]⟩
  · obtain ⟨l1, e1, f1⟩ := h1.deps
    obtain ⟨l2, e2, f2⟩ := h2.deps
    refine ⟨l1 ++ l2, by rw [e2, e1, List.append_assoc], ?_⟩
    intro d hd
    rcases List.mem_append.mp hd with h | h
    · exact f1 d h
    · exact f2 d h
  · intro a hg hu hob
    have hns : ¬ skip a := fun hsk => by
      have := observed_not_unobserved (hskip a hsk)
      rw [this] at hu
      cases hu
    cases hu1 : unobserved s1 a with
    | true => exact h2.newDone a hg hu1 hob
    | false =>
      obtain ⟨obj, ho, _⟩ := unobserved_exists hu
      have hlt : a < s1.heap.length := by
        rw [h1.heapLen]
        exact (List.getElem?_eq_some.mp ho).1
      have h1o : s1.heap[a]? = some s1.heap[a] := List.getElem?_eq_getElem hlt
      have hobs1 : observed s1 a := (observed_iff_not_unobserved h1o).mpr hu1
      have hd1 := h1.newDone a hg hu hobs1
      refine fullyDone_mono ?_ h2.obMono h2.cells h2.observers hd1
      intro obj1 ho1 hob1
      exact h2.stable a obj1 hns ho1 (Or.inr hob1)

theorem obsStep_weaken {g : Addr → Bool} {s0 s s' : State} {skip : Addr → Prop}
    (h : ObsStep g s0 (fun _ => False) s s') : ObsStep g s0 skip s s' :=
  { inv := h.inv, stable := fun a obj _ ho hc => h.stable a obj (fun x => x) ho hc,
    obMono := h.obMono, heapLen := h.heapLen, cells := h.cells, observers := h.observers,
    deps := h.deps, newDone := h.newDone, watchers := h.watchers, target := h.target,
    trace := h.trace }

/-- A state change outside the heap and the Observers keeps the invariant. -/
theorem obsStep_of_same {g : Addr → Bool} {s0 s s' : State} (hinv : ObsInv g s0 s)
    (hheap : s'.heap = s.heap) (hcells : ∃ l, s'.cells = s.cells ++ l)
    (hobs : s'.observers = s.observers)
    (hdeps : ∃ l, s'.deps = s.deps ++ l ∧ ∀ d ∈ l, d.subs = [])
    (hso : s'.shouldObserve = s.shouldObserve) (henv : s'.env = s.env)
    (hw : s'.watchers = s.watchers) (ht : s'.target = s.target) (htr : s'.trace = s.trace) :
    ObsStep g s0 (fun _ => False) s s' := by
  have hobsd : ∀ a, observed s a → observed s' a := by
    intro a ⟨obj, i, h1, h2⟩
    exact ⟨obj, i, by rw [hheap]; exact h1, h2⟩
  refine
    { inv := ?_, stable := fun a obj _ ho _ => by rw [hheap]; exact ho, obMono := hobsd,
      heapLen := by rw [hheap], cells := hcells, observers := ⟨[], by simp [hobs]⟩,
      deps := hdeps, newDone := ?_, watchers := hw, target := ht, trace := htr }
  · refine { flags := by rw [hso, henv]; exact hinv.flags, objs := ?_, observers := ?_ }
    · intro a obj0 hg h0
      obtain ⟨obj, ho, hrel⟩ := hinv.objs a obj0 hg h0
      exact ⟨obj, by rw [hheap]; exact ho, objRel_mono hcells hrel⟩
    · intro j ob hj hgv
      rw [hobs] at hj
      obtain ⟨obj, ho, hob⟩ := hinv.observers j ob hj hgv
      exact ⟨obj, by rw [hheap]; exact ho, hob⟩
  · intro a _ hu hob
    have : unobserved s' a = unobserved s a := by
      unfold unobserved
      rw [hheap]
    rw [← this, observed_not_unobserved hob] at hu
    cases hu

theorem find_replace_self (props : List Property) (k : Key) (newp p : Property)
    (hk : newp.key = k) (h : props.find? (fun q => decide (q.key = k)) = some p) :
    (props.map fun q => if q.key = k then newp else q).find? (fun q => decide (q.key = k)) =
      some newp := by
  induction props with
  | nil => simp at h
  | cons q qs ih =>
    by_cases hq : q.key = k
    · simp [List.find?_cons, hq, hk]
    · simp only [List.find?_cons, hq, decide_False] at h
      simp only [List.map_cons, hq, if_false, List.find?_cons, decide_False]
      exact ih h

theorem find_replace_ne (props : List Property) (k : Key) (newp : Property)
    (hk : newp.key = k) (k' : Key) (hne : k' ≠ k) :
    (props.map fun q => if q.key = k then newp else q).find? (fun q => decide (q.key = k')) =
      props.find? (fun q => decide (q.key = k')) := by
  induction props with
  | nil => rfl
  | cons q qs ih =>
    by_cases hq : q.key = k
    · have h1 : ¬ newp.key = k' := fun h => hne (by rw [← h, hk])
      have h2 : ¬ q.key = k' := fun h => hne (by rw [← h, hq])
      simp only [List.map_cons, if_pos hq, List.find?_cons, decide_eq_false h1,
        decide_eq_false h2]
      exact ih
    · simp only [List.map_cons, if_neg hq, List.find?_cons, ih]

theorem shape_replace (props : List Property) (k : Key) (newp : Property) (hk : newp.key = k)
    (h : ∀ q ∈ props, q.key = k → q.enumerable = newp.enumerable) :
    ((props.map fun q => if q.key = k then newp else q).map fun p => (p.key, p.enumerable)) =
      props.map fun p => (p.key, p.enumerable) := by
  induction props with
  | nil => rfl
  | cons q qs ih =>
    have ih' := ih (fun x hx => h x (List.mem_cons_of_mem _ hx))
    by_cases hq : q.key = k
    · have := h q (List.mem_cons_self _ _) hq
      simp only [List.map_cons, if_pos hq, ih', hk, this]
      rw [← hq]
    · simp only [List.map_cons, if_neg hq, ih']

theorem find_mem_key {props : List Property} {k : Key} {p : Property}
    (h : props.find? (fun q => decide (q.key = k)) = some p) : p ∈ props ∧ p.key = k := by
  have h1 := List.find?_some h
  exact ⟨List.mem_of_find?_eq_some h, by simpa using h1⟩

theorem nodup_key_unique {props : List Property}
    (hn : (props.map fun p => p.key).Nodup) {p q : Property} (hp : p ∈ props) (hq : q ∈ props)
    (hk : p.key = q.key) : p = q := by
  induction props with
  | nil => simp at hp
  | cons x xs ih =>
    simp only [List.map_cons, List.nodup_cons, List.mem_map, not_exists, not_and] at hn
    rcases List.mem_cons.mp hp with rfl | hp'
    · rcases List.mem_cons.mp hq with rfl | hq'
      · rfl
      · exact absurd hk.symm (hn.1 q hq')
    · rcases List.mem_cons.mp hq with rfl | hq'
      · exact absurd hk (hn.1 p hp')
      · exact ih hn.2 hp' hq'

@[simp] theorem modifyObj_heap (s : State) (a : Addr) (f : Obj → Obj) :
    (s.modifyObj a f).heap = s.heap.modify f a := rfl
@[simp] theorem modifyObj_cells (s : State) (a : Addr) (f : Obj → Obj) :
    (s.modifyObj a f).cells = s.cells := rfl
@[simp] theorem modifyObj_observers (s : State) (a : Addr) (f : Obj → Obj) :
    (s.modifyObj a f).observers = s.observers := rfl

theorem goodGraph_obj {g : Addr → Bool} {s0 : State} (hg : GoodGraph g s0) {a : Addr}
    {obj0 : Obj} (hga : g a = true) (h0 : s0.heap[a]? = some obj0) : GoodObj g obj0 := by
  obtain ⟨obj, h1, h2⟩ := hg.objs a hga
  rw [h0] at h1
  cases h1
  exact h2

/-- The last step of `defineReactive` on a data property of an observed object of the graph:
the cell is allocated and the property replaced by the reactive accessor. -/
theorem install_step {g : Addr → Bool} {s0 s : State} (hg : GoodGraph g s0)
    (hinv : ObsInv g s0 s) (a : Addr) (obj0 obj : Obj) (i : Nat) (k : Key) (p0 : Property)
    (x : Val) (cell : Cell) (hga : g a = true) (h0 : s0.heap[a]? = some obj0)
    (ho : s.heap[a]? = some obj) (hob : obj.__ob__ = some i)
    (hp0 : obj0.getOwnProperty k = some p0) (hen : p0.enumerable = true)
    (hx : p0.slot = .data x) (hcur : obj.getOwnProperty k = some p0)
    (hval : cell.val = x) (hgt : cell.getter = none) (hst : cell.setter = none) :
    ObsStep g s0 (fun b => b = a) s
      (installCell a k cell s) ∧
    ∃ obj', (installCell a k cell s).heap[a]? = some obj' ∧
      obj'.__ob__ = some i ∧
      Converted (installCell a k cell s) obj0 obj' k ∧
      ∀ k', k' ≠ k → obj'.getOwnProperty k' = obj.getOwnProperty k' := by
  have hgood := goodGraph_obj hg hga h0
  obtain ⟨objx, hox, hrel⟩ := hinv.objs a obj0 hga h0
  rw [ho] at hox
  cases hox
  generalize hs' : installCell a k cell s = s'
  have hcells : s'.cells = s.cells ++ [cell] := by rw [← hs']; rfl
  have hobsv : s'.observers = s.observers := by rw [← hs']; rfl
  have hheap : s'.heap = s.heap.modify
      (fun o => o.replaceProp (reactiveProperty k s.cells.length)) a := by
    rw [← hs']; rfl
  have hself : s'.heap[a]? = some (obj.replaceProp (reactiveProperty k s.cells.length)) := by
    rw [hheap, List.getElem?_modify_eq, ho]
    rfl
  have hother : ∀ b, b ≠ a → s'.heap[b]? = s.heap[b]? := by
    intro b hb
    rw [hheap, List.getElem?_modify_ne _ _ (Ne.symm hb)]
  have hconv : Converted s' obj0 (obj.replaceProp (reactiveProperty k s.cells.length)) k := by
    refine ⟨p0, x, s.cells.length, cell, hp0, hen, hx, ?_, ?_, hval, hgt, hst⟩
    · exact find_replace_self obj.props k _ p0 rfl hcur
    · rw [hcells]
      simp
  have hne : ∀ k', k' ≠ k →
      (obj.replaceProp (reactiveProperty k s.cells.length)).getOwnProperty k' =
        obj.getOwnProperty k' := by
    intro k' hk'
    exact find_replace_ne obj.props k _ rfl k' hk'
  have hmono : ∀ b, observed s b → observed s' b := by
    intro b ⟨o, j, h1, h2⟩
    by_cases hb : b = a
    · subst hb
      rw [ho] at h1
      cases h1
      exact ⟨_, j, hself, h2⟩
    · exact ⟨o, j, by rw [hother b hb]; exact h1, h2⟩
  refine ⟨?_, _, hself, hob, hconv, hne⟩
  refine
    { inv := ?_, stable := ?_, obMono := hmono, heapLen := by rw [hheap]; simp,
      cells := ⟨[cell], hcells⟩, observers := ⟨[], by simp [hobsv]⟩,
      deps := ⟨[], by rw [← hs']; simp [installCell, State.modifyObj]⟩, newDone := ?_,
      watchers := by rw [← hs']; rfl, target := by rw [← hs']; rfl,
      trace := by rw [← hs']; rfl }
  · refine { flags := by rw [← hs']; exact hinv.flags, objs := ?_, observers := ?_ }
    · intro b objb0 hgb hb0
      by_cases hb : b = a
      · subst hb
        rw [h0] at hb0
        cases hb0
        refine ⟨_, hself, ?_⟩
        refine
          { kind := hrel.kind, extensible := hrel.extensible, notVue := hrel.notVue,
            elems := hrel.elems, same := ?_, props := ?_, shape := ?_ }
        · intro h
          have h' : obj.__ob__ = none := h
          rw [hob] at h'
          cases h'
        · intro k'
          by_cases hk' : k' = k
          · subst hk'
            exact Or.inr hconv
          · rw [hne k' hk']
            rcases hrel.props k' with h | h
            · exact Or.inl h
            · right
              obtain ⟨q0, y, c, cl, h1, h2, h3, h4, h5, h6⟩ := h
              refine ⟨q0, y, c, cl, h1, h2, h3, ?_, ?_, h6⟩
              · rw [hne k' hk']
                exact h4
              · rw [hcells]
                exact getElem?_append_some _ _ _ _ h5
        · rw [← hrel.shape]
          apply shape_replace _ _ _ rfl
          intro q hq hqk
          have hnd : (obj.props.map fun p => p.key).Nodup := by
            have : (obj.props.map fun p => p.key) = obj0.props.map fun p => p.key := by
              have := congrArg (List.map Prod.fst) hrel.shape
              simpa [List.map_map] using this
            rw [this]
            exact hgood.nodup
          have hpm := find_mem_key hcur
          have : q = p0 := nodup_key_unique hnd hq hpm.1 (by rw [hqk, hpm.2]; rfl)
          rw [this, hen]
          rfl
      · obtain ⟨objb, hbo, hbrel⟩ := hinv.objs b objb0 hgb hb0
        exact ⟨objb, by rw [hother b hb]; exact hbo, objRel_mono ⟨[cell], hcells⟩ hbrel⟩
    · intro j ob hj hgv
      rw [hobsv] at hj
      obtain ⟨o, h1, h2⟩ := hinv.observers j ob hj hgv
      by_cases hb : ob.value = a
      · rw [hb] at h1 ⊢
        rw [ho] at h1
        cases h1
        exact ⟨_, hself, h2⟩
      · exact ⟨o, by rw [hother _ hb]; exact h1, h2⟩
  · intro b o hb hbo _
    rw [hother b hb]
    exact hbo
  · intro b _ hu hobd
    have hb : b ≠ a := by
      rintro rfl
      have := observed_not_unobserved ⟨obj, i, ho, hob⟩
      rw [this] at hu
      cases hu
    obtain ⟨o, j, h1, h2⟩ := hobd
    rw [hother b hb] at h1
    have := observed_not_unobserved ⟨o, j, h1, h2⟩
    rw [this] at hu
    cases hu

theorem depNew_step {g : Addr → Bool} {s0 s : State} (hinv : ObsInv g s0 s) :
    ObsStep g s0 (fun _ => False) s (Dep.new s).2 :=
  obsStep_of_same hinv rfl ⟨[], by simp [Dep.new]⟩ rfl
    ⟨[{ id := s.depUid, subs := [] }], rfl, by simp⟩ rfl rfl rfl rfl rfl

theorem propGet_data (n : Nat) (s : State) (a : Addr) (k : Key) (obj : Obj) (p : Property)
    (x : Val) (ho : s.heap[a]? = some obj) (hp : obj.getOwnProperty k = some p)
    (hx : p.slot = .data x) : exec (n + 1) (.propGet a k) s = some (.ret x, s) := by
  simp [exec_succ, dispatch, propGet, ho, hp, hx]

theorem defineProperty_replace (s : State) (a : Addr) (p old : Property) (obj : Obj)
    (ho : s.heap[a]? = some obj) (hp : obj.getOwnProperty p.key = some old)
    (hc : old.configurable = true) :
    defineProperty a p s = some (.ret .undefined, s.modifyObj a fun x => x.replaceProp p) := by
  simp [defineProperty, ho, hp, hc]

/-- `defineReactive(obj, key)` on a data property of an observed object of the graph. -/
theorem defineReactive_step {g : Addr → Bool} {s0 : State} (hg : GoodGraph g s0) (m : Nat)
    (hok : ObsOK g s0 m) (s : State) (hinv : ObsInv g s0 s) (hpend : pending g s ≤ m)
    (a : Addr) (obj0 obj : Obj) (i : Nat) (k : Key) (p0 : Property) (x : Val)
    (hga : g a = true) (h0 : s0.heap[a]? = some obj0) (hkind : obj0.kind ≠ .array)
    (ho : s.heap[a]? = some obj) (hob : obj.__ob__ = some i)
    (hp0 : obj0.getOwnProperty k = some p0) (hen : p0.enumerable = true)
    (hx : p0.slot = .data x) (hcur : obj.getOwnProperty k = some p0)
    (N : Nat) (hN : 2 * m + 1 ≤ N) :
    ∃ s', defineReactive (exec N) a k none none false s = some (.ret .undefined, s') ∧
      ObsStep g s0 (fun b => b = a) s s' ∧
      ∃ obj', s'.heap[a]? = some obj' ∧ obj'.__ob__ = some i ∧ Converted s' obj0 obj' k ∧
        (∀ k', k' ≠ k → obj'.getOwnProperty k' = obj.getOwnProperty k') ∧
        (∀ b, x = Val.ref b → observed s' b) := by
  have hgood := goodGraph_obj hg hga h0
  have hpm := find_mem_key hp0
  have hconf : p0.configurable = true := (hgood.props p0 hpm.1 hen).1
  have hskip : ∀ b, b = a → observed s b := fun b hb => hb ▸ ⟨obj, i, ho, hob⟩
  -- the fresh Dep
  have hstep1 := depNew_step hinv
  have ho1 : (Dep.new s).2.heap[a]? = some obj := ho
  -- the value is read
  obtain ⟨N1, rfl⟩ : ∃ N1, N = N1 + 1 := ⟨N - 1, by omega⟩
  have hget := propGet_data N1 (Dep.new s).2 a k obj p0 x ho1 hcur hx
  -- the value is observed
  have hgx : ∀ b, x = Val.ref b → g b = true := by
    intro b hb
    apply hgood.closed b
    right
    exact ⟨hkind, p0, hpm.1, hen, by rw [hx, hb]⟩
  have hpend1 : pending g (Dep.new s).2 ≤ m := le_trans (obsStep_pending_le hstep1) hpend
  obtain ⟨r, s3, hexec, hstep3, hobsx⟩ := hok (Dep.new s).2 hstep1.inv hpend1 x hgx (N1 + 1) hN
  have ho3 : s3.heap[a]? = some obj :=
    hstep3.stable a obj (fun h => h) ho1 (Or.inr (by simp [hob]))
  -- the cell is installed
  obtain ⟨hstep4, obj', ho', hob', hconv, hne⟩ := install_step hg hstep3.inv a obj0 obj i k p0 x
    { obj := a, key := k, dep := (Dep.new s).1, val := x, childOb := r, getter := none,
      setter := none, customSetter := none, shallow := false }
    hga h0 ho3 hob hp0 hen hx hcur rfl rfl rfl
  refine ⟨_, ?_, ?_, obj', ho', hob', hconv, hne, ?_⟩
  · unfold defineReactive
    obtain ⟨pk, pe, pc, ps⟩ := p0
    simp only at hx hconf
    subst hx hconf
    simp only [ho1, hcur, Option.map_some', Option.some.injEq, Bool.true_eq_false, if_false,
      Option.isNone_none, Bool.true_or, if_true, hget, andThen, hexec, andThenOb]
    exact defineProperty_replace _ a _ _ obj ho3 hcur rfl
  · exact obsStep_trans hskip (obsStep_weaken hstep1)
      (obsStep_trans (fun b hb => hstep1.obMono b (hskip b hb)) (obsStep_weaken hstep3) hstep4)
  · intro b hb
    exact hstep4.obMono b (hobsx b hb)

/-- `walk` over keys that are still data properties of the observed object at `a`. -/
theorem walk_step {g : Addr → Bool} {s0 : State} (hg : GoodGraph g s0) (m : Nat)
    (hok : ObsOK g s0 m) (a : Addr) (obj0 : Obj) (i : Nat)
    (hga : g a = true) (h0 : s0.heap[a]? = some obj0) (hkind : obj0.kind ≠ .array) :
    ∀ (ks : List Key), ks.Nodup → ∀ (s : State) (obj : Obj), ObsInv g s0 s →
      pending g s ≤ m → s.heap[a]? = some obj → obj.__ob__ = some i →
      (∀ k ∈ ks, ∃ p0 x, obj0.getOwnProperty k = some p0 ∧ p0.enumerable = true ∧
        p0.slot = .data x ∧ obj.getOwnProperty k = some p0) →
      ∀ N, 2 * m + 2 ≤ N →
      ∃ s', walk (exec N) a ks s = some (.ret .undefined, s') ∧
        ObsStep g s0 (fun b => b = a) s s' ∧
        ∃ obj', s'.heap[a]? = some obj' ∧ obj'.__ob__ = some i ∧
          (∀ k ∈ ks, Converted s' obj0 obj' k) ∧
          (∀ k', k' ∉ ks → obj'.getOwnProperty k' = obj.getOwnProperty k') ∧
          (∀ k ∈ ks, ∀ p0 b, obj0.getOwnProperty k = some p0 → p0.slot = .data (.ref b) →
            observed s' b) := by
  intro ks
  induction ks with
  | nil =>
    intro _ s obj hinv _ ho hob _ N _
    exact ⟨s, rfl, obsStep_refl _ hinv, obj, ho, hob, by simp, fun _ _ => rfl, by simp⟩
  | cons k ks ih =>
    intro hnd s obj hinv hpend ho hob hks N hN
    obtain ⟨hk_notin, hnd'⟩ := List.nodup_cons.mp hnd
    obtain ⟨p0, x, hp0, hen, hx, hcur⟩ := hks k (List.mem_cons_self _ _)
    obtain ⟨N1, rfl⟩ : ∃ N1, N = N1 + 1 := ⟨N - 1, by omega⟩
    obtain ⟨s1, hex1, hstep1, obj1, ho1, hob1, hconv1, hne1, hobs1⟩ :=
      defineReactive_step hg m hok s hinv hpend a obj0 obj i k p0 x hga h0 hkind ho hob hp0 hen
        hx hcur N1 (by omega)
    have hskip : ∀ b, b = a → observed s b := fun b hb => hb ▸ ⟨obj, i, ho, hob⟩
    have hks1 : ∀ k' ∈ ks, ∃ p0 x, obj0.getOwnProperty k' = some p0 ∧ p0.enumerable = true ∧
        p0.slot = .data x ∧ obj1.getOwnProperty k' = some p0 := by
      intro k' hk'
      obtain ⟨q0, y, h1, h2, h3, h4⟩ := hks k' (List.mem_cons_of_mem _ hk')
      have hne : k' ≠ k := fun h => hk_notin (h ▸ hk')
      exact ⟨q0, y, h1, h2, h3, by rw [hne1 k' hne]; exact h4⟩
    obtain ⟨s2, hex2, hstep2, obj2, ho2, hob2, hconv2, hne2, hobs2⟩ :=
      ih hnd' s1 obj1 hstep1.inv (le_trans (obsStep_pending_le hstep1) hpend) ho1 hob1 hks1 (N1 + 1) hN
    refine ⟨s2, ?_, obsStep_trans hskip hstep1 hstep2, obj2, ho2, hob2, ?_, ?_, ?_⟩
    · simp only [walk, exec_succ, dispatch, hex1, andThen]
      exact hex2
    · intro k' hk'
      rcases List.mem_cons.mp hk' with rfl | hk''
      · obtain ⟨q0, y, c, cl, h1, h2, h3, h4, h5, h6⟩ := hconv1
        obtain ⟨l, hl⟩ := hstep2.cells
        refine ⟨q0, y, c, cl, h1, h2, h3, ?_, ?_, h6⟩
        · rw [hne2 k' hk_notin]
          exact h4
        · rw [hl]
          exact getElem?_append_some _ _ _ _ h5
      · exact hconv2 k' hk''
    · intro k' hk'
      have h1 : k' ≠ k := fun h => hk' (h ▸ List.mem_cons_self _ _)
      have h2 : k' ∉ ks := fun h => hk' (List.mem_cons_of_mem _ h)
      rw [hne2 k' h2, hne1 k' h1]
    · intro k' hk' q0 b hq0 hqb
      rcases List.mem_cons.mp hk' with rfl | hk''
      · rw [hp0] at hq0
        cases hq0
        rw [hx] at hqb
        cases hqb
        exact hstep2.obMono b (hobs1 b rfl)
      · exact hobs2 k' hk'' q0 b hq0 hqb

/-- `observeArray` over items of the observed array at `a`. -/
theorem observeArray_step {g : Addr → Bool} {s0 : State} (hg : GoodGraph g s0) (m : Nat)
    (hok : ObsOK g s0 m) (a : Addr) (obj0 : Obj)
    (hga : g a = true) (h0 : s0.heap[a]? = some obj0) (hkind : obj0.kind = .array) :
    ∀ (is : List Nat) (s : State) (obj : Obj), ObsInv g s0 s →
      pending g s ≤ m → s.heap[a]? = some obj → obj.__ob__.isSome → obj.elems = obj0.elems →
      ∀ N, 2 * m + 1 ≤ N →
      ∃ s', observeArray (exec N) a is s = some (.ret .undefined, s') ∧
        ObsStep g s0 (fun _ => False) s s' ∧
        (∀ j ∈ is, ∀ b, obj0.elems[j]? = some (Val.ref b) → observed s' b) := by
  intro is
  induction is with
  | nil =>
    intro s obj hinv _ _ _ _ N _
    exact ⟨s, rfl, obsStep_refl _ hinv, by simp⟩
  | cons j is ih =>
    intro s obj hinv hpend ho hob hel N hN
    have hgood := goodGraph_obj hg hga h0
    have hgx : ∀ b, obj.elems.getD j .undefined = Val.ref b → g b = true := by
      intro b hb
      apply hgood.closed b
      left
      refine ⟨hkind, ?_⟩
      rw [← hel]
      rw [List.getD_eq_getElem?_getD] at hb
      cases hj : obj.elems[j]? with
      | none => simp [hj] at hb
      | some y =>
        simp only [hj, Option.getD_some] at hb
        subst hb
        exact List.getElem?_mem hj
    obtain ⟨r, s1, hex1, hstep1, hobs1⟩ := hok s hinv hpend _ hgx N hN
    have ho1 : s1.heap[a]? = some obj := hstep1.stable a obj (fun h => h) ho (Or.inr hob)
    obtain ⟨s2, hex2, hstep2, hobs2⟩ :=
      ih s1 obj hstep1.inv (le_trans (obsStep_pending_le hstep1) hpend) ho1 hob hel N hN
    refine ⟨s2, ?_, obsStep_trans (fun _ h => h.elim) hstep1 hstep2, ?_⟩
    · simp only [observeArray, ho, hex1, andThenOb]
      exact hex2
    · intro j' hj' b hb
      rcases List.mem_cons.mp hj' with rfl | hj''
      · apply hstep2.obMono b
        apply hobs1 b
        rw [List.getD_eq_getElem?_getD, hel, hb]
        rfl
      · exact hobs2 j' hj'' b hb

/-- From the state `sM` in which the object at `a` has just received its Observer, a walk
that completes the object yields a step of the traversal from the state before. -/
theorem mark_close {g : Addr → Bool} {s0 s sM s5 : State} {a : Addr} {ob : Observer}
    (hga : g a = true) (hu : unobserved s a = true)
    (hheap : ∀ b, b ≠ a → sM.heap[b]? = s.heap[b]?)
    (hlen : sM.heap.length = s.heap.length) (hcells : sM.cells = s.cells)
    (hobs : sM.observers = s.observers ++ [ob])
    (hdeps : ∃ l, sM.deps = s.deps ++ l ∧ ∀ d ∈ l, d.subs = [])
    (hw : sM.watchers = s.watchers) (ht : sM.target = s.target) (htr : sM.trace = s.trace)
    (hloop : ObsStep g s0 (fun b => b = a) sM s5) (hdone : FullyDone s0 s5 a) :
    ObsStep g s0 (fun _ => False) s s5 := by
  have hne : ∀ b, (g b = false ∨ observed s b) → b ≠ a := by
    rintro b hb rfl
    rcases hb with h | h
    · rw [hga] at h
      cases h
    · rw [observed_not_unobserved h] at hu
      cases hu
  refine
    { inv := hloop.inv, stable := ?_, obMono := ?_, heapLen := hloop.heapLen.trans hlen,
      cells := ?_, observers := ?_, deps := ?_, newDone := ?_,
      watchers := hloop.watchers.trans hw, target := hloop.target.trans ht,
      trace := hloop.trace.trans htr }
  · intro b o _ hbo hc
    have hb : b ≠ a := hne b (hc.imp id fun h => by
      obtain ⟨j, hj⟩ := Option.isSome_iff_exists.mp h
      exact ⟨o, j, hbo, hj⟩)
    exact hloop.stable b o hb (by rw [hheap b hb]; exact hbo) hc
  · intro b hb
    have hba : b ≠ a := hne b (Or.inr hb)
    obtain ⟨o, j, h1, h2⟩ := hb
    exact hloop.obMono b ⟨o, j, by rw [hheap b hba]; exact h1, h2⟩
  · obtain ⟨l, hl⟩ := hloop.cells
    exact ⟨l, by rw [hl, hcells]⟩
  · obtain ⟨l, hl⟩ := hloop.observers
    exact ⟨[ob] ++ l, by rw [hl, hobs, List.append_assoc]⟩
  · obtain ⟨l1, e1, f1⟩ := hdeps
    obtain ⟨l2, e2, f2⟩ := hloop.deps
    refine ⟨l1 ++ l2, by rw [e2, e1, List.append_assoc], ?_⟩
    intro d hd
    rcases List.mem_append.mp hd with h | h
    · exact f1 d h
    · exact f2 d h
  · intro b hgb hub hob5
    by_cases hb : b = a
    · subst hb
      exact hdone
    · apply hloop.newDone b hgb _ hob5
      unfold unobserved at hub ⊢
      rw [hheap b hb]
      exact hub

theorem init_heap_self (a : Addr) (s : State) (obj : Obj) (ho : s.heap[a]? = some obj) :
    (Observer.init a s).heap[a]? = some { obj with __ob__ := some s.observers.length } := by
  simp [Observer.init, State.modifyObj, Dep.new, ho]

theorem init_heap_other (a : Addr) (s : State) (b : Addr) (hb : b ≠ a) :
    (Observer.init a s).heap[b]? = s.heap[b]? := by
  simp [Observer.init, State.modifyObj, Dep.new, List.getElem?_modify, Ne.symm hb]

/-- The beginning of the Observer constructor keeps the invariant. -/
theorem init_inv {g : Addr → Bool} {s0 s : State} (hinv : ObsInv g s0 s) (a : Addr)
    (obj0 obj : Obj) (hga : g a = true) (h0 : s0.heap[a]? = some obj0)
    (ho : s.heap[a]? = some obj) (hob : obj.__ob__ = none) :
    ObsInv g s0 (Observer.init a s) := by
  obtain ⟨objx, hox, hrel⟩ := hinv.objs a obj0 hga h0
  rw [ho] at hox
  cases hox
  have hc : (Observer.init a s).cells = s.cells := rfl
  refine { flags := hinv.flags, objs := ?_, observers := ?_ }
  · intro b objb0 hgb hb0
    by_cases hb : b = a
    · subst hb
      rw [h0] at hb0
      cases hb0
      refine ⟨_, init_heap_self b s obj ho, ?_⟩
      exact
        { kind := hrel.kind, extensible := hrel.extensible, notVue := hrel.notVue,
          elems := hrel.elems, same := fun h => (by cases h), shape := hrel.shape,
          props := fun k => (hrel.props k).imp id fun h => by
            obtain ⟨q0, y, c, cl, h1, h2, h3, h4, h5, h6⟩ := h
            exact ⟨q0, y, c, cl, h1, h2, h3, h4, h5, h6⟩ }
    · obtain ⟨objb, hbo, hbrel⟩ := hinv.objs b objb0 hgb hb0
      exact ⟨objb, by rw [init_heap_other a s b hb]; exact hbo, objRel_mono ⟨[], by simp [hc]⟩ hbrel⟩
  · intro j ob hj hgv
    have hobs : (Observer.init a s).observers =
        s.observers ++ [{ value := a, dep := (Dep.new s).1, vmCount := 0 }] := rfl
    rw [hobs] at hj
    by_cases hjl : j < s.observers.length
    · rw [List.getElem?_append_left hjl] at hj
      obtain ⟨o, h1, h2⟩ := hinv.observers j ob hj hgv
      have hva : ob.value ≠ a := by
        intro h
        rw [h, ho] at h1
        cases h1
        rw [hob] at h2
        cases h2
      exact ⟨o, by rw [init_heap_other a s _ hva]; exact h1, h2⟩
    · have hj' := hj
      rw [List.getElem?_append_right (by omega)] at hj'
      have hlt : j - s.observers.length < 1 := by
        have := (List.getElem?_eq_some.mp hj').1
        simpa using this
      have hje : j = s.observers.length := by omega
      subst hje
      simp only [Nat.sub_self, List.getElem?_cons_zero, Option.some.injEq] at hj'
      subst hj'
      exact ⟨_, init_heap_self a s obj ho, rfl⟩

theorem augment_inv {g : Addr → Bool} {s0 s : State} (hinv : ObsInv g s0 s) (a : Addr)
    (obj : Obj) (ho : s.heap[a]? = some obj) (hob : obj.__ob__.isSome) :
    ObsInv g s0 (protoAugment a s) := by
  have hself : (protoAugment a s).heap[a]? = some { obj with augmented := true } := by
    simp [protoAugment, State.modifyObj, ho]
  have hother : ∀ b, b ≠ a → (protoAugment a s).heap[b]? = s.heap[b]? := by
    intro b hb
    simp [protoAugment, State.modifyObj, List.getElem?_modify, Ne.symm hb]
  refine { flags := hinv.flags, objs := ?_, observers := ?_ }
  · intro b objb0 hgb hb0
    obtain ⟨objb, hbo, hbrel⟩ := hinv.objs b objb0 hgb hb0
    by_cases hb : b = a
    · subst hb
      rw [ho] at hbo
      cases hbo
      refine ⟨_, hself, ?_⟩
      exact
        { kind := hbrel.kind, extensible := hbrel.extensible, notVue := hbrel.notVue,
          elems := hbrel.elems,
          same := fun h => (by
            have h' : obj.__ob__ = none := h
            rw [h'] at hob
            cases hob),
          shape := hbrel.shape,
          props := fun k => (hbrel.props k).imp id fun h => by
            obtain ⟨q0, y, c, cl, h1, h2, h3, h4, h5, h6⟩ := h
            exact ⟨q0, y, c, cl, h1, h2, h3, h4, h5, h6⟩ }
    · exact ⟨objb, by rw [hother b hb]; exact hbo, objRel_mono ⟨[], by simp [protoAugment]⟩ hbrel⟩
  · intro j ob hj hgv
    obtain ⟨o, h1, h2⟩ := hinv.observers j ob hj hgv
    by_cases hb : ob.value = a
    · rw [hb] at h1 ⊢
      rw [ho] at h1
      cases h1
      exact ⟨_, hself, h2⟩
    · exact ⟨o, by rw [hother _ hb]; exact h1, h2⟩

theorem pending_pos (g : Addr → Bool) (s : State) (a : Addr) (hg : g a = true)
    (hu : unobserved s a = true) : 0 < pending g s := by
  unfold pending
  apply List.length_pos_of_mem (a := a)
  rw [List.mem_filter, List.mem_range]
  obtain ⟨obj, ho, _⟩ := unobserved_exists hu
  exact ⟨(List.getElem?_eq_some.mp ho).1, by simp [hg, hu]⟩

theorem keys_nodup {obj : Obj} (h : (obj.props.map fun p => p.key).Nodup) :
    obj.keys.Nodup := by
  unfold Obj.keys
  exact List.Nodup.sublist (List.Sublist.map _ (List.filter_sublist _)) h

theorem mem_keys {obj : Obj} {k : Key} (h : k ∈ obj.keys) :
    ∃ p ∈ obj.props, p.enumerable = true ∧ p.key = k := by
  unfold Obj.keys at h
  obtain ⟨p, hp, hk⟩ := List.mem_map.mp h
  obtain ⟨hp1, hp2⟩ := List.mem_filter.mp hp
  exact ⟨p, hp1, hp2, hk⟩

theorem keys_mem {obj : Obj} {p : Property} (hp : p ∈ obj.props) (he : p.enumerable = true) :
    p.key ∈ obj.keys := by
  unfold Obj.keys
  exact List.mem_map.mpr ⟨p, List.mem_filter.mpr ⟨hp, he⟩, rfl⟩

theorem getOwnProperty_of_mem {obj : Obj} (hn : (obj.props.map fun p => p.key).Nodup)
    {p : Property} (hp : p ∈ obj.props) : obj.getOwnProperty p.key = some p := by
  unfold Obj.getOwnProperty
  cases hf : obj.props.find? (fun q => decide (q.key = p.key)) with
  | none =>
    have := List.find?_eq_none.mp hf p hp
    simp at this
  | some q =>
    have hq := find_mem_key hf
    rw [nodup_key_unique hn hq.1 hp hq.2]


/-! ## What every call keeps: the trace so far and the constant fields -/

theorem sameFlags_refl (a : Watcher) : a.sameFlags a :=
  ⟨rfl, rfl, rfl, rfl, rfl, rfl, rfl, rfl⟩

theorem sameFlags_trans {a b c : Watcher} (h1 : a.sameFlags b) (h2 : b.sameFlags c) :
    a.sameFlags c := by
  obtain ⟨a1, a2, a3, a4, a5, a6, a7, a8⟩ := h1
  obtain ⟨b1, b2, b3, b4, b5, b6, b7, b8⟩ := h2
  exact ⟨b1.trans a1, b2.trans a2, b3.trans a3, b4.trans a4, b5.trans a5, b6.trans a6,
    b7.trans a7, b8.trans a8⟩

theorem sameConsts_refl (a : Cell) : a.sameConsts a :=
  ⟨rfl, rfl, rfl, rfl, rfl, rfl, rfl⟩

theorem sameConsts_trans {a b c : Cell} (h1 : a.sameConsts b) (h2 : b.sameConsts c) :
    a.sameConsts c := by
  obtain ⟨a1, a2, a3, a4, a5, a6, a7⟩ := h1
  obtain ⟨b1, b2, b3, b4, b5, b6, b7⟩ := h2
  exact ⟨b1.trans a1, b2.trans a2, b3.trans a3, b4.trans a4, b5.trans a5, b6.trans a6,
    b7.trans a7⟩

theorem persists_refl (s : State) : Persists s s :=
  { trace := ⟨[], by simp⟩
    watchers := fun _ wt h => ⟨wt, h, sameFlags_refl wt⟩
    deps := fun _ dep h => ⟨dep, h, rfl⟩
    cells := fun _ cell h => ⟨cell, h, sameConsts_refl cell⟩
    env := rfl }

theorem persists_trans {a b c : State} (h1 : Persists a b) (h2 : Persists b c) :
    Persists a c := by
  refine { trace := ?_, watchers := ?_, deps := ?_, cells := ?_, env := h2.env.trans h1.env }
  · obtain ⟨l1, e1⟩ := h1.trace
    obtain ⟨l2, e2⟩ := h2.trace
    exact ⟨l1 ++ l2, by rw [e2, e1, List.append_assoc]⟩
  · intro w wt h
    obtain ⟨wt1, e1, f1⟩ := h1.watchers w wt h
    obtain ⟨wt2, e2, f2⟩ := h2.watchers w wt1 e1
    exact ⟨wt2, e2, sameFlags_trans f1 f2⟩
  · intro d dep h
    obtain ⟨d1, e1, f1⟩ := h1.deps d dep h
    obtain ⟨d2, e2, f2⟩ := h2.deps d d1 e1
    exact ⟨d2, e2, f2.trans f1⟩
  · intro d dep h
    obtain ⟨d1, e1, f1⟩ := h1.cells d dep h
    obtain ⟨d2, e2, f2⟩ := h2.cells d d1 e1
    exact ⟨d2, e2, sameConsts_trans f1 f2⟩

/-- A state change that keeps the trace, the environment and the cells, and keeps the
constant fields of the watchers and the ids of the Deps. -/
theorem persists_of {s s' : State} (l : List Event) (ht : s'.trace = s.trace ++ l)
    (hw : ∀ (w : Nat) (wt : Watcher), s.watchers[w]? = some wt →
      ∃ wt', s'.watchers[w]? = some wt' ∧ wt.sameFlags wt')
    (hd : ∀ (d : Nat) (dep : Dep), s.deps[d]? = some dep →
      ∃ dep', s'.deps[d]? = some dep' ∧ dep'.id = dep.id)
    (hc : s'.cells = s.cells) (he : s'.env = s.env) : Persists s s' :=
  { trace := ⟨l, ht⟩, watchers := hw, deps := hd,
    cells := fun c cell h => ⟨cell, by rw [hc]; exact h, sameConsts_refl cell⟩, env := he }

theorem persists_same {s s' : State} (ht : s'.trace = s.trace)
    (hw : s'.watchers = s.watchers) (hd : s'.deps = s.deps) (hc : s'.cells = s.cells)
    (he : s'.env = s.env) : Persists s s' :=
  persists_of [] (by simp [ht]) (fun w wt h => ⟨wt, by rw [hw]; exact h, sameFlags_refl wt⟩)
    (fun d dep h => ⟨dep, by rw [hd]; exact h, rfl⟩) hc he

theorem modify_sameFlags (ws : List Watcher) (v : Nat) (f : Watcher → Watcher)
    (hf : ∀ x : Watcher, x.sameFlags (f x)) (w : Nat) (wt : Watcher) (h : ws[w]? = some wt) :
    ∃ wt', (ws.modify f v)[w]? = some wt' ∧ wt.sameFlags wt' := by
  rw [List.getElem?_modify, h]
  by_cases hv : v = w
  · exact ⟨f wt, by simp [hv], hf wt⟩
  · exact ⟨wt, by simp [hv], sameFlags_refl wt⟩

theorem modify_depId (ds : List Dep) (v : Nat) (f : Dep → Dep)
    (hf : ∀ x, (f x).id = x.id) (d : Nat) (dep : Dep) (h : ds[d]? = some dep) :
    ∃ dep', (ds.modify f v)[d]? = some dep' ∧ dep'.id = dep.id := by
  rw [List.getElem?_modify, h]
  by_cases hv : v = d
  · exact ⟨f dep, by simp [hv], hf dep⟩
  · exact ⟨dep, by simp [hv], rfl⟩

theorem depIds_refl (ds : List Dep) : DepIds ds ds := fun _ dep h => ⟨dep, h, rfl⟩

theorem depIds_trans {a b c : List Dep} (h1 : DepIds a b) (h2 : DepIds b c) : DepIds a c := by
  intro d dep h
  obtain ⟨d1, e1, f1⟩ := h1 d dep h
  obtain ⟨d2, e2, f2⟩ := h2 d d1 e1
  exact ⟨d2, e2, f2.trans f1⟩

theorem removeSub_depIds (d w : Nat) (s : State) :
    DepIds s.deps (Dep.removeSub d w s).deps := by
  intro x dep h
  refine modify_depId s.deps d _ ?_ x dep h
  intro y
  rfl

theorem addSub_depIds (d w : Nat) (s : State) : DepIds s.deps (Dep.addSub d w s).deps := by
  intro x dep h
  refine modify_depId s.deps d _ ?_ x dep h
  intro y
  rfl

theorem removeSubs_depIds (w : Nat) (ds : List Nat) (s : State) :
    DepIds s.deps (ds.foldl (fun acc d => Dep.removeSub d w acc) s).deps := by
  induction ds generalizing s with
  | nil => exact depIds_refl _
  | cons d ds ih =>
    rw [List.foldl_cons]
    exact depIds_trans (removeSub_depIds d w s) (ih _)

theorem cleanupStep_depIds (w : Nat) (ids : List Nat) (s : State) (d : Nat) :
    DepIds s.deps (Watcher.cleanupStep w ids s d).deps := by
  unfold Watcher.cleanupStep
  split
  · split
    · exact depIds_refl _
    · exact removeSub_depIds d w s
  · exact depIds_refl _

theorem cleanupFold_depIds (w : Nat) (ids : List Nat) (ds : List Nat) (s : State) :
    DepIds s.deps (ds.foldl (Watcher.cleanupStep w ids) s).deps := by
  induction ds generalizing s with
  | nil => exact depIds_refl _
  | cons d ds ih =>
    rw [List.foldl_cons]
    exact depIds_trans (cleanupStep_depIds w ids s d) (ih _)

theorem teardown_sameFlags (v : Nat) (s : State) (w : Nat) (wt : Watcher)
    (h : s.watchers[w]? = some wt) :
    ∃ wt', (Watcher.teardown v s).watchers[w]? = some wt' ∧ wt.sameFlags wt' := by
  unfold Watcher.teardown
  split
  · exact ⟨wt, h, sameFlags_refl wt⟩
  · split
    · dsimp only
      simp only [modifyWatcher_watchers, removeSubs_watchers]
      refine modify_sameFlags _ v _ ?_ w wt ?_
      · intro x
        exact sameFlags_refl x
      · split
        · split <;> exact h
        · exact h
    · exact ⟨wt, h, sameFlags_refl wt⟩

theorem teardown_depIds (v : Nat) (s : State) : DepIds s.deps (Watcher.teardown v s).deps := by
  unfold Watcher.teardown
  split
  · exact depIds_refl _
  · split
    · dsimp only
      simp only [modifyWatcher_deps]
      refine depIds_trans ?_ (removeSubs_depIds v _ _)
      split
      · split
        · exact depIds_refl _
        · exact depIds_refl _
      · exact depIds_refl _
    · exact depIds_refl _

theorem addDep_sameFlags (v d : Nat) (s : State) (w : Nat) (wt : Watcher)
    (h : s.watchers[w]? = some wt) :
    ∃ wt', (Watcher.addDep v d s).watchers[w]? = some wt' ∧ wt.sameFlags wt' := by
  unfold Watcher.addDep
  split
  · dsimp only
    split
    · exact ⟨wt, h, sameFlags_refl wt⟩
    · split
      · refine modify_sameFlags _ _ _ ?_ w wt h
        intro x
        exact sameFlags_refl x
      · refine modify_sameFlags _ _ _ ?_ w wt h
        intro x
        exact sameFlags_refl x
  · exact ⟨wt, h, sameFlags_refl wt⟩

theorem addDep_depIds (v d : Nat) (s : State) : DepIds s.deps (Watcher.addDep v d s).deps := by
  unfold Watcher.addDep
  split
  · dsimp only
    split
    · exact depIds_refl _
    · split
      · exact depIds_refl _
      · exact addSub_depIds d v _
  · exact depIds_refl _

theorem cleanupDeps_sameFlags (v : Nat) (s : State) (w : Nat) (wt : Watcher)
    (h : s.watchers[w]? = some wt) :
    ∃ wt', (Watcher.cleanupDeps v s).watchers[w]? = some wt' ∧ wt.sameFlags wt' := by
  unfold Watcher.cleanupDeps
  split
  · exact ⟨wt, h, sameFlags_refl wt⟩
  · dsimp only
    refine modify_sameFlags _ _ _ ?_ w wt ?_
    · intro x
      exact sameFlags_refl x
    · rw [cleanupFold_watchers]
      exact h

theorem cleanupDeps_depIds (v : Nat) (s : State) :
    DepIds s.deps (Watcher.cleanupDeps v s).deps := by
  unfold Watcher.cleanupDeps
  split
  · exact depIds_refl _
  · exact cleanupFold_depIds v _ _ s

theorem modifyCell_persists (s : State) (c : Nat) (f : Cell → Cell)
    (hf : ∀ x : Cell, x.sameConsts (f x)) : Persists s (s.modifyCell c f) :=
  { trace := ⟨[], by simp [State.modifyCell]⟩
    watchers := fun _ wt h => ⟨wt, h, sameFlags_refl wt⟩
    deps := fun _ dep h => ⟨dep, h, rfl⟩
    cells := by
      intro x cell h
      show ∃ cell', (s.cells.modify f c)[x]? = some cell' ∧ _
      rw [List.getElem?_modify, h]
      by_cases hv : c = x
      · exact ⟨f cell, by simp [hv], hf cell⟩
      · exact ⟨cell, by simp [hv], sameConsts_refl cell⟩
    env := rfl }

theorem modifyWatcher_persists (s : State) (w : Nat) (f : Watcher → Watcher)
    (hf : ∀ x : Watcher, x.sameFlags (f x)) : Persists s (s.modifyWatcher w f) :=
  persists_of [] (by simp [State.modifyWatcher])
    (fun v wt h => modify_sameFlags s.watchers w f hf v wt h)
    (fun _ dep h => ⟨dep, h, rfl⟩) rfl rfl

theorem persists_closed : Closed Persists where
  refl := persists_refl
  trans := fun _ _ _ h1 h2 => persists_trans h1 h2
  log := fun s e _ _ =>
    persists_of [e] rfl (fun _ wt h => ⟨wt, h, sameFlags_refl wt⟩) (fun _ dep h => ⟨dep, h, rfl⟩)
      rfl rfl
  logGetter := fun s w wt _ _ =>
    persists_of [.getter w] rfl (fun _ wt h => ⟨wt, h, sameFlags_refl wt⟩)
      (fun _ dep h => ⟨dep, h, rfl⟩) rfl rfl
  cb := by
    intro s s1 w wt v o _ _ h01
    refine persists_trans h01 (persists_of [.cb w v o] rfl ?_ (fun _ dep h => ⟨dep, h, rfl⟩) rfl rfl)
    intro x wx h
    refine modify_sameFlags s1.watchers w _ ?_ x wx h
    intro y
    exact sameFlags_refl y
  teardown := fun s w =>
    persists_of [] (by rw [teardown_eq]; simp) (teardown_sameFlags w s) (teardown_depIds w s)
      (by rw [teardown_eq]) (by rw [teardown_eq])
  depend := by
    intro s d
    unfold Dep.depend
    split
    · rename_i w _
      exact persists_of [] (by rw [addDep_eq]; simp) (addDep_sameFlags w d s)
        (addDep_depIds w d s) (by rw [addDep_eq]) (by rw [addDep_eq])
    · exact persists_refl s
  setProps := fun s a g => persists_same rfl rfl rfl rfl rfl
  setOb := fun s a obj ob _ _ => persists_same rfl rfl rfl rfl rfl
  setAugmented := fun s a => persists_same rfl rfl rfl rfl rfl
  allocCell := fun s cell =>
    { trace := ⟨[], by simp⟩
      watchers := fun _ wt h => ⟨wt, h, sameFlags_refl wt⟩
      deps := fun _ dep h => ⟨dep, h, rfl⟩
      cells := fun c x h => ⟨x, getElem?_append_some _ _ _ _ h, sameConsts_refl x⟩
      env := rfl }
  setCellVal := by
    intro s c v
    refine modifyCell_persists s c _ ?_
    intro x
    exact sameConsts_refl x
  setCellChildOb := by
    intro s c ob
    refine modifyCell_persists s c _ ?_
    intro x
    exact sameConsts_refl x
  depNew := fun s =>
    persists_of [] (by simp [Dep.new]) (fun _ wt h => ⟨wt, h, sameFlags_refl wt⟩)
      (fun d dep h => ⟨dep, getElem?_append_some _ _ _ _ h, rfl⟩) rfl rfl
  allocObserver := fun s o => persists_same rfl rfl rfl rfl rfl
  vmCount := fun s o => persists_same rfl rfl rfl rfl rfl
  sched := fun s q h d c w f so => persists_same rfl rfl rfl rfl rfl
  popTarget := fun s => persists_same rfl rfl rfl rfl rfl
  cleanupDeps := fun s w =>
    persists_of [] (by rw [cleanupDeps_eq]; simp) (cleanupDeps_sameFlags w s)
      (cleanupDeps_depIds w s) (by rw [cleanupDeps_eq]) (by rw [cleanupDeps_eq])
  setValue := by
    intro s w f g
    refine modifyWatcher_persists s w _ ?_
    intro x
    exact sameFlags_refl x
  setVm := fun s v f => persists_same rfl rfl rfl rfl rfl
  allocWatcher := fun s wt _ _ _ =>
    persists_of [] (by simp) (fun w x h => ⟨x, getElem?_append_some _ _ _ _ h, sameFlags_refl x⟩)
      (fun _ dep h => ⟨dep, h, rfl⟩) rfl rfl


/-! ## Watcher: update, run, get -/

theorem observe_skip (call : Call) (s : State) (v : Val) (asRootData : Bool)
    (h : isObject v = false ∨
      ∃ a obj, v = .ref a ∧ s.heap[a]? = some obj ∧
        (obj.kind = .vnode ∨
          (obj.__ob__ = none ∧
            (obj.extensible = false ∨ (obj.kind ≠ .array ∧ obj.kind ≠ .plain) ∨
              obj._isVue = true ∨ s.shouldObserve = false)))) :
    observe call v asRootData s = some (.retOb none, s) := by
  rcases h with h | ⟨a, obj, rfl, ho, h⟩
  · exact observe_primitive call v asRootData s h
  · unfold observe
    simp only [ho]
    rcases h with hk | ⟨hob, h⟩
    · simp [hk]
    · by_cases hk : obj.kind = .vnode
      · simp [hk]
      · rw [if_neg hk, hob]
        have : (s.shouldObserve && !s.env.isServerRendering &&
            (decide (obj.kind = .array) || decide (obj.kind = .plain)) && obj.extensible &&
              !obj._isVue) = false := by
          rcases h with h | ⟨h1, h2⟩ | h | h <;> simp [*]
        simp [this, andThenOb]

theorem queueWatcher_async (call : Call) (s : State) (w : Nat) (wt : Watcher)
    (hw : s.watchers[w]? = some wt) (ha : s.env.async = true) :
    ∃ s', queueWatcher call w s = some (.ret .undefined, s') ∧
      s'.trace = s.trace ++ [.queue w] ∧ s'.watchers = s.watchers ∧
      s'.deps = s.deps ∧ s'.heap = s.heap ∧ s'.cells = s.cells := by
  unfold queueWatcher
  simp only [hw, State.log]
  by_cases h1 : wt.id ∈ s.has
  · rw [if_pos h1]
    exact ⟨_, rfl, rfl, rfl, rfl, rfl, rfl⟩
  · rw [if_neg h1]
    by_cases h2 : s.flushing = true <;> by_cases h3 : s.current < wt.id <;>
      by_cases h4 : s.waiting = true <;>
      simp [h2, h3, h4, ha]

theorem update_async (n : Nat) (s : State) (w : Nat) (wt : Watcher)
    (hw : s.watchers[w]? = some wt) (hl : wt.lazy = false) (hs : wt.sync = false)
    (ha : s.env.async = true) :
    ∃ s', exec (n + 2) (.update w) s = some (.ret .undefined, s') ∧
      s'.trace = s.trace ++ [.update w, .queue w] ∧ s'.watchers = s.watchers ∧
      s'.deps = s.deps ∧ s'.heap = s.heap ∧ s'.cells = s.cells := by
  obtain ⟨s', h1, h2, h3, h4, h5, h6⟩ :=
    queueWatcher_async (exec n) (s.log (.update w)) w wt hw ha
  refine ⟨s', ?_, ?_, h3, h4, h5, h6⟩
  · simp only [exec_succ, dispatch, Watcher.update, hw, hl, hs]
    exact h1
  · rw [h2]
    simp [State.log]

theorem exec_pos {n : Nat} {t : Task} {s : State} {r : Completion × State}
    (h : exec n t s = some r) : ∃ m, n = m + 1 := by
  cases n with
  | zero => exact absurd h (by simp [exec])
  | succ m => exact ⟨m, rfl⟩

/-- The `finally` block after a failed getter: the value is `undefined`, so a deep watcher
has nothing to traverse. -/
theorem getFinally_undefined (n : Nat) (w : Nat) (deep : Bool) (s : State) :
    Watcher.getFinally (exec (n + 1)) w deep .undefined s =
      some (.ret .undefined,
        Watcher.cleanupDeps w (popTarget (if deep then { s with seenObjects := [] } else s))) := by
  unfold Watcher.getFinally
  cases deep <;> simp [andThen, exec_succ, dispatch, traverse]

theorem get_thrown (n : Nat) (s s1 : State) (w : Nat) (wt : Watcher) (e : Val)
    (hw : s.watchers[w]? = some wt)
    (hg : exec n (.callFn wt.getter []) ((pushTarget (some w) s).log (.getter w)) =
      some (.thrown e, s1)) :
    exec (n + 1) (.get w) s =
      if wt.user then
        some (.ret .undefined, Watcher.cleanupDeps w (popTarget
          (if wt.deep then { s1.log (.handleError e) with seenObjects := [] }
           else s1.log (.handleError e))))
      else
        some (.thrown e, Watcher.cleanupDeps w (popTarget
          (if wt.deep then { s1 with seenObjects := [] } else s1))) := by
  obtain ⟨m, rfl⟩ := exec_pos hg
  simp only [exec_succ (m + 1), dispatch, Watcher.get, hw, hg]
  split
  · exact getFinally_undefined m w wt.deep _
  · rw [getFinally_undefined m w wt.deep s1]
    rfl

theorem run_quiet (n : Nat) (s s1 : State) (w : Nat) (wt wt1 : Watcher) (value : Val)
    (hw : s.watchers[w]? = some wt) (ha : wt.active = true)
    (hget : exec n (.get w) s = some (.ret value, s1))
    (hw1 : s1.watchers[w]? = some wt1)
    (hc : (!strictEq value wt1.value || isObject value || wt.deep) = false) :
    exec (n + 1) (.run w) s = some (.ret .undefined, s1) := by
  simp only [exec_succ, dispatch, Watcher.run, hw, ha, if_true, hget, andThen, hw1, hc]
  simp

theorem run_fires (n : Nat) (s s1 s3 : State) (w : Nat) (wt wt1 : Watcher) (value : Val)
    (c : Completion)
    (hw : s.watchers[w]? = some wt) (ha : wt.active = true)
    (hget : exec n (.get w) s = some (.ret value, s1))
    (hw1 : s1.watchers[w]? = some wt1)
    (hc : (!strictEq value wt1.value || isObject value || wt.deep) = true)
    (hcb : exec n (.callFn wt.cb [value, wt1.value])
      ((s1.modifyWatcher w fun x => { x with value := value }).log (.cb w value wt1.value)) =
        some (c, s3)) :
    exec (n + 1) (.run w) s =
      match c with
      | .ret _ => some (.ret .undefined, s3)
      | .thrown e =>
        if wt.user then some (.ret .undefined, s3.log (.handleError e)) else some (.thrown e, s3)
      | _ => none := by
  simp only [exec_succ, dispatch, Watcher.run, hw, ha, if_true, hget, andThen, hw1, hc, hcb]
  cases c <;> cases hu : wt.user <;> simp


/-! ## Dep.notify -/

theorem notifyLoop_updateWith (f : Nat → State → State) (ws : List Nat) (s : State) :
    Dep.notifyLoop (updateWith f) ws s =
      some (.ret .undefined, ws.foldl (fun acc w => f w acc) s) := by
  induction ws generalizing s with
  | nil => rfl
  | cons w ws ih =>
    simp only [Dep.notifyLoop, updateWith, andThen, List.foldl_cons]
    exact ih _

theorem sortById_perm (s : State) (l : List Nat) : (sortById s l).Perm l :=
  List.perm_insertionSort _ l

theorem sortById_sorted (s : State) (l : List Nat) :
    (sortById s l).Sorted fun a b => watcherId s a ≤ watcherId s b := by
  haveI : IsTotal Nat (fun a b => watcherId s a ≤ watcherId s b) :=
    ⟨fun a b => Nat.le_total _ _⟩
  haveI : IsTrans Nat (fun a b => watcherId s a ≤ watcherId s b) :=
    ⟨fun a b c h1 h2 => Nat.le_trans h1 h2⟩
  exact List.sorted_insertionSort _ l

/-- The snapshot that `notify` works on. -/
theorem notify_eq (call : Call) (s : State) (d : Nat) (dep : Dep) (hd : s.deps[d]? = some dep) :
    Dep.notify call d s =
      Dep.notifyLoop call
        (if !s.env.production && !s.env.async then sortById s dep.subs else dep.subs)
        (s.log (.notify d)) := by
  simp only [Dep.notify, hd]

theorem update_trace (n : Nat) (w : Nat) (s s1 : State) (c : Completion)
    (h : exec n (.update w) s = some (c, s1)) :
    ∃ l, s1.trace = s.trace ++ .update w :: l := by
  obtain ⟨m, rfl⟩ := exec_pos h
  simp only [exec_succ, dispatch, Watcher.update] at h
  split at h
  · cases h
  · split at h
    · cases h
      exact ⟨[], by simp [State.log, State.modifyWatcher]⟩
    · split at h
      · obtain ⟨l, hl⟩ := (exec_closed persists_closed m _ _ _ _ h trivial).trace
        exact ⟨l, by rw [hl]; simp [State.log]⟩
      · obtain ⟨l, hl⟩ := (exec_closed persists_closed m _ _ _ _ h trivial).trace
        exact ⟨l, by rw [hl]; simp [State.log]⟩

theorem notifyLoop_trace (n : Nat) (ws : List Nat) (s s' : State) (v : Val)
    (h : Dep.notifyLoop (exec n) ws s = some (.ret v, s')) :
    ∃ l, s'.trace = s.trace ++ l ∧ (ws.map Event.update).Sublist l := by
  induction ws generalizing s with
  | nil =>
    simp only [Dep.notifyLoop] at h
    cases h
    exact ⟨[], by simp, by simp⟩
  | cons w ws ih =>
    simp only [Dep.notifyLoop] at h
    cases hu : exec n (.update w) s with
    | none => simp [hu, andThen] at h
    | some r =>
      obtain ⟨c, s1⟩ := r
      cases c with
      | ret x =>
        simp only [hu, andThen] at h
        obtain ⟨l1, h1⟩ := update_trace n w s s1 _ hu
        obtain ⟨l2, h2, h3⟩ := ih s1 h
        refine ⟨.update w :: l1 ++ l2, by rw [h2, h1]; simp, ?_⟩
        rw [List.map_cons]
        exact List.Sublist.cons₂ _ (List.Sublist.trans h3 (List.sublist_append_right l1 l2))
      | thrown e => simp [hu, andThen] at h
      | retOb o => simp [hu, andThen] at h
      | retW o => simp [hu, andThen] at h


/-! ## addDep and depend -/

theorem addDep_target (w d : Nat) (s : State) : (Watcher.addDep w d s).target = s.target := by
  rw [addDep_eq]

theorem addDep_trace (w d : Nat) (s : State) : (Watcher.addDep w d s).trace = s.trace := by
  rw [addDep_eq]

theorem uniqueDepIds_of {s s' : State} (h1 : DepIds s'.deps s.deps)
    (hu : UniqueDepIds s) : UniqueDepIds s' := by
  intro i j di dj hi hj hij
  obtain ⟨di', h2, h3⟩ := h1 i di hi
  obtain ⟨dj', h4, h5⟩ := h1 j dj hj
  exact hu i j di' dj' h2 h4 (by rw [h3, h5, hij])

/-- One `addDep(dep)` of the watcher `W`: the id is registered, and `W` stays subscribed to
every Dep whose id it holds. -/
theorem addDep_spec (W d : Nat) (s : State) (wt : Watcher) (dep : Dep)
    (hw : s.watchers[W]? = some wt) (hd : s.deps[d]? = some dep)
    (hS : Subscribed W s) (hU : UniqueDepIds s) :
    Subscribed W (Watcher.addDep W d s) ∧ UniqueDepIds (Watcher.addDep W d s) ∧
      DepIds s.deps (Watcher.addDep W d s).deps ∧
      ∃ wt', (Watcher.addDep W d s).watchers[W]? = some wt' ∧
        wt.newDepIds ⊆ wt'.newDepIds ∧ dep.id ∈ wt'.newDepIds := by
  unfold Watcher.addDep
  simp only [hw, hd]
  by_cases h1 : dep.id ∈ wt.newDepIds
  · rw [if_pos h1]
    exact ⟨hS, hU, depIds_refl _, wt, hw, fun _ h => h, h1⟩
  · rw [if_neg h1]
    by_cases h2 : dep.id ∈ wt.depIds
    · rw [if_pos h2]
      refine ⟨?_, hU, depIds_refl _,
        { wt with newDepIds := wt.newDepIds ++ [dep.id], newDeps := wt.newDeps ++ [d] },
        by simp [State.modifyWatcher, hw], ?_, ?_⟩
      · intro wt' hw' x depx hx hor
        simp only [State.modifyWatcher, List.getElem?_modify_eq, hw, Option.map_eq_map,
          Option.map_some', Option.some.injEq] at hw'
        subst hw'
        have hx' : s.deps[x]? = some depx := hx
        rcases hor with h | h
        · exact hS wt hw x depx hx' (Or.inl h)
        · rcases List.mem_append.mp h with h | h
          · exact hS wt hw x depx hx' (Or.inr h)
          · simp only [List.mem_singleton] at h
            exact hS wt hw x depx hx' (Or.inl (by rw [h]; exact h2))
      · intro y hy
        exact List.mem_append_left _ hy
      · simp
    · rw [if_neg h2]
      refine ⟨?_, ?_, ?_,
        { wt with newDepIds := wt.newDepIds ++ [dep.id], newDeps := wt.newDeps ++ [d] },
        by simp [Dep.addSub, State.modifyDep, State.modifyWatcher, hw], ?_, ?_⟩
      · intro wt' hw' x depx hx hor
        simp only [Dep.addSub, State.modifyDep, State.modifyWatcher, List.getElem?_modify_eq, hw,
          Option.map_eq_map, Option.map_some', Option.some.injEq] at hw'
        subst hw'
        simp only [Dep.addSub, State.modifyDep, State.modifyWatcher, List.getElem?_modify] at hx
        by_cases hdx : d = x
        · subst hdx
          simp only [hd, if_true, Option.map_eq_map, Option.map_some', Option.some.injEq] at hx
          subst hx
          simp
        · simp only [hdx, if_false] at hx
          cases hx0 : s.deps[x]? with
          | none => simp [hx0] at hx
          | some depx0 =>
            simp only [hx0, Option.map_eq_map, Option.map_some', id_eq, Option.some.injEq] at hx
            subst hx
            rcases hor with h | h
            · exact hS wt hw x depx0 hx0 (Or.inl h)
            · rcases List.mem_append.mp h with h | h
              · exact hS wt hw x depx0 hx0 (Or.inr h)
              · simp only [List.mem_singleton] at h
                exact absurd (hU x d depx0 dep hx0 hd h) (Ne.symm hdx)
      · exact @uniqueDepIds_of s _ (by
          intro x depx hx
          simp only [Dep.addSub, State.modifyDep, State.modifyWatcher, List.getElem?_modify] at hx
          by_cases hdx : d = x
          · subst hdx
            simp only [hd, if_true, Option.map_eq_map, Option.map_some', Option.some.injEq] at hx
            subst hx
            exact ⟨dep, hd, rfl⟩
          · simp only [hdx, if_false] at hx
            cases hx0 : s.deps[x]? with
            | none => simp [hx0] at hx
            | some depx0 =>
              simp only [hx0, Option.map_eq_map, Option.map_some', id_eq, Option.some.injEq] at hx
              subst hx
              exact ⟨depx0, rfl, rfl⟩) hU
      · exact addSub_depIds d W _
      · intro y hy
        exact List.mem_append_left _ hy
      · simp

theorem addDep_missing (W d : Nat) (s : State) (hd : s.deps[d]? = none) :
    Watcher.addDep W d s = s := by
  unfold Watcher.addDep
  split
  · rename_i h1 h2
    rw [hd] at h2
    cases h2
  · rfl

/-- A sequence of `dep.depend()` calls while `W` is the target. -/
theorem dependFold_spec (W : Nat) (ds : List Nat) (s : State) (wt : Watcher)
    (ht : s.target = some W) (hw : s.watchers[W]? = some wt)
    (hS : Subscribed W s) (hU : UniqueDepIds s) :
    (ds.foldl (fun acc d => Dep.depend d acc) s).target = s.target ∧
    (ds.foldl (fun acc d => Dep.depend d acc) s).trace = s.trace ∧
    Subscribed W (ds.foldl (fun acc d => Dep.depend d acc) s) ∧
    UniqueDepIds (ds.foldl (fun acc d => Dep.depend d acc) s) ∧
    DepIds s.deps (ds.foldl (fun acc d => Dep.depend d acc) s).deps ∧
    ∃ wt', (ds.foldl (fun acc d => Dep.depend d acc) s).watchers[W]? = some wt' ∧
      wt.newDepIds ⊆ wt'.newDepIds ∧
      ∀ d ∈ ds, ∀ dep, s.deps[d]? = some dep → dep.id ∈ wt'.newDepIds := by
  induction ds generalizing s wt with
  | nil => exact ⟨rfl, rfl, hS, hU, depIds_refl _, wt, hw, fun _ h => h, by simp⟩
  | cons d ds ih =>
    rw [List.foldl_cons]
    have hdep : Dep.depend d s = Watcher.addDep W d s := by simp [Dep.depend, ht]
    rw [hdep]
    cases hd : s.deps[d]? with
    | none =>
      rw [addDep_missing W d s hd]
      obtain ⟨h1, h2, h3, h4, h5, wt', h6, h7, h8⟩ := ih s wt ht hw hS hU
      refine ⟨h1, h2, h3, h4, h5, wt', h6, h7, ?_⟩
      intro x hx depx hdx
      rcases List.mem_cons.mp hx with rfl | hx
      · rw [hd] at hdx
        cases hdx
      · exact h8 x hx depx hdx
    | some dep =>
      obtain ⟨a1, a2, a3, wt1, a4, a5, a6⟩ := addDep_spec W d s wt dep hw hd hS hU
      obtain ⟨h1, h2, h3, h4, h5, wt', h6, h7, h8⟩ :=
        ih (Watcher.addDep W d s) wt1 (by rw [addDep_target]; exact ht) a4 a1 a2
      refine ⟨by rw [h1, addDep_target], by rw [h2, addDep_trace], h3, h4, depIds_trans a3 h5, wt', h6,
        fun _ h => h7 (a5 h), ?_⟩
      intro x hx depx hdx
      rcases List.mem_cons.mp hx with rfl | hx
      · rw [hd] at hdx
        cases hdx
        exact h7 a6
      · obtain ⟨depx', e1, e2⟩ := a3 x depx hdx
        rw [← e2]
        exact h8 x hx depx' e1

theorem dependFold_none (ds : List Nat) (s : State) (ht : s.target = none) :
    ds.foldl (fun acc d => Dep.depend d acc) s = s := by
  induction ds with
  | nil => rfl
  | cons d ds ih =>
    rw [List.foldl_cons]
    have : Dep.depend d s = s := by simp [Dep.depend, ht]
    rw [this]
    exact ih


/-! ## Watcher.get: the target stack and the reconciliation -/

theorem popTarget_restores (s sE : State) (x : Option Nat) (hT : TargetOnTop s)
    (hb : sE.targetStack = s.targetStack ++ [x]) :
    (popTarget sE).target = s.target ∧ (popTarget sE).targetStack = s.targetStack := by
  unfold popTarget
  simp only [hb, List.dropLast_concat]
  exact ⟨hT.symm, trivial⟩

theorem cleanupDeps_lookup (w : Nat) (s : State) (wt : Watcher)
    (hw : s.watchers[w]? = some wt) :
    (Watcher.cleanupDeps w s).watchers[w]? =
      some { wt with depIds := wt.newDepIds, newDepIds := [], deps := wt.newDeps,
                     newDeps := [] } := by
  unfold Watcher.cleanupDeps
  simp only [hw, modifyWatcher_watchers, cleanupFold_watchers, List.getElem?_modify_eq,
    Option.map_eq_map, Option.map_some']

theorem cleanupDeps_target (w : Nat) (s : State) :
    (Watcher.cleanupDeps w s).target = s.target ∧
      (Watcher.cleanupDeps w s).targetStack = s.targetStack ∧
      (Watcher.cleanupDeps w s).trace = s.trace := by
  rw [cleanupDeps_eq]
  exact ⟨rfl, rfl, rfl⟩

/-- The `finally` block of `get ()` when the traversal of a deep watcher returns. -/
theorem getFinally_ret (call : Call) (w : Nat) (deep : Bool) (value : Val) (s1 : State)
    (htr : deep = true → ∃ u s2, call (.traverse value) s1 = some (.ret u, s2)) :
    ∃ sE, Watcher.getFinally call w deep value s1 =
        some (.ret value, Watcher.cleanupDeps w (popTarget sE)) ∧
      (deep = false → sE = s1) ∧
      (deep = true → ∃ u s2, call (.traverse value) s1 = some (.ret u, s2) ∧
        sE = { s2 with seenObjects := [] }) := by
  unfold Watcher.getFinally
  cases deep with
  | false => exact ⟨s1, by simp [andThen], fun _ => rfl, fun h => (by cases h)⟩
  | true =>
    obtain ⟨u, s2, h⟩ := htr rfl
    exact ⟨{ s2 with seenObjects := [] }, by simp [andThen, h], fun h => (by cases h),
      fun _ => ⟨u, s2, h, rfl⟩⟩

/-- After the `finally` block: the target and its stack are those before the push, and the
two generations of dependencies have been swapped. -/
theorem get_tail (s sE : State) (w : Nat) (wtE : Watcher) (hT : TargetOnTop s)
    (hb : sE.targetStack = s.targetStack ++ [some w]) (hE : sE.watchers[w]? = some wtE) :
    (Watcher.cleanupDeps w (popTarget sE)).target = s.target ∧
    (Watcher.cleanupDeps w (popTarget sE)).targetStack = s.targetStack ∧
    (Watcher.cleanupDeps w (popTarget sE)).watchers[w]? =
      some { wtE with depIds := wtE.newDepIds, newDepIds := [], deps := wtE.newDeps,
                      newDeps := [] } := by
  obtain ⟨h1, h2, -⟩ := cleanupDeps_target w (popTarget sE)
  obtain ⟨h3, h4⟩ := popTarget_restores s sE (some w) hT hb
  exact ⟨h1.trans h3, h2.trans h4, cleanupDeps_lookup w (popTarget sE) wtE hE⟩

theorem get_restores_ret (n : Nat) (s : State) (w : Nat) (wt wt1 : Watcher) (v : Val)
    (s1 : State) (hw : s.watchers[w]? = some wt) (hT : TargetOnTop s) (hd : wt.deep = false)
    (hg : exec n (.callFn wt.getter []) ((pushTarget (some w) s).log (.getter w)) =
      some (.ret v, s1))
    (hbal : s1.targetStack = s.targetStack ++ [some w]) (hw1 : s1.watchers[w]? = some wt1) :
    ∃ s', exec (n + 1) (.get w) s = some (.ret v, s') ∧
      s'.target = s.target ∧ s'.targetStack = s.targetStack ∧
      s'.watchers[w]? =
        some { wt1 with depIds := wt1.newDepIds, newDepIds := [], deps := wt1.newDeps,
                        newDeps := [] } := by
  obtain ⟨a1, a2, a3⟩ := get_tail s s1 w wt1 hT hbal hw1
  refine ⟨_, ?_, a1, a2, a3⟩
  simp only [exec_succ, dispatch, Watcher.get, hw, hg, Watcher.getFinally, hd, andThen]
  rfl

theorem get_restores_deep (n : Nat) (s : State) (w : Nat) (wt wt2 : Watcher) (v u : Val)
    (s1 s2 : State) (hw : s.watchers[w]? = some wt) (hT : TargetOnTop s) (hd : wt.deep = true)
    (hg : exec n (.callFn wt.getter []) ((pushTarget (some w) s).log (.getter w)) =
      some (.ret v, s1))
    (ht : exec n (.traverse v) s1 = some (.ret u, s2))
    (hbal : s2.targetStack = s.targetStack ++ [some w]) (hw2 : s2.watchers[w]? = some wt2) :
    ∃ s', exec (n + 1) (.get w) s = some (.ret v, s') ∧
      s'.target = s.target ∧ s'.targetStack = s.targetStack ∧
      s'.watchers[w]? =
        some { wt2 with depIds := wt2.newDepIds, newDepIds := [], deps := wt2.newDeps,
                        newDeps := [] } := by
  obtain ⟨a1, a2, a3⟩ := get_tail s { s2 with seenObjects := [] } w wt2 hT hbal hw2
  refine ⟨_, ?_, a1, a2, a3⟩
  simp only [exec_succ, dispatch, Watcher.get, hw, hg, Watcher.getFinally, hd, andThen, ht]
  rfl

theorem get_restores_thrown (n : Nat) (s : State) (w : Nat) (wt wt1 : Watcher) (e : Val)
    (s1 : State) (hw : s.watchers[w]? = some wt) (hT : TargetOnTop s)
    (hg : exec n (.callFn wt.getter []) ((pushTarget (some w) s).log (.getter w)) =
      some (.thrown e, s1))
    (hbal : s1.targetStack = s.targetStack ++ [some w]) (hw1 : s1.watchers[w]? = some wt1) :
    ∃ s', exec (n + 1) (.get w) s =
        some (if wt.user then .ret .undefined else .thrown e, s') ∧
      s'.target = s.target ∧ s'.targetStack = s.targetStack ∧
      s'.watchers[w]? =
        some { wt1 with depIds := wt1.newDepIds, newDepIds := [], deps := wt1.newDeps,
                        newDeps := [] } := by
  have h := get_thrown n s s1 w wt e hw hg
  cases hu : wt.user with
  | true =>
    rw [hu, if_pos rfl] at h
    obtain ⟨a1, a2, a3⟩ := get_tail s
      (if wt.deep then { s1.log (.handleError e) with seenObjects := [] }
       else s1.log (.handleError e)) w wt1 hT
      (by cases wt.deep <;> exact hbal) (by cases wt.deep <;> exact hw1)
    exact ⟨_, h, a1, a2, a3⟩
  | false =>
    rw [hu] at h
    obtain ⟨a1, a2, a3⟩ := get_tail s (if wt.deep then { s1 with seenObjects := [] } else s1)
      w wt1 hT (by cases wt.deep <;> exact hbal) (by cases wt.deep <;> exact hw1)
    exact ⟨_, h, a1, a2, a3⟩


/-! ## Computed properties -/

theorem addDep_cache (T d : Nat) (s : State) (x : Nat) (wt : Watcher)
    (h : s.watchers[x]? = some wt) :
    ∃ wt', (Watcher.addDep T d s).watchers[x]? = some wt' ∧ wt'.value = wt.value ∧
      wt'.dirty = wt.dirty := by
  unfold Watcher.addDep
  split
  · rename_i wtT depT hwT hdT
    dsimp only
    split
    · exact ⟨wt, h, rfl, rfl⟩
    · have hm : ∃ wt', ((s.modifyWatcher T fun x =>
          { x with newDepIds := x.newDepIds ++ [depT.id],
                   newDeps := x.newDeps ++ [d] }).watchers[x]?
            = some wt') ∧ wt'.value = wt.value ∧ wt'.dirty = wt.dirty := by
        simp only [State.modifyWatcher, List.getElem?_modify, h]
        by_cases hT : T = x
        · simp [hT]
        · simp [hT]
      split
      · exact hm
      · exact hm
  · exact ⟨wt, h, rfl, rfl⟩

theorem dependFold_cache (ds : List Nat) (s : State) (x : Nat) (wt : Watcher)
    (h : s.watchers[x]? = some wt) :
    (ds.foldl (fun acc d => Dep.depend d acc) s).trace = s.trace ∧
    ∃ wt', (ds.foldl (fun acc d => Dep.depend d acc) s).watchers[x]? = some wt' ∧
      wt'.value = wt.value ∧ wt'.dirty = wt.dirty := by
  induction ds generalizing s wt with
  | nil => exact ⟨rfl, wt, h, rfl, rfl⟩
  | cons d ds ih =>
    rw [List.foldl_cons]
    have h1 : ∃ wt1, (Dep.depend d s).watchers[x]? = some wt1 ∧ wt1.value = wt.value ∧
        wt1.dirty = wt.dirty := by
      unfold Dep.depend
      split
      · exact addDep_cache _ d s x wt h
      · exact ⟨wt, h, rfl, rfl⟩
    obtain ⟨wt1, a1, a2, a3⟩ := h1
    obtain ⟨b1, wt', b2, b3, b4⟩ := ih (Dep.depend d s) wt1 a1
    exact ⟨by rw [b1, depend_eq], wt', b2, b3.trans a2, b4.trans a3⟩

/-- `depend ()` of a watcher changes neither the trace nor the cached value and the dirty flag
of any watcher. -/
theorem Watcher_depend_cache (L : Nat) (s : State) (x : Nat) (wt : Watcher)
    (h : s.watchers[x]? = some wt) :
    (Watcher.depend L s).trace = s.trace ∧
    ∃ wt', (Watcher.depend L s).watchers[x]? = some wt' ∧ wt'.value = wt.value ∧
      wt'.dirty = wt.dirty := by
  unfold Watcher.depend
  split
  · exact ⟨rfl, wt, h, rfl, rfl⟩
  · exact dependFold_cache _ s x wt h

/-- A read of a computed property whose watcher is not dirty. -/
theorem computedGetter_clean (call : Call) (w : Nat) (s : State) (wt : Watcher)
    (hw : s.watchers[w]? = some wt) (hd : wt.dirty = false) :
    ∃ s' wt', computedGetter call (some w) s = some (.ret wt.value, s') ∧
      s'.trace = s.trace ∧ s'.watchers[w]? = some wt' ∧ wt'.value = wt.value ∧
      wt'.dirty = false := by
  unfold computedGetter
  simp only [hw, hd, andThen]
  cases ht : s.target with
  | none => exact ⟨s, wt, by simp [ht, hw], rfl, hw, rfl, hd⟩
  | some T =>
    obtain ⟨h1, wt', h2, h3, h4⟩ := Watcher_depend_cache w s w wt hw
    exact ⟨_, wt', by simp [ht, h2, h3], h1, h2, h3, h4.trans hd⟩

theorem computedReads_clean (call : Call) (w : Nat) (k : Nat) (s : State) (wt : Watcher)
    (hw : s.watchers[w]? = some wt) (hd : wt.dirty = false) :
    ∃ s' wt', computedReads call w k s = some (List.replicate k wt.value, s') ∧
      s'.trace = s.trace ∧ s'.watchers[w]? = some wt' ∧ wt'.value = wt.value ∧
      wt'.dirty = false := by
  induction k generalizing s wt with
  | zero => exact ⟨s, wt, rfl, rfl, hw, rfl, hd⟩
  | succ k ih =>
    obtain ⟨s1, wt1, a1, a2, a3, a4, a5⟩ := computedGetter_clean call w s wt hw hd
    obtain ⟨s2, wt2, b1, b2, b3, b4, b5⟩ := ih s1 wt1 a3 a5
    refine ⟨s2, wt2, ?_, b2.trans a2, b3, b4.trans a4, b5⟩
    simp only [computedReads, a1, b1, a4, List.replicate_succ]

/-- A read of a computed property whose watcher is dirty: one `evaluate()`. -/
theorem computedGetter_dirty (n : Nat) (w : Nat) (s s1 : State) (wt wt1 : Watcher) (v : Val)
    (hw : s.watchers[w]? = some wt) (hd : wt.dirty = true)
    (hg : exec n (.get w) s = some (.ret v, s1)) (hw1 : s1.watchers[w]? = some wt1) :
    ∃ s' wt', computedGetter (exec (n + 1)) (some w) s = some (.ret v, s') ∧
      s'.trace = s1.trace ∧ s'.watchers[w]? = some wt' ∧ wt'.value = v ∧
      wt'.dirty = false ∧
      (s1.target = none →
        s' = s1.modifyWatcher w fun x => { x with value := v, dirty := false }) := by
  unfold computedGetter
  simp only [hw, hd, if_true, exec_succ, dispatch, Watcher.evaluate, hg, andThen]
  have hw1' : (s1.modifyWatcher w fun x => { x with value := v, dirty := false }).watchers[w]?
      = some { wt1 with value := v, dirty := false } := by
    simp [State.modifyWatcher, hw1]
  cases ht : s1.target with
  | none =>
    refine ⟨s1.modifyWatcher w fun x => { x with value := v, dirty := false },
      { wt1 with value := v, dirty := false }, ?_, rfl, hw1', rfl, rfl, fun _ => rfl⟩
    have : (s1.modifyWatcher w fun x => { x with value := v, dirty := false }).target
        = none := ht
    simp only [this, hw1']
  | some T =>
    obtain ⟨h1, wt', h2, h3, h4⟩ := Watcher_depend_cache w _ w _ hw1'
    refine ⟨_, wt', ?_, h1, h2, h3, h4, fun h => by cases h⟩
    have : (s1.modifyWatcher w fun x => { x with value := v, dirty := false }).target
        = some T := ht
    simp only [this, h2, h3]


/-! ## The dependency records of a watcher stay consistent -/

theorem depsStep_refl (W : Nat) (keep : Bool) (ds : List Dep) : DepsStep W keep ds ds :=
  ⟨rfl, fun _ dep h => ⟨dep, h, rfl, fun _ h => h⟩⟩

theorem depsStep_trans {W : Nat} {keep : Bool} {a b c : List Dep}
    (h1 : DepsStep W keep a b) (h2 : DepsStep W keep b c) : DepsStep W keep a c := by
  refine ⟨h2.1.trans h1.1, ?_⟩
  intro d dep h
  obtain ⟨d1, e1, f1, g1⟩ := h1.2 d dep h
  obtain ⟨d2, e2, f2, g2⟩ := h2.2 d d1 e1
  exact ⟨d2, e2, f2.trans f1, fun hk hm => g2 hk (g1 hk hm)⟩

theorem depsStep_back {W : Nat} {keep : Bool} {a b : List Dep} (h : DepsStep W keep a b)
    (d : Nat) (dep' : Dep) (hd : b[d]? = some dep') :
    ∃ dep, a[d]? = some dep ∧ dep'.id = dep.id := by
  have hlt : d < a.length := by
    rw [← h.1]
    exact (List.getElem?_eq_some.mp hd).1
  obtain ⟨dep'', e1, e2, -⟩ := h.2 d a[d] (List.getElem?_eq_getElem hlt)
  rw [hd] at e1
  cases e1
  exact ⟨a[d], List.getElem?_eq_getElem hlt, e2⟩

theorem modify_step (W : Nat) (keep : Bool) (ds : List Dep) (v : Nat) (f : Dep → Dep)
    (hf : ∀ x : Dep, (f x).id = x.id)
    (hk : ∀ x : Dep, keep = true → W ∈ x.subs → W ∈ (f x).subs) :
    DepsStep W keep ds (ds.modify f v) := by
  refine ⟨by simp, ?_⟩
  intro d dep h
  rw [List.getElem?_modify, h]
  by_cases hv : v = d
  · exact ⟨f dep, by simp [hv], hf dep, hk dep⟩
  · exact ⟨dep, by simp [hv], rfl, fun _ h => h⟩

theorem removeSub_step (W d v : Nat) (s : State) :
    DepsStep W (decide (v ≠ W)) s.deps (Dep.removeSub d v s).deps := by
  refine modify_step W _ s.deps d _ ?_ ?_
  · intro x
    rfl
  · intro x hk hm
    have hne : v ≠ W := by simpa using hk
    exact (List.mem_erase_of_ne (Ne.symm hne)).mpr hm

theorem addSub_step (W d v : Nat) (keep : Bool) (s : State) :
    DepsStep W keep s.deps (Dep.addSub d v s).deps := by
  refine modify_step W _ s.deps d _ ?_ ?_
  · intro x
    rfl
  · intro x _ hm
    exact List.mem_append_left _ hm

theorem removeSubs_step (W v : Nat) (ds : List Nat) (s : State) :
    DepsStep W (decide (v ≠ W)) s.deps
      (ds.foldl (fun acc d => Dep.removeSub d v acc) s).deps := by
  induction ds generalizing s with
  | nil => exact depsStep_refl _ _ _
  | cons d ds ih =>
    rw [List.foldl_cons]
    exact depsStep_trans (removeSub_step W d v s) (ih _)

theorem listedIn_step {W : Nat} {a a' keep : Bool} {ds ds' : List Dep} {deps ids : List Nat}
    (h : ListedIn W a ds deps ids) (hs : DepsStep W keep ds ds')
    (ha : a' = true → a = true ∧ keep = true) : ListedIn W a' ds' deps ids := by
  refine ⟨?_, ?_⟩
  · intro d hd
    obtain ⟨dep, e1, e2, e3⟩ := h.1 d hd
    obtain ⟨dep', f1, f2, f3⟩ := hs.2 d dep e1
    exact ⟨dep', f1, by rw [f2]; exact e2, fun h' => f3 (ha h').2 (e3 (ha h').1)⟩
  · intro id hid
    obtain ⟨d, hd, dep, e1, e2⟩ := h.2 id hid
    obtain ⟨dep', f1, f2, -⟩ := hs.2 d dep e1
    exact ⟨d, hd, dep', f1, f2.trans e2⟩

theorem unique_step {W : Nat} {keep : Bool} {s s' : State}
    (hs : DepsStep W keep s.deps s'.deps) (hu : UniqueDepIds s) : UniqueDepIds s' := by
  intro i j di dj hi hj hij
  obtain ⟨di0, e1, e2⟩ := depsStep_back hs i di hi
  obtain ⟨dj0, f1, f2⟩ := depsStep_back hs j dj hj
  exact hu i j di0 dj0 e1 f1 (by rw [← e2, ← f2, hij])

/-- Consistency is kept by a change of the subscriber lists that leaves the lists of `W`
alone and keeps `W` subscribed unless `W` becomes inactive. -/
theorem depsOK_step {W : Nat} {keep : Bool} {s s' : State} (h : DepsOK W s)
    (hs : DepsStep W keep s.deps s'.deps) (hu : s'.depUid = s.depUid)
    (hw : ∀ wt, s.watchers[W]? = some wt →
      ∃ wt', s'.watchers[W]? = some wt' ∧ wt'.deps = wt.deps ∧ wt'.depIds = wt.depIds ∧
        wt'.newDeps = wt.newDeps ∧ wt'.newDepIds = wt.newDepIds ∧
        (wt'.active = true → wt.active = true ∧ keep = true)) : DepsOK W s' := by
  obtain ⟨wt, h1, h2, h3⟩ := h.watcher
  obtain ⟨wt', e1, e2, e3, e4, e5, e6⟩ := hw wt h1
  refine { unique := unique_step hs h.unique, bound := ?_, watcher := ⟨wt', e1, ?_, ?_⟩ }
  · intro d dep' hd
    obtain ⟨dep, f1, f2⟩ := depsStep_back hs d dep' hd
    rw [hu, f2]
    exact h.bound d dep f1
  · rw [e2, e3]
    exact listedIn_step h2 hs e6
  · rw [e4, e5]
    exact listedIn_step h3 hs e6

/-- Consistency depends only on the Dep store, its counter and the record of `W`. -/
theorem depsOK_same {W : Nat} {s s' : State} (hd : s'.deps = s.deps)
    (hu : s'.depUid = s.depUid)
    (hw : ∀ wt, s.watchers[W]? = some wt → s'.watchers[W]? = some wt) :
    KeepsDeps W s s' := by
  intro h
  refine @depsOK_step W true s s' h (by rw [hd]; exact depsStep_refl _ _ _) hu ?_
  intro wt h1
  exact ⟨wt, hw wt h1, rfl, rfl, rfl, rfl, fun h => ⟨h, rfl⟩⟩

theorem teardown_other (v W : Nat) (s : State) (hv : v ≠ W) :
    (Watcher.teardown v s).watchers[W]? = s.watchers[W]? := by
  unfold Watcher.teardown
  split
  · rfl
  · split
    · dsimp only
      simp only [modifyWatcher_watchers, removeSubs_watchers]
      rw [List.getElem?_modify_ne _ _ hv]
      split
      · split <;> rfl
      · rfl
    · rfl

theorem teardown_step (W v : Nat) (s : State) :
    DepsStep W (decide (v ≠ W)) s.deps (Watcher.teardown v s).deps := by
  unfold Watcher.teardown
  split
  · exact depsStep_refl _ _ _
  · split
    · dsimp only
      simp only [modifyWatcher_deps]
      refine depsStep_trans ?_ (removeSubs_step W v _ _)
      split
      · split
        · exact depsStep_refl _ _ _
        · exact depsStep_refl _ _ _
      · exact depsStep_refl _ _ _
    · exact depsStep_refl _ _ _

theorem teardown_keepsDeps (W v : Nat) (s : State) : KeepsDeps W s (Watcher.teardown v s) := by
  intro h
  refine depsOK_step h (teardown_step W v s) (by rw [teardown_eq]) ?_
  intro wt hw
  by_cases hv : v = W
  · subst hv
    exact ⟨_, teardown_lookup v s wt hw, rfl, rfl, rfl, rfl, fun h => by cases h⟩
  · exact ⟨wt, by rw [teardown_other v W s hv]; exact hw, rfl, rfl, rfl, rfl,
      fun h => ⟨h, by simpa using hv⟩⟩

theorem addDep_other (T d W : Nat) (s : State) (hT : T ≠ W) :
    (Watcher.addDep T d s).watchers[W]? = s.watchers[W]? := by
  unfold Watcher.addDep
  split
  · dsimp only
    split
    · rfl
    · split
      · simp only [State.modifyWatcher]
        exact List.getElem?_modify_ne _ _ hT
      · simp only [Dep.addSub, State.modifyDep, State.modifyWatcher]
        exact List.getElem?_modify_ne _ _ hT
  · rfl

theorem addDep_step (W T d : Nat) (s : State) :
    DepsStep W true s.deps (Watcher.addDep T d s).deps := by
  unfold Watcher.addDep
  split
  · dsimp only
    split
    · exact depsStep_refl _ _ _
    · split
      · exact depsStep_refl _ _ _
      · exact addSub_step W d T true _
  · exact depsStep_refl _ _ _

/-- `addDep` of the watcher `W` itself keeps its records consistent. -/
theorem addDep_self_keepsDeps (W d : Nat) (s : State) : KeepsDeps W s (Watcher.addDep W d s) := by
  intro h
  obtain ⟨wt, hw, hold, hnew⟩ := h.watcher
  cases hd : s.deps[d]? with
  | none => rw [addDep_missing W d s hd]; exact h
  | some dep =>
    unfold Watcher.addDep
    simp only [hw, hd]
    by_cases h1 : dep.id ∈ wt.newDepIds
    · rw [if_pos h1]
      exact h
    · rw [if_neg h1]
      have hsub : wt.active = true → dep.id ∈ wt.depIds → W ∈ dep.subs := by
        intro ha hin
        obtain ⟨d0, hd0, dep0, e1, e2⟩ := hold.2 dep.id hin
        have : d0 = d := h.unique d0 d dep0 dep e1 hd e2
        subst this
        obtain ⟨dep1, f1, -, f3⟩ := hold.1 d0 hd0
        rw [hd] at f1
        cases f1
        exact f3 ha
      by_cases h2 : dep.id ∈ wt.depIds
      · rw [if_pos h2]
        refine { unique := h.unique, bound := h.bound, watcher :=
          ⟨{ wt with newDepIds := wt.newDepIds ++ [dep.id], newDeps := wt.newDeps ++ [d] },
            by simp [State.modifyWatcher, hw], hold, ?_, ?_⟩ }
        · intro x hx
          rcases List.mem_append.mp hx with hx | hx
          · obtain ⟨depx, e1, e2, e3⟩ := hnew.1 x hx
            exact ⟨depx, e1, List.mem_append_left _ e2, e3⟩
          · simp only [List.mem_singleton] at hx
            subst hx
            exact ⟨dep, hd, by simp, fun ha => hsub ha h2⟩
        · intro id hid
          rcases List.mem_append.mp hid with hid | hid
          · obtain ⟨x, hx, depx, e1, e2⟩ := hnew.2 id hid
            exact ⟨x, List.mem_append_left _ hx, depx, e1, e2⟩
          · simp only [List.mem_singleton] at hid
            subst hid
            exact ⟨d, by simp, dep, hd, rfl⟩
      · rw [if_neg h2]
        have hs : DepsStep W true s.deps (Dep.addSub d W (s.modifyWatcher W fun x =>
            { x with newDepIds := x.newDepIds ++ [dep.id],
                     newDeps := x.newDeps ++ [d] })).deps :=
          addSub_step W d W true _
        have hlook : (Dep.addSub d W (s.modifyWatcher W fun x =>
            { x with newDepIds := x.newDepIds ++ [dep.id],
                     newDeps := x.newDeps ++ [d] })).deps[d]? =
              some { dep with subs := dep.subs ++ [W] } := by
          simp [Dep.addSub, State.modifyDep, State.modifyWatcher, hd]
        refine { unique := unique_step hs h.unique, bound := ?_, watcher :=
          ⟨{ wt with newDepIds := wt.newDepIds ++ [dep.id], newDeps := wt.newDeps ++ [d] },
            by simp [Dep.addSub, State.modifyDep, State.modifyWatcher, hw],
            listedIn_step hold hs (fun ha => ⟨ha, rfl⟩), ?_, ?_⟩ }
        · intro x depx hx
          obtain ⟨dep0, f1, f2⟩ := depsStep_back hs x depx hx
          rw [f2]
          exact h.bound x dep0 f1
        · intro x hx
          rcases List.mem_append.mp hx with hx | hx
          · obtain ⟨depx, e1, e2, e3⟩ := hnew.1 x hx
            obtain ⟨depx', f1, f2, f3⟩ := hs.2 x depx e1
            exact ⟨depx', f1, by rw [f2]; exact List.mem_append_left _ e2,
              fun ha => f3 rfl (e3 ha)⟩
          · simp only [List.mem_singleton] at hx
            subst hx
            exact ⟨_, hlook, by simp, fun _ => by simp⟩
        · intro id hid
          rcases List.mem_append.mp hid with hid | hid
          · obtain ⟨x, hx, depx, e1, e2⟩ := hnew.2 id hid
            obtain ⟨depx', f1, f2, -⟩ := hs.2 x depx e1
            exact ⟨x, List.mem_append_left _ hx, depx', f1, f2.trans e2⟩
          · simp only [List.mem_singleton] at hid
            subst hid
            exact ⟨d, by simp, _, hlook, rfl⟩

theorem depend_keepsDeps (W d : Nat) (s : State) : KeepsDeps W s (Dep.depend d s) := by
  unfold Dep.depend
  split
  · rename_i T _
    by_cases hT : T = W
    · subst hT
      exact addDep_self_keepsDeps T d s
    · intro h
      refine depsOK_step h (addDep_step W T d s) (by rw [addDep_eq]) ?_
      intro wt hw
      exact ⟨wt, by rw [addDep_other T d W s hT]; exact hw, rfl, rfl, rfl, rfl,
        fun h => ⟨h, rfl⟩⟩
  · exact fun h => h

theorem cleanupStep_step (W v : Nat) (ids : List Nat) (s : State) (d : Nat) :
    DepsStep W (decide (v ≠ W)) s.deps (Watcher.cleanupStep v ids s d).deps := by
  unfold Watcher.cleanupStep
  split
  · split
    · exact depsStep_refl _ _ _
    · exact removeSub_step W d v s
  · exact depsStep_refl _ _ _

theorem cleanupFold_step (W v : Nat) (ids : List Nat) (ds : List Nat) (s : State) :
    DepsStep W (decide (v ≠ W)) s.deps (ds.foldl (Watcher.cleanupStep v ids) s).deps := by
  induction ds generalizing s with
  | nil => exact depsStep_refl _ _ _
  | cons d ds ih =>
    rw [List.foldl_cons]
    exact depsStep_trans (cleanupStep_step W v ids s d) (ih _)

/-- The loop of `cleanupDeps` leaves every Dep whose id is in `newDepIds` as it is. -/
theorem cleanupFold_kept (v : Nat) (ids : List Nat) (ds : List Nat) (s : State) (d : Nat)
    (dep : Dep) (hd : s.deps[d]? = some dep) (hin : dep.id ∈ ids) :
    (ds.foldl (Watcher.cleanupStep v ids) s).deps[d]? = some dep := by
  induction ds generalizing s with
  | nil => exact hd
  | cons d0 ds ih =>
    rw [List.foldl_cons]
    refine ih _ ?_
    unfold Watcher.cleanupStep
    split
    · rename_i dep0 h0
      split
      · exact hd
      · rename_i hn
        have hne : d0 ≠ d := by
          rintro rfl
          rw [hd] at h0
          cases h0
          exact hn hin
        simp only [Dep.removeSub, State.modifyDep]
        rw [List.getElem?_modify_ne _ _ hne]
        exact hd
    · exact hd

theorem cleanupDeps_other (v W : Nat) (s : State) (hv : v ≠ W) :
    (Watcher.cleanupDeps v s).watchers[W]? = s.watchers[W]? := by
  unfold Watcher.cleanupDeps
  split
  · rfl
  · dsimp only
    simp only [modifyWatcher_watchers, cleanupFold_watchers]
    exact List.getElem?_modify_ne _ _ hv

theorem cleanupDeps_deps (v : Nat) (s : State) (wt : Watcher) (hw : s.watchers[v]? = some wt) :
    (Watcher.cleanupDeps v s).deps =
      (wt.deps.reverse.foldl (Watcher.cleanupStep v wt.newDepIds) s).deps := by
  unfold Watcher.cleanupDeps
  simp only [hw]
  rfl

theorem cleanupDeps_keepsDeps (W v : Nat) (s : State) :
    KeepsDeps W s (Watcher.cleanupDeps v s) := by
  intro h
  cases hv0 : s.watchers[v]? with
  | none =>
    have : Watcher.cleanupDeps v s = s := by simp [Watcher.cleanupDeps, hv0]
    rw [this]
    exact h
  | some wtv =>
    have hstep : DepsStep W (decide (v ≠ W)) s.deps (Watcher.cleanupDeps v s).deps := by
      rw [cleanupDeps_deps v s wtv hv0]
      exact cleanupFold_step W v _ _ s
    by_cases hv : v = W
    · subst hv
      obtain ⟨wt, hw, hold, hnew⟩ := h.watcher
      rw [hv0] at hw
      cases hw
      refine { unique := unique_step hstep h.unique, bound := ?_, watcher :=
        ⟨_, cleanupDeps_lookup v s wtv hv0, ?_, ⟨by simp, by simp⟩⟩ }
      · intro x depx hx
        obtain ⟨dep0, f1, f2⟩ := depsStep_back hstep x depx hx
        rw [f2]
        have : (Watcher.cleanupDeps v s).depUid = s.depUid := by rw [cleanupDeps_eq]
        rw [this]
        exact h.bound x dep0 f1
      · refine ⟨?_, ?_⟩
        · intro d hd
          obtain ⟨dep, e1, e2, e3⟩ := hnew.1 d hd
          refine ⟨dep, ?_, e2, e3⟩
          rw [cleanupDeps_deps v s wtv hv0]
          exact cleanupFold_kept v _ _ s d dep e1 e2
        · intro id hid
          obtain ⟨d, hd, dep, e1, e2⟩ := hnew.2 id hid
          refine ⟨d, hd, dep, ?_, e2⟩
          rw [cleanupDeps_deps v s wtv hv0]
          exact cleanupFold_kept v _ _ s d dep e1 (by rw [e2]; exact hid)
    · refine depsOK_step h hstep (by rw [cleanupDeps_eq]) ?_
      intro wt hw
      exact ⟨wt, by rw [cleanupDeps_other v W s hv]; exact hw, rfl, rfl, rfl, rfl,
        fun h => ⟨h, by simpa using hv⟩⟩

theorem listedIn_append {W : Nat} {a : Bool} {ds : List Dep} {deps ids : List Nat}
    (h : ListedIn W a ds deps ids) (x : Dep) : ListedIn W a (ds ++ [x]) deps ids := by
  refine ⟨?_, ?_⟩
  · intro d hd
    obtain ⟨dep, e1, e2, e3⟩ := h.1 d hd
    exact ⟨dep, getElem?_append_some _ _ _ _ e1, e2, e3⟩
  · intro id hid
    obtain ⟨d, hd, dep, e1, e2⟩ := h.2 id hid
    exact ⟨d, hd, dep, getElem?_append_some _ _ _ _ e1, e2⟩

theorem append_lookup (ds : List Dep) (x : Dep) (i : Nat) (dep : Dep)
    (h : (ds ++ [x])[i]? = some dep) :
    ds[i]? = some dep ∨ (i = ds.length ∧ dep = x) := by
  by_cases hi : i < ds.length
  · rw [List.getElem?_append_left hi] at h
    exact Or.inl h
  · have hi' : ds.length ≤ i := Nat.le_of_not_lt hi
    rw [List.getElem?_append_right hi'] at h
    cases hk : i - ds.length with
    | zero =>
      rw [hk] at h
      simp only [List.getElem?_cons_zero, Option.some.injEq] at h
      exact Or.inr ⟨by omega, h.symm⟩
    | succ k =>
      rw [hk] at h
      simp at h

theorem depNew_keepsDeps (W : Nat) (s : State) : KeepsDeps W s (Dep.new s).2 := by
  intro h
  obtain ⟨wt, hw, hold, hnew⟩ := h.watcher
  refine { unique := ?_, bound := ?_, watcher :=
    ⟨wt, hw, listedIn_append hold _, listedIn_append hnew _⟩ }
  · intro i j di dj hi hj hij
    rcases append_lookup _ _ _ _ hi with hi | ⟨hi1, hi2⟩ <;>
      rcases append_lookup _ _ _ _ hj with hj | ⟨hj1, hj2⟩
    · exact h.unique i j di dj hi hj hij
    · have := h.bound i di hi
      rw [hij, hj2] at this
      exact absurd this (Nat.lt_irrefl _)
    · have := h.bound j dj hj
      rw [← hij, hi2] at this
      exact absurd this (Nat.lt_irrefl _)
    · rw [hi1, hj1]
  · intro d dep hd
    rcases append_lookup _ _ _ _ hd with hd | ⟨-, hd2⟩
    · exact Nat.lt_succ_of_lt (h.bound d dep hd)
    · rw [hd2]
      exact Nat.lt_succ_self _

theorem modifyWatcher_keepsDeps (W w : Nat) (s : State) (f : Watcher → Watcher)
    (hf : ∀ x : Watcher, (f x).deps = x.deps ∧ (f x).depIds = x.depIds ∧
      (f x).newDeps = x.newDeps ∧ (f x).newDepIds = x.newDepIds ∧ (f x).active = x.active) :
    KeepsDeps W s (s.modifyWatcher w f) := by
  intro h
  refine @depsOK_step W true s _ h (depsStep_refl _ _ _) rfl ?_
  intro wt hw
  by_cases hv : w = W
  · subst hv
    obtain ⟨a1, a2, a3, a4, a5⟩ := hf wt
    exact ⟨f wt, by simp [State.modifyWatcher, hw], a1, a2, a3, a4,
      fun h => ⟨by rw [← a5]; exact h, rfl⟩⟩
  · refine ⟨wt, ?_, rfl, rfl, rfl, rfl, fun h => ⟨h, rfl⟩⟩
    simp only [State.modifyWatcher]
    rw [List.getElem?_modify_ne _ _ hv]
    exact hw

theorem keepsDeps_closed (W : Nat) : Closed (KeepsDeps W) where
  refl := fun _ h => h
  trans := fun _ _ _ h1 h2 h => h2 (h1 h)
  log := fun s e _ _ => depsOK_same rfl rfl (fun _ h => h)
  logGetter := fun s w wt _ _ => depsOK_same rfl rfl (fun _ h => h)
  cb := by
    intro s s1 w wt v o _ _ h01 h
    have h1 := h01 h
    have h2 : DepsOK W (s1.modifyWatcher w fun x => { x with value := v }) := by
      refine modifyWatcher_keepsDeps W w s1 _ ?_ h1
      intro x
      exact ⟨rfl, rfl, rfl, rfl, rfl⟩
    exact @depsOK_same W (s1.modifyWatcher w fun x => { x with value := v })
      ((s1.modifyWatcher w fun x => { x with value := v }).log (.cb w v o)) rfl rfl
      (fun _ h => h) h2
  teardown := fun s w => teardown_keepsDeps W w s
  depend := fun s d => depend_keepsDeps W d s
  setProps := fun s a g => depsOK_same rfl rfl (fun _ h => h)
  setOb := fun s a obj ob _ _ => depsOK_same rfl rfl (fun _ h => h)
  setAugmented := fun s a => depsOK_same rfl rfl (fun _ h => h)
  allocCell := fun s cell => depsOK_same rfl rfl (fun _ h => h)
  setCellVal := fun s c v => depsOK_same rfl rfl (fun _ h => h)
  setCellChildOb := fun s c o => depsOK_same rfl rfl (fun _ h => h)
  depNew := fun s => depNew_keepsDeps W s
  allocObserver := fun s o => depsOK_same rfl rfl (fun _ h => h)
  vmCount := fun s o => depsOK_same rfl rfl (fun _ h => h)
  sched := fun s q h d c w f so => depsOK_same rfl rfl (fun _ h => h)
  popTarget := fun s => depsOK_same rfl rfl (fun _ h => h)
  cleanupDeps := fun s w => cleanupDeps_keepsDeps W w s
  setValue := by
    intro s w f g
    refine modifyWatcher_keepsDeps W w s _ ?_
    intro x
    exact ⟨rfl, rfl, rfl, rfl, rfl⟩
  setVm := fun s v f => depsOK_same rfl rfl (fun _ h => h)
  allocWatcher := fun s wt _ _ _ =>
    depsOK_same rfl rfl (fun x h => getElem?_append_some _ _ _ _ h)


/-! ## The Watcher constructor -/

theorem init_watchers (vm : Nat) (expOrFn cb : Fn) (options : Option WatcherOptions)
    (isRenderWatcher : Bool) (s : State) :
    (Watcher.init vm expOrFn cb options isRenderWatcher s).watchers =
      s.watchers ++
        [{ vm := vm, cb := cb, id := s.watcherUid + 1,
           deep := (options.map fun o => o.deep).getD false,
           user := (options.map fun o => o.user).getD false,
           lazy := (options.map fun o => o.lazy).getD false,
           sync := (options.map fun o => o.sync).getD false,
           dirty := (options.map fun o => o.lazy).getD false, active := true, deps := [],
           newDeps := [], depIds := [], newDepIds := [], getter := expOrFn,
           value := .undefined }] := by
  unfold Watcher.init
  cases options <;> cases isRenderWatcher <;> rfl

theorem init_frame (vm : Nat) (expOrFn cb : Fn) (options : Option WatcherOptions)
    (isRenderWatcher : Bool) (s : State) :
    (Watcher.init vm expOrFn cb options isRenderWatcher s).trace = s.trace ∧
    (Watcher.init vm expOrFn cb options isRenderWatcher s).deps = s.deps ∧
    (Watcher.init vm expOrFn cb options isRenderWatcher s).depUid = s.depUid ∧
    (Watcher.init vm expOrFn cb options isRenderWatcher s).target = s.target ∧
    (Watcher.init vm expOrFn cb options isRenderWatcher s).targetStack = s.targetStack := by
  unfold Watcher.init
  cases options <;> cases isRenderWatcher <;> exact ⟨rfl, rfl, rfl, rfl, rfl⟩

theorem init_vm (vm : Nat) (expOrFn cb : Fn) (options : Option WatcherOptions)
    (isRenderWatcher : Bool) (s : State) (c : Component) (hvm : s.vms[vm]? = some c) :
    (Watcher.init vm expOrFn cb options isRenderWatcher s).vms[vm]? =
      some { c with
        _watchers := c._watchers ++ [s.watchers.length],
        _watcher := if isRenderWatcher then some s.watchers.length else c._watcher } := by
  unfold Watcher.init
  cases options <;> cases isRenderWatcher <;>
    simp [State.modifyVm, hvm]

theorem init_lookup (vm : Nat) (expOrFn cb : Fn) (options : Option WatcherOptions)
    (isRenderWatcher : Bool) (s : State) :
    ∃ wt0, (Watcher.init vm expOrFn cb options isRenderWatcher s).watchers[s.watchers.length]?
        = some wt0 ∧
      wt0.active = true ∧ wt0.value = .undefined ∧ wt0.deps = [] ∧ wt0.depIds = [] ∧
      wt0.newDeps = [] ∧ wt0.newDepIds = [] ∧ wt0.dirty = wt0.lazy ∧ wt0.getter = expOrFn ∧
      wt0.cb = cb ∧ wt0.vm = vm ∧ wt0.id = s.watcherUid + 1 ∧
      wt0.lazy = (options.map fun o => o.lazy).getD false ∧
      wt0.deep = (options.map fun o => o.deep).getD false ∧
      wt0.user = (options.map fun o => o.user).getD false ∧
      wt0.sync = (options.map fun o => o.sync).getD false := by
  rw [init_watchers]
  exact ⟨_, List.getElem?_concat_length _ _, rfl, rfl, rfl, rfl, rfl, rfl, rfl, rfl, rfl, rfl,
    rfl, rfl, rfl, rfl, rfl⟩

theorem init_depsOK (vm : Nat) (expOrFn cb : Fn) (options : Option WatcherOptions)
    (isRenderWatcher : Bool) (s : State) (hu : UniqueDepIds s)
    (hb : ∀ (d : Nat) (dep : Dep), s.deps[d]? = some dep → dep.id < s.depUid) :
    DepsOK s.watchers.length (Watcher.init vm expOrFn cb options isRenderWatcher s) := by
  obtain ⟨h1, h2, h3, -, -⟩ := init_frame vm expOrFn cb options isRenderWatcher s
  obtain ⟨wt0, a1, -, -, a4, a5, a6, a7, -⟩ :=
    init_lookup vm expOrFn cb options isRenderWatcher s
  refine { unique := ?_, bound := ?_, watcher := ⟨wt0, a1, ?_, ?_⟩ }
  · intro i j di dj hi hj hij
    rw [h2] at hi hj
    exact hu i j di dj hi hj hij
  · intro d dep hd
    rw [h2] at hd
    rw [h3]
    exact hb d dep hd
  · rw [a4, a5]
    exact ⟨by simp, by simp⟩
  · rw [a6, a7]
    exact ⟨by simp, by simp⟩

theorem new_lazy (call : Call) (vm : Nat) (expOrFn cb : Fn) (o : WatcherOptions)
    (isRenderWatcher : Bool) (s : State) (hl : o.lazy = true) :
    Watcher.new call vm expOrFn cb (some o) isRenderWatcher s =
      some (.retW s.watchers.length, Watcher.init vm expOrFn cb (some o) isRenderWatcher s) := by
  simp only [Watcher.new, hl, if_true]

theorem new_eager (call : Call) (vm : Nat) (expOrFn cb : Fn) (options : Option WatcherOptions)
    (isRenderWatcher : Bool) (s s4 : State) (v : Val)
    (hl : ∀ o, options = some o → o.lazy = false)
    (hg : call (.get s.watchers.length)
      (Watcher.init vm expOrFn cb options isRenderWatcher s) = some (.ret v, s4)) :
    Watcher.new call vm expOrFn cb options isRenderWatcher s =
      some (.retW s.watchers.length,
        s4.modifyWatcher s.watchers.length fun x => { x with value := v }) := by
  cases options with
  | none => simp only [Watcher.new, hg, andThen]; rfl
  | some o => simp only [Watcher.new, hl o rfl, hg, andThen]; rfl

/-- After the first evaluation the new watcher holds the value and is subscribed to every
Dep of its `deps`. -/
theorem new_subscribed (n : Nat) (vm : Nat) (expOrFn cb : Fn) (options : Option WatcherOptions)
    (isRenderWatcher : Bool) (s s4 : State) (v : Val) (hu : UniqueDepIds s)
    (hb : ∀ (d : Nat) (dep : Dep), s.deps[d]? = some dep → dep.id < s.depUid)
    (hg : exec n (.get s.watchers.length)
      (Watcher.init vm expOrFn cb options isRenderWatcher s) = some (.ret v, s4)) :
    ∃ wt', (s4.modifyWatcher s.watchers.length fun x =>
        { x with value := v }).watchers[s.watchers.length]? = some wt' ∧ wt'.value = v ∧
      ∀ d ∈ wt'.deps, ∃ dep, (s4.modifyWatcher s.watchers.length fun x =>
          { x with value := v }).deps[d]? = some dep ∧
        (wt'.active = true → s.watchers.length ∈ dep.subs) := by
  have h0 := init_depsOK vm expOrFn cb options isRenderWatcher s hu hb
  obtain ⟨wt0, a1, a2, -⟩ := init_lookup vm expOrFn cb options isRenderWatcher s
  have h4 : DepsOK s.watchers.length s4 :=
    exec_closed (keepsDeps_closed s.watchers.length) n _ _ _ _ hg ⟨wt0, a1, a2⟩ h0
  obtain ⟨wt4, b1, b2, -⟩ := h4.watcher
  refine ⟨{ wt4 with value := v }, by simp [State.modifyWatcher, b1], rfl, ?_⟩
  intro d hd
  obtain ⟨dep, e1, -, e3⟩ := b2.1 d hd
  exact ⟨dep, e1, e3⟩

/-- The first evaluation of a watcher that is not deep. -/
theorem get_shallow (n : Nat) (s s1 : State) (w : Nat) (wt wt1 : Watcher) (v : Val)
    (hw : s.watchers[w]? = some wt) (hd : wt.deep = false)
    (hg : exec n (.callFn wt.getter []) ((pushTarget (some w) s).log (.getter w)) =
      some (.ret v, s1))
    (hw1 : s1.watchers[w]? = some wt1) :
    exec (n + 1) (.get w) s = some (.ret v, Watcher.cleanupDeps w (popTarget s1)) ∧
    (Watcher.cleanupDeps w (popTarget s1)).watchers[w]? =
      some { wt1 with depIds := wt1.newDepIds, newDepIds := [], deps := wt1.newDeps,
                      newDeps := [] } := by
  refine ⟨?_, cleanupDeps_lookup w (popTarget s1) wt1 hw1⟩
  simp only [exec_succ, dispatch, Watcher.get, hw, hg, Watcher.getFinally, hd, andThen]
  rfl


/-! ## defineReactive on properties it cannot or need not intercept -/

theorem defineReactive_skip (call : Call) (s : State) (a : Addr) (obj : Obj) (key : Key)
    (p : Property) (val : Option Val) (cs : Option Fn) (shallow : Bool)
    (ho : s.heap[a]? = some obj) (hp : obj.getOwnProperty key = some p)
    (hc : p.configurable = false) :
    defineReactive call a key val cs shallow s = some (.ret .undefined, (Dep.new s).2) := by
  have ho1 : (Dep.new s).2.heap[a]? = some obj := ho
  unfold defineReactive
  simp only [ho1, hp, Option.map_some', hc, if_true]

theorem propSet_data (n : Nat) (s : State) (a : Addr) (k : Key) (obj : Obj) (p : Property)
    (x v : Val) (ho : s.heap[a]? = some obj) (hp : obj.getOwnProperty k = some p)
    (hx : p.slot = .data x) (hw : p.writable = true) :
    exec (n + 1) (.propSet a k v) s =
      some (.ret .undefined, s.modifyObj a fun o =>
        { o with props := o.props.map fun q =>
            if q.key = k then { q with slot := .data v } else q }) := by
  simp only [exec_succ, dispatch, propSet, ho, hp, hx, hw, if_true]

theorem propSet_readonly (n : Nat) (s : State) (a : Addr) (k : Key) (obj : Obj) (p : Property)
    (x v : Val) (ho : s.heap[a]? = some obj) (hp : obj.getOwnProperty k = some p)
    (hx : p.slot = .data x) (hw : p.writable = false) :
    exec (n + 1) (.propSet a k v) s = some (.ret .undefined, s) := by
  simp only [exec_succ, dispatch, propSet, ho, hp, hx, hw, Bool.false_eq_true, if_false]

/-- `defineReactive(obj, key)` on a configurable accessor with a getter and no setter. -/
theorem defineReactive_getterOnly (n : Nat) (s : State) (a : Addr) (obj : Obj) (key : Key)
    (p : Property) (g : Fn) (cs : Option Fn) (shallow : Bool)
    (ho : s.heap[a]? = some obj) (hp : obj.getOwnProperty key = some p)
    (hc : p.configurable = true) (hslot : p.slot = .accessor (some g) none) :
    exec (n + 2) (.defineReactive a key none cs shallow) s =
      some (.ret .undefined,
        installCell a key
          { obj := a, key := key, dep := s.deps.length, val := .undefined, childOb := none,
            getter := some g, setter := none, customSetter := cs, shallow := shallow }
          (Dep.new s).2) := by
  have ho1 : (Dep.new s).2.heap[a]? = some obj := ho
  have hpk : p.key = key := (find_mem_key hp).2
  obtain ⟨pk, pe, pc, ps⟩ := p
  simp only at hc hslot hpk
  subst hc hslot hpk
  simp only [exec_succ, dispatch, defineReactive, ho1, hp, Option.map_some', Option.some.injEq,
    Bool.true_eq_false, if_false, Option.isNone_some, Option.isSome_none, Bool.or_self,
    andThen, andThenOb]
  cases shallow
  · simp only [Bool.false_eq_true, if_false, observe, andThenOb]
    exact defineProperty_replace _ a _ _ obj ho1 hp rfl
  · simp only [if_true, andThenOb]
    exact defineProperty_replace _ a _ _ obj ho1 hp rfl

/-- The reactive setter of a property that had a getter and no setter, on a value that
differs from the getter's result: the custom setter (outside production) is the only call
after the getter; nothing is stored and `notify` is not called. -/
theorem reactiveSetter_getterOnly (call : Call) (c : Nat) (cell : Cell) (g : Fn)
    (newVal value : Val) (s s1 : State) (hc : s.cells[c]? = some cell)
    (hg : cell.getter = some g) (hs : cell.setter = none)
    (hcur : call (.callFn g []) s = some (.ret value, s1))
    (hne : (strictEq newVal value || (!strictEq newVal newVal && !strictEq value value))
      = false) :
    (s1.env.production = true ∨ cell.customSetter = none →
      reactiveSetter call c newVal s = some (.ret .undefined, s1)) ∧
    (∀ f u s2, s1.env.production = false → cell.customSetter = some f →
      call (.callFn f []) (s1.log (.customSetter c)) = some (.ret u, s2) →
      reactiveSetter call c newVal s = some (.ret .undefined, s2)) := by
  refine ⟨?_, ?_⟩
  · intro h
    unfold reactiveSetter
    simp only [hc, Cell.read, hg, hcur, andThen, hne, Bool.false_eq_true, if_false, hs]
    rcases h with h | h
    · simp [h, andThen]
    · simp [h, andThen]
  · intro f u s2 hp hf hcall
    unfold reactiveSetter
    simp only [hc, Cell.read, hg, hcur, andThen, hne, Bool.false_eq_true, if_false, hs, hp, hf,
      hcall]
    simp

/-- A read of a reactive property with a pre-existing getter, outside any evaluation. -/
theorem reactiveGetter_noTarget (call : Call) (c : Nat) (cell : Cell) (value : Val)
    (s s1 : State) (hc : s.cells[c]? = some cell)
    (hcur : cell.read call s = some (.ret value, s1)) (ht : s1.target = none) :
    reactiveGetter call c s = some (.ret value, s1) := by
  unfold reactiveGetter
  simp only [hc, hcur, andThen, ht]

/-- Whatever the dependency collection does, a read that returns yields the current value. -/
theorem reactiveGetter_value (call : Call) (c : Nat) (cell : Cell) (value r : Val)
    (s s1 s' : State) (hc : s.cells[c]? = some cell)
    (hcur : cell.read call s = some (.ret value, s1))
    (h : reactiveGetter call c s = some (.ret r, s')) : r = value := by
  unfold reactiveGetter at h
  simp only [hc, hcur, andThen] at h
  split at h
  · cases h; rfl
  · split at h
    · cases h
    · split at h
      · cases h; rfl
      · split at h
        · cases h
        · split at h
          · split at h
            · cases h
            · split at h
              · split at h
                · cases h; rfl
                · cases h
                · cases h
              · cases h; rfl
          · cases h; rfl


/-! ## Dependency collection by a read -/

theorem depend_collect (W d : Nat) (s : State) (hC : Collecting W s) :
    Collecting W (Dep.depend d s) ∧
    (∀ dep, s.deps[d]? = some dep → Registered W d (Dep.depend d s)) ∧
    (∀ d', Registered W d' s → Registered W d' (Dep.depend d s)) ∧
    DepIds s.deps (Dep.depend d s).deps := by
  obtain ⟨ht, ⟨wt, hw⟩, hS, hU⟩ := hC
  have hdep : Dep.depend d s = Watcher.addDep W d s := by simp [Dep.depend, ht]
  rw [hdep]
  cases hd : s.deps[d]? with
  | none =>
    rw [addDep_missing W d s hd]
    exact ⟨⟨ht, ⟨wt, hw⟩, hS, hU⟩, fun dep h => (by cases h), fun _ h => h, depIds_refl _⟩
  | some dep =>
    obtain ⟨a1, a2, a3, wt', a4, a5, a6⟩ := addDep_spec W d s wt dep hw hd hS hU
    refine ⟨⟨by rw [addDep_target]; exact ht, ⟨wt', a4⟩, a1, a2⟩, ?_, ?_, a3⟩
    · intro dep0 h0
      cases h0
      obtain ⟨dep', e1, e2⟩ := a3 d dep hd
      exact ⟨wt', dep', a4, e1, by rw [e2]; exact a6,
        a1 wt' a4 d dep' e1 (Or.inr (by rw [e2]; exact a6))⟩
    · intro d' ⟨wt0, dep0, h1, h2, h3, _⟩
      rw [hw] at h1
      cases h1
      obtain ⟨dep', e1, e2⟩ := a3 d' dep0 h2
      exact ⟨wt', dep', a4, e1, by rw [e2]; exact a5 h3,
        a1 wt' a4 d' dep' e1 (Or.inr (by rw [e2]; exact a5 h3))⟩

theorem depend_frame (d : Nat) (s : State) :
    (Dep.depend d s).heap = s.heap ∧ (Dep.depend d s).observers = s.observers ∧
    (Dep.depend d s).cells = s.cells ∧ (Dep.depend d s).trace = s.trace := by
  rw [depend_eq]
  exact ⟨rfl, rfl, rfl, rfl⟩

theorem obDepsExist_of {s s' : State} (ho : s'.observers = s.observers)
    (hd : DepIds s.deps s'.deps) (h : ObDepsExist s) : ObDepsExist s' := by
  intro ob o hob
  rw [ho] at hob
  obtain ⟨dep, h1⟩ := h ob o hob
  obtain ⟨dep', h2, -⟩ := hd o.dep dep h1
  exact ⟨dep', h2⟩

theorem collectStep_refl (W : Nat) (s : State) (h : Collecting W s) : CollectStep W s s :=
  ⟨h, rfl, rfl, rfl, rfl, depIds_refl _, fun _ h => h⟩

theorem collectStep_trans {W : Nat} {a b c : State} (h1 : CollectStep W a b)
    (h2 : CollectStep W b c) : CollectStep W a c := by
  obtain ⟨-, a2, a3, a4, a5, a6, a7⟩ := h1
  obtain ⟨b1, b2, b3, b4, b5, b6, b7⟩ := h2
  exact ⟨b1, b2.trans a2, b3.trans a3, b4.trans a4, b5.trans a5, depIds_trans a6 b6,
    fun d h => b7 d (a7 d h)⟩

theorem depend_collectStep (W d : Nat) (s : State) (hC : Collecting W s) :
    CollectStep W s (Dep.depend d s) ∧
      ∀ dep, s.deps[d]? = some dep → Registered W d (Dep.depend d s) := by
  obtain ⟨h1, h2, h3, h4⟩ := depend_collect W d s hC
  obtain ⟨f1, f2, f3, f4⟩ := depend_frame d s
  exact ⟨⟨h1, f1, f2, f3, f4, h4, h3⟩, h2⟩

theorem arrDepth_heap {s s' : State} (hh : s'.heap = s.heap) :
    ∀ (k : Nat) (a : Addr), ArrDepth s k a → ArrDepth s' k a := by
  intro k
  induction k with
  | zero => intro a h; exact h
  | succ k ih =>
    intro a h
    obtain ⟨arr, h1, h2⟩ := h
    refine ⟨arr, by rw [hh]; exact h1, ?_⟩
    intro e he
    obtain ⟨eo, e1, e2⟩ := h2 e he
    exact ⟨eo, by rw [hh]; exact e1, fun hk => ih e (e2 hk)⟩

theorem nested_heap {s s' : State} (hh : s'.heap = s.heap) {a e : Addr}
    (h : Nested s' a e) : Nested s a e := by
  induction h with
  | item e arr h1 h2 => exact Nested.item _ e arr (by rw [← hh]; exact h1) h2
  | deep e f arr _ h2 h3 h4 ih => exact Nested.deep _ e f arr ih (by rw [← hh]; exact h2) h3 h4

/-- An object nested in the array at `a` is an item of it, or nested in an item that is an
array. -/
theorem nested_head {s : State} {a f : Addr} (h : Nested s a f) :
    (∃ arr, s.heap[a]? = some arr ∧ Val.ref f ∈ arr.elems) ∨
    ∃ arr e eo, s.heap[a]? = some arr ∧ Val.ref e ∈ arr.elems ∧ s.heap[e]? = some eo ∧
      eo.kind = .array ∧ Nested s e f := by
  induction h with
  | item e arr h1 h2 => exact Or.inl ⟨arr, h1, h2⟩
  | deep e f arr hn h2 h3 h4 ih =>
    rcases ih with ⟨arr0, a1, a2⟩ | ⟨arr0, e0, eo0, a1, a2, a3, a4, a5⟩
    · exact Or.inr ⟨arr0, e, arr, a1, a2, h2, h3, Nested.item e f arr h2 h4⟩
    · exact Or.inr ⟨arr0, e0, eo0, a1, a2, a3, a4, Nested.deep e0 e f arr a5 h2 h3 h4⟩

theorem obRegistered_mono {W : Nat} {s t t' : State} {f : Addr} (h : ObRegistered W s t f)
    (hs : CollectStep W t t') : ObRegistered W s t' f :=
  fun fo ob o h1 h2 h3 => hs.2.2.2.2.2.2 _ (h fo ob o h1 h2 h3)

theorem obRegistered_base {W : Nat} {s s1 t : State} {f : Addr} (hh : s1.heap = s.heap)
    (ho : s1.observers = s.observers) (h : ObRegistered W s1 t f) : ObRegistered W s t f :=
  fun fo ob o h1 h2 h3 => h fo ob o (by rw [hh]; exact h1) h2 (by rw [ho]; exact h3)

theorem getD_ref_mem {l : List Val} {i : Nat} {e : Addr}
    (h : l.getD i .undefined = .ref e) : l[i]? = some (.ref e) ∧ Val.ref e ∈ l := by
  rw [List.getD_eq_getElem?_getD] at h
  cases hl : l[i]? with
  | none => rw [hl] at h; cases h
  | some x =>
    rw [hl] at h
    simp only [Option.getD_some] at h
    subst h
    exact ⟨rfl, List.getElem?_mem hl⟩

/-- `dependArray` on an array whose nesting is bounded: with enough fuel it returns, and the
active watcher is then registered on the Observer Dep of every observed object nested in the
array. -/
theorem dependArray_collect (W : Nat) : ∀ (k : Nat) (a : Addr) (s : State),
    ArrDepth s k a → Collecting W s → ObDepsExist s → ∀ n, k ≤ n →
    ∃ s', exec n (.dependArray a) s = some (.ret .undefined, s') ∧ CollectStep W s s' ∧
      ∀ f, Nested s a f → ObRegistered W s s' f := by
  intro k
  induction k with
  | zero => intro a s h; exact h.elim
  | succ k ih =>
    intro a s hdepth hC hD n hn
    obtain ⟨arr, harr, hitems⟩ := hdepth
    obtain ⟨m, rfl⟩ : ∃ m, n = m + 1 := ⟨n - 1, by omega⟩
    have hkm : k ≤ m := by omega
    have loop : ∀ (is : List Nat) (t : State), CollectStep W s t →
        ∃ t', dependArrayLoop (exec m) a is t = some (.ret .undefined, t') ∧
          CollectStep W t t' ∧
          ∀ i ∈ is, ∀ e, arr.elems[i]? = some (.ref e) →
            ObRegistered W s t' e ∧
            ∀ eo, s.heap[e]? = some eo → eo.kind = .array →
              ∀ f, Nested s e f → ObRegistered W s t' f := by
      intro is
      induction is with
      | nil => intro t ht; exact ⟨t, rfl, collectStep_refl W t ht.1, by simp⟩
      | cons i is ihl =>
        intro t ht
        have hta : t.heap[a]? = some arr := by rw [ht.2.1]; exact harr
        cases hgi : arr.elems.getD i .undefined with
        | ref e =>
          obtain ⟨hie, hmem⟩ := getD_ref_mem hgi
          obtain ⟨eo, heo, hdeep⟩ := hitems e hmem
          have hte : t.heap[e]? = some eo := by rw [ht.2.1]; exact heo
          have hrest : ∀ s1, CollectStep W t s1 → ObRegistered W s s1 e →
              ∃ t', (if eo.kind = .array then
                  andThen (exec m (.dependArray e) s1) fun _ s2 =>
                    dependArrayLoop (exec m) a is s2
                else dependArrayLoop (exec m) a is s1) = some (.ret .undefined, t') ∧
                CollectStep W t t' ∧
                ∀ j ∈ i :: is, ∀ e', arr.elems[j]? = some (.ref e') →
                  ObRegistered W s t' e' ∧
                  ∀ eo', s.heap[e']? = some eo' → eo'.kind = .array →
                    ∀ f, Nested s e' f → ObRegistered W s t' f := by
            intro s1 h1 hreg
            have hs1 : CollectStep W s s1 := collectStep_trans ht h1
            by_cases hk : eo.kind = .array
            · rw [if_pos hk]
              obtain ⟨s2, hex, h2, hn2⟩ := ih e s1
                (arrDepth_heap hs1.2.1 k e (hdeep hk)) hs1.1
                (obDepsExist_of hs1.2.2.1 hs1.2.2.2.2.2.1 hD) m hkm
              have hs2 : CollectStep W s s2 := collectStep_trans hs1 h2
              obtain ⟨t', hl, h3, h4⟩ := ihl s2 hs2
              refine ⟨t', by simp only [hex, andThen, hl],
                collectStep_trans h1 (collectStep_trans h2 h3), ?_⟩
              intro j hj e' hje
              rcases List.mem_cons.mp hj with rfl | hj
              · rw [hie] at hje
                cases hje
                refine ⟨obRegistered_mono (obRegistered_mono hreg h2) h3, ?_⟩
                intro eo' heo' _ f hf
                exact obRegistered_mono
                  (obRegistered_base hs1.2.1 hs1.2.2.1
                    (hn2 f (nested_heap hs1.2.1.symm hf))) h3
              · exact h4 j hj e' hje
            · rw [if_neg hk]
              obtain ⟨t', hl, h3, h4⟩ := ihl s1 hs1
              refine ⟨t', hl, collectStep_trans h1 h3, ?_⟩
              intro j hj e' hje
              rcases List.mem_cons.mp hj with rfl | hj
              · rw [hie] at hje
                cases hje
                refine ⟨obRegistered_mono hreg h3, ?_⟩
                intro eo' heo' hk'
                rw [heo] at heo'
                cases heo'
                exact absurd hk' hk
              · exact h4 j hj e' hje
          have hC' := ht.1
          simp only [dependArrayLoop, hta, hgi, hte]
          cases hob : eo.__ob__ with
          | none =>
            refine hrest t (collectStep_refl W t hC') ?_
            intro fo ob o h1 h2 _
            rw [heo] at h1
            cases h1
            rw [hob] at h2
            cases h2
          | some ob =>
            cases hto : t.observers[ob]? with
            | none =>
              simp only [hto]
              refine hrest t (collectStep_refl W t hC') ?_
              intro fo ob' o h1 h2 h3
              rw [heo] at h1
              cases h1
              rw [hob] at h2
              cases h2
              rw [← ht.2.2.1, hto] at h3
              cases h3
            | some o =>
              simp only [hto]
              obtain ⟨h1, h2⟩ := depend_collectStep W o.dep t hC'
              refine hrest _ h1 ?_
              intro fo ob' o' a1 a2 a3
              rw [heo] at a1
              cases a1
              rw [hob] at a2
              cases a2
              rw [← ht.2.2.1, hto] at a3
              cases a3
              obtain ⟨dep, hdep⟩ := obDepsExist_of ht.2.2.1 ht.2.2.2.2.2.1 hD ob o hto
              exact h2 dep hdep
        | _ =>
          obtain ⟨t', hl, h3, h4⟩ := ihl t ht
          refine ⟨t', by simp only [dependArrayLoop, hta, hgi, hl], h3, ?_⟩
          intro j hj e' hje
          rcases List.mem_cons.mp hj with rfl | hj
          · exfalso
            have : arr.elems.getD j .undefined = .ref e' := by
              rw [List.getD_eq_getElem?_getD, hje]
              rfl
            rw [hgi] at this
            cases this
          · exact h4 j hj e' hje
    obtain ⟨s', hl, hs', hall⟩ := loop (List.range arr.elems.length) s (collectStep_refl W s hC)
    refine ⟨s', by simp only [exec_succ, dispatch, dependArray, harr, hl], hs', ?_⟩
    have hitem : ∀ e, Val.ref e ∈ arr.elems → ObRegistered W s s' e ∧
        ∀ eo, s.heap[e]? = some eo → eo.kind = .array →
          ∀ f, Nested s e f → ObRegistered W s s' f := by
      intro e he
      obtain ⟨j, hj, hje⟩ := List.mem_iff_get?.mp he |> fun ⟨j, h⟩ =>
        (⟨j, (List.get?_eq_some.mp h).1, by rw [← List.get?_eq_getElem?]; exact h⟩ :
          ∃ j, j < arr.elems.length ∧ arr.elems[j]? = some (Val.ref e))
      exact hall j (List.mem_range.mpr hj) e hje
    intro f hf
    rcases nested_head hf with ⟨arr0, a1, a2⟩ | ⟨arr0, e, eo, a1, a2, a3, a4, a5⟩
    · rw [harr] at a1
      cases a1
      exact (hitem f a2).1
    · rw [harr] at a1
      cases a1
      exact (hitem e a2).2 eo a3 a4 f a5

/-- A read of a reactive property (without pre-existing getter) while `W` is evaluated. -/
theorem reactiveGetter_collect (n : Nat) (W c : Nat) (cell : Cell) (s : State)
    (hc : s.cells[c]? = some cell) (hg : cell.getter = none) (hC : Collecting W s)
    (hD : ObDepsExist s) (dep : Dep) (hdep : s.deps[cell.dep]? = some dep) :
    (cell.childOb = none →
      ∃ s', reactiveGetter (exec n) c s = some (.ret cell.val, s') ∧ CollectStep W s s' ∧
        Registered W cell.dep s') ∧
    (∀ ob o, cell.childOb = some ob → s.observers[ob]? = some o →
      (∀ a, cell.val = .ref a → ∃ vo, s.heap[a]? = some vo ∧ vo.kind ≠ .array) →
      ∃ s', reactiveGetter (exec n) c s = some (.ret cell.val, s') ∧ CollectStep W s s' ∧
        Registered W cell.dep s' ∧ Registered W o.dep s') ∧
    (∀ ob o a vo k, cell.childOb = some ob → s.observers[ob]? = some o →
      cell.val = .ref a → s.heap[a]? = some vo → vo.kind = .array → ArrDepth s k a → k ≤ n →
      ∃ s', reactiveGetter (exec n) c s = some (.ret cell.val, s') ∧ CollectStep W s s' ∧
        Registered W cell.dep s' ∧ Registered W o.dep s' ∧
        ∀ f, Nested s a f → ObRegistered W s s' f) := by
  obtain ⟨h1, h2⟩ := depend_collectStep W cell.dep s hC
  have hr1 := h2 dep hdep
  have hc2 : (Dep.depend cell.dep s).cells[c]? = some cell := by rw [h1.2.2.2.1]; exact hc
  have ht : s.target = some W := hC.1
  refine ⟨?_, ?_, ?_⟩
  · intro hco
    refine ⟨_, ?_, h1, hr1⟩
    unfold reactiveGetter
    simp only [hc, Cell.read, hg, andThen, ht, hc2, hco]
  · intro ob o hco hobs hval
    have hobs1 : (Dep.depend cell.dep s).observers[ob]? = some o := by
      rw [h1.2.2.1]; exact hobs
    obtain ⟨depo, hdepo⟩ := obDepsExist_of h1.2.2.1 h1.2.2.2.2.2.1 hD ob o hobs1
    obtain ⟨h3, h4⟩ := depend_collectStep W o.dep (Dep.depend cell.dep s) h1.1
    have hr2 := h4 depo hdepo
    have hstep := collectStep_trans h1 h3
    refine ⟨_, ?_, hstep, h3.2.2.2.2.2.2 _ hr1, hr2⟩
    unfold reactiveGetter
    simp only [hc, Cell.read, hg, andThen, ht, hc2, hco, hobs1]
    cases hv : cell.val with
    | ref a =>
      obtain ⟨vo, hvo, hk⟩ := hval a hv
      have : (Dep.depend o.dep (Dep.depend cell.dep s)).heap[a]? = some vo := by
        rw [hstep.2.1]; exact hvo
      simp only [this, if_neg hk]
    | _ => rfl
  · intro ob o a vo k hco hobs hv hvo hk hdepth hkn
    have hobs1 : (Dep.depend cell.dep s).observers[ob]? = some o := by
      rw [h1.2.2.1]; exact hobs
    obtain ⟨depo, hdepo⟩ := obDepsExist_of h1.2.2.1 h1.2.2.2.2.2.1 hD ob o hobs1
    obtain ⟨h3, h4⟩ := depend_collectStep W o.dep (Dep.depend cell.dep s) h1.1
    have hr2 := h4 depo hdepo
    have hstep := collectStep_trans h1 h3
    obtain ⟨s', hex, h5, h6⟩ := dependArray_collect W k a _
      (arrDepth_heap hstep.2.1 k a hdepth) hstep.1
      (obDepsExist_of hstep.2.2.1 hstep.2.2.2.2.2.1 hD) n hkn
    have : (Dep.depend o.dep (Dep.depend cell.dep s)).heap[a]? = some vo := by
      rw [hstep.2.1]; exact hvo
    refine ⟨s', ?_, collectStep_trans hstep h5,
      h5.2.2.2.2.2.2 _ (h3.2.2.2.2.2.2 _ hr1), h5.2.2.2.2.2.2 _ hr2, ?_⟩
    · unfold reactiveGetter
      simp only [hc, Cell.read, hg, andThen, ht, hc2, hco, hobs1, hv, this, if_pos hk, hex]
    · intro f hf
      exact obRegistered_base hstep.2.1 hstep.2.2.1 (h6 f (nested_heap hstep.2.1.symm hf))


theorem exReading_deps : exReading.deps = [{ id := 0, subs := [] }, { id := 1, subs := [0] }] := by
  rfl

theorem exReading_collecting : Collecting 0 exReading := by
  refine ⟨rfl, ⟨_, rfl⟩, ?_, ?_⟩
  · intro wt hw d dep hd hor
    have hids : (exReading.watchers[0]?.map fun w => (w.depIds, w.newDepIds)) =
        some ([1], []) := by rfl
    rw [hw] at hids
    simp only [Option.map_some', Option.some.injEq, Prod.mk.injEq] at hids
    rw [hids.1, hids.2] at hor
    rw [exReading_deps] at hd
    match d, hd with
    | 0, hd =>
      simp only [List.getElem?_cons_zero, Option.some.injEq] at hd
      subst hd
      simp at hor
    | 1, hd =>
      simp only [List.getElem?_cons_succ, List.getElem?_cons_zero, Option.some.injEq] at hd
      subst hd
      simp
  · intro i j di dj hi hj hij
    rw [exReading_deps] at hi hj
    match i, j, hi, hj with
    | 0, 0, _, _ => rfl
    | 1, 1, _, _ => rfl
    | 0, 1, hi, hj =>
      simp only [List.getElem?_cons_succ, List.getElem?_cons_zero, Option.some.injEq] at hi hj
      subst hi hj
      simp at hij
    | 1, 0, hi, hj =>
      simp only [List.getElem?_cons_succ, List.getElem?_cons_zero, Option.some.injEq] at hi hj
      subst hi hj
      simp at hij

theorem exReading_obDeps : ObDepsExist exReading := by
  intro ob o ho
  have hobs : exReading.observers = [{ value := 0, dep := 0, vmCount := 0 }] := by rfl
  rw [hobs] at ho
  match ob, ho with
  | 0, ho =>
    simp only [List.getElem?_cons_zero, Option.some.injEq] at ho
    subst ho
    exact ⟨_, rfl⟩


/-! ## Writes of observable values -/

/-- `observe` of an observable object that returns, returns an Observer. -/
theorem observe_some (call : Call) (v : Addr) (s s' : State) (obj : Obj) (r : Option Nat)
    (hcall : ∀ ob k t s0 c s1, call t s0 = some (c, s1) → TaskOK s0 t → KeepsOb v ob k s0 s1)
    (h : observe call (.ref v) false s = some (.retOb r, s'))
    (ho : s.heap[v]? = some obj) (hk : obj.kind = .plain ∨ obj.kind = .array)
    (hcond : obj.__ob__.isSome ∨
      (obj.extensible = true ∧ obj._isVue = false ∧ s.shouldObserve = true ∧
        s.env.isServerRendering = false)) :
    ∃ o, r = some o := by
  have hnv : obj.kind ≠ .vnode := by
    rcases hk with hk | hk <;> rw [hk] <;> simp
  unfold observe at h
  simp only [ho, if_neg hnv] at h
  cases hob : obj.__ob__ with
  | some ob =>
    simp only [hob, andThenOb, Bool.false_eq_true, if_false] at h
    cases h
    exact ⟨ob, rfl⟩
  | none =>
    have hc : (s.shouldObserve && !s.env.isServerRendering &&
        (decide (obj.kind = .array) || decide (obj.kind = .plain)) && obj.extensible &&
          !obj._isVue) = true := by
      rcases hcond with hsome | ⟨h1, h2, h3, h4⟩
      · rw [hob] at hsome
        cases hsome
      · rcases hk with hk | hk <;> simp [h1, h2, h3, h4, hk]
    simp only [hob, hc, if_true] at h
    unfold andThenOb at h
    split at h
    · rename_i r1 s1 h1
      obtain ⟨hr1, -⟩ := Observer_new_attached hcall ho h1
      subst hr1
      simp only [Bool.false_eq_true, if_false, Option.some.injEq, Prod.mk.injEq,
        Completion.retOb.injEq] at h
      exact ⟨_, h.1.symm⟩
    · cases h
    · cases h

theorem exec_keepsOb (n : Nat) (v : Addr) :
    ∀ ob k t s0 c s1, exec n t s0 = some (c, s1) → TaskOK s0 t → KeepsOb v ob k s0 s1 :=
  fun ob k t s0 c s1 hc hok => exec_closed (keepsOb_closed v ob k) n t s0 c s1 hc hok

/-- `observe` of an observable object: when it returns, the object carries the Observer
that is returned. -/
theorem observe_observable (n : Nat) (v : Addr) (s s' : State) (obj : Obj) (r : Option Nat)
    (h : exec n (.observe (.ref v) false) s = some (.retOb r, s'))
    (ho : s.heap[v]? = some obj) (hk : obj.kind = .plain ∨ obj.kind = .array)
    (hcond : obj.__ob__.isSome ∨
      (obj.extensible = true ∧ obj._isVue = false ∧ s.shouldObserve = true ∧
        s.env.isServerRendering = false)) :
    ∃ o objv, r = some o ∧ s'.heap[v]? = some objv ∧ objv.__ob__ = some o := by
  obtain ⟨m, rfl⟩ := exec_pos h
  obtain ⟨o, rfl⟩ := observe_some (exec m) v s s' obj r (exec_keepsOb m v) h ho hk hcond
  obtain ⟨objv, h1, h2, -⟩ := observe_attached (exec_keepsOb m v) h
  exact ⟨o, objv, rfl, h1, h2⟩

/-- The reactive setter of a property without pre-existing accessor and without custom
setter, on a value that differs from the current one: store the value, observe it unless
shallow, then notify. -/
theorem reactiveSetter_observe (call : Call) (c : Nat) (cell : Cell) (newVal : Val) (s : State)
    (hc : s.cells[c]? = some cell) (hg : cell.getter = none) (hs : cell.setter = none)
    (hcs : s.env.production = true ∨ cell.customSetter = none)
    (hne : (strictEq newVal cell.val || (!strictEq newVal newVal && !strictEq cell.val cell.val))
      = false) :
    (cell.shallow = true →
      reactiveSetter call c newVal s =
        call (.notify cell.dep)
          ((s.modifyCell c fun x => { x with val := newVal }).modifyCell c fun x =>
            { x with childOb := none })) ∧
    (cell.shallow = false → ∀ r s4,
      call (.observe newVal false) (s.modifyCell c fun x => { x with val := newVal }) =
        some (.retOb r, s4) →
      reactiveSetter call c newVal s =
        call (.notify cell.dep) (s4.modifyCell c fun x => { x with childOb := r })) := by
  have h2 : (if s.env.production = true then none else cell.customSetter) = none := by
    rcases hcs with h | h
    · simp [h]
    · simp [h]
  refine ⟨?_, ?_⟩
  · intro hsh
    unfold reactiveSetter
    simp only [hc, Cell.read, hg, andThen, hne, hs, h2, Option.isSome_none, Bool.false_and,
      Bool.false_eq_true, if_false]
    simp [hsh, andThenOb]
  · intro hsh r s4 hob
    unfold reactiveSetter
    simp only [hc, Cell.read, hg, andThen, hne, hs, h2, Option.isSome_none, Bool.false_and,
      Bool.false_eq_true, if_false]
    simp [hsh, andThenOb, hob]

/-- A read while a watcher is evaluated, of a property whose value is not an array and has
the child Observer `ob`: exactly `dep.depend()` and `childOb.dep.depend()`. -/
theorem reactiveGetter_child (call : Call) (W c : Nat) (cell : Cell) (ob : Nat) (o : Observer)
    (s : State) (hc : s.cells[c]? = some cell) (hg : cell.getter = none)
    (ht : s.target = some W) (hco : cell.childOb = some ob) (hobs : s.observers[ob]? = some o)
    (hval : ∀ a, cell.val = .ref a → ∃ vo, s.heap[a]? = some vo ∧ vo.kind ≠ .array) :
    reactiveGetter call c s =
      some (.ret cell.val, Dep.depend o.dep (Dep.depend cell.dep s)) := by
  obtain ⟨f1, f2, f3, -⟩ := depend_frame cell.dep s
  obtain ⟨g1, -, -, -⟩ := depend_frame o.dep (Dep.depend cell.dep s)
  have hc2 : (Dep.depend cell.dep s).cells[c]? = some cell := by rw [f3]; exact hc
  have hobs1 : (Dep.depend cell.dep s).observers[ob]? = some o := by rw [f2]; exact hobs
  unfold reactiveGetter
  simp only [hc, Cell.read, hg, andThen, ht, hc2, hco, hobs1]
  cases hv : cell.val with
  | ref a =>
    obtain ⟨vo, hvo, hk⟩ := hval a hv
    have : (Dep.depend o.dep (Dep.depend cell.dep s)).heap[a]? = some vo := by
      rw [g1, f1]; exact hvo
    simp only [this, if_neg hk]
  | _ => rfl

/-- A read while a watcher is evaluated, of a property whose value is the array at `a` and
has the child Observer `ob`: `dep.depend()`, `childOb.dep.depend()` and
`dependArray(value)`. -/
theorem reactiveGetter_childArray (call : Call) (W c : Nat) (cell : Cell) (ob : Nat)
    (o : Observer) (s : State) (a : Addr) (vo : Obj) (hc : s.cells[c]? = some cell)
    (hg : cell.getter = none) (ht : s.target = some W) (hco : cell.childOb = some ob)
    (hobs : s.observers[ob]? = some o) (hv : cell.val = .ref a) (hvo : s.heap[a]? = some vo)
    (hk : vo.kind = .array) :
    reactiveGetter call c s =
      andThen (call (.dependArray a) (Dep.depend o.dep (Dep.depend cell.dep s)))
        fun _ s4 => some (.ret (.ref a), s4) := by
  obtain ⟨f1, f2, f3, -⟩ := depend_frame cell.dep s
  obtain ⟨g1, -, -, -⟩ := depend_frame o.dep (Dep.depend cell.dep s)
  have hc2 : (Dep.depend cell.dep s).cells[c]? = some cell := by rw [f3]; exact hc
  have hobs1 : (Dep.depend cell.dep s).observers[ob]? = some o := by rw [f2]; exact hobs
  have : (Dep.depend o.dep (Dep.depend cell.dep s)).heap[a]? = some vo := by
    rw [g1, f1]; exact hvo
  unfold reactiveGetter
  simp only [hc, Cell.read, hg, andThen, ht, hc2, hco, hobs1, hv, this, if_pos hk]

/-- The reactive setter on a value that differs from the current one, once the custom setter
and the pre-existing setter have returned: observe the value unless shallow, then notify. -/
theorem reactiveSetter_general (call : Call) (c : Nat) (cell : Cell) (newVal value : Val)
    (s s1 s2 s3 : State) (hc : s.cells[c]? = some cell)
    (hgo : cell.getter = none ∨ cell.setter.isSome = true)
    (hread : cell.read call s = some (.ret value, s1))
    (hne : (strictEq newVal value || (!strictEq newVal newVal && !strictEq value value))
      = false)
    (hcust : ((s1.env.production = true ∨ cell.customSetter = none) ∧ s2 = s1) ∨
      ∃ f x, s1.env.production = false ∧ cell.customSetter = some f ∧
        call (.callFn f []) (s1.log (.customSetter c)) = some (.ret x, s2))
    (hset : (cell.setter = none ∧ s3 = s2.modifyCell c fun x => { x with val := newVal }) ∨
      ∃ st x, cell.setter = some st ∧ call (.callFn st [newVal]) s2 = some (.ret x, s3)) :
    reactiveSetter call c newVal s =
      andThenOb (if cell.shallow then some (.retOb none, s3)
        else call (.observe newVal false) s3) fun ob s4 =>
          call (.notify cell.dep) (s4.modifyCell c fun x => { x with childOb := ob }) := by
  have hgo2 : (cell.getter.isSome && cell.setter.isNone) = false := by
    rcases hgo with h | h
    · simp [h]
    · cases hst : cell.setter with
      | none => simp [hst] at h
      | some st => simp
  unfold reactiveSetter
  simp only [hc, hread, andThen, hne, Bool.false_eq_true, if_false]
  rcases hcust with ⟨hp, rfl⟩ | ⟨f, x, hp, hf, hcall⟩
  · have h2 : (if s2.env.production = true then none else cell.customSetter) = none := by
      rcases hp with h | h
      · simp [h]
      · simp [h]
    simp only [h2, hgo2, Bool.false_eq_true, if_false]
    rcases hset with ⟨hs, rfl⟩ | ⟨st, y, hs, hcall2⟩
    · simp only [hs]
    · simp only [hs, hcall2]
  · have h2 : (if s1.env.production = true then none else cell.customSetter) = some f := by
      simp [hp, hf]
    simp only [h2, hcall, hgo2, Bool.false_eq_true, if_false]
    rcases hset with ⟨hs, rfl⟩ | ⟨st, y, hs, hcall2⟩
    · simp only [hs]
    · simp only [hs, hcall2]


/-! ## `set` and `del` -/

theorem spliceItems_at (elems : List Val) (i : Nat) (val : Val) :
    (spliceItems (elems.take (max elems.length i) ++
      List.replicate (max elems.length i - elems.length) .undefined) i 1 [val])[i]? = some val := by
  unfold spliceItems
  simp only [List.length_append, List.length_take, List.length_replicate]
  have h1 : min i (min (max elems.length i) elems.length + (max elems.length i - elems.length)) = i := by
    omega
  rw [h1]
  rw [List.append_assoc, List.getElem?_append_right (by simp)]
  simp

theorem spliceItems_length (elems : List Val) (i : Nat) (val : Val) :
    (spliceItems (elems.take (max elems.length i) ++
      List.replicate (max elems.length i - elems.length) .undefined) i 1 [val]).length =
      max elems.length (i + 1) := by
  unfold spliceItems
  simp only [List.length_append, List.length_take, List.length_replicate, List.length_drop,
    List.length_cons, List.length_nil]
  omega

theorem spliceItems_other (elems : List Val) (i j : Nat) (val : Val)
    (hj : j < elems.length) (hji : j ≠ i) :
    (spliceItems (elems.take (max elems.length i) ++
      List.replicate (max elems.length i - elems.length) .undefined) i 1 [val])[j]? =
      elems[j]? := by
  unfold spliceItems
  simp only [List.length_append, List.length_take, List.length_replicate]
  have h1 : min i (min (max elems.length i) elems.length + (max elems.length i - elems.length)) = i := by
    omega
  have h0 : List.take (max elems.length i) elems = elems := List.take_of_length_le (by omega)
  rw [h1, h0]
  by_cases hlt : j < i
  · rw [List.append_assoc, List.getElem?_append_left (by simp; omega)]
    rw [List.getElem?_take_of_lt hlt, List.getElem?_append_left hj]
  · have hi : i < elems.length := by omega
    have h2 : max elems.length i - elems.length = 0 := by omega
    rw [h2]
    simp only [List.replicate_zero, List.append_nil]
    rw [List.append_assoc, List.getElem?_append_right (by simp; omega)]
    have h3 : min (max elems.length i) elems.length + 0 = elems.length := by omega
    simp only [h3]
    have h4 : min 1 (elems.length - i) = 1 := by omega
    rw [h4]
    simp only [List.length_take]
    have h5 : j - min i elems.length = (j - i - 1) + 1 := by omega
    rw [h5]
    simp only [List.singleton_append, List.getElem?_cons_succ, List.getElem?_drop]
    congr 1
    omega

theorem keepsElems_of_heap {s s' : State} (h : s'.heap = s.heap) : KeepsElems s s' := by
  intro a obj h1
  exact ⟨obj, by rw [h]; exact h1, rfl⟩

theorem keepsElems_modifyObj (s : State) (b : Addr) (f : Obj → Obj)
    (hf : ∀ x, (f x).elems = x.elems) : KeepsElems s (s.modifyObj b f) := by
  intro a obj h1
  by_cases hb : b = a
  · subst hb
    exact ⟨f obj, by simp [State.modifyObj, h1], hf obj⟩
  · exact ⟨obj, by simp [State.modifyObj, List.getElem?_modify, hb, h1], rfl⟩

theorem keepsElems_trans {a b c : State} (h1 : KeepsElems a b) (h2 : KeepsElems b c) :
    KeepsElems a c := by
  intro x obj h
  obtain ⟨o1, e1, e2⟩ := h1 x obj h
  obtain ⟨o2, e3, e4⟩ := h2 x o1 e1
  exact ⟨o2, e3, e4.trans e2⟩

theorem keepsElems_closed : Closed KeepsElems where
  refl := fun s => keepsElems_of_heap rfl
  trans := fun _ _ _ h1 h2 => keepsElems_trans h1 h2
  log := fun s e _ _ => keepsElems_of_heap rfl
  logGetter := fun s w wt _ _ => keepsElems_of_heap rfl
  cb := fun s s1 w wt v o _ _ h01 => keepsElems_trans h01 (keepsElems_of_heap rfl)
  teardown := fun s w => keepsElems_of_heap (by rw [teardown_eq])
  depend := fun s d => keepsElems_of_heap (by rw [depend_eq])
  setProps := fun s b g => keepsElems_modifyObj s b _ (fun _ => rfl)
  setOb := fun s b obj ob _ _ => keepsElems_modifyObj s b _ (fun _ => rfl)
  setAugmented := fun s b => keepsElems_modifyObj s b _ (fun _ => rfl)
  allocCell := fun s cell => keepsElems_of_heap rfl
  setCellVal := fun s c v => keepsElems_of_heap rfl
  setCellChildOb := fun s c o => keepsElems_of_heap rfl
  depNew := fun s => keepsElems_of_heap rfl
  allocObserver := fun s o => keepsElems_of_heap rfl
  vmCount := fun s o => keepsElems_of_heap rfl
  sched := fun s q h d c w f so => keepsElems_of_heap rfl
  popTarget := fun s => keepsElems_of_heap rfl
  cleanupDeps := fun s w => keepsElems_of_heap (by rw [cleanupDeps_eq])
  setValue := fun s w f g => keepsElems_of_heap rfl
  setVm := fun s v f => keepsElems_of_heap rfl
  allocWatcher := fun s wt _ _ _ => keepsElems_of_heap rfl

theorem observeItems_keepsElems (n : Nat) (vs : List Val) : ∀ (s : State) (c : Completion)
    (s' : State), observeItems (exec n) vs s = some (c, s') → KeepsElems s s' := by
  induction vs with
  | nil =>
    intro s c s' h
    simp [observeItems] at h
    rw [← h.2]
    exact keepsElems_of_heap rfl
  | cons v vs ih =>
    intro s c s' h
    simp only [observeItems] at h
    cases hr : exec n (.observe v false) s with
    | none => simp [hr, andThenOb] at h
    | some r =>
      obtain ⟨c1, s1⟩ := r
      have h1 : KeepsElems s s1 := exec_closed keepsElems_closed n _ _ _ _ hr trivial
      rw [hr] at h
      cases c1 with
      | retOb ob => exact keepsElems_trans h1 (ih s1 c s' h)
      | thrown e =>
        simp [andThenOb] at h
        rw [← h.2]
        exact h1
      | ret v => simp [andThenOb] at h
      | retW w => simp [andThenOb] at h

theorem mutatorTail_keepsElems (n : Nat) (a : Addr) (vs : List Val) (s : State)
    (c : Completion) (s' : State) (h : mutatorTail (exec n) a vs s = some (c, s')) :
    KeepsElems s s' := by
  unfold mutatorTail at h
  split at h
  · simp at h
  · split at h
    · simp at h
      rw [← h.2]
      exact keepsElems_of_heap rfl
    · split at h
      · simp at h
      · cases hr : observeItems (exec n) vs s with
        | none => simp [hr, andThen] at h
        | some r =>
          obtain ⟨c1, s1⟩ := r
          have h1 := observeItems_keepsElems n vs s c1 s1 hr
          rw [hr] at h
          cases c1 with
          | ret v =>
            simp only [andThen] at h
            exact keepsElems_trans h1 (exec_closed keepsElems_closed n _ _ _ _ h trivial)
          | thrown e =>
            simp [andThen] at h
            rw [← h.2]
            exact h1
          | retOb ob => simp [andThen] at h
          | retW w => simp [andThen] at h

theorem modify_at {α : Type} (l : List α) (a : Nat) (v : α) (f g : α → α)
    (h : l[a]? = some v) (hfg : f v = g v) : l.modify f a = l.modify g a := by
  apply List.ext_getElem?
  intro i
  by_cases hi : a = i
  · subst hi
    simp [List.getElem?_modify, h, hfg]
  · simp [List.getElem?_modify, hi]

theorem modify_twice {α : Type} (l : List α) (a : Nat) (f g : α → α) :
    (l.modify f a).modify g a = l.modify (fun x => g (f x)) a := by
  apply List.ext_getElem?
  intro i
  by_cases hi : a = i
  · subst hi
    cases h : l[a]? <;> simp [List.getElem?_modify, h]
  · simp [List.getElem?_modify, hi]

theorem arrayIndex_object (obj : Obj) (key : PropKey) (hk : obj.kind ≠ .array) :
    arrayIndex obj key = none := by
  cases key <;> simp [arrayIndex, hk]

theorem isFrozen_extensible (o : Obj) (he : o.extensible = true) : o.isFrozen = false := by
  simp [Obj.isFrozen, he]

theorem set_index (call : Call) (target : Addr) (arr : Obj) (i : Nat) (val : Val) (s : State)
    (ht : s.heap[target]? = some arr) (hk : arr.kind = .array) (he : arr.extensible = true)
    (hi : i < maxArrayLength) (hlen : arr.elems.length ≤ maxArrayLength) :
    set call target (.index i) val s =
      if arr.augmented then
        andThen (mutatorTail call target [val] (s.setElems target (setItems arr.elems i val)))
          fun _ s2 => some (.ret val, s2)
      else some (.ret val, s.setElems target (setItems arr.elems i val)) := by
  have hmax : ¬ (max arr.elems.length i > maxArrayLength) := by omega
  have hl2 := spliceItems_length arr.elems i val
  have hmax2 : ¬ ((setItems arr.elems i val).length > maxArrayLength) := by
    unfold setItems
    rw [hl2]; omega
  have hst : ((s.modifyObj target fun x =>
        { x with elems := x.elems.take (max arr.elems.length i) ++
          List.replicate (max arr.elems.length i - x.elems.length) .undefined }).modifyObj target
        fun x => { x with elems := spliceItems x.elems i 1 [val] }) =
      s.setElems target (setItems arr.elems i val) := by
    simp only [State.modifyObj, State.setElems]
    rw [modify_twice]
    congr 1
    exact modify_at _ _ arr _ _ ht rfl
  unfold set
  simp only [ht, arrayIndex, hk, if_true, setLength, hmax, if_false, andThen, splice,
    nativeSplice, Obj.isFrozen, he, Bool.not_true, Bool.false_and, Bool.false_eq_true]
  simp only [State.modifyObj, List.getElem?_modify, ht, if_true, Option.map_some, he,
    Bool.not_true, Bool.false_and, Bool.false_eq_true, if_false]
  simp only [State.modifyObj, setItems] at hst hmax2
  simp only [hmax2, if_false, andThen, hst]
  cases arr.augmented
  · simp [setItems]
  · simp only [if_true, setItems]
    generalize mutatorTail call target [val] _ = r
    rcases r with _ | ⟨c, s1⟩
    · rfl
    · cases c <;> rfl

theorem set_index_splice (call : Call) (target : Addr) (arr : Obj) (i : Nat) (val : Val)
    (s : State) (ht : s.heap[target]? = some arr) (hk : arr.kind = .array)
    (he : arr.extensible = true)
    (hi : i < maxArrayLength) (hlen : arr.elems.length ≤ maxArrayLength) :
    set call target (.index i) val s =
      andThen (splice call target i 1 [val]
        (s.setElems target (arr.elems ++ List.replicate (i - arr.elems.length) .undefined)))
        fun _ s2 => some (.ret val, s2) := by
  have hmax : ¬ (max arr.elems.length i > maxArrayLength) := by omega
  have hst : (s.modifyObj target fun x =>
        { x with elems := x.elems.take (max arr.elems.length i) ++
          List.replicate (max arr.elems.length i - x.elems.length) .undefined }) =
      s.setElems target (arr.elems ++ List.replicate (i - arr.elems.length) .undefined) := by
    simp only [State.modifyObj, State.setElems]
    congr 1
    refine modify_at _ _ arr _ _ ht ?_
    have h0 : List.take (max arr.elems.length i) arr.elems = arr.elems :=
      List.take_of_length_le (by omega)
    have h1 : max arr.elems.length i - arr.elems.length = i - arr.elems.length := by omega
    simp only [h0, h1]
  unfold set
  simp only [ht, arrayIndex, hk, if_true, setLength, hmax, if_false, andThen, hst,
    Obj.isFrozen, he, Bool.not_true, Bool.false_and, Bool.false_eq_true]

theorem set_index_frozen (call : Call) (target : Addr) (arr : Obj) (i : Nat) (val : Val)
    (s : State) (ht : s.heap[target]? = some arr) (hk : arr.kind = .array)
    (hf : arr.isFrozen = true) :
    set call target (.index i) val s = some (.thrown typeError, s) := by
  unfold set
  simp only [ht, arrayIndex, hk, if_true, setLength, hf, andThen]

theorem setElems_lookup (s : State) (a : Addr) (arr : Obj) (l : List Val)
    (h : s.heap[a]? = some arr) :
    (s.setElems a l).heap[a]? = some { arr with elems := l } := by
  simp [State.setElems, State.modifyObj, h]

theorem hasProperty_of_own (obj : Obj) (k : Key) (p : Property)
    (hp : obj.getOwnProperty k = some p) : obj.hasProperty k = true := by
  simp [Obj.hasProperty, Obj.hasOwnProperty, hp]

theorem hasProperty_absent (obj : Obj) (k : Key) (hin : obj.hasProperty k = false) :
    obj.getOwnProperty k = none ∧ inObjectPrototype k = false ∧
      ¬ (k = "__ob__" ∧ obj.__ob__.isSome = true) ∧ ¬ (obj.kind = .array ∧ k = "length") ∧
      hasOwn obj k = false := by
  simp only [Obj.hasProperty, Bool.or_eq_false_iff] at hin
  obtain ⟨⟨h0, h4⟩, -⟩ := hin
  have h0' := h0
  simp only [Obj.hasOwnProperty, Bool.or_eq_false_iff, Bool.and_eq_false_imp,
    decide_eq_true_eq, decide_eq_false_iff_not] at h0
  obtain ⟨⟨h1, h2⟩, h3⟩ := h0
  refine ⟨?_, h4, ?_, ?_, h0'⟩
  · cases h : obj.getOwnProperty k with
    | none => rfl
    | some p => rw [h] at h1; simp at h1
  · rintro ⟨e1, e2⟩
    rw [h2 e1] at e2
    simp at e2
  · rintro ⟨e1, e2⟩
    exact h3 e1 e2

theorem notProto_of (k : Key) (h : inObjectPrototype k = false) : k ≠ "__proto__" := by
  rintro rfl
  exact absurd h (by decide)

theorem set_existing (call : Call) (target : Addr) (obj : Obj) (key : PropKey) (val : Val)
    (s : State) (p : Property) (ht : s.heap[target]? = some obj) (hk : obj.kind ≠ .array)
    (hp : obj.getOwnProperty key.toKey = some p) (hnp : inObjectPrototype key.toKey = false) :
    set call target key val s =
      andThen (propSetStrict call target key.toKey val s) fun _ s1 => some (.ret val, s1) := by
  unfold set
  simp only [ht, arrayIndex_object obj key hk, hasProperty_of_own obj _ p hp, hnp,
    Bool.not_false, Bool.and_self, if_true]

theorem propSetStrict_data (call : Call) (a : Addr) (obj : Obj) (k : Key) (p : Property)
    (x v : Val) (s : State) (ho : s.heap[a]? = some obj) (hp : obj.getOwnProperty k = some p)
    (hx : p.slot = .data x) (hw : p.writable = true) :
    propSetStrict call a k v s =
      some (.ret .undefined, s.modifyObj a fun o =>
        { o with props := o.props.map fun q =>
            if q.key = k then { q with slot := .data v } else q }) := by
  simp only [propSetStrict, ho, hp, hx, propSet, hw, if_true]

theorem propSetStrict_readonly (call : Call) (a : Addr) (obj : Obj) (k : Key) (p : Property)
    (x v : Val) (s : State) (ho : s.heap[a]? = some obj) (hp : obj.getOwnProperty k = some p)
    (hx : p.slot = .data x) (hw : p.writable = false) :
    propSetStrict call a k v s = some (.thrown typeError, s) := by
  simp only [propSetStrict, ho, hp, hx, hw, Bool.false_eq_true, if_false]

theorem propSetStrict_noSetter (call : Call) (a : Addr) (obj : Obj) (k : Key) (p : Property)
    (g : Option Fn) (v : Val) (s : State) (ho : s.heap[a]? = some obj)
    (hp : obj.getOwnProperty k = some p) (hx : p.slot = .accessor g none) :
    propSetStrict call a k v s = some (.thrown typeError, s) := by
  simp only [propSetStrict, ho, hp, hx]

theorem propSetStrict_reactive (n : Nat) (a : Addr) (obj : Obj) (k : Key) (p : Property)
    (g : Option Fn) (c : Nat) (v : Val) (s : State) (ho : s.heap[a]? = some obj)
    (hp : obj.getOwnProperty k = some p)
    (hslot : p.slot = .accessor g (some (.reactiveSetter c))) :
    propSetStrict (exec (n + 1)) a k v s =
      reactiveSetter (exec n) c v (s.log (.call (.reactiveSetter c) [v])) := by
  simp only [propSetStrict, ho, hp, hslot, propSet, exec_succ, dispatch, callFn]
  rfl

theorem setLength_persists (a : Addr) (m : Nat) (s : State) (c : Completion) (s' : State)
    (h : setLength a m s = some (c, s')) : Persists s s' := by
  unfold setLength at h
  split at h
  · simp at h
  · split at h
    · simp at h; rw [← h.2]; exact persists_refl s
    · split at h
      · simp at h; rw [← h.2]; exact persists_refl s
      · simp at h; rw [← h.2]
        exact persists_same rfl rfl rfl rfl rfl

theorem assignLength_persists (a : Addr) (v : Val) (s : State) (c : Completion) (s' : State)
    (h : assignLength a v s = some (c, s')) : Persists s s' := by
  unfold assignLength at h
  split at h
  · simp at h
  · split at h
    · simp at h; rw [← h.2]; exact persists_refl s
    · split at h
      · split at h
        · exact setLength_persists _ _ _ _ _ h
        · simp at h; rw [← h.2]; exact persists_refl s
      · exact setLength_persists _ _ _ _ _ h
      · exact setLength_persists _ _ _ _ _ h
      · simp at h; rw [← h.2]; exact persists_refl s
      · simp at h; rw [← h.2]; exact persists_refl s
      · simp at h
      · simp at h

theorem propSetStrict_persists (n : Nat) (a : Addr) (k : Key) (v : Val) (s : State)
    (c : Completion) (s' : State) (h : propSetStrict (exec n) a k v s = some (c, s')) :
    Persists s s' := by
  have hp : ∀ c s', propSet (exec n) a k v s = some (c, s') → Persists s s' := fun c s' h =>
    exec_closed persists_closed (n + 1) (.propSet a k v) s c s' h trivial
  unfold propSetStrict at h
  split at h
  · simp at h
  · split at h
    · split at h
      · simp at h
      · split at h
        · simp at h
        · split at h
          · exact assignLength_persists _ _ _ _ _ h
          · split at h
            · exact hp _ _ h
            · simp at h
              rw [← h.2]
              exact persists_refl s
    · split at h
      · simp at h
        rw [← h.2]
        exact persists_refl s
      · exact hp _ _ h
      · split at h
        · exact hp _ _ h
        · simp at h
          rw [← h.2]
          exact persists_refl s

theorem andThen_ret_persists {r : Res} {s : State} {val : Val} {c : Completion} {s' : State}
    (hr : ∀ c1 s1, r = some (c1, s1) → Persists s s1)
    (h : (andThen r fun _ s1 => some (.ret val, s1)) = some (c, s')) : Persists s s' := by
  rcases r with _ | ⟨c1, s1⟩
  · simp [andThen] at h
  · have := hr c1 s1 rfl
    cases c1 <;> simp [andThen] at h
    · rw [← h.2]; exact this
    · rw [← h.2]; exact this

theorem observer_some (obj : Obj) (s : State) (r : Nat) (o : Observer)
    (hob : obj.__ob__ = some r) (ho : s.observers[r]? = some o) :
    obj.observer s = some (some o) := by
  simp [Obj.observer, hob, ho]

theorem observer_none (obj : Obj) (s : State) (hob : obj.__ob__ = none) :
    obj.observer s = some none := by
  simp [Obj.observer, hob]

theorem set_new_observed (call : Call) (target : Addr) (obj : Obj) (key : PropKey) (val : Val)
    (s : State) (r : Nat) (o : Observer) (ht : s.heap[target]? = some obj)
    (hk : arrayIndex obj key = none) (hv : obj._isVue = false)
    (hin : obj.hasProperty key.toKey = false)
    (hob : obj.__ob__ = some r) (ho : s.observers[r]? = some o) (hvm : o.vmCount = 0) :
    set call target key val s =
      andThen (call (.defineReactive o.value key.toKey (some val) none false) s) fun _ s1 =>
        andThen (call (.notify o.dep) s1) fun _ s2 => some (.ret val, s2) := by
  unfold set
  simp only [ht, hk, hin, Bool.false_and, Bool.false_eq_true,
    if_false, observer_some obj s r o hob ho, hv, hvm, ne_eq, not_true_eq_false, decide_False,
    Bool.or_self]

theorem set_new_unobserved (call : Call) (target : Addr) (obj : Obj) (key : PropKey)
    (val : Val) (s : State) (ht : s.heap[target]? = some obj)
    (hk : arrayIndex obj key = none) (hv : obj._isVue = false)
    (hin : obj.hasProperty key.toKey = false) (hob : obj.__ob__ = none) :
    set call target key val s =
      andThen (propSetStrict call target key.toKey val s) fun _ s1 => some (.ret val, s1) := by
  unfold set
  simp only [ht, hk, hin, Bool.false_and, Bool.false_eq_true,
    if_false, observer_none obj s hob, hv, Bool.or_self]

theorem propSetStrict_new (call : Call) (a : Addr) (obj : Obj) (k : Key) (v : Val) (s : State)
    (ho : s.heap[a]? = some obj) (hin : obj.hasProperty k = false)
    (he : obj.extensible = true) :
    propSetStrict call a k v s =
      some (.ret .undefined, s.modifyObj a fun x =>
        { x with props := x.props ++
            [{ key := k, enumerable := true, configurable := true, slot := .data v }] }) := by
  obtain ⟨hp, hnp, h1, h2, -⟩ := hasProperty_absent obj k hin
  simp only [propSetStrict, ho, hp, h1, notProto_of k hnp, h2, he, if_true, if_false, propSet]

theorem propSetStrict_closed (call : Call) (a : Addr) (obj : Obj) (k : Key) (v : Val)
    (s : State) (ho : s.heap[a]? = some obj) (hin : obj.hasProperty k = false)
    (he : obj.extensible = false) :
    propSetStrict call a k v s = some (.thrown typeError, s) := by
  obtain ⟨hp, hnp, h1, h2, -⟩ := hasProperty_absent obj k hin
  simp only [propSetStrict, ho, hp, h1, notProto_of k hnp, h2, he, if_false,
    Bool.false_eq_true]

/-- `defineReactive(obj, key, val)` on a key that the extensible object does not have. -/
theorem defineReactive_new (call : Call) (a : Addr) (obj : Obj) (k : Key) (val : Val)
    (s : State) (ho : s.heap[a]? = some obj) (hp : obj.getOwnProperty k = none)
    (ob : Option Nat) (s3 : State) (obj3 : Obj)
    (hobs : call (.observe val false) (Dep.new s).2 = some (.retOb ob, s3))
    (ho3 : s3.heap[a]? = some obj3) (hp3 : obj3.getOwnProperty k = none)
    (he3 : obj3.extensible = true) :
    defineReactive call a k (some val) none false s =
      some (.ret .undefined,
        addReactive a k
          { obj := a, key := k, dep := s.deps.length, val := val, childOb := ob,
            getter := none, setter := none, customSetter := none, shallow := false } s3) := by
  have ho1 : (Dep.new s).2.heap[a]? = some obj := ho
  have ho4 : ∀ cell : Cell,
      ({ s3 with cells := s3.cells ++ [cell] } : State).heap[a]? = some obj3 := fun _ => ho3
  unfold defineReactive
  simp only [ho1, hp, Option.map_none', andThen, hobs, andThenOb, Bool.false_eq_true, if_false,
    defineProperty, ho4, hp3, he3, if_true]
  simp only [reduceCtorEq, if_false, ho3, hp3, he3, if_true]
  rfl

/-- `defineReactive(obj, key, val)` on a key that the object does not have, when the object
is not extensible after `observe(val)`: `Object.defineProperty` throws. -/
theorem defineReactive_closedObj (call : Call) (a : Addr) (obj : Obj) (k : Key) (val : Val)
    (s : State) (ho : s.heap[a]? = some obj) (hp : obj.getOwnProperty k = none)
    (ob : Option Nat) (s3 : State) (obj3 : Obj)
    (hobs : call (.observe val false) (Dep.new s).2 = some (.retOb ob, s3))
    (ho3 : s3.heap[a]? = some obj3) (hp3 : obj3.getOwnProperty k = none)
    (he3 : obj3.extensible = false) :
    defineReactive call a k (some val) none false s =
      some (.thrown typeError,
        ({ s3 with cells := s3.cells ++
          [{ obj := a, key := k, dep := s.deps.length, val := val, childOb := ob,
             getter := none, setter := none, customSetter := none, shallow := false }] } :
          State)) := by
  have ho1 : (Dep.new s).2.heap[a]? = some obj := ho
  have ho4 : ∀ cell : Cell,
      ({ s3 with cells := s3.cells ++ [cell] } : State).heap[a]? = some obj3 := fun _ => ho3
  unfold defineReactive
  simp only [ho1, hp, Option.map_none', andThen, hobs, andThenOb, Bool.false_eq_true, if_false,
    defineProperty, ho4, hp3, he3, if_true]
  simp only [reduceCtorEq, if_false, ho3, hp3, he3, if_true]
  rfl

theorem removeProp_own (obj : Obj) (k : Key) : (obj.removeProp k).getOwnProperty k = none := by
  simp [Obj.removeProp, Obj.getOwnProperty, List.find?_eq_none]

theorem removeProp_other (obj : Obj) (k k' : Key) (h : k' ≠ k) :
    (obj.removeProp k).getOwnProperty k' = obj.getOwnProperty k' := by
  simp only [Obj.removeProp, Obj.getOwnProperty, List.find?_filter]
  congr 1
  funext a
  by_cases ha : a.key = k'
  · simp [ha, h]
  · simp [ha]

theorem hasOwn_of_own (obj : Obj) (k : Key) (p : Property)
    (hp : obj.getOwnProperty k = some p) : hasOwn obj k = true := by
  simp [hasOwn, Obj.hasOwnProperty, hp]

theorem del_own (call : Call) (target : Addr) (obj : Obj) (key : PropKey) (s : State)
    (p : Property) (ob : Option Observer)
    (ht : s.heap[target]? = some obj) (hk : arrayIndex obj key = none)
    (hv : obj._isVue = false)
    (hob : obj.observer s = some ob) (hvm : ∀ o, ob = some o → o.vmCount = 0)
    (hp : obj.getOwnProperty key.toKey = some p) (hc : p.configurable = true) :
    del call target key s =
      match ob with
      | none => some (.ret .undefined, s.modifyObj target fun x => x.removeProp key.toKey)
      | some o => call (.notify o.dep) (s.modifyObj target fun x => x.removeProp key.toKey) := by
  unfold del
  cases ob with
  | none =>
    simp only [ht, hk, hob, hv, Bool.or_self, Bool.false_eq_true,
      if_false, hasOwn_of_own obj _ p hp, Bool.not_true, deleteProperty, hp, hc, if_true,
      andThen]
  | some o =>
    simp only [ht, hk, hob, hv, hvm o rfl, ne_eq, not_true_eq_false,
      decide_False, Bool.or_self, Bool.false_eq_true,
      if_false, hasOwn_of_own obj _ p hp, Bool.not_true, deleteProperty, hp, hc, if_true,
      andThen]

/-- `del(target, '__ob__')` on an observed extensible object removes the reference to the
Observer and notifies the Dep of that Observer. -/
theorem del_hidden (call : Call) (target : Addr) (obj : Obj) (key : PropKey) (s : State)
    (r : Nat) (o : Observer)
    (ht : s.heap[target]? = some obj) (hk : arrayIndex obj key = none)
    (hv : obj._isVue = false) (hob : obj.__ob__ = some r) (ho : s.observers[r]? = some o)
    (hvm : o.vmCount = 0) (hkey : key.toKey = "__ob__")
    (hp : obj.getOwnProperty "__ob__" = none) (he : obj.extensible = true) :
    del call target key s =
      call (.notify o.dep) (s.modifyObj target fun x => { x with __ob__ := none }) := by
  have hown : hasOwn obj "__ob__" = true := by
    simp [hasOwn, Obj.hasOwnProperty, hob]
  unfold del
  simp only [ht, hk, observer_some obj s r o hob ho, hv, hvm, ne_eq, not_true_eq_false,
    decide_False, Bool.or_self, Bool.false_eq_true, if_false, hkey, hown, Bool.not_true,
    deleteProperty, hp, hob, Option.isSome_some, and_self, if_true, isFrozen_extensible obj he,
    andThen]

theorem del_absent (call : Call) (target : Addr) (obj : Obj) (key : PropKey) (s : State)
    (ob : Option Observer)
    (ht : s.heap[target]? = some obj) (hk : arrayIndex obj key = none)
    (hv : obj._isVue = false)
    (hob : obj.observer s = some ob) (hvm : ∀ o, ob = some o → o.vmCount = 0)
    (hp : hasOwn obj key.toKey = false) :
    del call target key s = some (.ret .undefined, s) := by
  unfold del
  cases ob with
  | none =>
    simp only [ht, hk, hob, hv, Bool.or_self, Bool.false_eq_true,
      if_false, hp, Bool.not_false, if_true]
  | some o =>
    simp only [ht, hk, hob, hv, hvm o rfl, ne_eq, not_true_eq_false,
      decide_False, Bool.or_self, Bool.false_eq_true,
      if_false, hp, Bool.not_false, if_true]



/-! ## Two writes within one tick -/

theorem queueWatcher_first (call : Call) (s : State) (w : Nat) (wt : Watcher)
    (hw : s.watchers[w]? = some wt) (ha : s.env.async = true) (hh : wt.id ∉ s.has)
    (hf : s.flushing = false) (hwt : s.waiting = false) :
    queueWatcher call w s = some (.ret .undefined, (s.log (.queue w)).enqueued w wt.id) := by
  unfold queueWatcher
  simp only [hw, State.log, hh, if_false, hf, hwt, ha, Bool.not_false, if_true, Bool.not_true,
    Bool.false_eq_true]
  rfl

theorem queueWatcher_dup (call : Call) (s : State) (w : Nat) (wt : Watcher)
    (hw : s.watchers[w]? = some wt) (hh : wt.id ∈ s.has) :
    queueWatcher call w s = some (.ret .undefined, s.log (.queue w)) := by
  unfold queueWatcher
  simp only [hw, State.log, hh, if_true]

theorem update_queue (n : Nat) (s : State) (w : Nat) (wt : Watcher)
    (hw : s.watchers[w]? = some wt) (hl : wt.lazy = false) (hs : wt.sync = false) :
    exec (n + 2) (.update w) s = queueWatcher (exec n) w (s.log (.update w)) := by
  simp only [exec_succ, dispatch, Watcher.update, hw, hl, hs]
  rfl

theorem notify_single (n : Nat) (d : Nat) (dep : Dep) (w : Nat) (s : State)
    (hd : s.deps[d]? = some dep) (hsubs : dep.subs = [w]) :
    exec (n + 1) (.notify d) s =
      andThen (exec n (.update w) (s.log (.notify d))) fun _ s1 =>
        some (.ret .undefined, s1) := by
  simp only [exec_succ, dispatch, Dep.notify, hd, hsubs, sortById]
  split <;> simp [Dep.notifyLoop]

/-- A write that changes a reactive property whose Dep has the one subscriber `w`, a watcher
that is neither lazy nor sync: the value is stored and `w.update()` calls `queueWatcher`. -/
theorem write_queues (n : Nat) (s : State) (c w : Nat) (cell : Cell) (wt : Watcher) (dep : Dep)
    (v : Val) (hc : s.cells[c]? = some cell) (hg : cell.getter = none)
    (hs : cell.setter = none) (hcs : s.env.production = true ∨ cell.customSetter = none)
    (hne : (strictEq v cell.val || (!strictEq v v && !strictEq cell.val cell.val)) = false)
    (hv : isObject v = false)
    (hd : s.deps[cell.dep]? = some dep) (hsubs : dep.subs = [w])
    (hw : s.watchers[w]? = some wt) (hl : wt.lazy = false) (hsy : wt.sync = false) :
    reactiveSetter (exec (n + 3)) c v s =
      andThen (queueWatcher (exec n) w
        ((((s.modifyCell c fun x => { x with val := v }).modifyCell c fun x =>
          { x with childOb := none }).log (.notify cell.dep)).log (.update w)))
        fun _ s1 => some (.ret .undefined, s1) := by
  rw [reactiveSetter_store (n + 2) c cell v s hc hg hs hcs hne (Or.inr hv)]
  refine Eq.trans (notify_single (n + 2) cell.dep dep w _ (by exact hd) hsubs) ?_
  refine congrArg (fun r => andThen r fun _ s1 => some (.ret .undefined, s1)) ?_
  exact update_queue n _ w wt (by exact hw) hl hsy

theorem flush_single (n : Nat) (s : State) (w : Nat) (wt : Watcher)
    (hw : s.watchers[w]? = some wt) (hq : s.queue = [w]) :
    exec (n + 3) .flushSchedulerQueue s =
      andThen (exec (n + 1) (.run w) (s.flushingAt wt.id)) fun _ s3 =>
        exec (n + 1) .flushLoop s3 := by
  have hid : watcherId s w = wt.id := by simp [watcherId, hw]
  simp only [exec_succ (n + 2), dispatch, flushSchedulerQueue, hq, sortById,
    List.insertionSort, List.orderedInsert]
  simp only [exec_succ (n + 1) .flushLoop, dispatch, flushLoop]
  have hid2 : ∀ (f : Bool) (c : Nat) (q : List Nat),
      watcherId { s with flushing := f, current := c, queue := q } w = wt.id := fun _ _ _ => hid
  simp only [hid2]
  rfl

theorem flushLoop_empty (n : Nat) (s : State) (hq : s.queue = []) :
    exec (n + 1) .flushLoop s = some (.ret .undefined, s.flushed) := by
  simp only [exec_succ, dispatch, flushLoop, hq]
  rfl

theorem flush_once (n : Nat) (s s3 : State) (w : Nat) (wt : Watcher)
    (hw : s.watchers[w]? = some wt) (hq : s.queue = [w])
    (hrun : exec (n + 1) (.run w) (s.flushingAt wt.id) = some (.ret .undefined, s3))
    (hq3 : s3.queue = []) :
    exec (n + 3) .flushSchedulerQueue s = some (.ret .undefined, s3.flushed) := by
  rw [flush_single n s w wt hw hq, hrun]
  simp only [andThen]
  exact flushLoop_empty n s3 hq3

theorem batched_write (n : Nat) (s : State) (w c1 c2 : Nat) (wt : Watcher)
    (cell1 cell2 : Cell) (dep1 dep2 : Dep) (v1 v2 : Val)
    (hw : s.watchers[w]? = some wt) (hl : wt.lazy = false) (hsy : wt.sync = false)
    (ha : s.env.async = true) (hf : s.flushing = false) (hwa : s.waiting = false)
    (hh : s.has = [])
    (hc1 : s.cells[c1]? = some cell1) (hc2 : s.cells[c2]? = some cell2) (hcc : c1 ≠ c2)
    (hg1 : cell1.getter = none) (hs1 : cell1.setter = none)
    (hcs1 : s.env.production = true ∨ cell1.customSetter = none)
    (hg2 : cell2.getter = none) (hs2 : cell2.setter = none)
    (hcs2 : s.env.production = true ∨ cell2.customSetter = none)
    (hd1 : s.deps[cell1.dep]? = some dep1) (hsub1 : dep1.subs = [w])
    (hd2 : s.deps[cell2.dep]? = some dep2) (hsub2 : dep2.subs = [w])
    (hne1 : (strictEq v1 cell1.val || (!strictEq v1 v1 && !strictEq cell1.val cell1.val)) = false)
    (hne2 : (strictEq v2 cell2.val || (!strictEq v2 v2 && !strictEq cell2.val cell2.val)) = false)
    (hv1 : isObject v1 = false) (hv2 : isObject v2 = false) :
    reactiveSetter (exec (n + 3)) c1 v1 s =
      some (.ret .undefined, (s.written c1 v1 cell1.dep w).enqueued w wt.id) ∧
    reactiveSetter (exec (n + 3)) c2 v2 ((s.written c1 v1 cell1.dep w).enqueued w wt.id) =
      some (.ret .undefined, s.batched c1 v1 cell1.dep c2 v2 cell2.dep w wt.id) := by
  constructor
  · rw [write_queues n s c1 w cell1 wt dep1 v1 hc1 hg1 hs1 hcs1 hne1 hv1 hd1 hsub1 hw hl hsy]
    rw [queueWatcher_first (exec n) _ w wt (by exact hw) (by exact ha)
      (by show wt.id ∉ s.has; rw [hh]; simp) (by exact hf) (by exact hwa)]
    rfl
  · have hc2' : ((s.written c1 v1 cell1.dep w).enqueued w wt.id).cells[c2]? = some cell2 := by
      simp [State.written, State.enqueued, State.log, State.modifyCell, List.getElem?_modify,
        hcc, hc2]
    rw [write_queues n _ c2 w cell2 wt dep2 v2 hc2' hg2 hs2 (by exact hcs2) hne2 hv2
      (by exact hd2) hsub2 (by exact hw) hl hsy]
    rw [queueWatcher_dup (exec n) _ w wt (by exact hw)
      (by show wt.id ∈ wt.id :: s.has; simp)]
    rfl


/-! ## Reads and writes after `defineReactive` -/

theorem putProp_lookup (o : Obj) (p : Property) : (o.putProp p).getOwnProperty p.key = some p := by
  unfold Obj.putProp
  cases h : o.getOwnProperty p.key with
  | some old =>
    simp only [Obj.replaceProp, Obj.getOwnProperty]
    exact find_replace_self o.props p.key p old rfl h
  | none =>
    simp only [Obj.addProp, Obj.getOwnProperty, List.find?_append]
    simp only [Obj.getOwnProperty] at h
    simp [h]

theorem defineProperty_put (s : State) (a : Addr) (p : Property) (obj : Obj)
    (ho : s.heap[a]? = some obj)
    (hk : (obj.getOwnProperty p.key = none ∧ obj.extensible = true) ∨
      ∃ old, obj.getOwnProperty p.key = some old ∧ old.configurable = true) :
    defineProperty a p s = some (.ret .undefined, s.modifyObj a fun x => x.putProp p) := by
  have hm : ∀ f g : Obj → Obj, f obj = g obj → s.modifyObj a f = s.modifyObj a g := by
    intro f g hfg
    simp only [State.modifyObj]
    congr 1
    exact modify_at _ _ obj _ _ ho hfg
  rcases hk with ⟨h1, h2⟩ | ⟨old, h1, h2⟩
  · simp only [defineProperty, ho, h1, h2, if_true]
    congr 2
    exact hm _ _ (by simp [Obj.putProp, h1])
  · simp only [defineProperty, ho, h1, h2, if_true]
    congr 2
    exact hm _ _ (by simp [Obj.putProp, h1])

theorem propGet_reactive (n : Nat) (s : State) (o : Addr) (k : Key) (obj : Obj) (p : Property)
    (st : Option Fn) (c : Nat)
    (ho : s.heap[o]? = some obj) (hp : obj.getOwnProperty k = some p)
    (hslot : p.slot = .accessor (some (.reactiveGetter c)) st) :
    exec (n + 2) (.propGet o k) s =
      reactiveGetter (exec n) c (s.log (.call (.reactiveGetter c) [])) := by
  simp only [exec_succ, dispatch, propGet, ho, hp, hslot, callFn]

/-- A read of a reactive property without pre-existing getter, outside any watcher
evaluation, returns the value of its cell. -/
theorem read_reactive (n : Nat) (s : State) (a : Addr) (k : Key) (obj : Obj) (c : Nat)
    (cell : Cell) (ho : s.heap[a]? = some obj)
    (hp : obj.getOwnProperty k = some (reactiveProperty k c))
    (hc : s.cells[c]? = some cell) (hg : cell.getter = none) (ht : s.target = none) :
    exec (n + 2) (.propGet a k) s =
      some (.ret cell.val, s.log (.call (.reactiveGetter c) [])) := by
  rw [propGet_reactive n s a k obj _ _ c ho hp rfl]
  exact reactiveGetter_noTarget _ c cell cell.val _ _ (by exact hc) (by simp [Cell.read, hg])
    (by exact ht)

/-- `defineReactive(obj, key, val)` on a key that is absent from an extensible object or is a
configurable data property, once `observe(val)` has returned. -/
theorem defineReactive_put (call : Call) (a : Addr) (obj obj3 : Obj) (k : Key) (val : Val)
    (s : State) (ho : s.heap[a]? = some obj)
    (hk : obj.getOwnProperty k = none ∨
      ∃ p x, obj.getOwnProperty k = some p ∧ p.configurable = true ∧ p.slot = .data x)
    (ob : Option Nat) (s3 : State)
    (hobs : call (.observe val false) (Dep.new s).2 = some (.retOb ob, s3))
    (ho3 : s3.heap[a]? = some obj3)
    (hk3 : (obj3.getOwnProperty k = none ∧ obj3.extensible = true) ∨
      ∃ old, obj3.getOwnProperty k = some old ∧ old.configurable = true) :
    defineReactive call a k (some val) none false s =
      some (.ret .undefined,
        putReactive a k
          { obj := a, key := k, dep := s.deps.length, val := val, childOb := ob,
            getter := none, setter := none, customSetter := none, shallow := false } s3) := by
  have ho1 : (Dep.new s).2.heap[a]? = some obj := ho
  unfold defineReactive
  rcases hk with hp | ⟨p, x, hp, hc, hx⟩
  · simp only [ho1, hp, Option.map_none', andThen, hobs, andThenOb, Bool.false_eq_true,
      if_false, reduceCtorEq]
    exact defineProperty_put _ a (reactiveProperty k s3.cells.length) obj3 ho3 hk3
  · obtain ⟨pk, pe, pc, ps⟩ := p
    simp only at hc hx
    subst hc hx
    simp only [ho1, hp, Option.map_some', andThen, hobs, andThenOb, Bool.false_eq_true,
      if_false, Option.some.injEq, Bool.true_eq_false]
    exact defineProperty_put _ a (reactiveProperty k s3.cells.length) obj3 ho3 hk3

theorem putReactive_heap (a : Addr) (k : Key) (cell : Cell) (s : State) (obj : Obj)
    (ho : s.heap[a]? = some obj) :
    (putReactive a k cell s).heap[a]? =
      some (obj.putProp (reactiveProperty k s.cells.length)) := by
  simp [putReactive, State.modifyObj, ho]

theorem putReactive_cell (a : Addr) (k : Key) (cell : Cell) (s : State) :
    (putReactive a k cell s).cells[s.cells.length]? = some cell := by
  simp [putReactive, State.modifyObj]


/-! ## Construction and synchronous update of a watcher of one property -/

theorem depend_frame_eq (d : Nat) (s : State) :
    (Dep.depend d s).cells = s.cells ∧ (Dep.depend d s).heap = s.heap ∧
    (Dep.depend d s).trace = s.trace ∧ (Dep.depend d s).target = s.target ∧
    (Dep.depend d s).targetStack = s.targetStack ∧ (Dep.depend d s).env = s.env ∧
    (Dep.depend d s).observers = s.observers := by
  rw [depend_eq]
  exact ⟨rfl, rfl, rfl, rfl, rfl, rfl, rfl⟩

theorem cleanupDeps_frame_eq (w : Nat) (s : State) :
    (Watcher.cleanupDeps w s).cells = s.cells ∧ (Watcher.cleanupDeps w s).heap = s.heap ∧
    (Watcher.cleanupDeps w s).env = s.env := by
  rw [cleanupDeps_eq]
  exact ⟨rfl, rfl, rfl⟩

/-- A read of a reactive property without pre-existing getter and without child Observer
while a watcher is being evaluated: `dep.depend()`, then the value. -/
theorem reactiveGetter_leaf (call : Call) (c : Nat) (cell : Cell) (W : Nat) (s : State)
    (hc : s.cells[c]? = some cell) (hg : cell.getter = none) (hco : cell.childOb = none)
    (ht : s.target = some W) :
    reactiveGetter call c s = some (.ret cell.val, Dep.depend cell.dep s) := by
  have hc2 : (Dep.depend cell.dep s).cells[c]? = some cell := by
    rw [(depend_frame_eq cell.dep s).1]; exact hc
  unfold reactiveGetter
  simp only [hc, Cell.read, hg, andThen, ht, hc2, hco]

/-- The call of `() => obj[k]` on a reactive property is the call of its reactive getter. -/
theorem callFn_readProp (n : Nat) (s : State) (o : Addr) (k : Key) (obj : Obj) (p : Property)
    (st : Option Fn) (c : Nat) (ho : s.heap[o]? = some obj)
    (hp : obj.getOwnProperty k = some p)
    (hslot : p.slot = .accessor (some (.reactiveGetter c)) st) :
    exec (n + 3) (.callFn (readProp o k) []) s =
      reactiveGetter (exec n) c
        ((s.log (.call (readProp o k) [])).log (.call (.reactiveGetter c) [])) := by
  have h := propGet_reactive n (s.log (.call (readProp o k) [])) o k obj p st c ho hp hslot
  simp only [exec_succ (n + 2), dispatch, callFn, readProp, evalCode, andThen]
  exact h

/-- The evaluation `get()` of a watcher of `() => obj[k]` that is not deep, on a reactive
property without pre-existing getter and without child Observer. -/
theorem get_readProp (n : Nat) (s : State) (w : Nat) (wt : Watcher) (o : Addr) (k : Key)
    (obj : Obj) (p : Property) (st : Option Fn) (c : Nat) (cell : Cell)
    (hw : s.watchers[w]? = some wt) (hget : wt.getter = readProp o k) (hd : wt.deep = false)
    (ho : s.heap[o]? = some obj) (hp : obj.getOwnProperty k = some p)
    (hslot : p.slot = .accessor (some (.reactiveGetter c)) st)
    (hc : s.cells[c]? = some cell) (hg : cell.getter = none) (hco : cell.childOb = none) :
    exec (n + 4) (.get w) s =
      some (.ret cell.val, Watcher.cleanupDeps w (popTarget (evaluated s w o k c cell.dep))) := by
  have h1 : exec (n + 3) (.callFn wt.getter []) ((pushTarget (some w) s).log (.getter w)) =
      some (.ret cell.val, evaluated s w o k c cell.dep) := by
    rw [hget, callFn_readProp n _ o k obj p st c (by exact ho) hp hslot]
    exact reactiveGetter_leaf _ c cell w _ (by exact hc) hg hco rfl
  simp only [exec_succ (n + 3) (.get w), dispatch, Watcher.get, hw, h1, Watcher.getFinally, hd,
    andThen]
  rfl

theorem addDep_fresh (w d : Nat) (s : State) (wt : Watcher) (dep : Dep)
    (hw : s.watchers[w]? = some wt) (hd : s.deps[d]? = some dep)
    (h1 : dep.id ∉ wt.newDepIds) (h2 : dep.id ∉ wt.depIds) :
    Watcher.addDep w d s =
      Dep.addSub d w (s.modifyWatcher w fun x =>
        { x with newDepIds := x.newDepIds ++ [dep.id], newDeps := x.newDeps ++ [d] }) := by
  unfold Watcher.addDep
  simp only [hw, hd, h1, h2, if_false]

theorem addDep_known (w d : Nat) (s : State) (wt : Watcher) (dep : Dep)
    (hw : s.watchers[w]? = some wt) (hd : s.deps[d]? = some dep)
    (h1 : dep.id ∉ wt.newDepIds) (h2 : dep.id ∈ wt.depIds) :
    Watcher.addDep w d s =
      s.modifyWatcher w fun x =>
        { x with newDepIds := x.newDepIds ++ [dep.id], newDeps := x.newDeps ++ [d] } := by
  unfold Watcher.addDep
  simp only [hw, hd, h1, h2, if_false, if_true]

theorem addDep_value (v d : Nat) (s : State) (w : Nat) (wt : Watcher)
    (h : s.watchers[w]? = some wt) :
    ∃ wt', (Watcher.addDep v d s).watchers[w]? = some wt' ∧ wt'.value = wt.value ∧
      wt'.active = wt.active := by
  have hm : ∀ f : Watcher → Watcher, (∀ x, (f x).value = x.value ∧ (f x).active = x.active) →
      ∃ wt', (s.watchers.modify f v)[w]? = some wt' ∧ wt'.value = wt.value ∧
        wt'.active = wt.active := by
    intro f hf
    rw [List.getElem?_modify, h]
    by_cases hv : v = w
    · exact ⟨f wt, by simp [hv], hf wt⟩
    · exact ⟨wt, by simp [hv], rfl, rfl⟩
  unfold Watcher.addDep
  split
  · dsimp only
    split
    · exact ⟨wt, h, rfl, rfl⟩
    · split
      · exact hm _ fun x => ⟨rfl, rfl⟩
      · exact hm _ fun x => ⟨rfl, rfl⟩
  · exact ⟨wt, h, rfl, rfl⟩

/-- The trace at the end of the evaluation of `() => obj[k]`. -/
theorem evaluated_trace (s : State) (w : Nat) (o : Addr) (k : Key) (c d : Nat) :
    (Watcher.cleanupDeps w (popTarget (evaluated s w o k c d))).trace =
      s.trace ++ [.getter w, .call (readProp o k) [], .call (.reactiveGetter c) []] := by
  rw [(cleanupDeps_target w _).2.2]
  show (evaluated s w o k c d).trace = _
  unfold evaluated
  rw [(depend_frame_eq d _).2.2.1]
  simp [State.log, pushTarget]

theorem evaluated_frame (s : State) (w : Nat) (o : Addr) (k : Key) (c d : Nat) :
    (Watcher.cleanupDeps w (popTarget (evaluated s w o k c d))).heap = s.heap ∧
    (Watcher.cleanupDeps w (popTarget (evaluated s w o k c d))).cells = s.cells ∧
    (Watcher.cleanupDeps w (popTarget (evaluated s w o k c d))).env = s.env := by
  obtain ⟨a1, a2, a3⟩ := cleanupDeps_frame_eq w (popTarget (evaluated s w o k c d))
  obtain ⟨b1, b2, -, -, -, b6, -⟩ := depend_frame_eq d
    ((((pushTarget (some w) s).log (.getter w)).log (.call (readProp o k) [])).log
      (.call (.reactiveGetter c) []))
  refine ⟨a2.trans ?_, a1.trans ?_, a3.trans ?_⟩
  · exact b2
  · exact b1
  · exact b6

/-- The watcher after its evaluation keeps its value and its flags. -/
theorem evaluated_watcher (s : State) (w : Nat) (wt : Watcher) (o : Addr) (k : Key) (c d : Nat)
    (hw : s.watchers[w]? = some wt) :
    ∃ wt1, (Watcher.cleanupDeps w (popTarget (evaluated s w o k c d))).watchers[w]? =
        some wt1 ∧ wt1.value = wt.value ∧ wt1.active = wt.active := by
  have h0 : ((((pushTarget (some w) s).log (.getter w)).log (.call (readProp o k) [])).log
      (.call (.reactiveGetter c) [])).watchers[w]? = some wt := hw
  obtain ⟨wtE, h1, h2, h3⟩ := addDep_value w d _ w wt h0
  have hE : (popTarget (evaluated s w o k c d)).watchers[w]? = some wtE := by
    show (evaluated s w o k c d).watchers[w]? = some wtE
    unfold evaluated Dep.depend
    exact h1
  exact ⟨_, cleanupDeps_lookup w _ wtE hE, h2, h3⟩

theorem update_sync (n : Nat) (s : State) (w : Nat) (wt : Watcher)
    (hw : s.watchers[w]? = some wt) (hl : wt.lazy = false) (hs : wt.sync = true) :
    exec (n + 1) (.update w) s = exec n (.run w) (s.log (.update w)) := by
  simp only [exec_succ, dispatch, Watcher.update, hw, hl, hs]
  rfl

/-- The run of an active watcher of `() => obj[k]` that is not deep, when the property holds
a value that differs from the value of the watcher: the callback is called with the new and
the old value. -/
theorem run_readProp (n : Nat) (u : State) (w : Nat) (wt : Watcher) (o : Addr) (k : Key)
    (obj : Obj) (c : Nat) (cell : Cell)
    (hw : u.watchers[w]? = some wt) (hdp : wt.deep = false) (hact : wt.active = true)
    (hget : wt.getter = readProp o k)
    (ho : u.heap[o]? = some obj) (hp : obj.getOwnProperty k = some (reactiveProperty k c))
    (hc : u.cells[c]? = some cell) (hg : cell.getter = none) (hco : cell.childOb = none)
    (hne : strictEq cell.val wt.value = false) :
    ∀ r s', exec (n + 4) (.callFn wt.cb [cell.val, wt.value])
        (ranCallback u w o k c cell.dep wt.value cell.val) = some (.ret r, s') →
      exec (n + 5) (.run w) u = some (.ret .undefined, s') := by
  intro r s' hcb
  have hgetU := get_readProp n u w wt o k obj (reactiveProperty k c)
    (some (.reactiveSetter c)) c cell hw hget hdp ho hp rfl hc hg hco
  obtain ⟨wt1, hw1, hv1, -⟩ := evaluated_watcher u w wt o k c cell.dep hw
  have hfire : (!strictEq cell.val wt1.value || isObject cell.val || wt.deep) = true := by
    rw [hv1, hne]; rfl
  have hcb' : exec (n + 4) (.callFn wt.cb [cell.val, wt1.value])
      (((Watcher.cleanupDeps w (popTarget (evaluated u w o k c cell.dep))).modifyWatcher w
        fun x => { x with value := cell.val }).log (.cb w cell.val wt1.value)) =
        some (.ret r, s') := by
    rw [hv1]
    exact hcb
  exact run_fires (n + 4) u _ s' w wt wt1 cell.val (.ret r) hw hact hgetU hw1 hfire hcb'

theorem strictEq_changed {b a : Val}
    (hne : (strictEq b a || (!strictEq b b && !strictEq a a)) = false) :
    strictEq b a = false := by
  cases h : strictEq b a
  · rfl
  · simp [h] at hne

/-- A write that changes a reactive property whose Dep has the one subscriber `w`, a sync
watcher of `() => obj[k]`: the watcher is re-evaluated and its callback is called with the
new and the old value. -/
theorem write_sync (n : Nat) (t : State) (w : Nat) (wt : Watcher) (o : Addr) (k : Key)
    (obj : Obj) (c : Nat) (cell : Cell) (dep : Dep) (b : Val)
    (hw : t.watchers[w]? = some wt) (hl : wt.lazy = false) (hsy : wt.sync = true)
    (hdp : wt.deep = false) (hact : wt.active = true) (hget : wt.getter = readProp o k)
    (hval : wt.value = cell.val)
    (ho : t.heap[o]? = some obj) (hp : obj.getOwnProperty k = some (reactiveProperty k c))
    (hc : t.cells[c]? = some cell) (hg : cell.getter = none) (hs : cell.setter = none)
    (hcs : t.env.production = true ∨ cell.customSetter = none)
    (hd : t.deps[cell.dep]? = some dep) (hsubs : dep.subs = [w])
    (hne : (strictEq b cell.val || (!strictEq b b && !strictEq cell.val cell.val)) = false)
    (hv : isObject b = false) :
    ∀ r s', exec (n + 4) (.callFn wt.cb [b, cell.val])
        (ranCallback (syncWritten t c b cell.dep w) w o k c cell.dep cell.val b) =
          some (.ret r, s') →
      exec (n + 9) (.propSet o k b) t = some (.ret .undefined, s') := by
  intro r s' hcb
  have hcU : (syncWritten t c b cell.dep w).cells[c]? =
      some { cell with val := b, childOb := none } := by
    simp [syncWritten, State.log, State.modifyCell, hc]
  have hrun := run_readProp n (syncWritten t c b cell.dep w) w wt o k obj c _ (by exact hw)
    hdp hact hget (by exact ho) hp hcU hg rfl (by rw [hval]; exact strictEq_changed hne) r s'
    (by rw [hval]; exact hcb)
  rw [propSet_reactive (n + 7) t o k obj (reactiveProperty k c) (some (.reactiveGetter c)) c b
    ho hp rfl]
  rw [reactiveSetter_store (n + 6) c cell b _ (by exact hc) hg hs (by exact hcs) hne
    (Or.inr hv)]
  refine Eq.trans (notify_single (n + 6) cell.dep dep w _ (by exact hd) hsubs) ?_
  have hu := update_sync (n + 5) (((((t.log (.call (.reactiveSetter c) [b])).modifyCell c
    fun x => { x with val := b }).modifyCell c fun x => { x with childOb := none }).log
      (.notify cell.dep))) w wt (by exact hw) hl hsy
  rw [hu]
  have hrun' : exec (n + 5) (.run w) (syncWritten t c b cell.dep w) =
      some (.ret .undefined, s') := hrun
  unfold syncWritten at hrun'
  rw [hrun']
  rfl

/-- The same write when the watcher is not sync and the idle scheduler is forced to flush
synchronously: the flush runs the watcher at once. -/
theorem write_forced (n : Nat) (t : State) (w : Nat) (wt : Watcher) (o : Addr) (k : Key)
    (obj : Obj) (c : Nat) (cell : Cell) (dep : Dep) (b : Val)
    (hw : t.watchers[w]? = some wt) (hl : wt.lazy = false) (hsy : wt.sync = false)
    (hdp : wt.deep = false) (hact : wt.active = true) (hget : wt.getter = readProp o k)
    (hval : wt.value = cell.val)
    (hasync : t.env.async = false) (hf : t.flushing = false) (hwa : t.waiting = false)
    (hq : t.queue = []) (hh : t.has = [])
    (ho : t.heap[o]? = some obj) (hp : obj.getOwnProperty k = some (reactiveProperty k c))
    (hc : t.cells[c]? = some cell) (hg : cell.getter = none) (hs : cell.setter = none)
    (hcs : t.env.production = true ∨ cell.customSetter = none)
    (hd : t.deps[cell.dep]? = some dep) (hsubs : dep.subs = [w])
    (hne : (strictEq b cell.val || (!strictEq b b && !strictEq cell.val cell.val)) = false)
    (hv : isObject b = false) :
    ∀ r s', exec (n + 4) (.callFn wt.cb [b, cell.val])
        (ranCallback (forcedWritten t c b cell.dep w wt.id) w o k c cell.dep cell.val b) =
          some (.ret r, s') →
      s'.queue = [] →
      exec (n + 12) (.propSet o k b) t = some (.ret .undefined, s'.flushed) := by
  intro r s' hcb hq'
  have hcU : (forcedWritten t c b cell.dep w wt.id).cells[c]? =
      some { cell with val := b, childOb := none } := by
    simp [forcedWritten, syncWritten, State.log, State.modifyCell, State.enqueued,
      State.flushingAt, hc]
  have hrun := run_readProp n (forcedWritten t c b cell.dep w wt.id) w wt o k obj c _
    (by exact hw) hdp hact hget (by exact ho) hp hcU hg rfl
    (by rw [hval]; exact strictEq_changed hne) r s' (by rw [hval]; exact hcb)
  have hflush := flush_once (n + 4) (((syncWritten t c b cell.dep w).log (.queue w)).enqueued w
    wt.id) s' w wt (by exact hw) (by show t.queue ++ [w] = [w]; rw [hq]; rfl) hrun hq'
  rw [propSet_reactive (n + 10) t o k obj (reactiveProperty k c) (some (.reactiveGetter c)) c b
    ho hp rfl]
  rw [reactiveSetter_store (n + 9) c cell b _ (by exact hc) hg hs (by exact hcs) hne
    (Or.inr hv)]
  refine Eq.trans (notify_single (n + 9) cell.dep dep w _ (by exact hd) hsubs) ?_
  have hu := update_queue (n + 7) (((((t.log (.call (.reactiveSetter c) [b])).modifyCell c
    fun x => { x with val := b }).modifyCell c fun x => { x with childOb := none }).log
      (.notify cell.dep))) w wt (by exact hw) hl hsy
  rw [hu]
  have hqw : queueWatcher (exec (n + 7)) w (syncWritten t c b cell.dep w) =
      exec (n + 7) .flushSchedulerQueue
        (((syncWritten t c b cell.dep w).log (.queue w)).enqueued w wt.id) := by
    unfold queueWatcher
    have hw' : (syncWritten t c b cell.dep w).watchers[w]? = some wt := hw
    have hh' : wt.id ∉ ((syncWritten t c b cell.dep w).log (.queue w)).has := by
      show wt.id ∉ t.has
      rw [hh]; simp
    have hf' : ((syncWritten t c b cell.dep w).log (.queue w)).flushing = false := hf
    have hwa' : ((syncWritten t c b cell.dep w).log (.queue w)).waiting = false := hwa
    have ha' : ((syncWritten t c b cell.dep w).log (.queue w)).env.async = false := hasync
    simp only [hw', hh', if_false]
    simp only [State.log] at hf' hwa' ha' ⊢
    simp only [hf', hwa', ha', Bool.not_false, if_true, Bool.not_true, Bool.false_eq_true,
      if_false]
    rfl
  unfold syncWritten at hqw
  rw [hqw]
  unfold syncWritten at hflush
  rw [hflush]
  rfl

theorem ranCallback_trace (u : State) (w : Nat) (o : Addr) (k : Key) (c d : Nat) (a b : Val) :
    (ranCallback u w o k c d a b).trace =
      u.trace ++ [.getter w, .call (readProp o k) [], .call (.reactiveGetter c) [],
        .cb w b a] := by
  show (Watcher.cleanupDeps w (popTarget (evaluated u w o k c d))).trace ++ [.cb w b a] = _
  rw [evaluated_trace]
  simp

theorem ranCallback_value (u : State) (w : Nat) (wt : Watcher) (o : Addr) (k : Key)
    (c d : Nat) (a b : Val) (hw : u.watchers[w]? = some wt) :
    ∃ wt', (ranCallback u w o k c d a b).watchers[w]? = some wt' ∧ wt'.value = b := by
  obtain ⟨wt1, h1, -, -⟩ := evaluated_watcher u w wt o k c d hw
  refine ⟨{ wt1 with value := b }, ?_, rfl⟩
  show ((Watcher.cleanupDeps w (popTarget (evaluated u w o k c d))).watchers.modify _ w)[w]? = _
  rw [List.getElem?_modify_eq, h1]
  rfl

theorem init_frame2 (vm : Nat) (expOrFn cb : Fn) (options : Option WatcherOptions)
    (isRenderWatcher : Bool) (s : State) :
    (Watcher.init vm expOrFn cb options isRenderWatcher s).heap = s.heap ∧
    (Watcher.init vm expOrFn cb options isRenderWatcher s).cells = s.cells ∧
    (Watcher.init vm expOrFn cb options isRenderWatcher s).env = s.env := by
  unfold Watcher.init
  cases options <;> cases isRenderWatcher <;> exact ⟨rfl, rfl, rfl⟩

/-- The construction of a watcher of `() => obj[k]` that is neither lazy nor deep, on a
reactive property without pre-existing getter and without child Observer, outside any
evaluation. -/
theorem new_readProp (n : Nat) (s : State) (vm : Nat) (cb : Fn) (opts : WatcherOptions)
    (o : Addr) (k : Key) (obj : Obj) (c : Nat) (cell : Cell) (dep : Dep)
    (hlazy : opts.lazy = false) (hdeep : opts.deep = false)
    (ho : s.heap[o]? = some obj) (hp : obj.getOwnProperty k = some (reactiveProperty k c))
    (hc : s.cells[c]? = some cell) (hg : cell.getter = none) (hco : cell.childOb = none)
    (hd : s.deps[cell.dep]? = some dep) :
    ∃ s1 wt1, exec (n + 5) (.newWatcher vm (readProp o k) cb (some opts) false) s =
        some (.retW s.watchers.length, s1) ∧
      s1.watchers[s.watchers.length]? = some wt1 ∧ wt1.value = cell.val ∧
      wt1.lazy = false ∧ wt1.sync = opts.sync ∧ wt1.deep = false ∧ wt1.active = true ∧
      wt1.getter = readProp o k ∧ wt1.cb = cb ∧
      s1.heap = s.heap ∧ s1.cells = s.cells ∧ s1.env = s.env ∧
      s1.deps[cell.dep]? = some { dep with subs := dep.subs ++ [s.watchers.length] } ∧
      s1.trace = s.trace ++ [.getter s.watchers.length, .call (readProp o k) [],
        .call (.reactiveGetter c) []] ∧
      (s1.flushing = s.flushing ∧ s1.waiting = s.waiting ∧ s1.queue = s.queue ∧
        s1.has = s.has) := by
  obtain ⟨wt0, a1, a2, a3, a4, a5, a6, a7, a8, a9, a10, a11, a12, a13, a14, a15, a16⟩ :=
    init_lookup vm (readProp o k) cb (some opts) false s
  obtain ⟨b1, b2, b3, b4, b5⟩ := init_frame vm (readProp o k) cb (some opts) false s
  obtain ⟨e1, e2, e3⟩ := init_frame2 vm (readProp o k) cb (some opts) false s
  have hgetI := get_readProp n (Watcher.init vm (readProp o k) cb (some opts) false s)
    s.watchers.length wt0 o k obj (reactiveProperty k c) (some (.reactiveSetter c)) c cell a1
    a9 (by rw [a14]; simpa using hdeep) (by rw [e1]; exact ho) hp rfl (by rw [e2]; exact hc)
    hg hco
  have hnew := new_eager (exec (n + 4)) vm (readProp o k) cb (some opts) false s _ cell.val
    (fun o' h => by cases h; exact hlazy) hgetI
  -- the target state of the evaluation
  have hT : ((((pushTarget (some s.watchers.length)
      (Watcher.init vm (readProp o k) cb (some opts) false s)).log
        (.getter s.watchers.length)).log (.call (readProp o k) [])).log
          (.call (.reactiveGetter c) [])).watchers[s.watchers.length]? = some wt0 := a1
  have hTd : ((((pushTarget (some s.watchers.length)
      (Watcher.init vm (readProp o k) cb (some opts) false s)).log
        (.getter s.watchers.length)).log (.call (readProp o k) [])).log
          (.call (.reactiveGetter c) [])).deps[cell.dep]? = some dep := by
    show (Watcher.init vm (readProp o k) cb (some opts) false s).deps[cell.dep]? = some dep
    rw [b2]; exact hd
  have hE : evaluated (Watcher.init vm (readProp o k) cb (some opts) false s) s.watchers.length
      o k c cell.dep = Dep.addSub cell.dep s.watchers.length
        (((((pushTarget (some s.watchers.length)
          (Watcher.init vm (readProp o k) cb (some opts) false s)).log
            (.getter s.watchers.length)).log (.call (readProp o k) [])).log
              (.call (.reactiveGetter c) [])).modifyWatcher s.watchers.length fun x =>
                { x with newDepIds := x.newDepIds ++ [dep.id],
                         newDeps := x.newDeps ++ [cell.dep] }) := by
    unfold evaluated Dep.depend
    exact addDep_fresh _ _ _ wt0 dep hT hTd (by rw [a7]; simp) (by rw [a5]; simp)
  have hEw : (popTarget (evaluated (Watcher.init vm (readProp o k) cb (some opts) false s)
      s.watchers.length o k c cell.dep)).watchers[s.watchers.length]? =
      some { wt0 with newDepIds := wt0.newDepIds ++ [dep.id],
                      newDeps := wt0.newDeps ++ [cell.dep] } := by
    rw [hE]
    show (List.modify _ s.watchers.length _)[s.watchers.length]? = _
    rw [List.getElem?_modify_eq]
    have : (Watcher.init vm (readProp o k) cb (some opts) false s).watchers[
        s.watchers.length]? = some wt0 := a1
    simp [pushTarget, State.log, this]
  have hEd : (popTarget (evaluated (Watcher.init vm (readProp o k) cb (some opts) false s)
      s.watchers.length o k c cell.dep)).deps[cell.dep]? =
      some { dep with subs := dep.subs ++ [s.watchers.length] } := by
    rw [hE]
    show (List.modify _ cell.dep _)[cell.dep]? = _
    rw [List.getElem?_modify_eq]
    have : (Watcher.init vm (readProp o k) cb (some opts) false s).deps[cell.dep]? =
        some dep := by rw [b2]; exact hd
    simp [pushTarget, State.log, State.modifyWatcher, this]
  have hw1 := cleanupDeps_lookup s.watchers.length _ _ hEw
  have hd1 : (Watcher.cleanupDeps s.watchers.length
      (popTarget (evaluated (Watcher.init vm (readProp o k) cb (some opts) false s)
        s.watchers.length o k c cell.dep))).deps[cell.dep]? =
      some { dep with subs := dep.subs ++ [s.watchers.length] } := by
    rw [cleanupDeps_deps _ _ _ hEw]
    simp only [a4, List.reverse_nil, List.foldl_nil]
    exact hEd
  obtain ⟨f1, f2, f3⟩ := evaluated_frame (Watcher.init vm (readProp o k) cb (some opts) false s)
    s.watchers.length o k c cell.dep
  have hwf : ((Watcher.cleanupDeps s.watchers.length
      (popTarget (evaluated (Watcher.init vm (readProp o k) cb (some opts) false s)
        s.watchers.length o k c cell.dep))).modifyWatcher s.watchers.length fun x =>
          { x with value := cell.val }).watchers[s.watchers.length]? =
      some { wt0 with depIds := wt0.newDepIds ++ [dep.id], newDepIds := [],
                      deps := wt0.newDeps ++ [cell.dep], newDeps := [], value := cell.val } := by
    show (List.modify _ s.watchers.length _)[s.watchers.length]? = _
    rw [List.getElem?_modify_eq, hw1]
    rfl
  refine ⟨_, _, hnew, hwf, rfl, ?_, ?_, ?_, a2, a9, a10, f1.trans e1, f2.trans e2,
    f3.trans e3, hd1, ?_, ?_⟩
  · show wt0.lazy = false
    rw [a13]; simpa using hlazy
  · show wt0.sync = opts.sync
    rw [a16]; rfl
  · show wt0.deep = false
    rw [a14]; simpa using hdeep
  · show (Watcher.cleanupDeps s.watchers.length _).trace = _
    rw [evaluated_trace, b1]
  · show (Watcher.cleanupDeps s.watchers.length _).flushing = _ ∧
      (Watcher.cleanupDeps s.watchers.length _).waiting = _ ∧
      (Watcher.cleanupDeps s.watchers.length _).queue = _ ∧
      (Watcher.cleanupDeps s.watchers.length _).has = _
    rw [cleanupDeps_eq]
    show (evaluated _ _ _ _ _ _).flushing = _ ∧ (evaluated _ _ _ _ _ _).waiting = _ ∧
      (evaluated _ _ _ _ _ _).queue = _ ∧ (evaluated _ _ _ _ _ _).has = _
    unfold evaluated
    rw [depend_eq]
    unfold Watcher.init
    exact ⟨rfl, rfl, rfl, rfl⟩


/-! ## Dependency pruning on re-evaluation -/

/-- The call of `() => flag ? obj[ka] : obj[kb]` when `flag` is a data property and the
chosen property is reactive: the call of the reactive getter of the chosen property. -/
theorem callFn_chooseProp (n : Nat) (s : State) (f o : Addr) (kf ka kb : Key)
    (fobj obj : Obj) (pf p : Property) (fv : Val) (st : Option Fn) (c : Nat)
    (hf : s.heap[f]? = some fobj) (hpf : fobj.getOwnProperty kf = some pf)
    (hfv : pf.slot = .data fv)
    (ho : s.heap[o]? = some obj)
    (hp : obj.getOwnProperty (if truthy fv then ka else kb) = some p)
    (hslot : p.slot = .accessor (some (.reactiveGetter c)) st) :
    exec (n + 3) (.callFn (chooseProp f kf o ka kb) []) s =
      reactiveGetter (exec n) c
        ((s.log (.call (chooseProp f kf o ka kb) [])).log (.call (.reactiveGetter c) [])) := by
  have h1 : exec (n + 2) (.propGet f kf) (s.log (.call (chooseProp f kf o ka kb) [])) =
      some (.ret fv, s.log (.call (chooseProp f kf o ka kb) [])) :=
    propGet_data (n + 1) (s.log (.call (chooseProp f kf o ka kb) [])) f kf fobj pf fv hf hpf hfv
  have h2 := propGet_reactive n (s.log (.call (chooseProp f kf o ka kb) [])) o
    (if truthy fv then ka else kb) obj p st c ho hp hslot
  simp only [chooseProp] at h1 h2
  simp only [exec_succ (n + 2), dispatch, callFn, chooseProp, evalCode, andThen]
  rw [h1]
  simp only []
  cases ht : truthy fv
  · simp only [ht, Bool.false_eq_true, if_false, evalCode, andThen] at h2 ⊢
    exact h2
  · simp only [ht, if_true, evalCode, andThen] at h2 ⊢
    exact h2

/-- The evaluation `get()` of a watcher of `() => flag ? obj[ka] : obj[kb]` that is not
deep. -/
theorem get_chooseProp (n : Nat) (s : State) (w : Nat) (wt : Watcher) (f o : Addr)
    (kf ka kb : Key) (fobj obj : Obj) (pf p : Property) (fv : Val) (st : Option Fn) (c : Nat)
    (cell : Cell)
    (hw : s.watchers[w]? = some wt) (hget : wt.getter = chooseProp f kf o ka kb)
    (hd : wt.deep = false)
    (hf : s.heap[f]? = some fobj) (hpf : fobj.getOwnProperty kf = some pf)
    (hfv : pf.slot = .data fv)
    (ho : s.heap[o]? = some obj)
    (hp : obj.getOwnProperty (if truthy fv then ka else kb) = some p)
    (hslot : p.slot = .accessor (some (.reactiveGetter c)) st)
    (hc : s.cells[c]? = some cell) (hg : cell.getter = none) (hco : cell.childOb = none) :
    exec (n + 4) (.get w) s =
      some (.ret cell.val, afterGet (chooseProp f kf o ka kb) s w c cell.dep) := by
  have h1 : exec (n + 3) (.callFn wt.getter []) ((pushTarget (some w) s).log (.getter w)) =
      some (.ret cell.val, evaluatedBy (chooseProp f kf o ka kb) s w c cell.dep) := by
    rw [hget, callFn_chooseProp n _ f o kf ka kb fobj obj pf p fv st c (by exact hf) hpf hfv
      (by exact ho) hp hslot]
    exact reactiveGetter_leaf _ c cell w _ (by exact hc) hg hco rfl
  simp only [exec_succ (n + 3) (.get w), dispatch, Watcher.get, hw, h1, Watcher.getFinally, hd,
    andThen]
  rfl

theorem afterGet_frame (g : Fn) (s : State) (w c d : Nat) :
    (afterGet g s w c d).heap = s.heap ∧ (afterGet g s w c d).cells = s.cells ∧
    (afterGet g s w c d).env = s.env ∧
    (afterGet g s w c d).trace =
      s.trace ++ [.getter w, .call g [], .call (.reactiveGetter c) []] := by
  unfold afterGet
  obtain ⟨a1, a2, a3⟩ := cleanupDeps_frame_eq w (popTarget (evaluatedBy g s w c d))
  obtain ⟨b1, b2, b3, -, -, b6, -⟩ := depend_frame_eq d
    ((((pushTarget (some w) s).log (.getter w)).log (.call g [])).log
      (.call (.reactiveGetter c) []))
  refine ⟨a2.trans b2, a1.trans b1, a3.trans b6, ?_⟩
  rw [(cleanupDeps_target w _).2.2]
  show (evaluatedBy g s w c d).trace = _
  unfold evaluatedBy
  rw [b3]
  simp [State.log, pushTarget]

/-- The dependency records after an evaluation that has read one reactive property whose Dep
`d` the watcher did not depend on before, the watcher having had at most the one other
dependency `d0`: the watcher is subscribed to `d`, is removed from `d0`, and `d` is its only
dependency. -/
theorem afterGet_switch (g : Fn) (s : State) (w c d : Nat) (wt : Watcher) (dep : Dep)
    (hw : s.watchers[w]? = some wt) (hd : s.deps[d]? = some dep)
    (hn1 : wt.newDepIds = []) (hn2 : wt.newDeps = []) (hnew : dep.id ∉ wt.depIds) :
    (afterGet g s w c d).watchers[w]? =
      some { wt with depIds := [dep.id], newDepIds := [], deps := [d], newDeps := [] } ∧
    (afterGet g s w c d).deps[d]? = some { dep with subs := dep.subs ++ [w] } ∧
    (wt.deps = [] → ∀ d0, d0 ≠ d → (afterGet g s w c d).deps[d0]? = s.deps[d0]?) ∧
    (∀ d0 dep0, wt.deps = [d0] → d0 ≠ d → s.deps[d0]? = some dep0 → dep0.id ≠ dep.id →
      (afterGet g s w c d).deps[d0]? = some { dep0 with subs := remove dep0.subs w } ∧
      ∀ d1, d1 ≠ d → d1 ≠ d0 → (afterGet g s w c d).deps[d1]? = s.deps[d1]?) := by
  have hT : ((((pushTarget (some w) s).log (.getter w)).log (.call g [])).log
      (.call (.reactiveGetter c) [])).watchers[w]? = some wt := hw
  have hTd : ((((pushTarget (some w) s).log (.getter w)).log (.call g [])).log
      (.call (.reactiveGetter c) [])).deps[d]? = some dep := hd
  have hE : evaluatedBy g s w c d = Dep.addSub d w
      (((((pushTarget (some w) s).log (.getter w)).log (.call g [])).log
        (.call (.reactiveGetter c) [])).modifyWatcher w fun x =>
          { x with newDepIds := x.newDepIds ++ [dep.id], newDeps := x.newDeps ++ [d] }) := by
    unfold evaluatedBy Dep.depend
    exact addDep_fresh _ _ _ wt dep hT hTd (by rw [hn1]; simp) hnew
  have hEw : (popTarget (evaluatedBy g s w c d)).watchers[w]? =
      some { wt with newDepIds := wt.newDepIds ++ [dep.id], newDeps := wt.newDeps ++ [d] } := by
    rw [hE]
    show (List.modify _ w _)[w]? = _
    rw [List.getElem?_modify_eq]
    simp [pushTarget, State.log, hw]
  have hEd : ∀ d0, (popTarget (evaluatedBy g s w c d)).deps[d0]? =
      if d0 = d then some { dep with subs := dep.subs ++ [w] } else s.deps[d0]? := by
    intro d0
    rw [hE]
    show (List.modify _ d _)[d0]? = _
    rw [List.getElem?_modify]
    by_cases h : d = d0
    · subst h
      simp [pushTarget, State.log, State.modifyWatcher, hd]
    · have h' : ¬ d0 = d := fun e => h e.symm
      simp [pushTarget, State.log, State.modifyWatcher, h, h']
  have hw1 := cleanupDeps_lookup w _ _ hEw
  have hdeps := cleanupDeps_deps w _ _ hEw
  refine ⟨?_, ?_, ?_, ?_⟩
  · unfold afterGet
    rw [hw1, hn1, hn2]
    rfl
  · unfold afterGet
    rw [hdeps]
    refine cleanupFold_kept w _ _ _ d _ ?_ ?_
    · rw [hEd d, if_pos rfl]
    · simp
  · intro hds d0 hd0
    unfold afterGet
    rw [hdeps]
    simp only [hds, List.reverse_nil, List.foldl_nil]
    rw [hEd d0, if_neg hd0]
  · intro d0 dep0 hds hd0 hdep0 hid
    have h0 : (popTarget (evaluatedBy g s w c d)).deps[d0]? = some dep0 := by
      rw [hEd d0, if_neg hd0]; exact hdep0
    have hstep : (Watcher.cleanupDeps w (popTarget (evaluatedBy g s w c d))).deps =
        (Dep.removeSub d0 w (popTarget (evaluatedBy g s w c d))).deps := by
      rw [hdeps]
      simp only [hds, List.reverse_cons, List.reverse_nil, List.nil_append, List.foldl_cons,
        List.foldl_nil, Watcher.cleanupStep, h0, hn1, List.nil_append, List.mem_singleton, hid,
        if_false]
    unfold afterGet
    rw [hstep]
    constructor
    · show (List.modify _ d0 _)[d0]? = _
      rw [List.getElem?_modify_eq, h0]
      rfl
    · intro d1 h1 h2
      show (List.modify _ d0 _)[d1]? = _
      rw [List.getElem?_modify_ne _ _ (fun e => h2 e.symm), hEd d1, if_neg h1]

theorem find_setData (props : List Property) (k : Key) (v : Val) (p : Property)
    (h : props.find? (fun q => decide (q.key = k)) = some p) :
    (props.map fun q => if q.key = k then { q with slot := .data v } else q).find?
      (fun q => decide (q.key = k)) = some { p with slot := .data v } := by
  induction props with
  | nil => simp at h
  | cons q qs ih =>
    by_cases hq : q.key = k
    · simp only [List.find?_cons, hq, decide_True, Option.some.injEq] at h
      subst h
      simp [List.find?_cons, hq]
    · simp only [List.find?_cons, hq, decide_False] at h
      simp only [List.map_cons, hq, if_false, List.find?_cons, decide_False]
      exact ih h

theorem setData_heap (s : State) (a : Addr) (k : Key) (v : Val) (obj : Obj) (p : Property)
    (ho : s.heap[a]? = some obj) (hp : obj.getOwnProperty k = some p) :
    (∃ obj', (s.setData a k v).heap[a]? = some obj' ∧
      obj'.getOwnProperty k = some { p with slot := .data v }) ∧
    (∀ b, b ≠ a → (s.setData a k v).heap[b]? = s.heap[b]?) := by
  constructor
  · refine ⟨{ obj with props := obj.props.map fun q =>
        if q.key = k then { q with slot := .data v } else q }, ?_, ?_⟩
    · simp [State.setData, State.modifyObj, ho]
    · exact find_setData obj.props k v p hp
  · intro b hb
    simp [State.setData, State.modifyObj, List.getElem?_modify, Ne.symm hb]

/-- A write that changes a reactive property whose Dep has no subscriber. -/
theorem write_quiet (n : Nat) (s : State) (o : Addr) (k : Key) (obj : Obj) (c : Nat)
    (cell : Cell) (dep : Dep) (v : Val)
    (ho : s.heap[o]? = some obj) (hp : obj.getOwnProperty k = some (reactiveProperty k c))
    (hc : s.cells[c]? = some cell) (hg : cell.getter = none) (hs : cell.setter = none)
    (hcs : s.env.production = true ∨ cell.customSetter = none)
    (hd : s.deps[cell.dep]? = some dep) (hsubs : dep.subs = [])
    (hne : (strictEq v cell.val || (!strictEq v v && !strictEq cell.val cell.val)) = false)
    (hv : isObject v = false) :
    exec (n + 3) (.propSet o k v) s =
      some (.ret .undefined, (stored s c v).log (.notify cell.dep)) := by
  rw [propSet_reactive (n + 1) s o k obj (reactiveProperty k c) (some (.reactiveGetter c)) c v
    ho hp rfl]
  rw [reactiveSetter_store n c cell v _ (by exact hc) hg hs (by exact hcs) hne (Or.inr hv)]
  exact notify_no_subs n cell.dep dep _ (by exact hd) hsubs

/-- A write that changes a reactive property whose Dep has the one subscriber `w`. -/
theorem write_updates (n : Nat) (s : State) (o : Addr) (k : Key) (obj : Obj) (c : Nat)
    (cell : Cell) (dep : Dep) (w : Nat) (v : Val)
    (ho : s.heap[o]? = some obj) (hp : obj.getOwnProperty k = some (reactiveProperty k c))
    (hc : s.cells[c]? = some cell) (hg : cell.getter = none) (hs : cell.setter = none)
    (hcs : s.env.production = true ∨ cell.customSetter = none)
    (hd : s.deps[cell.dep]? = some dep) (hsubs : dep.subs = [w])
    (hne : (strictEq v cell.val || (!strictEq v v && !strictEq cell.val cell.val)) = false)
    (hv : isObject v = false) :
    exec (n + 3) (.propSet o k v) s =
      andThen (exec n (.update w) ((stored s c v).log (.notify cell.dep))) fun _ s1 =>
        some (.ret .undefined, s1) := by
  rw [propSet_reactive (n + 1) s o k obj (reactiveProperty k c) (some (.reactiveGetter c)) c v
    ho hp rfl]
  rw [reactiveSetter_store n c cell v _ (by exact hc) hg hs (by exact hcs) hne (Or.inr hv)]
  exact notify_single n cell.dep dep w _ (by exact hd) hsubs


/-! ## Subscriptions, the target stack and event handlers -/

theorem modify_fix {α : Type} (l : List α) (i : Nat) (f : α → α)
    (h : ∀ x, l[i]? = some x → f x = x) : l.modify f i = l := by
  apply List.ext_getElem?
  intro j
  rw [List.getElem?_modify]
  by_cases hij : i = j
  · subst hij
    cases hx : l[i]? with
    | none => simp
    | some x => simp [h x hx]
  · simp [hij]

theorem erase_first (l1 l2 : List Nat) (w : Nat) (h : w ∉ l1) :
    (l1 ++ w :: l2).erase w = l1 ++ l2 := by
  rw [List.erase_append_right _ h, List.erase_cons_head]

theorem modifyDep_fix (s : State) (d : Nat) (f : Dep → Dep)
    (h : ∀ x, s.deps[d]? = some x → f x = x) : s.modifyDep d f = s := by
  unfold State.modifyDep
  rw [modify_fix s.deps d f h]

theorem addSub_removeSub (s : State) (d w : Nat) (dep : Dep) (hd : s.deps[d]? = some dep)
    (hw : w ∉ dep.subs) : Dep.removeSub d w (Dep.addSub d w s) = s := by
  unfold Dep.removeSub Dep.addSub State.modifyDep
  simp only [modify_twice]
  rw [modify_fix]
  intro x hx
  rw [hd] at hx
  cases hx
  simp only [Function.comp_apply, remove]
  rw [List.erase_append_right _ hw]
  simp

theorem pushTarget_onTop (t : Option Nat) (s : State) : TargetOnTop (pushTarget t s) := by
  simp [TargetOnTop, pushTarget]

theorem popTarget_onTop (s : State) : TargetOnTop (popTarget s) := by
  simp [TargetOnTop, popTarget]

theorem pop_push (t : Option Nat) (s : State) (hT : TargetOnTop s) :
    popTarget (pushTarget t s) = s := by
  unfold TargetOnTop at hT
  cases s
  simp only [popTarget, pushTarget, List.dropLast_concat] at hT ⊢
  rw [← hT]

theorem runTargetOps_onTop (ops : List TargetOp) (s : State) (hT : TargetOnTop s) :
    TargetOnTop (runTargetOps ops s) := by
  induction ops generalizing s with
  | nil => exact hT
  | cons op ops ih =>
    simp only [runTargetOps, List.foldl_cons]
    apply ih
    cases op with
    | push t => exact pushTarget_onTop t s
    | pop => exact popTarget_onTop s

theorem balanced_restores (ops : List TargetOp) (s : State) (hT : TargetOnTop s) :
    ∀ ext : List (Option Nat), balancedFrom ext.length ops = true →
      runTargetOps ops (ext.foldl (fun acc t => pushTarget t acc) s) = s := by
  induction ops with
  | nil =>
    intro ext h
    simp only [balancedFrom, beq_iff_eq, List.length_eq_zero] at h
    subst h
    rfl
  | cons op ops ih =>
    intro ext h
    cases op with
    | push t =>
      simp only [balancedFrom] at h
      have := ih (ext ++ [t]) (by simpa using h)
      simpa [runTargetOps, TargetOp.run, List.foldl_append] using this
    | pop =>
      rcases List.eq_nil_or_concat ext with rfl | ⟨ext', t, rfl⟩
      · simp [balancedFrom] at h
      · simp only [List.concat_eq_append, List.length_append, List.length_singleton,
          balancedFrom] at h
        have := ih ext' h
        simp only [List.concat_eq_append, runTargetOps, List.foldl_cons, TargetOp.run,
          List.foldl_append, List.foldl_nil] at this ⊢
        rw [pop_push]
        · exact this
        · rcases List.eq_nil_or_concat ext' with rfl | ⟨e2, t2, rfl⟩
          · exact hT
          · simp only [List.concat_eq_append, List.foldl_append, List.foldl_cons, List.foldl_nil]
            exact pushTarget_onTop _ _

theorem addDep_noop (w d : Nat) (s : State) (wt : Watcher) (dep : Dep)
    (hw : s.watchers[w]? = some wt) (hd : s.deps[d]? = some dep)
    (h1 : dep.id ∈ wt.newDepIds) : Watcher.addDep w d s = s := by
  unfold Watcher.addDep
  simp only [hw, hd, h1, if_true]

theorem addDep_absent (w d : Nat) (s : State)
    (h : s.watchers[w]? = none ∨ s.deps[d]? = none) : Watcher.addDep w d s = s := by
  unfold Watcher.addDep
  rcases h with h | h
  · simp only [h]
  · cases hw : s.watchers[w]? <;> simp only [h]

/-- The state after the first `addDep(dep)` of an evaluation pass. -/
theorem addDep_first (w d : Nat) (s : State) (wt : Watcher) (dep : Dep)
    (hw : s.watchers[w]? = some wt) (hd : s.deps[d]? = some dep)
    (h1 : dep.id ∉ wt.newDepIds) :
    (Watcher.addDep w d s).watchers[w]? =
      some { wt with newDepIds := wt.newDepIds ++ [dep.id], newDeps := wt.newDeps ++ [d] } ∧
    (Watcher.addDep w d s).deps[d]? =
      some (if dep.id ∈ wt.depIds then dep else { dep with subs := dep.subs ++ [w] }) ∧
    (∀ d', d' ≠ d → (Watcher.addDep w d s).deps[d']? = s.deps[d']?) ∧
    (∀ w', w' ≠ w → (Watcher.addDep w d s).watchers[w']? = s.watchers[w']?) := by
  by_cases h2 : dep.id ∈ wt.depIds
  · rw [addDep_known w d s wt dep hw hd h1 h2]
    refine ⟨by simp [State.modifyWatcher, hw], by simp [State.modifyWatcher, hd, h2],
      fun d' _ => rfl, fun w' hne => ?_⟩
    simp [State.modifyWatcher, List.getElem?_modify, Ne.symm hne]
  · rw [addDep_fresh w d s wt dep hw hd h1 h2]
    refine ⟨by simp [Dep.addSub, State.modifyDep, State.modifyWatcher, hw],
      by simp [Dep.addSub, State.modifyDep, State.modifyWatcher, hd, h2],
      fun d' hne => ?_, fun w' hne => ?_⟩
    · simp [Dep.addSub, State.modifyDep, State.modifyWatcher, List.getElem?_modify, Ne.symm hne]
    · simp [Dep.addSub, State.modifyDep, State.modifyWatcher, List.getElem?_modify, Ne.symm hne]

theorem addDep_idem (w d : Nat) (s : State) :
    Watcher.addDep w d (Watcher.addDep w d s) = Watcher.addDep w d s := by
  cases hw : s.watchers[w]? with
  | none => rw [addDep_absent w d s (Or.inl hw), addDep_absent w d s (Or.inl hw)]
  | some wt =>
    cases hd : s.deps[d]? with
    | none => rw [addDep_absent w d s (Or.inr hd), addDep_absent w d s (Or.inr hd)]
    | some dep =>
      by_cases h1 : dep.id ∈ wt.newDepIds
      · rw [addDep_noop w d s wt dep hw hd h1, addDep_noop w d s wt dep hw hd h1]
      · obtain ⟨h3, h4, _, _⟩ := addDep_first w d s wt dep hw hd h1
        refine addDep_noop w d _ _ _ h3 h4 ?_
        by_cases h2 : dep.id ∈ wt.depIds
        · simp [h2]
        · simp [h2]

theorem find_map_key (l : List (String × List Handler)) (e e' : String) (cbs : List Handler) :
    ((l.map fun x => if x.1 = e then (e, cbs) else x).find? fun x => decide (x.1 = e')) =
      if e' = e then (l.find? fun x => decide (x.1 = e)).map fun _ => (e, cbs)
      else l.find? fun x => decide (x.1 = e') := by
  induction l with
  | nil => simp
  | cons a l ih =>
    simp only [List.map_cons, List.find?_cons]
    by_cases ha : a.1 = e
    · by_cases he : e' = e
      · subst he
        simp [ha]
      · have : ¬ a.1 = e' := fun h => he (h ▸ ha)
        simp only [ha, if_true, he, if_false, this, decide_False]
        rw [ih]
        simp [he, Ne.symm he]
    · by_cases he : e' = e
      · subst he
        simp only [ha, if_false, decide_False, if_true]
        rw [ih]
        simp
      · simp only [ha, if_false, he]
        rw [ih]
        simp [he]

theorem setCbs_same (vm : EventVm) (e : String) (cbs : List Handler) :
    (vm.setCbs e cbs).cbs e = some cbs := by
  unfold EventVm.setCbs
  cases h : vm.cbs e with
  | none =>
    simp only [EventVm.cbs, Option.map_eq_none'] at h
    simp only [EventVm.cbs, List.find?_append, h, Option.none_or]
    simp
  | some old =>
    simp only [EventVm.cbs, Option.map_eq_some'] at h
    obtain ⟨x, hx, _⟩ := h
    simp only [EventVm.cbs, find_map_key, if_true, hx, Option.map_some']

theorem setCbs_other (vm : EventVm) (e e' : String) (cbs : List Handler) (hne : e' ≠ e) :
    (vm.setCbs e cbs).cbs e' = vm.cbs e' := by
  unfold EventVm.setCbs
  cases h : vm.cbs e with
  | none =>
    simp only [EventVm.cbs, List.find?_append]
    cases h2 : vm._events.find? fun x => decide (x.1 = e') with
    | none => simp [Ne.symm hne]
    | some y => simp
  | some old =>
    simp only [EventVm.cbs, find_map_key, hne, if_false]

theorem vmOn_cbs (vm : EventVm) (e : String) (f : Handler) :
    (vmOn e f vm).cbs e = some ((vm.cbs e).getD [] ++ [f]) ∧
    ∀ e', e' ≠ e → (vmOn e f vm).cbs e' = vm.cbs e' := by
  unfold vmOn
  constructor
  · split
    · exact setCbs_same vm e _
    · exact setCbs_same vm e _
  · intro e' hne
    split
    · exact setCbs_other vm e e' _ hne
    · exact setCbs_other vm e e' _ hne

theorem sameHandler_self (f : Handler) : sameHandler f f = true := by
  simp [sameHandler]

theorem eraseIdx_last {α : Type} (l : List α) (x : α) : (l ++ [x]).eraseIdx l.length = l := by
  induction l with
  | nil => rfl
  | cons a l ih => simp only [List.cons_append, List.length_cons, List.eraseIdx_cons_succ, ih]

theorem offLoop_last (f : Handler) (l : List Handler) :
    offLoop f (l ++ [f]).length (l ++ [f]) = l := by
  simp only [List.length_append, List.length_singleton, offLoop]
  simp [sameHandler_self, eraseIdx_last]

/-- The loop of `cleanupDeps` erases `v` from the subs of a Dep whose id is not in `ids`
once per occurrence of the Dep in the list, and leaves the other Deps as they are. -/
theorem cleanupFold_deps (v : Nat) (ids : List Nat) (ds : List Nat) (s : State) (d : Nat) :
    (ds.foldl (Watcher.cleanupStep v ids) s).deps[d]? =
      (s.deps[d]?).map fun dep =>
        if dep.id ∈ ids then dep
        else { dep with subs := (fun l => remove l v)^[ds.count d] dep.subs } := by
  induction ds generalizing s with
  | nil => cases h : s.deps[d]? <;> simp [h]
  | cons d0 ds ih =>
    rw [List.foldl_cons, ih]
    unfold Watcher.cleanupStep
    by_cases hd : d0 = d
    · subst hd
      cases h : s.deps[d0]? with
      | none => simp [h]
      | some dep =>
        by_cases hin : dep.id ∈ ids
        · simp [h, hin]
        · simp [h, hin, Dep.removeSub, State.modifyDep, List.count_cons, Function.iterate_succ]
    · cases h0 : s.deps[d0]? with
      | none => simp [hd, List.count_cons]
      | some dep0 =>
        by_cases hin : dep0.id ∈ ids
        · simp [hin, hd, List.count_cons]
        · simp [hin, hd, List.count_cons, Dep.removeSub, State.modifyDep, List.getElem?_modify]

theorem set_root (call : Call) (target : Addr) (obj : Obj) (key : PropKey) (val : Val)
    (s : State) (ob : Option Observer) (ht : s.heap[target]? = some obj)
    (hk : obj.kind ≠ .array) (hin : obj.hasProperty key.toKey = false)
    (hob : obj.observer s = some ob)
    (hroot : obj._isVue = true ∨ ∃ o, ob = some o ∧ 0 < o.vmCount) :
    set call target key val s = some (.ret val, s) := by
  unfold set
  simp only [ht, arrayIndex_object obj key hk, hin, Bool.false_and, Bool.false_eq_true,
    if_false, hob]
  rcases hroot with hv | ⟨o, rfl, hpos⟩
  · simp [hv]
  · have : o.vmCount ≠ 0 := by omega
    simp [this]

theorem del_root (call : Call) (target : Addr) (obj : Obj) (key : PropKey)
    (s : State) (ob : Option Observer) (ht : s.heap[target]? = some obj)
    (hk : arrayIndex obj key = none) (hob : obj.observer s = some ob)
    (hroot : obj._isVue = true ∨ ∃ o, ob = some o ∧ 0 < o.vmCount) :
    del call target key s = some (.ret .undefined, s) := by
  unfold del
  simp only [ht, hk, hob]
  rcases hroot with hv | ⟨o, rfl, hpos⟩
  · simp [hv]
  · have : o.vmCount ≠ 0 := by omega
    simp [this]

/-! ## Every call, also the evaluation of an inactive watcher -/


/-! ## Ids in the order of construction -/


/-- Every call of the interpreter, also `get()` and `evaluate()` of an inactive watcher,
respects a closed relation that the start of an evaluation respects for every watcher. -/
theorem exec_closed_any {R : State → State → Prop} (hR : Closed R)
    (hlog : ∀ s w, R s ((pushTarget (some w) s).log (.getter w))) (n : Nat) :
    ∀ (t : Task) (s : State) (c : Completion) (s' : State),
      exec n t s = some (c, s') → R s s' := by
  induction n with
  | zero => intro t s c s' h; exact absurd h (by simp [exec])
  | succ n ih =>
    intro t s c s' h
    have hcall : ∀ t s c s', exec n t s = some (c, s') → TaskOK s t → R s s' :=
      fun t s c s' h _ => ih t s c s' h
    cases t with
    | get w =>
      have h0 : Watcher.get (exec n) w s = some (c, s') := h
      unfold Watcher.get at h0
      split at h0
      · exact absurd h0 (by simp)
      · rename_i wt hw
        have h1 := hlog s w
        split at h0
        · rename_i value s1 hc
          have h2 : R s s1 := hR.trans _ _ _ h1 (ih _ _ _ _ hc)
          exact hR.trans _ _ _ h2 (getFinally_closed hR hcall h0)
        · rename_i e s1 hc
          have h2 : R s s1 := hR.trans _ _ _ h1 (ih _ _ _ _ hc)
          split at h0
          · exact hR.trans _ _ _ (hR.trans _ _ _ h2 (hR.log _ _ (by simp) (by simp)))
              (getFinally_closed hR hcall h0)
          · refine hR.trans _ _ _ h2 (andThen_closed hR h0 ?_ ?_)
            · intro c1 s2 hf
              exact getFinally_closed hR hcall hf
            · intro _ s2 _ h3
              exact ret_closed h3 (hR.refl _)
        · exact absurd h0 (by simp)
    | evaluate w =>
      have h0 : Watcher.evaluate (exec n) w s = some (c, s') := h
      unfold Watcher.evaluate at h0
      refine andThen_closed hR h0 (fun c1 s1 h1 => ih _ _ _ _ h1) ?_
      intro value s1 _ h2
      exact ret_closed h2 (hR.setValue _ w (fun _ => value) fun _ => false)
    | callFn f args =>
      exact dispatch_closed hR hcall (show TaskOK s (.callFn f args) from trivial) h
    | propGet o k =>
      exact dispatch_closed hR hcall (show TaskOK s (.propGet o k) from trivial) h
    | propSet o k v =>
      exact dispatch_closed hR hcall (show TaskOK s (.propSet o k v) from trivial) h
    | observe value asRootData =>
      exact dispatch_closed hR hcall (show TaskOK s (.observe value asRootData) from trivial) h
    | defineReactive obj key val customSetter shallow =>
      exact dispatch_closed hR hcall (show TaskOK s (.defineReactive obj key val customSetter shallow) from trivial) h
    | dependArray value =>
      exact dispatch_closed hR hcall (show TaskOK s (.dependArray value) from trivial) h
    | traverse val =>
      exact dispatch_closed hR hcall (show TaskOK s (.traverse val) from trivial) h
    | notify dep =>
      exact dispatch_closed hR hcall (show TaskOK s (.notify dep) from trivial) h
    | update w =>
      exact dispatch_closed hR hcall (show TaskOK s (.update w) from trivial) h
    | run w =>
      exact dispatch_closed hR hcall (show TaskOK s (.run w) from trivial) h
    | newWatcher vm expOrFn cb options isRenderWatcher =>
      exact dispatch_closed hR hcall (show TaskOK s (.newWatcher vm expOrFn cb options isRenderWatcher) from trivial) h
    | queueWatcher w =>
      exact dispatch_closed hR hcall (show TaskOK s (.queueWatcher w) from trivial) h
    | flushSchedulerQueue =>
      exact dispatch_closed hR hcall (show TaskOK s (.flushSchedulerQueue) from trivial) h
    | flushLoop =>
      exact dispatch_closed hR hcall (show TaskOK s (.flushLoop) from trivial) h

theorem idsStep_same {s s' : State} (hd : s'.depIdList = s.depIdList)
    (hu : s'.depUid = s.depUid) (hw : s'.watcherIdList = s.watcherIdList)
    (hv : s'.watcherUid = s.watcherUid) : IdsStep s s' :=
  ⟨0, 0, by simp [hd], by simp [hu], by simp [hw], by simp [hv]⟩

theorem idsStep_refl (s : State) : IdsStep s s := idsStep_same rfl rfl rfl rfl

theorem range_shift (u k l : Nat) :
    (List.range (k + l)).map (fun i => u + i) =
      (List.range k).map (fun i => u + i) ++ (List.range l).map (fun i => u + k + i) := by
  rw [List.range_add, List.map_append, List.map_map]
  congr 1
  apply List.map_congr_left
  intro i _
  simp [Nat.add_assoc]

theorem idsStep_trans {a b c : State} (h1 : IdsStep a b) (h2 : IdsStep b c) : IdsStep a c := by
  obtain ⟨k1, j1, d1, u1, w1, v1⟩ := h1
  obtain ⟨k2, j2, d2, u2, w2, v2⟩ := h2
  refine ⟨k1 + k2, j1 + j2, ?_, by omega, ?_, by omega⟩
  · rw [d2, d1, u1, List.append_assoc, range_shift]
  · rw [w2, w1, v1, List.append_assoc, range_shift]
    congr 2
    apply List.map_congr_left
    intro i _
    omega

theorem map_modify_fix {α β : Type} (g : α → β) (f : α → α) (hf : ∀ x, g (f x) = g x)
    (l : List α) (i : Nat) : (l.modify f i).map g = l.map g := by
  apply List.ext_getElem?
  intro j
  simp only [List.getElem?_map, List.getElem?_modify]
  by_cases hij : i = j
  · subst hij
    cases l[i]? <;> simp [hf]
  · simp [hij]

theorem depsStep_ids {W : Nat} {keep : Bool} {ds ds' : List Dep} (h : DepsStep W keep ds ds') :
    (ds'.map fun d => d.id) = ds.map fun d => d.id := by
  apply List.ext_getElem?
  intro i
  simp only [List.getElem?_map]
  cases hi : ds[i]? with
  | none =>
    have : ds'[i]? = none := by
      rw [List.getElem?_eq_none_iff] at hi ⊢
      rw [h.1]
      exact hi
    simp [this]
  | some dep =>
    obtain ⟨dep', e1, e2, -⟩ := h.2 i dep hi
    simp [e1, e2]

theorem teardown_watcherIds (v : Nat) (s : State) :
    (Watcher.teardown v s).watcherIdList = s.watcherIdList := by
  unfold Watcher.teardown State.watcherIdList
  split
  · rfl
  · split
    · dsimp only
      simp only [modifyWatcher_watchers, removeSubs_watchers]
      rw [map_modify_fix (fun w : Watcher => w.id) _ (by intro x; rfl)]
      split
      · split <;> rfl
      · rfl
    · rfl

theorem addDep_watcherIds (w d : Nat) (s : State) :
    (Watcher.addDep w d s).watcherIdList = s.watcherIdList := by
  unfold Watcher.addDep State.watcherIdList
  split
  · dsimp only
    split
    · rfl
    · split
      · exact map_modify_fix _ _ (by intro x; rfl) _ _
      · exact map_modify_fix _ _ (by intro x; rfl) _ _
  · rfl

theorem cleanupDeps_watcherIds (w : Nat) (s : State) :
    (Watcher.cleanupDeps w s).watcherIdList = s.watcherIdList := by
  unfold Watcher.cleanupDeps State.watcherIdList
  split
  · rfl
  · dsimp only
    simp only [modifyWatcher_watchers, cleanupFold_watchers]
    exact map_modify_fix _ _ (by intro x; rfl) _ _

theorem teardown_idsStep (v : Nat) (s : State) : IdsStep s (Watcher.teardown v s) :=
  idsStep_same (depsStep_ids (teardown_step v v s)) (by rw [teardown_eq]) (teardown_watcherIds v s)
    (by rw [teardown_eq])

theorem addDep_idsStep (w d : Nat) (s : State) : IdsStep s (Watcher.addDep w d s) :=
  idsStep_same (depsStep_ids (addDep_step w w d s)) (by rw [addDep_eq]) (addDep_watcherIds w d s)
    (by rw [addDep_eq])

theorem depend_idsStep (d : Nat) (s : State) : IdsStep s (Dep.depend d s) := by
  unfold Dep.depend
  split
  · exact addDep_idsStep _ _ _
  · exact idsStep_refl _

theorem cleanupDeps_idsStep (w : Nat) (s : State) : IdsStep s (Watcher.cleanupDeps w s) := by
  refine idsStep_same ?_ (by rw [cleanupDeps_eq]) (cleanupDeps_watcherIds w s)
    (by rw [cleanupDeps_eq])
  cases hw : s.watchers[w]? with
  | none => simp [Watcher.cleanupDeps, hw]
  | some wt =>
    unfold State.depIdList
    rw [cleanupDeps_deps w s wt hw]
    exact depsStep_ids (cleanupFold_step w w _ _ s)

theorem idsStep_closed : Closed IdsStep where
  refl := idsStep_refl
  trans := fun _ _ _ => idsStep_trans
  log := fun s e _ _ => idsStep_same rfl rfl rfl rfl
  logGetter := fun s w wt _ _ => idsStep_same rfl rfl rfl rfl
  cb := by
    intro s s1 w wt v o _ _ h
    refine idsStep_trans h (idsStep_same rfl rfl ?_ rfl)
    exact map_modify_fix _ _ (by intro x; rfl) _ _
  teardown := fun s w => teardown_idsStep w s
  depend := fun s d => depend_idsStep d s
  setProps := fun s a g => idsStep_same rfl rfl rfl rfl
  setOb := fun s a obj ob _ _ => idsStep_same rfl rfl rfl rfl
  setAugmented := fun s a => idsStep_same rfl rfl rfl rfl
  allocCell := fun s cell => idsStep_same rfl rfl rfl rfl
  setCellVal := fun s c v => idsStep_same rfl rfl rfl rfl
  setCellChildOb := fun s c ob => idsStep_same rfl rfl rfl rfl
  depNew := fun s =>
    ⟨1, 0, by simp [State.depIdList, Dep.new, List.range_succ], rfl,
      by simp [State.watcherIdList, Dep.new], rfl⟩
  allocObserver := fun s o => idsStep_same rfl rfl rfl rfl
  vmCount := fun s o => idsStep_same rfl rfl rfl rfl
  sched := fun s q h d c w f so => idsStep_same rfl rfl rfl rfl
  popTarget := fun s => idsStep_same rfl rfl rfl rfl
  cleanupDeps := fun s w => cleanupDeps_idsStep w s
  setValue := fun s w f g =>
    idsStep_same rfl rfl (map_modify_fix _ _ (by intro x; rfl) _ _) rfl
  setVm := fun s v f => idsStep_same rfl rfl rfl rfl
  allocWatcher := fun s wt _ hid _ =>
    ⟨0, 1, by simp [State.depIdList], rfl,
      by simp [State.watcherIdList, hid, List.range_succ], rfl⟩

theorem idsInOrder_step {s s' : State} (h : IdsStep s s') (hs : IdsInOrder s) : IdsInOrder s' := by
  obtain ⟨k, j, d, u, w, v⟩ := h
  refine ⟨?_, ?_⟩
  · rw [d, u, hs.1, List.range_add]
  · rw [w, v, hs.2, List.range_add, List.map_append, List.map_map]
    congr 1
    apply List.map_congr_left
    intro i _
    simp only [Function.comp_apply]
    omega

theorem idsInOrder_nodup {s : State} (hs : IdsInOrder s) :
    s.depIdList.Nodup ∧ s.watcherIdList.Nodup := by
  refine ⟨by rw [hs.1]; exact List.nodup_range _, ?_⟩
  rw [hs.2]
  exact (List.nodup_range _).map (fun a b h => by omega)

theorem init_ids (vm : Nat) (expOrFn cb : Fn) (options : Option WatcherOptions)
    (isRenderWatcher : Bool) (s : State) :
    (Watcher.init vm expOrFn cb options isRenderWatcher s).watcherIdList =
      s.watcherIdList ++ [s.watcherUid + 1] ∧
    (Watcher.init vm expOrFn cb options isRenderWatcher s).watcherUid = s.watcherUid + 1 := by
  refine ⟨?_, ?_⟩
  · unfold State.watcherIdList
    rw [init_watchers]
    simp
  · unfold Watcher.init
    cases options <;> cases isRenderWatcher <;> rfl

/-! ## The subscription protocol is maintained by every call -/


theorem count_iterate_le (W v k : Nat) (l : List Nat) :
    ((fun l => remove l v)^[k] l).count W ≤ l.count W := by
  induction k generalizing l with
  | zero => simp
  | succ k ih =>
    rw [Function.iterate_succ, Function.comp_apply]
    exact Nat.le_trans (ih _) ((List.erase_sublist v l).count_le W)

theorem mem_iterate (w v k : Nat) (l : List Nat) (h : w ∈ (fun l => remove l v)^[k] l) :
    w ∈ l := by
  induction k generalizing l with
  | zero => simpa using h
  | succ k ih =>
    rw [Function.iterate_succ, Function.comp_apply] at h
    exact (List.erase_sublist v l).subset (ih _ h)

theorem eraseRel_refl (v : Nat) (ds : List Dep) : EraseRel v ds ds := by
  intro d
  refine ⟨0, ?_⟩
  cases ds[d]? <;> simp

theorem eraseRel_back {v : Nat} {ds ds' : List Dep} (h : EraseRel v ds ds') (d : Nat)
    (dep' : Dep) (hd : ds'[d]? = some dep') :
    ∃ dep, ds[d]? = some dep ∧ dep'.id = dep.id ∧
      (∀ W, dep'.subs.count W ≤ dep.subs.count W) ∧ (∀ w, w ∈ dep'.subs → w ∈ dep.subs) ∧
      (∀ W, W ≠ v → dep'.subs.count W = dep.subs.count W) := by
  obtain ⟨k, hk⟩ := h d
  rw [hd] at hk
  cases h0 : ds[d]? with
  | none => simp [h0] at hk
  | some dep =>
    simp only [h0, Option.map_some', Option.some.injEq] at hk
    subst hk
    refine ⟨dep, rfl, rfl, fun W => count_iterate_le W v k _, fun w => mem_iterate w v k _, ?_⟩
    intro W hne
    clear h0 hd
    generalize dep.subs = l
    induction k generalizing l with
    | zero => rfl
    | succ k ih =>
      rw [Function.iterate_succ, Function.comp_apply]
      simp only at ih ⊢
      rw [ih]
      exact List.count_erase_of_ne hne _

theorem eraseRel_step {v : Nat} {ds ds' : List Dep} (h : EraseRel v ds ds') (W : Nat) :
    DepsStep W (decide (v ≠ W)) ds ds' := by
  refine ⟨?_, ?_⟩
  · apply Nat.le_antisymm
    · by_contra hlt
      have hlt : ds.length < ds'.length := by omega
      obtain ⟨k, hk⟩ := h ds.length
      rw [List.getElem?_eq_getElem hlt] at hk
      simp at hk
    · by_contra hlt
      have hlt : ds'.length < ds.length := by omega
      obtain ⟨k, hk⟩ := h ds'.length
      rw [List.getElem?_eq_getElem hlt] at hk
      simp at hk
  · intro d dep hd
    obtain ⟨k, hk⟩ := h d
    rw [hd] at hk
    refine ⟨_, hk, rfl, ?_⟩
    intro hne hm
    have hne : v ≠ W := by simpa using hne
    have hc : ((fun l => remove l v)^[k] dep.subs).count W = dep.subs.count W := by
      obtain ⟨dep0, e1, -, -, -, e5⟩ := eraseRel_back h d _ hk
      rw [hd] at e1
      cases e1
      exact e5 W (Ne.symm hne)
    apply List.count_pos_iff.mp
    simp only
    rw [hc]
    exact List.count_pos_iff.mpr hm

theorem teardown_eraseRel (v : Nat) (s : State) :
    EraseRel v s.deps (Watcher.teardown v s).deps := by
  unfold Watcher.teardown
  split
  · exact eraseRel_refl _ _
  · rename_i wt hw
    split
    · dsimp only
      intro d
      refine ⟨wt.deps.reverse.count d, ?_⟩
      simp only [modifyWatcher_deps]
      rw [removeSubs_deps]
      congr 2
      split
      · split <;> rfl
      · rfl
    · exact eraseRel_refl _ _

theorem cleanupDeps_eraseRel (v : Nat) (s : State) :
    EraseRel v s.deps (Watcher.cleanupDeps v s).deps := by
  cases hw : s.watchers[v]? with
  | none =>
    have : Watcher.cleanupDeps v s = s := by simp [Watcher.cleanupDeps, hw]
    rw [this]
    exact eraseRel_refl _ _
  | some wt =>
    intro d
    rw [cleanupDeps_deps v s wt hw, cleanupFold_deps]
    cases hd : s.deps[d]? with
    | none => exact ⟨0, rfl⟩
    | some dep =>
      by_cases hin : dep.id ∈ wt.newDepIds
      · exact ⟨0, by simp [hin]⟩
      · exact ⟨wt.deps.reverse.count d, by simp [hin]⟩

theorem bound_step {W : Nat} {keep : Bool} {s s' : State}
    (hs : DepsStep W keep s.deps s'.deps) (hu : s'.depUid = s.depUid)
    (hb : ∀ (d : Nat) (dep : Dep), s.deps[d]? = some dep → dep.id < s.depUid) :
    ∀ (d : Nat) (dep : Dep), s'.deps[d]? = some dep → dep.id < s'.depUid := by
  intro d dep' hd
  obtain ⟨dep, f1, f2⟩ := depsStep_back hs d dep' hd
  rw [hu, f2]
  exact hb d dep f1

theorem depsOK_of {s : State} {W : Nat} {wt : Watcher} (h : ProtocolOK s)
    (hw : s.watchers[W]? = some wt) : DepsOK W s :=
  { unique := h.unique, bound := h.bound,
    watcher := ⟨wt, hw, (h.records W wt hw).1, (h.records W wt hw).2⟩ }

theorem records_of {s : State} {W : Nat} {wt : Watcher} (h : DepsOK W s)
    (hw : s.watchers[W]? = some wt) :
    ListedIn W wt.active s.deps wt.deps wt.depIds ∧
      ListedIn W wt.active s.deps wt.newDeps wt.newDepIds := by
  obtain ⟨wt0, h0, h1, h2⟩ := h.watcher
  rw [hw] at h0
  cases h0
  exact ⟨h1, h2⟩

theorem length_of_ids {s s' : State} (h : s'.watcherIdList = s.watcherIdList) :
    s'.watchers.length = s.watchers.length := by
  have := congrArg List.length h
  simpa [State.watcherIdList] using this

theorem exists_of_length {s s' : State} (h : s'.watchers.length = s.watchers.length) (W : Nat)
    (wt' : Watcher) (hw : s'.watchers[W]? = some wt') : ∃ wt, s.watchers[W]? = some wt := by
  have hlt : W < s.watchers.length := by
    rw [← h]
    exact (List.getElem?_eq_some.mp hw).1
  exact ⟨_, List.getElem?_eq_getElem hlt⟩

/-- The state of the subscriptions after a change that adds no watcher, from the facts on the
single watchers. -/
theorem protocol_of {s s' : State} (h : ProtocolOK s) (hu : UniqueDepIds s')
    (hb : ∀ (d : Nat) (dep : Dep), s'.deps[d]? = some dep → dep.id < s'.depUid)
    (hwf : SubsWF s') (hlen : s'.watchers.length = s.watchers.length)
    (hdeps : ∀ W, KeepsDeps W s s')
    (hsubs : ∀ W wt, s.watchers[W]? = some wt → SubsListed W s') : ProtocolOK s' := by
  refine { unique := hu, bound := hb, subsExist := hwf, records := ?_, subs := ?_ }
  · intro W wt' hw'
    obtain ⟨wt, hw⟩ := exists_of_length hlen W wt' hw'
    exact records_of (hdeps W (depsOK_of h hw)) hw'
  · intro W wt' hw'
    obtain ⟨wt, hw⟩ := exists_of_length hlen W wt' hw'
    exact hsubs W wt hw wt' hw'

theorem subsListed_of {W : Nat} {s s' : State} (h : SubsListed W s)
    (hw : ∀ wt', s'.watchers[W]? = some wt' →
      ∃ wt, s.watchers[W]? = some wt ∧ wt.deps ⊆ wt'.deps ∧ wt.newDeps ⊆ wt'.newDeps)
    (hd : ∀ (d : Nat) (dep' : Dep), s'.deps[d]? = some dep' →
      W ∉ dep'.subs ∨ ∃ dep, s.deps[d]? = some dep ∧ dep'.subs.count W ≤ dep.subs.count W) :
    SubsListed W s' := by
  intro wt' hw' d dep' hd'
  obtain ⟨wt, hw0, h1, h2⟩ := hw wt' hw'
  rcases hd d dep' hd' with hn | ⟨dep, e1, e2⟩
  · exact ⟨by rw [List.count_eq_zero.mpr hn]; omega, fun hm => absurd hm hn⟩
  · obtain ⟨c1, c2⟩ := h wt hw0 d dep e1
    refine ⟨Nat.le_trans e2 c1, fun hm => ?_⟩
    have hpos : 0 < dep.subs.count W := Nat.lt_of_lt_of_le (List.count_pos_iff.mpr hm) e2
    rcases c2 (List.count_pos_iff.mp hpos) with hx | hx
    · exact Or.inl (h1 hx)
    · exact Or.inr (h2 hx)

theorem protocol_same {s s' : State} (hd : s'.deps = s.deps) (hw : s'.watchers = s.watchers)
    (hu : s'.depUid = s.depUid) : KeepsProtocol s s' := by
  intro h
  refine { unique := ?_, bound := ?_, subsExist := ?_, records := ?_, subs := ?_ }
  · unfold UniqueDepIds
    rw [hd]
    exact h.unique
  · rw [hd, hu]
    exact h.bound
  · unfold SubsWF
    rw [hd, hw]
    exact h.subsExist
  · rw [hd, hw]
    exact h.records
  · unfold SubsListed
    rw [hd, hw]
    exact h.subs

theorem modifyWatcher_protocol (w : Nat) (s : State) (f : Watcher → Watcher)
    (hf : ∀ x : Watcher, (f x).deps = x.deps ∧ (f x).depIds = x.depIds ∧
      (f x).newDeps = x.newDeps ∧ (f x).newDepIds = x.newDepIds ∧ (f x).active = x.active) :
    KeepsProtocol s (s.modifyWatcher w f) := by
  intro h
  refine protocol_of h h.unique h.bound ?_ (by simp) ?_ ?_
  · intro d dep hd x hx
    simpa using h.subsExist d dep hd x hx
  · intro W
    exact modifyWatcher_keepsDeps W w s f hf
  · intro W wt hw
    refine subsListed_of (h.subs W) ?_ ?_
    · intro wt' hw'
      refine ⟨wt, hw, ?_⟩
      simp only [modifyWatcher_watchers, List.getElem?_modify, hw] at hw'
      by_cases hv : w = W
      · simp only [hv, if_true, Option.map_eq_map, Option.map_some', Option.some.injEq] at hw'
        subst hw'
        obtain ⟨a1, _, a3, _, _⟩ := hf wt
        rw [a1, a3]
        exact ⟨fun _ h => h, fun _ h => h⟩
      · simp only [hv, if_false, Option.map_eq_map, Option.map_some', Option.some.injEq] at hw'
        subst hw'
        exact ⟨fun _ h => h, fun _ h => h⟩
    · intro d dep' hd'
      exact Or.inr ⟨dep', hd', Nat.le_refl _⟩

theorem teardown_protocol (v : Nat) (s : State) : KeepsProtocol s (Watcher.teardown v s) := by
  intro h
  have hE := teardown_eraseRel v s
  have hlen := length_of_ids (teardown_watcherIds v s)
  refine protocol_of h (unique_step (eraseRel_step hE 0) h.unique)
    (bound_step (eraseRel_step hE 0) (by rw [teardown_eq]) h.bound) ?_ hlen
    (fun W => teardown_keepsDeps W v s) ?_
  · intro d dep' hd' x hx
    obtain ⟨dep, e1, -, -, e4, -⟩ := eraseRel_back hE d dep' hd'
    rw [hlen]
    exact h.subsExist d dep e1 x (e4 x hx)
  · intro W wt hw
    refine subsListed_of (h.subs W) ?_ ?_
    · intro wt' hw'
      refine ⟨wt, hw, ?_⟩
      by_cases hv : v = W
      · subst hv
        rw [teardown_lookup v s wt hw] at hw'
        cases hw'
        exact ⟨fun _ h => h, fun _ h => h⟩
      · rw [teardown_other v W s hv, hw] at hw'
        cases hw'
        exact ⟨fun _ h => h, fun _ h => h⟩
    · intro d dep' hd'
      obtain ⟨dep, e1, -, e3, -, -⟩ := eraseRel_back hE d dep' hd'
      exact Or.inr ⟨dep, e1, e3 W⟩

theorem cleanupDeps_protocol (v : Nat) (s : State) :
    KeepsProtocol s (Watcher.cleanupDeps v s) := by
  intro h
  have hE := cleanupDeps_eraseRel v s
  have hlen := length_of_ids (cleanupDeps_watcherIds v s)
  refine protocol_of h (unique_step (eraseRel_step hE 0) h.unique)
    (bound_step (eraseRel_step hE 0) (by rw [cleanupDeps_eq]) h.bound) ?_ hlen
    (fun W => cleanupDeps_keepsDeps W v s) ?_
  · intro d dep' hd' x hx
    obtain ⟨dep, e1, -, -, e4, -⟩ := eraseRel_back hE d dep' hd'
    rw [hlen]
    exact h.subsExist d dep e1 x (e4 x hx)
  · intro W wt hw
    by_cases hv : v = W
    · subst hv
      intro wt' hw' d dep' hd'
      rw [cleanupDeps_lookup v s wt hw] at hw'
      cases hw'
      obtain ⟨dep, e1, -, e3, e4, -⟩ := eraseRel_back hE d dep' hd'
      obtain ⟨c1, c2⟩ := h.subs v wt hw d dep e1
      refine ⟨Nat.le_trans (e3 v) c1, fun hm => Or.inl ?_⟩
      show d ∈ wt.newDeps
      by_contra hnot
      rcases c2 (e4 v hm) with hx | hx
      · have hid : dep.id ∉ wt.newDepIds := by
          intro hin
          obtain ⟨d0, hd0, dep0, f1, f2⟩ := (h.records v wt hw).2.2 dep.id hin
          have := h.unique d0 d dep0 dep f1 e1 f2
          subst this
          exact hnot hd0
        have hform : (Watcher.cleanupDeps v s).deps[d]? =
            some { dep with subs := (fun l => remove l v)^[wt.deps.reverse.count d] dep.subs } := by
          rw [cleanupDeps_deps v s wt hw, cleanupFold_deps, e1]
          simp [hid]
        rw [hform] at hd'
        cases hd'
        have hcnt := count_remove_iterate v (wt.deps.reverse.count d) dep.subs
        have hpos : 0 < wt.deps.reverse.count d := by
          rw [List.count_reverse]
          exact List.count_pos_iff.mpr hx
        have h0 : ((fun l => remove l v)^[wt.deps.reverse.count d] dep.subs).count v = 0 := by
          omega
        exact (List.count_eq_zero.mp h0) hm
      · exact hnot hx
    · refine subsListed_of (h.subs W) ?_ ?_
      · intro wt' hw'
        rw [cleanupDeps_other v W s hv] at hw'
        exact ⟨wt', hw', fun _ h => h, fun _ h => h⟩
      · intro d dep' hd'
        obtain ⟨dep, e1, -, e3, -, -⟩ := eraseRel_back hE d dep' hd'
        exact Or.inr ⟨dep, e1, e3 W⟩

theorem addDep_keepsDeps (W T d : Nat) (s : State) : KeepsDeps W s (Watcher.addDep T d s) := by
  by_cases hT : T = W
  · subst hT
    exact addDep_self_keepsDeps T d s
  · intro h
    refine depsOK_step h (addDep_step W T d s) (by rw [addDep_eq]) ?_
    intro wt hw
    exact ⟨wt, by rw [addDep_other T d W s hT]; exact hw, rfl, rfl, rfl, rfl,
      fun h => ⟨h, rfl⟩⟩

theorem addDep_protocol (T d : Nat) (s : State) : KeepsProtocol s (Watcher.addDep T d s) := by
  intro h
  cases hw : s.watchers[T]? with
  | none =>
    rw [addDep_absent T d s (Or.inl hw)]
    exact h
  | some wt =>
    cases hd : s.deps[d]? with
    | none =>
      rw [addDep_absent T d s (Or.inr hd)]
      exact h
    | some dep =>
      by_cases h1 : dep.id ∈ wt.newDepIds
      · rw [addDep_noop T d s wt dep hw hd h1]
        exact h
      · obtain ⟨a1, a2, a3, a4⟩ := addDep_first T d s wt dep hw hd h1
        have hlen := length_of_ids (addDep_watcherIds T d s)
        have hTlt : T < s.watchers.length := (List.getElem?_eq_some.mp hw).1
        have hnot : dep.id ∉ wt.depIds → T ∉ dep.subs := by
          intro h2 hm
          rcases (h.subs T wt hw d dep hd).2 hm with hx | hx
          · obtain ⟨dep0, f1, f2, -⟩ := (h.records T wt hw).1.1 d hx
            rw [hd] at f1
            cases f1
            exact h2 f2
          · obtain ⟨dep0, f1, f2, -⟩ := (h.records T wt hw).2.1 d hx
            rw [hd] at f1
            cases f1
            exact h1 f2
        refine protocol_of h (unique_step (addDep_step 0 T d s) h.unique)
          (bound_step (addDep_step 0 T d s) (by rw [addDep_eq]) h.bound) ?_ hlen
          (fun W => addDep_keepsDeps W T d s) ?_
        · intro x depx hx y hy
          rw [hlen]
          by_cases hxd : x = d
          · subst hxd
            rw [a2] at hx
            cases hx
            by_cases h2 : dep.id ∈ wt.depIds
            · simp only [h2, if_true] at hy
              exact h.subsExist x dep hd y hy
            · simp only [h2, if_false, List.mem_append, List.mem_singleton] at hy
              rcases hy with hy | rfl
              · exact h.subsExist x dep hd y hy
              · exact hTlt
          · rw [a3 x hxd] at hx
            exact h.subsExist x depx hx y hy
        · intro W wtW hwW
          by_cases hT : T = W
          · subst hT
            intro wt' hw' x depx hx
            rw [a1] at hw'
            cases hw'
            by_cases hxd : x = d
            · subst hxd
              rw [a2] at hx
              cases hx
              by_cases h2 : dep.id ∈ wt.depIds
              · simp only [h2, if_true]
                exact ⟨(h.subs T wt hw x dep hd).1, fun _ => Or.inr (by simp)⟩
              · simp only [h2, if_false]
                refine ⟨?_, fun _ => Or.inr (by simp)⟩
                rw [List.count_append, List.count_eq_zero.mpr (hnot h2)]
                simp
            · rw [a3 x hxd] at hx
              obtain ⟨c1, c2⟩ := h.subs T wt hw x depx hx
              refine ⟨c1, fun hm => ?_⟩
              rcases c2 hm with hy | hy
              · exact Or.inl hy
              · exact Or.inr (List.mem_append_left _ hy)
          · refine subsListed_of (h.subs W) ?_ ?_
            · intro wt' hw'
              rw [a4 W (Ne.symm hT)] at hw'
              exact ⟨wt', hw', fun _ h => h, fun _ h => h⟩
            · intro x depx hx
              by_cases hxd : x = d
              · subst hxd
                rw [a2] at hx
                cases hx
                refine Or.inr ⟨dep, hd, ?_⟩
                by_cases h2 : dep.id ∈ wt.depIds
                · simp [h2]
                · simp [h2, List.count_append, List.count_singleton, hT]
              · rw [a3 x hxd] at hx
                exact Or.inr ⟨depx, hx, Nat.le_refl _⟩

theorem depend_protocol (d : Nat) (s : State) : KeepsProtocol s (Dep.depend d s) := by
  unfold Dep.depend
  split
  · exact addDep_protocol _ _ _
  · exact fun h => h

theorem depNew_protocol (s : State) : KeepsProtocol s (Dep.new s).2 := by
  intro h
  have hlook : ∀ (i : Nat) (dep : Dep), (Dep.new s).2.deps[i]? = some dep →
      s.deps[i]? = some dep ∨ (i = s.deps.length ∧ dep = { id := s.depUid, subs := [] }) :=
    fun i dep hi => append_lookup _ _ _ _ hi
  refine protocol_of h ?_ ?_ ?_ rfl (fun W => depNew_keepsDeps W s) ?_
  · intro i j di dj hi hj hij
    rcases hlook _ _ hi with hi | ⟨hi1, hi2⟩ <;> rcases hlook _ _ hj with hj | ⟨hj1, hj2⟩
    · exact h.unique i j di dj hi hj hij
    · have := h.bound i di hi
      rw [hij, hj2] at this
      exact absurd this (Nat.lt_irrefl _)
    · have := h.bound j dj hj
      rw [← hij, hi2] at this
      exact absurd this (Nat.lt_irrefl _)
    · rw [hi1, hj1]
  · intro d dep hd
    rcases hlook _ _ hd with hd | ⟨-, hd2⟩
    · exact Nat.lt_succ_of_lt (h.bound d dep hd)
    · rw [hd2]
      exact Nat.lt_succ_self _
  · intro d dep hd x hx
    rcases hlook _ _ hd with hd | ⟨-, hd2⟩
    · exact h.subsExist d dep hd x hx
    · rw [hd2] at hx
      simp at hx
  · intro W wt hw
    refine subsListed_of (h.subs W) (fun wt' hw' => ⟨wt', hw', fun _ h => h, fun _ h => h⟩) ?_
    intro d dep' hd'
    rcases hlook _ _ hd' with hd | ⟨-, hd2⟩
    · exact Or.inr ⟨dep', hd, Nat.le_refl _⟩
    · rw [hd2]
      exact Or.inl (by simp)

theorem allocWatcher_protocol (s : State) (wt : Watcher)
    (he : wt.deps = [] ∧ wt.newDeps = [] ∧ wt.depIds = [] ∧ wt.newDepIds = []) :
    KeepsProtocol s { s with watchers := s.watchers ++ [wt], watcherUid := s.watcherUid + 1 } := by
  intro h
  obtain ⟨e1, e2, e3, e4⟩ := he
  have hlook : ∀ (W : Nat) (x : Watcher), (s.watchers ++ [wt])[W]? = some x →
      s.watchers[W]? = some x ∨ (W = s.watchers.length ∧ x = wt) := by
    intro W x hx
    by_cases hi : W < s.watchers.length
    · rw [List.getElem?_append_left hi] at hx
      exact Or.inl hx
    · have hi' : s.watchers.length ≤ W := Nat.le_of_not_lt hi
      rw [List.getElem?_append_right hi'] at hx
      cases hk : W - s.watchers.length with
      | zero =>
        rw [hk] at hx
        simp only [List.getElem?_cons_zero, Option.some.injEq] at hx
        exact Or.inr ⟨by omega, hx.symm⟩
      | succ k =>
        rw [hk] at hx
        simp at hx
  refine { unique := h.unique, bound := h.bound, subsExist := ?_, records := ?_, subs := ?_ }
  · intro d dep hd x hx
    have := h.subsExist d dep hd x hx
    simp only [List.length_append, List.length_singleton]
    omega
  · intro W x hx
    rcases hlook W x hx with hx | ⟨-, rfl⟩
    · exact h.records W x hx
    · rw [e1, e2, e3, e4]
      exact ⟨⟨by simp, by simp⟩, ⟨by simp, by simp⟩⟩
  · intro W x hx d dep hd
    rcases hlook W x hx with hx | ⟨rfl, rfl⟩
    · exact h.subs W x hx d dep hd
    · have hn : s.watchers.length ∉ dep.subs := fun hm =>
        Nat.lt_irrefl _ (h.subsExist d dep hd _ hm)
      exact ⟨by rw [List.count_eq_zero.mpr hn]; omega, fun hm => absurd hm hn⟩

theorem protocol_closed : Closed KeepsProtocol where
  refl := fun _ h => h
  trans := fun _ _ _ h1 h2 h => h2 (h1 h)
  log := fun s e _ _ => protocol_same rfl rfl rfl
  logGetter := fun s w wt _ _ => protocol_same rfl rfl rfl
  cb := by
    intro s s1 w wt v o _ _ h01 h
    have h2 : ProtocolOK (s1.modifyWatcher w fun x => { x with value := v }) := by
      refine modifyWatcher_protocol w s1 _ ?_ (h01 h)
      intro x
      exact ⟨rfl, rfl, rfl, rfl, rfl⟩
    exact @protocol_same (s1.modifyWatcher w fun x => { x with value := v })
      ((s1.modifyWatcher w fun x => { x with value := v }).log (.cb w v o)) rfl rfl rfl h2
  teardown := fun s w => teardown_protocol w s
  depend := fun s d => depend_protocol d s
  setProps := fun s a g => protocol_same rfl rfl rfl
  setOb := fun s a obj ob _ _ => protocol_same rfl rfl rfl
  setAugmented := fun s a => protocol_same rfl rfl rfl
  allocCell := fun s cell => protocol_same rfl rfl rfl
  setCellVal := fun s c v => protocol_same rfl rfl rfl
  setCellChildOb := fun s c o => protocol_same rfl rfl rfl
  depNew := fun s => depNew_protocol s
  allocObserver := fun s o => protocol_same rfl rfl rfl
  vmCount := fun s o => protocol_same rfl rfl rfl
  sched := fun s q h d c w f so => protocol_same rfl rfl rfl
  popTarget := fun s => protocol_same rfl rfl rfl
  cleanupDeps := fun s w => cleanupDeps_protocol w s
  setValue := by
    intro s w f g
    refine modifyWatcher_protocol w s _ ?_
    intro x
    exact ⟨rfl, rfl, rfl, rfl, rfl⟩
  setVm := fun s v f => protocol_same rfl rfl rfl
  allocWatcher := fun s wt _ _ he => allocWatcher_protocol s wt he

/-! ## A cancelled watcher stays cancelled -/


/-- Every call of the interpreter keeps the state of the subscriptions one that the protocol
maintains. -/
theorem exec_protocol (n : Nat) (t : Task) (s : State) (c : Completion) (s' : State)
    (h : exec n t s = some (c, s')) (hs : ProtocolOK s) : ProtocolOK s' :=
  exec_closed_any protocol_closed (fun _ _ => protocol_same rfl rfl rfl) n t s c s' h hs

theorem cancelled_of {W : Nat} {s s' : State} (h : Cancelled W s)
    (hw : ∀ wt, s.watchers[W]? = some wt → wt.active = false →
      ∃ wt', s'.watchers[W]? = some wt' ∧ wt'.active = false)
    (ht : s'.target = s.target) (hs : s'.targetStack = s.targetStack)
    (hd : ∀ (d : Nat) (dep' : Dep) (w : Nat), s'.deps[d]? = some dep' → w ∈ dep'.subs →
      (∃ dep, s.deps[d]? = some dep ∧ w ∈ dep.subs) ∨ some w = s.target) :
    Cancelled W s' := by
  obtain ⟨⟨wt, h1, h2⟩, h3, h4, h5⟩ := h
  refine ⟨hw wt h1 h2, by rw [ht]; exact h3, by rw [hs]; exact h4, ?_⟩
  intro d dep' hd' hm
  rcases hd d dep' W hd' hm with ⟨dep, e1, e2⟩ | hx
  · exact h5 d dep e1 e2
  · exact h3 hx.symm

theorem cancelled_same {W : Nat} {s s' : State} (hd : s'.deps = s.deps)
    (hw : s'.watchers = s.watchers) (ht : s'.target = s.target)
    (hs : s'.targetStack = s.targetStack) : StaysCancelled W s s' := by
  intro h
  refine cancelled_of h (fun wt h1 h2 => ⟨wt, by rw [hw]; exact h1, h2⟩) ht hs ?_
  intro d dep' w hd' hm
  exact Or.inl ⟨dep', by rw [← hd]; exact hd', hm⟩

theorem addDep_subs (T d : Nat) (s : State) (x : Nat) (depx' : Dep)
    (hx : (Watcher.addDep T d s).deps[x]? = some depx') :
    ∃ depx, s.deps[x]? = some depx ∧ ∀ w, w ∈ depx'.subs → w ∈ depx.subs ∨ w = T := by
  cases hw : s.watchers[T]? with
  | none =>
    rw [addDep_absent T d s (Or.inl hw)] at hx
    exact ⟨depx', hx, fun w hm => Or.inl hm⟩
  | some wt =>
    cases hd : s.deps[d]? with
    | none =>
      rw [addDep_absent T d s (Or.inr hd)] at hx
      exact ⟨depx', hx, fun w hm => Or.inl hm⟩
    | some dep =>
      by_cases h1 : dep.id ∈ wt.newDepIds
      · rw [addDep_noop T d s wt dep hw hd h1] at hx
        exact ⟨depx', hx, fun w hm => Or.inl hm⟩
      · obtain ⟨-, a2, a3, -⟩ := addDep_first T d s wt dep hw hd h1
        by_cases hxd : x = d
        · subst hxd
          rw [a2] at hx
          cases hx
          refine ⟨dep, hd, ?_⟩
          intro w hm
          by_cases h2 : dep.id ∈ wt.depIds
          · simp only [h2, if_true] at hm
            exact Or.inl hm
          · simpa [h2] using hm
        · rw [a3 x hxd] at hx
          exact ⟨depx', hx, fun w hm => Or.inl hm⟩

theorem modifyWatcher_cancelled (W w : Nat) (s : State) (f : Watcher → Watcher)
    (hf : ∀ x : Watcher, (f x).active = x.active) :
    StaysCancelled W s (s.modifyWatcher w f) := by
  intro h
  refine cancelled_of h ?_ rfl rfl ?_
  · intro wt h1 h2
    obtain ⟨wt', e1, e2⟩ := modify_lookup_active s.watchers w W f hf wt h1
    exact ⟨wt', e1, e2.trans h2⟩
  · intro d dep' w hd' hm
    exact Or.inl ⟨dep', hd', hm⟩

theorem cancelled_closed (W : Nat) : Closed (StaysCancelled W) where
  refl := fun _ h => h
  trans := fun _ _ _ h1 h2 h => h2 (h1 h)
  log := fun s e _ _ => cancelled_same rfl rfl rfl rfl
  logGetter := by
    intro s w wt hw hact h
    obtain ⟨⟨wtW, h1, h2⟩, h3, h4, h5⟩ := h
    have hne : w ≠ W := by
      rintro rfl
      rw [hw] at h1
      cases h1
      rw [hact] at h2
      cases h2
    refine ⟨⟨wtW, h1, h2⟩, ?_, ?_, h5⟩
    · show some w ≠ some W
      simpa using hne
    · show some W ∉ s.targetStack ++ [some w]
      simp only [List.mem_append, List.mem_singleton, Option.some.injEq, not_or]
      exact ⟨h4, fun h => hne h.symm⟩
  cb := by
    intro s s1 w wt v o _ _ h01 h
    have h2 : Cancelled W (s1.modifyWatcher w fun x => { x with value := v }) :=
      modifyWatcher_cancelled W w s1 _ (by intro x; rfl) (h01 h)
    exact @cancelled_same W (s1.modifyWatcher w fun x => { x with value := v })
      ((s1.modifyWatcher w fun x => { x with value := v }).log (.cb w v o)) rfl rfl rfl rfl h2
  teardown := by
    intro s v h
    refine cancelled_of h (fun wt h1 h2 => teardown_down v s W wt h1 h2) (by rw [teardown_eq])
      (by rw [teardown_eq]) ?_
    intro d dep' w hd' hm
    obtain ⟨dep, e1, -, -, e4, -⟩ := eraseRel_back (teardown_eraseRel v s) d dep' hd'
    exact Or.inl ⟨dep, e1, e4 w hm⟩
  depend := by
    intro s d h
    refine cancelled_of h ?_ (by rw [depend_eq]) (by rw [depend_eq]) ?_
    · intro wt h1 h2
      obtain ⟨wt', e1, e2⟩ := depend_active d s W wt h1
      exact ⟨wt', e1, e2.trans h2⟩
    · intro x depx' w hx hm
      unfold Dep.depend at hx
      split at hx
      · rename_i T hT
        obtain ⟨depx, e1, e2⟩ := addDep_subs T d s x depx' hx
        rcases e2 w hm with hy | rfl
        · exact Or.inl ⟨depx, e1, hy⟩
        · exact Or.inr hT.symm
      · exact Or.inl ⟨depx', hx, hm⟩
  setProps := fun s a g => cancelled_same rfl rfl rfl rfl
  setOb := fun s a obj ob _ _ => cancelled_same rfl rfl rfl rfl
  setAugmented := fun s a => cancelled_same rfl rfl rfl rfl
  allocCell := fun s cell => cancelled_same rfl rfl rfl rfl
  setCellVal := fun s c v => cancelled_same rfl rfl rfl rfl
  setCellChildOb := fun s c o => cancelled_same rfl rfl rfl rfl
  depNew := by
    intro s h
    refine cancelled_of h (fun wt h1 h2 => ⟨wt, h1, h2⟩) rfl rfl ?_
    intro d dep' w hd' hm
    rcases append_lookup _ _ _ _ hd' with hd | ⟨-, hd2⟩
    · exact Or.inl ⟨dep', hd, hm⟩
    · rw [hd2] at hm
      simp at hm
  allocObserver := fun s o => cancelled_same rfl rfl rfl rfl
  vmCount := fun s o => cancelled_same rfl rfl rfl rfl
  sched := fun s q h d c w f so => cancelled_same rfl rfl rfl rfl
  popTarget := by
    intro s h
    obtain ⟨h1, h3, h4, h5⟩ := h
    refine ⟨h1, ?_, ?_, h5⟩
    · show s.targetStack.dropLast.getLast?.join ≠ some W
      intro hj
      cases hl : s.targetStack.dropLast.getLast? with
      | none => simp [hl] at hj
      | some x =>
        rw [hl] at hj
        simp only [Option.join] at hj
        have hm : x ∈ s.targetStack.dropLast := List.mem_of_getLast?_eq_some hl
        have hm2 : x ∈ s.targetStack := (List.dropLast_sublist _).subset hm
        have hx : x = some W := by simpa using hj
        rw [hx] at hm2
        exact h4 hm2
    · show some W ∉ s.targetStack.dropLast
      exact fun hm => h4 ((List.dropLast_sublist _).subset hm)
  cleanupDeps := by
    intro s v h
    refine cancelled_of h ?_ (cleanupDeps_target v s).1 (cleanupDeps_target v s).2.1 ?_
    · intro wt h1 h2
      obtain ⟨wt', e1, e2⟩ := cleanupDeps_active v s W wt h1
      exact ⟨wt', e1, e2.trans h2⟩
    · intro d dep' w hd' hm
      obtain ⟨dep, e1, -, -, e4, -⟩ := eraseRel_back (cleanupDeps_eraseRel v s) d dep' hd'
      exact Or.inl ⟨dep, e1, e4 w hm⟩
  setValue := fun s w f g => modifyWatcher_cancelled W w s _ (by intro x; rfl)
  setVm := fun s v f => cancelled_same rfl rfl rfl rfl
  allocWatcher := by
    intro s wt _ _ _ h
    refine cancelled_of h ?_ rfl rfl ?_
    · intro x h1 h2
      exact ⟨x, getElem?_append_some _ _ _ _ h1, h2⟩
    · intro d dep' w hd' hm
      exact Or.inl ⟨dep', hd', hm⟩

/-! ## Reached states -/


theorem dependFold_closed {R : State → State → Prop} (hR : Closed R) (ds : List Nat) (s : State) :
    R s (ds.foldl (fun acc d => Dep.depend d acc) s) := by
  induction ds generalizing s with
  | nil => exact hR.refl s
  | cons d ds ih =>
    rw [List.foldl_cons]
    exact hR.trans _ _ _ (hR.depend s d) (ih _)

theorem Watcher_depend_closed {R : State → State → Prop} (hR : Closed R) (w : Nat) (s : State) :
    R s (Watcher.depend w s) := by
  unfold Watcher.depend
  split
  · exact hR.refl s
  · exact dependFold_closed hR _ s

theorem protocol_init (s : State) (hd : s.deps = []) (hw : s.watchers = []) : ProtocolOK s := by
  refine { unique := ?_, bound := ?_, subsExist := ?_, records := ?_, subs := ?_ }
  · intro i j di dj hi
    simp [hd] at hi
  · intro d dep h
    simp [hd] at h
  · intro d dep h
    simp [hd] at h
  · intro W wt h
    simp [hw] at h
  · intro W wt h
    simp [hw] at h

theorem reached_protocol {s : State} (h : Reached s) : ProtocolOK s := by
  induction h with
  | init s hd hw => exact protocol_init s hd hw
  | call n t s c s' _ hex ih => exact exec_protocol n t s c s' hex ih
  | teardown w s _ ih => exact teardown_protocol w s ih
  | depend w s _ ih => exact Watcher_depend_closed protocol_closed w s ih
  | addDep w d s _ ih => exact addDep_protocol w d s ih
  | cleanupDeps w s _ ih => exact cleanupDeps_protocol w s ih
  | depDepend d s _ ih => exact depend_protocol d s ih
  | other s s' _ hd hw hu ih => exact protocol_same hd hw hu ih

theorem getFinally_ends (call : Call) (W : Nat) (deep : Bool) (value : Val) (s1 : State)
    (c : Completion) (s' : State)
    (h : Watcher.getFinally call W deep value s1 = some (c, s'))
    (hfin : deep = false ∨ ∃ v, c = .ret v) : ∃ s2, s' = Watcher.cleanupDeps W s2 := by
  unfold Watcher.getFinally at h
  cases deep with
  | false =>
    simp only [Bool.false_eq_true, if_false, andThen, Option.some.injEq, Prod.mk.injEq] at h
    exact ⟨_, h.2.symm⟩
  | true =>
    rcases hfin with hf | ⟨v, rfl⟩
    · cases hf
    · simp only [if_true] at h
      cases ht : call (.traverse value) s1 with
      | none => simp [ht, andThen] at h
      | some r =>
        obtain ⟨c1, s2⟩ := r
        cases c1 with
        | ret u =>
          simp only [ht, andThen, Option.some.injEq, Prod.mk.injEq] at h
          exact ⟨_, h.2.symm⟩
        | thrown e => simp [ht, andThen] at h
        | retOb o => simp [ht, andThen] at h
        | retW o => simp [ht, andThen] at h

/-- A `get()` that returns, or that throws the exception of the getter of a watcher that is
not deep, ends with `cleanupDeps()`. -/
theorem get_ends (call : Call) (W : Nat) (s : State) (wt : Watcher) (c : Completion)
    (s' : State) (hw : s.watchers[W]? = some wt) (h : Watcher.get call W s = some (c, s'))
    (hfin : wt.deep = false ∨ ∃ v, c = .ret v) : ∃ s2, s' = Watcher.cleanupDeps W s2 := by
  unfold Watcher.get at h
  simp only [hw] at h
  split at h
  · exact getFinally_ends call W wt.deep _ _ c s' h hfin
  · split at h
    · exact getFinally_ends call W wt.deep _ _ c s' h hfin
    · rename_i e s1 _ _
      cases hg : Watcher.getFinally call W wt.deep .undefined s1 with
      | none => simp [hg, andThen] at h
      | some r =>
        obtain ⟨c1, s2⟩ := r
        cases c1 with
        | ret u =>
          simp only [hg, andThen, Option.some.injEq, Prod.mk.injEq] at h
          obtain ⟨-, rfl⟩ := h
          exact getFinally_ends call W wt.deep _ _ _ _ hg (Or.inr ⟨u, rfl⟩)
        | thrown e2 =>
          simp only [hg, andThen, Option.some.injEq, Prod.mk.injEq] at h
          obtain ⟨rfl, rfl⟩ := h
          rcases hfin with hf | ⟨v, hv⟩
          · exact getFinally_ends call W wt.deep _ _ _ _ hg (Or.inl hf)
          · cases hv
        | retOb o => simp [hg, andThen] at h
        | retW o => simp [hg, andThen] at h
  · exact absurd h (by simp)

theorem teardown_deps_exact (W : Nat) (s : State) (wt : Watcher)
    (hw : s.watchers[W]? = some wt) (hact : wt.active = true) (d : Nat) :
    (Watcher.teardown W s).deps[d]? =
      (s.deps[d]?).map fun dep : Dep =>
        { dep with subs := (fun l => remove l W)^[wt.deps.reverse.count d] dep.subs } := by
  unfold Watcher.teardown
  simp only [hw, hact, if_true, modifyWatcher_deps]
  rw [removeSubs_deps]
  congr 2
  split
  · split <;> rfl
  · rfl

/-- After `teardown()` of an active watcher that is not being evaluated, in a state that the
protocol maintains, the watcher is cancelled. -/
theorem teardown_cancels (s : State) (W : Nat) (wt : Watcher) (hs : ProtocolOK s)
    (hw : s.watchers[W]? = some wt) (hact : wt.active = true) (hnew : wt.newDeps = [])
    (ht : s.target ≠ some W) (hst : some W ∉ s.targetStack) :
    Cancelled W (Watcher.teardown W s) := by
  refine ⟨⟨_, teardown_lookup W s wt hw, rfl⟩, by rw [teardown_eq]; exact ht,
    by rw [teardown_eq]; exact hst, ?_⟩
  intro d dep' hd' hm
  rw [teardown_deps_exact W s wt hw hact d] at hd'
  cases h0 : s.deps[d]? with
  | none => simp [h0] at hd'
  | some dep =>
    simp only [h0, Option.map_some', Option.some.injEq] at hd'
    subst hd'
    obtain ⟨c1, c2⟩ := hs.subs W wt hw d dep h0
    have hmem : d ∈ wt.deps := by
      rcases c2 (mem_iterate W W _ _ hm) with hx | hx
      · exact hx
      · rw [hnew] at hx
        simp at hx
    have hpos : 0 < wt.deps.reverse.count d := by
      rw [List.count_reverse]
      exact List.count_pos_iff.mpr hmem
    have hcnt := count_remove_iterate W (wt.deps.reverse.count d) dep.subs
    have h0 : ((fun l => remove l W)^[wt.deps.reverse.count d] dep.subs).count W = 0 := by
      omega
    exact (List.count_eq_zero.mp h0) hm

theorem apply_cancelled (n : Nat) (W : Nat) (c : WatcherCall) (hc : c ≠ .evaluate)
    (s s' : State) (h : c.apply n W s = some s') (hs : Cancelled W s) : Cancelled W s' := by
  cases c with
  | update =>
    simp only [WatcherCall.apply, Option.map_eq_some'] at h
    obtain ⟨⟨c1, s1⟩, h1, rfl⟩ := h
    exact exec_closed (cancelled_closed W) n _ s c1 s1 h1 trivial hs
  | run =>
    simp only [WatcherCall.apply, Option.map_eq_some'] at h
    obtain ⟨⟨c1, s1⟩, h1, rfl⟩ := h
    exact exec_closed (cancelled_closed W) n _ s c1 s1 h1 trivial hs
  | evaluate => exact absurd rfl hc
  | depend =>
    simp only [WatcherCall.apply, Option.some.injEq] at h
    subst h
    exact Watcher_depend_closed (cancelled_closed W) W s hs

theorem watcherCalls_cancelled (n : Nat) (W : Nat) (calls : List WatcherCall)
    (hc : WatcherCall.evaluate ∉ calls) : ∀ (s s' : State),
      watcherCalls n W calls s = some s' → Cancelled W s → Cancelled W s' := by
  induction calls with
  | nil =>
    intro s s' h hs
    simp only [watcherCalls, Option.some.injEq] at h
    subst h
    exact hs
  | cons c cs ih =>
    intro s s' h hs
    simp only [watcherCalls, Option.bind_eq_some] at h
    obtain ⟨s1, h1, h2⟩ := h
    have hne : c ≠ .evaluate := fun hce => hc (by simp [hce])
    exact ih (fun hm => hc (List.mem_cons_of_mem _ hm)) s1 s' h2
      (apply_cancelled n W c hne s s1 h1 hs)

theorem exDataObserved_reached : Reached exDataObserved :=
  Reached.call 5 (.observe (.ref 0) false) exData (.retOb (some 0)) exDataObserved
    (Reached.init exData rfl rfl) (by decide)

theorem exWatched_reached : Reached exWatched :=
  Reached.call 6 (.newWatcher 0 exReadX noop none false) exDataObserved (.retW 0) exWatched
    exDataObserved_reached (by decide)

theorem exWritten_reached : Reached exWritten :=
  Reached.call 6 (.propSet 0 "x" (.num 5)) exWatched (.ret .undefined) exWritten
    exWatched_reached (by decide)

theorem exTwiceAgain_reached : Reached exTwiceAgain :=
  Reached.call 6 (.get 0) exTwice (.ret (.num 1)) exTwiceAgain
    (Reached.call 7 (.newWatcher 0
      (.code (.seq (.prop (.lit (.ref 0)) "x") (.prop (.lit (.ref 0)) "x"))) noop none false)
      exDataObserved (.retW 0) exTwice exDataObserved_reached (by decide)) (by decide)

theorem exComputed_reached : Reached exComputed :=
  Reached.call 6 (.newWatcher 0 exReadX noop
      (some { deep := false, user := false, lazy := true, sync := false }) false)
    exDataObserved (.retW 0) exComputed exDataObserved_reached (by decide)

theorem exTrap_reached : Reached exTrap :=
  Reached.call 5 (.observe (.ref 0) false) exTrapData (.retOb (some 0)) exTrap
    (Reached.init exTrapData rfl rfl) (by decide)

theorem exTrappedRead_reached : Reached exTrappedRead :=
  Reached.call 8 (.newWatcher 0 (.code (.seq (.prop (.lit (.ref 0)) "x") (.lit (.ref 1)))) noop
      (some exDeep) false) exTrap (.thrown (.str "boom")) exTrappedRead exTrap_reached
    (by decide)

/-- In a state that the protocol maintains, an active watcher is subscribed to every Dep
whose id it holds. -/
theorem subscribed_of_protocol {s : State} (hp : ProtocolOK s) (W : Nat) (wt : Watcher)
    (hw : s.watchers[W]? = some wt) (ha : wt.active = true) : Subscribed W s := by
  intro wt' hw' d dep hd hid
  rw [hw] at hw'
  cases hw'
  obtain ⟨hold, hnew⟩ := hp.records W wt hw
  have key : ∀ deps ids, ListedIn W wt.active s.deps deps ids → dep.id ∈ ids → W ∈ dep.subs := by
    intro deps ids hl hin
    obtain ⟨d', hd', dep', e1, e2⟩ := hl.2 dep.id hin
    have hdd : d' = d := hp.unique d' d dep' dep e1 hd e2
    subst hdd
    obtain ⟨dep0, f1, -, f3⟩ := hl.1 d' hd'
    rw [hd] at f1
    cases f1
    exact f3 ha
  rcases hid with h | h
  · exact key _ _ hold h
  · exact key _ _ hnew h

theorem collecting_of_reached {s : State} (hs : Reached s) (W : Nat) (wt : Watcher)
    (ht : s.target = some W) (hw : s.watchers[W]? = some wt) (ha : wt.active = true) :
    Collecting W s :=
  ⟨ht, ⟨wt, hw⟩, subscribed_of_protocol (reached_protocol hs) W wt hw ha,
    (reached_protocol hs).unique⟩

theorem exComputedGot_reached : Reached exComputedGot :=
  Reached.call 5 (.get 0) exComputed (.ret (.num 1)) exComputedGot exComputed_reached
    (by decide)

theorem exBoth_reached : Reached exBoth :=
  Reached.call 6 (.newWatcher 0 noop noop none false) exComputedGot (.retW 1) exBoth
    exComputedGot_reached (by decide)

theorem exBothTarget_reached : Reached exBothTarget :=
  Reached.other exBoth exBothTarget exBoth_reached rfl rfl rfl

theorem exReading_reached : Reached exReading :=
  Reached.other exWatched exReading exWatched_reached rfl rfl rfl


/-! ## Observation of a graph: the traversal -/

theorem init_fields (a : Addr) (s : State) :
    (Observer.init a s).cells = s.cells ∧
    (Observer.init a s).observers =
      s.observers ++ [{ value := a, dep := s.deps.length, vmCount := 0 }] ∧
    (Observer.init a s).deps = s.deps ++ [{ id := s.depUid, subs := [] }] ∧
    (Observer.init a s).watchers = s.watchers ∧ (Observer.init a s).target = s.target ∧
    (Observer.init a s).trace = s.trace ∧
    (Observer.init a s).heap.length = s.heap.length := by
  refine ⟨rfl, rfl, rfl, rfl, rfl, rfl, ?_⟩
  simp [Observer.init, State.modifyObj, Dep.new]

theorem augment_fields (a : Addr) (s : State) :
    (protoAugment a s).cells = s.cells ∧ (protoAugment a s).observers = s.observers ∧
    (protoAugment a s).deps = s.deps ∧ (protoAugment a s).watchers = s.watchers ∧
    (protoAugment a s).target = s.target ∧ (protoAugment a s).trace = s.trace ∧
    (protoAugment a s).heap.length = s.heap.length ∧
    (∀ b, b ≠ a → (protoAugment a s).heap[b]? = s.heap[b]?) := by
  refine ⟨rfl, rfl, rfl, rfl, rfl, rfl, ?_, ?_⟩
  · simp [protoAugment, State.modifyObj]
  · intro b hb
    simp [protoAugment, State.modifyObj, List.getElem?_modify, Ne.symm hb]

theorem unobserved_of {s : State} {a : Addr} {obj : Obj} (h : s.heap[a]? = some obj)
    (hob : obj.__ob__ = none) : unobserved s a = true := by
  simp [unobserved, h, hob]

/-- An unobserved object of the graph: `observe` constructs its Observer, walks it, and
leaves it fully observed. -/
theorem observe_fresh {g : Addr → Bool} {s0 : State} (hg : GoodGraph g s0) (m : Nat)
    (hok : ObsOK g s0 m) (s : State) (hinv : ObsInv g s0 s) (hpend : pending g s ≤ m + 1)
    (a : Addr) (obj0 : Obj) (hga : g a = true) (h0 : s0.heap[a]? = some obj0)
    (ho : s.heap[a]? = some obj0) (N : Nat) (hN : 2 * m + 2 ≤ N) :
    ∃ s', Observer.new (exec N) a s = some (.retOb (some s.observers.length), s') ∧
      ObsStep g s0 (fun _ => False) s s' ∧ observed s' a := by
  have hgood := goodGraph_obj hg hga h0
  have hu : unobserved s a = true := unobserved_of ho hgood.fresh
  obtain ⟨c1, c2, c3, c4, c5, c6, c7⟩ := init_fields a s
  have hself := init_heap_self a s obj0 ho
  have hinv3 := init_inv hinv a obj0 obj0 hga h0 ho hgood.fresh
  have hun3 : ∀ b, unobserved (Observer.init a s) b = true → unobserved s b = true := by
    intro b hb
    by_cases hba : b = a
    · subst hba
      exact hu
    · simpa [unobserved, init_heap_other a s b hba] using hb
  have hobs3 : unobserved (Observer.init a s) a = false := by
    simp [unobserved, hself]
  have hpend3 : pending g (Observer.init a s) ≤ m := by
    have := pending_lt g s (Observer.init a s) c7 hun3 a hga hu hobs3
    omega
  have hdeps3 : ∃ l, (Observer.init a s).deps = s.deps ++ l ∧ ∀ d ∈ l, d.subs = [] :=
    ⟨_, c3, by simp⟩
  by_cases hkind : obj0.kind = .array
  · -- an array: augmented, then its items are observed
    obtain ⟨d1, d2, d3, d4, d5, d6, d7, d8⟩ := augment_fields a (Observer.init a s)
    have hselfA : (protoAugment a (Observer.init a s)).heap[a]? =
        some { obj0 with __ob__ := some s.observers.length, augmented := true } := by
      simp [protoAugment, State.modifyObj, hself]
    have hinvA := augment_inv hinv3 a _ hself rfl
    have hunA : ∀ b, unobserved (protoAugment a (Observer.init a s)) b = true →
        unobserved (Observer.init a s) b = true := by
      intro b hb
      by_cases hba : b = a
      · subst hba
        simp [unobserved, hselfA] at hb
      · simpa [unobserved, d8 b hba] using hb
    have hpendA : pending g (protoAugment a (Observer.init a s)) ≤ m :=
      le_trans (pending_mono g _ _ d7 hunA) hpend3
    obtain ⟨s5, hex, hstep, hitems⟩ := observeArray_step hg m hok a obj0 hga h0 hkind
      (List.range obj0.elems.length) _ _ hinvA hpendA hselfA rfl rfl N (by omega)
    have ho5 : s5.heap[a]? =
        some { obj0 with __ob__ := some s.observers.length, augmented := true } :=
      hstep.stable a _ (fun h => h) hselfA (Or.inr rfl)
    have hob5 : s5.observers[s.observers.length]? =
        some { value := a, dep := s.deps.length, vmCount := 0 } := by
      obtain ⟨l, hl⟩ := hstep.observers
      rw [hl, d2, c2]
      exact getElem?_append_some _ _ _ _ (List.getElem?_concat_length _ _)
    have hdone : FullyDone s0 s5 a := by
      refine ⟨obj0, _, _, _, h0, ho5, rfl, hob5, rfl, fun h => absurd hkind h, ?_⟩
      intro b hb
      rcases hb with ⟨-, hmem⟩ | ⟨hne, -⟩
      · obtain ⟨j, hj⟩ := List.mem_iff_getElem?.mp hmem
        have hjl : j < obj0.elems.length := (List.getElem?_eq_some.mp hj).1
        exact hitems j (List.mem_range.mpr hjl) b hj
      · exact absurd hkind hne
    have hclose : ObsStep g s0 (fun _ => False) s s5 :=
      mark_close hga hu
        (fun b hb => by rw [d8 b hb, init_heap_other a s b hb])
        (d7.trans c7) (d1.trans c1) (d2.trans c2)
        (by obtain ⟨l, h1, h2⟩ := hdeps3; exact ⟨l, d3.trans h1, h2⟩)
        (d4.trans c4) (d5.trans c5) (d6.trans c6) (obsStep_weaken hstep) hdone
    refine ⟨s5, ?_, hclose, ⟨_, _, ho5, rfl⟩⟩
    have hnew : Observer.new (exec N) a s =
        andThen (observeArray (exec N) a (List.range obj0.elems.length)
          (protoAugment a (Observer.init a s))) (fun _ s5 =>
            some (.retOb (some s.observers.length), s5)) := by
      unfold Observer.new
      simp only [hself]
      exact if_pos hkind
    rw [hnew, hex]
    rfl
  · -- another object: its enumerable keys are made reactive
    have hks : ∀ k ∈ obj0.keys, ∃ p0 x, obj0.getOwnProperty k = some p0 ∧
        p0.enumerable = true ∧ p0.slot = .data x ∧
        ({ obj0 with __ob__ := some s.observers.length } : Obj).getOwnProperty k =
          some p0 := by
      intro k hk
      obtain ⟨p, hp, hen, hpk⟩ := mem_keys hk
      obtain ⟨-, x, hx⟩ := hgood.props p hp hen
      have hget := getOwnProperty_of_mem hgood.nodup hp
      rw [hpk] at hget
      exact ⟨p, x, hget, hen, hx, hget⟩
    obtain ⟨s5, hex, hstep, obj5, ho5, hob5, hconv, -, hchild⟩ :=
      walk_step hg m hok a obj0 s.observers.length hga h0 hkind obj0.keys
        (keys_nodup hgood.nodup) _ _ hinv3 hpend3 hself rfl hks N hN
    have hobs5 : s5.observers[s.observers.length]? =
        some { value := a, dep := s.deps.length, vmCount := 0 } := by
      obtain ⟨l, hl⟩ := hstep.observers
      rw [hl, c2]
      exact getElem?_append_some _ _ _ _ (List.getElem?_concat_length _ _)
    have hdone : FullyDone s0 s5 a := by
      refine ⟨obj0, obj5, _, _, h0, ho5, hob5, hobs5, rfl, ?_, ?_⟩
      · intro _ p0 hp0 hen
        exact hconv p0.key (keys_mem hp0 hen)
      · intro b hb
        rcases hb with ⟨hk, -⟩ | ⟨-, p, hp, hen, hsl⟩
        · exact absurd hk hkind
        · exact hchild p.key (keys_mem hp hen) p b (getOwnProperty_of_mem hgood.nodup hp) hsl
    have hclose : ObsStep g s0 (fun _ => False) s s5 :=
      mark_close hga hu (fun b hb => init_heap_other a s b hb) c7 c1 c2 hdeps3 c4 c5 c6 hstep
        hdone
    refine ⟨s5, ?_, hclose, ⟨_, _, ho5, hob5⟩⟩
    have hnew : Observer.new (exec N) a s =
        andThen (walk (exec N) a obj0.keys (Observer.init a s)) (fun _ s5 =>
          some (.retOb (some s.observers.length), s5)) := by
      unfold Observer.new
      simp only [hself]
      exact if_neg hkind
    rw [hnew, hex]
    rfl

/-- `observe` on a value of the graph, given what the Observer constructor does on an object
that is not observed yet. -/
theorem observe_of {g : Addr → Bool} {s0 : State} (hg : GoodGraph g s0) (s : State)
    (hinv : ObsInv g s0 s) (v : Val) (hv : ∀ b, v = Val.ref b → g b = true) (n : Nat)
    (hnew : ∀ a obj0, v = .ref a → s0.heap[a]? = some obj0 → s.heap[a]? = some obj0 →
      ∃ s', Observer.new (exec n) a s = some (.retOb (some s.observers.length), s') ∧
        ObsStep g s0 (fun _ => False) s s' ∧ observed s' a) :
    ∃ r s', exec (n + 1) (.observe v false) s = some (.retOb r, s') ∧
      ObsStep g s0 (fun _ => False) s s' ∧ ∀ b, v = Val.ref b → observed s' b := by
  cases v with
  | ref a =>
    have hga := hv a rfl
    obtain ⟨obj0, h0, hgood⟩ := hg.objs a hga
    obtain ⟨obj, ho, hrel⟩ := hinv.objs a obj0 hga h0
    have hkv : obj.kind ≠ .vnode := by
      rw [hrel.kind]
      rcases hgood.kind with h | h <;> rw [h] <;> decide
    cases hob : obj.__ob__ with
    | some i =>
      refine ⟨some i, s, ?_, obsStep_refl _ hinv, ?_⟩
      · simp [exec_succ, dispatch, observe, ho, hkv, hob, andThenOb]
      · intro b hb
        cases hb
        exact ⟨obj, i, ho, hob⟩
    | none =>
      have hobj : obj = obj0 := hrel.same hob
      subst hobj
      obtain ⟨s', hex, hstep, hobs⟩ := hnew a obj rfl h0 ho
      refine ⟨some s.observers.length, s', ?_, hstep, ?_⟩
      · have hcond : (s.shouldObserve && !s.env.isServerRendering &&
            (decide (obj.kind = .array) || decide (obj.kind = .plain)) && obj.extensible &&
              !obj._isVue) = true := by
          have h1 := hinv.flags.1
          have h2 := hinv.flags.2
          have h3 := hgood.extensible
          have h4 := hgood.notVue
          rcases hgood.kind with h | h <;> simp [h1, h2, h3, h4, h]
        simp only [exec_succ, dispatch, observe, ho, hkv, if_false, hob, hcond, if_true, hex,
          andThenOb]
        rfl
      · intro b hb
        cases hb
        exact hobs
  | undefined => exact ⟨none, s, rfl, obsStep_refl _ hinv, fun b hb => by cases hb⟩
  | null => exact ⟨none, s, rfl, obsStep_refl _ hinv, fun b hb => by cases hb⟩
  | bool x => exact ⟨none, s, rfl, obsStep_refl _ hinv, fun b hb => by cases hb⟩
  | num x => exact ⟨none, s, rfl, obsStep_refl _ hinv, fun b hb => by cases hb⟩
  | nan => exact ⟨none, s, rfl, obsStep_refl _ hinv, fun b hb => by cases hb⟩
  | str x => exact ⟨none, s, rfl, obsStep_refl _ hinv, fun b hb => by cases hb⟩

/-- With at most `m` objects of the graph still to observe and fuel `2 * m + 1`, `observe`
returns. -/
theorem observe_ok {g : Addr → Bool} {s0 : State} (hg : GoodGraph g s0) :
    ∀ m, ObsOK g s0 m := by
  intro m
  induction m with
  | zero =>
    intro s hinv hpend v hv n hn
    obtain ⟨n', rfl⟩ : ∃ n', n = n' + 1 := ⟨n - 1, by omega⟩
    refine observe_of hg s hinv v hv n' ?_
    intro a obj0 hva h0 ho
    have hga := hv a hva
    have hgood := goodGraph_obj hg hga h0
    have := pending_pos g s a hga (unobserved_of ho hgood.fresh)
    omega
  | succ m ih =>
    intro s hinv hpend v hv n hn
    obtain ⟨n', rfl⟩ : ∃ n', n = n' + 1 := ⟨n - 1, by omega⟩
    refine observe_of hg s hinv v hv n' ?_
    intro a obj0 hva h0 ho
    exact observe_fresh hg m ih s hinv hpend a obj0 (hv a hva) h0 ho n' (by omega)


theorem obsInv_init {g : Addr → Bool} {s0 : State} (hg : GoodGraph g s0) : ObsInv g s0 s0 :=
  { flags := hg.flags,
    objs := fun a obj0 _ h0 => ⟨obj0, h0, objRel_refl s0 obj0⟩,
    observers := fun j ob hj hgv => by
      have := hg.observers j ob hj
      rw [hgv] at this
      cases this }

theorem reach_in_graph {g : Addr → Bool} {s0 : State} (hg : GoodGraph g s0) {v a : Addr}
    (hv : g v = true) (h : Reach s0 v a) : g a = true := by
  induction h with
  | refl => exact hv
  | step b c obj _ hb hc ih => exact (goodGraph_obj hg ih hb).closed c hc

/-- After a part of the traversal that left the root observed, every object reachable from
the root is fully observed. -/
theorem reach_done {g : Addr → Bool} {s0 s' : State} (hg : GoodGraph g s0)
    (hstep : ObsStep g s0 (fun _ => False) s0 s') {v a : Addr} (hv : g v = true)
    (hroot : observed s' v) (h : Reach s0 v a) : FullyDone s0 s' a := by
  have hfresh : ∀ b, g b = true → unobserved s0 b = true := by
    intro b hb
    obtain ⟨obj, h1, h2⟩ := hg.objs b hb
    exact unobserved_of h1 h2.fresh
  induction h with
  | refl => exact hstep.newDone v hv (hfresh v hv) hroot
  | step b c obj hr hb hc ih =>
    have hgc : g c = true := reach_in_graph hg hv (Reach.step v b c obj hr hb hc)
    obtain ⟨obj0, obj1, i, ob, e1, -, -, -, -, -, e7⟩ := ih
    rw [hb] at e1
    cases e1
    exact hstep.newDone c hgc (hfresh c hgc) (e7 c hc)


theorem keys_of_shape {obj obj0 : Obj}
    (h : (obj.props.map fun p => (p.key, p.enumerable)) =
      obj0.props.map fun p => (p.key, p.enumerable)) : obj.keys = obj0.keys := by
  have hk : ∀ o : Obj, o.keys =
      (((o.props.map fun p => (p.key, p.enumerable)).filter fun q => q.2).map fun q => q.1) := by
    intro o
    unfold Obj.keys
    rw [List.filter_map, List.map_map]
    rfl
  rw [hk obj, hk obj0, h]

theorem goodObj_plain (g : Addr → Bool) (fields : List (Key × Val))
    (hn : (fields.map fun kv => kv.1).Nodup)
    (hc : ∀ (k : Key) (b : Addr), (k, Val.ref b) ∈ fields → g b = true) :
    GoodObj g (Obj.plain fields) := by
  refine { kind := Or.inl rfl, extensible := rfl, notVue := rfl, fresh := rfl, props := ?_,
           nodup := ?_, closed := ?_ }
  · intro p hp _
    simp only [Obj.plain, List.mem_map] at hp
    obtain ⟨kv, -, rfl⟩ := hp
    exact ⟨rfl, _, rfl⟩
  · simp only [Obj.plain, List.map_map]
    exact hn
  · intro b hb
    rcases hb with ⟨hk, -⟩ | ⟨-, p, hp, -, hs⟩
    · cases hk
    · simp only [Obj.plain, List.mem_map] at hp
      obtain ⟨kv, hkv, rfl⟩ := hp
      simp only [Slot.data.injEq] at hs
      refine hc kv.1 b ?_
      rw [← hs]
      exact hkv

theorem exGraph_good : GoodGraph (fun a => decide (a < 2)) exGraph := by
  refine { objs := ?_, flags := ⟨rfl, rfl⟩, observers := ?_ }
  · intro a ha
    have h2 : a < 2 := of_decide_eq_true ha
    have hcases : a = 0 ∨ a = 1 := by
      rcases Nat.lt_or_ge a 1 with h | h
      · exact Or.inl (Nat.lt_one_iff.mp h)
      · exact Or.inr (Nat.le_antisymm (Nat.lt_succ_iff.mp h2) h)
    rcases hcases with rfl | rfl
    · refine ⟨Obj.plain [("a", .num 1), ("b", .ref 1)], rfl, goodObj_plain _ _ (by decide) ?_⟩
      intro k b hb
      simp only [List.mem_cons, Prod.mk.injEq, List.mem_singleton, List.not_mem_nil,
        or_false] at hb
      rcases hb with ⟨-, h⟩ | ⟨-, h⟩
      · cases h
      · cases h
        rfl
    · refine ⟨Obj.plain [("c", .ref 0)], rfl, goodObj_plain _ _ (by decide) ?_⟩
      intro k b hb
      simp only [List.mem_singleton, Prod.mk.injEq] at hb
      obtain ⟨-, h⟩ := hb
      cases h
      rfl
  · intro j ob hj
    simp [exGraph, State.empty] at hj


/-! ## The round trip with values of a graph -/

/-- The round trip through `defineReactive(obj, k, v)` on a key that is absent from the
extensible object or is a configurable data property, once `observe(v)` has returned and left the object, the fresh
Dep and the (absent) active watcher as they were: the call returns, and a read of `obj[k]`
returns `v`.  A write `obj[k] = v2` of the same value (or of `NaN` over `NaN`) returns at
once, so that `obj[k]` still reads `v`, which is `v2`; a write of another value `v2`, once
`observe(v2)` has returned and left the object, the cell, the Dep and the active watcher as
they were, returns, and a read of `obj[k]` then returns `v2`. -/
theorem round_trip (n : Nat) (s : State) (a : Addr) (obj : Obj) (k : Key) (v v2 : Val)
    (ob1 : Option Nat) (s3 : State)
    (ho : s.heap[a]? = some obj)
    (hk : (obj.getOwnProperty k = none ∧ obj.extensible = true) ∨
      ∃ p x, obj.getOwnProperty k = some p ∧ p.configurable = true ∧ p.slot = .data x)
    (hobs : exec n (.observe v false) (Dep.new s).2 = some (.retOb ob1, s3))
    (h3a : s3.heap[a]? = some obj)
    (h3d : s3.deps[s.deps.length]? = some { id := s.depUid, subs := [] })
    (h3t : s3.target = none) :
    ∃ sR, defineReactive (exec n) a k (some v) none false s = some (.ret .undefined, sR) ∧
      sR = putReactive a k
        { obj := a, key := k, dep := s.deps.length, val := v, childOb := ob1, getter := none,
          setter := none, customSetter := none, shallow := false } s3 ∧
      exec (n + 2) (.propGet a k) sR = some (.ret v, afterRead sR s3.cells.length) ∧
      ((strictEq v2 v || (!strictEq v2 v2 && !strictEq v v)) = true →
        ∃ s7, exec (n + 2) (.propSet a k v2) (afterRead sR s3.cells.length) =
            some (.ret .undefined, s7) ∧
          exec (n + 2) (.propGet a k) s7 =
            some (.ret v, afterRead s7 s3.cells.length) ∧
          (v2 = v ∨ (v2 = .nan ∧ v = .nan))) ∧
      ((strictEq v2 v || (!strictEq v2 v2 && !strictEq v v)) = false →
        ∀ ob2 s6,
          exec n (.observe v2 false)
            (((afterRead sR s3.cells.length).log
              (.call (.reactiveSetter s3.cells.length) [v2])).modifyCell s3.cells.length
                fun x => { x with val := v2 }) = some (.retOb ob2, s6) →
          Untouched a s3.cells.length s.deps.length
            (((afterRead sR s3.cells.length).log
              (.call (.reactiveSetter s3.cells.length) [v2])).modifyCell s3.cells.length
                fun x => { x with val := v2 }) s6 →
          ∃ s7, exec (n + 2) (.propSet a k v2) (afterRead sR s3.cells.length) =
              some (.ret .undefined, s7) ∧
            exec (n + 2) (.propGet a k) s7 =
              some (.ret v2, afterRead s7 s3.cells.length)) := by
  obtain ⟨m, rfl⟩ := exec_pos hobs
  have hk1 : obj.getOwnProperty k = none ∨
      ∃ p x, obj.getOwnProperty k = some p ∧ p.configurable = true ∧ p.slot = .data x := by
    rcases hk with ⟨h, _⟩ | h
    · exact Or.inl h
    · exact Or.inr h
  have hk3 : (obj.getOwnProperty k = none ∧ obj.extensible = true) ∨
      ∃ old, obj.getOwnProperty k = some old ∧ old.configurable = true := by
    rcases hk with h | ⟨p, x, h1, h2, _⟩
    · exact Or.inl h
    · exact Or.inr ⟨p, h1, h2⟩
  have hdef := defineReactive_put (exec (m + 1)) a obj obj k v s ho hk1 ob1 s3 hobs h3a hk3
  refine ⟨_, hdef, rfl, ?_, ?_, ?_⟩
  · exact read_reactive (m + 1) _ a k _ s3.cells.length _ (putReactive_heap a k _ s3 obj h3a)
      (putProp_lookup obj (reactiveProperty k s3.cells.length)) (putReactive_cell a k _ s3) rfl
      (by exact h3t)
  · intro hsame
    have hw : exec (m + 1 + 2) (.propSet a k v2) (afterRead (putReactive a k
        { obj := a, key := k, dep := s.deps.length, val := v, childOb := ob1, getter := none,
          setter := none, customSetter := none, shallow := false } s3) s3.cells.length) =
        some (.ret .undefined, (afterRead (putReactive a k
        { obj := a, key := k, dep := s.deps.length, val := v, childOb := ob1, getter := none,
          setter := none, customSetter := none, shallow := false } s3) s3.cells.length).log
          (.call (.reactiveSetter s3.cells.length) [v2])) := by
      rw [propSet_reactive (m + 1) _ a k _ _ (some (.reactiveGetter s3.cells.length)) s3.cells.length
        v2 (by exact putReactive_heap a k _ s3 obj h3a)
        (putProp_lookup obj (reactiveProperty k s3.cells.length)) rfl]
      exact reactiveSetter_same _ s3.cells.length _ v2 v _ _
        (by exact putReactive_cell a k _ s3) (by simp [Cell.read]) hsame
    have hrc : ((afterRead (putReactive a k
        { obj := a, key := k, dep := s.deps.length, val := v, childOb := ob1, getter := none,
          setter := none, customSetter := none, shallow := false } s3) s3.cells.length).log
          (.call (.reactiveSetter s3.cells.length) [v2])).cells[s3.cells.length]? = some
        { obj := a, key := k, dep := s.deps.length, val := v, childOb := ob1, getter := none,
          setter := none, customSetter := none, shallow := false } :=
      putReactive_cell a k _ s3
    refine ⟨_, hw, ?_, ?_⟩
    · exact read_reactive (m + 1) _ a k _ s3.cells.length _
        (by exact putReactive_heap a k _ s3 obj h3a)
        (putProp_lookup obj (reactiveProperty k s3.cells.length)) hrc rfl (by exact h3t)
    · cases v <;> cases v2 <;> simp [strictEq] at hsame ⊢ <;> simp [hsame]
  · intro hne ob2 s6 hobs2 ⟨u1, u2, u3, u4⟩
    have hcell : ((((afterRead (putReactive a k
        { obj := a, key := k, dep := s.deps.length, val := v, childOb := ob1, getter := none,
          setter := none, customSetter := none, shallow := false } s3) s3.cells.length).log
        (.call (.reactiveSetter s3.cells.length) [v2]))).cells[s3.cells.length]? = some
        { obj := a, key := k, dep := s.deps.length, val := v, childOb := ob1, getter := none,
          setter := none, customSetter := none, shallow := false }) :=
      putReactive_cell a k _ s3
    have hset := (reactiveSetter_observe (exec (m + 1)) s3.cells.length _ v2 _ hcell rfl rfl
      (Or.inr rfl) hne).2 rfl ob2 s6 hobs2
    have hd6 : s6.deps[s.deps.length]? = some { id := s.depUid, subs := [] } := by
      rw [u3]
      exact h3d
    have hnot := notify_no_subs m s.deps.length _
      (s6.modifyCell s3.cells.length fun x => { x with childOb := ob2 }) (by exact hd6) rfl
    have hw : exec (m + 1 + 2) (.propSet a k v2) (afterRead (putReactive a k
        { obj := a, key := k, dep := s.deps.length, val := v, childOb := ob1, getter := none,
          setter := none, customSetter := none, shallow := false } s3) s3.cells.length) =
        some (.ret .undefined,
          (s6.modifyCell s3.cells.length fun x => { x with childOb := ob2 }).log
            (.notify s.deps.length)) := by
      rw [propSet_reactive (m + 1) _ a k _ _ (some (.reactiveGetter s3.cells.length)) s3.cells.length
        v2 (by exact putReactive_heap a k _ s3 obj h3a)
        (putProp_lookup obj (reactiveProperty k s3.cells.length)) rfl]
      rw [hset]
      exact hnot
    refine ⟨_, hw, ?_⟩
    · have h6a : ((s6.modifyCell s3.cells.length fun x => { x with childOb := ob2 }).log
          (.notify s.deps.length)).heap[a]? =
          some (obj.putProp (reactiveProperty k s3.cells.length)) := by
        show s6.heap[a]? = _
        rw [u1]
        exact putReactive_heap a k _ s3 obj h3a
      have h6c : ((s6.modifyCell s3.cells.length fun x => { x with childOb := ob2 }).log
          (.notify s.deps.length)).cells[s3.cells.length]? = some
          { obj := a, key := k, dep := s.deps.length, val := v2, childOb := ob2,
            getter := none, setter := none, customSetter := none, shallow := false } := by
        show (s6.cells.modify _ s3.cells.length)[s3.cells.length]? = _
        rw [List.getElem?_modify, u2]
        simp [State.modifyCell, State.log, afterRead, putReactive, State.modifyObj]
      have h6t : ((s6.modifyCell s3.cells.length fun x => { x with childOb := ob2 }).log
          (.notify s.deps.length)).target = none := by
        show s6.target = none
        rw [u4]
        exact h3t
      exact read_reactive (m + 1) _ a k _ s3.cells.length _ h6a
        (putProp_lookup obj (reactiveProperty k s3.cells.length)) h6c rfl h6t


theorem goodGraph_depNew {g : Addr → Bool} {s : State} (hg : GoodGraph g s) :
    GoodGraph g (Dep.new s).2 :=
  { objs := hg.objs, flags := hg.flags, observers := hg.observers }

/-- The invariant of the traversal survives a step that leaves the objects of the graph, the
existing cells and the Observers alone. -/
theorem obsInv_frame {g : Addr → Bool} {s0 s s' : State} (hinv : ObsInv g s0 s)
    (hf : s'.shouldObserve = s.shouldObserve ∧ s'.env = s.env)
    (hheap : ∀ b, g b = true → s'.heap[b]? = s.heap[b]?)
    (hcells : ∀ (c : Nat) (cell : Cell), s.cells[c]? = some cell → s'.cells[c]? = some cell)
    (hobs : s'.observers = s.observers) : ObsInv g s0 s' :=
  { flags := by
      rw [hf.1, hf.2]
      exact hinv.flags,
    objs := fun b obj0 hb h0 => by
      obtain ⟨obj, h1, h2⟩ := hinv.objs b obj0 hb h0
      refine ⟨obj, by rw [hheap b hb]; exact h1, ?_⟩
      exact { kind := h2.kind, extensible := h2.extensible, notVue := h2.notVue,
              elems := h2.elems, same := h2.same, shape := h2.shape,
              props := fun k => (h2.props k).imp id (fun hcv => by
                obtain ⟨p0, x, c, cell, e1, e2, e3, e4, e5, e6⟩ := hcv
                exact ⟨p0, x, c, cell, e1, e2, e3, e4, hcells c cell e5, e6⟩) },
    observers := fun j ob hj hgv => by
      rw [hobs] at hj
      obtain ⟨obj, h1, h2⟩ := hinv.observers j ob hj hgv
      exact ⟨obj, by rw [hheap _ hgv]; exact h1, h2⟩ }

/-- The pending count does not grow when the objects of the graph are left alone. -/
theorem pending_frame (g : Addr → Bool) (s s' : State) (hlen : s'.heap.length = s.heap.length)
    (hheap : ∀ b, g b = true → s'.heap[b]? = s.heap[b]?) : pending g s' ≤ pending g s := by
  unfold pending
  rw [hlen]
  apply filter_length_le_of_imp
  intro x _ hx
  simp only [Bool.and_eq_true] at hx ⊢
  refine ⟨hx.1, ?_⟩
  have := hx.2
  unfold unobserved at this ⊢
  rw [hheap x hx.1] at this
  exact this

theorem exHolder_good : GoodGraph (fun a => decide (a = 1 ∨ a = 2)) exHolder := by
  refine { objs := ?_, flags := ⟨rfl, rfl⟩, observers := ?_ }
  · intro a ha
    rcases of_decide_eq_true ha with rfl | rfl
    · refine ⟨Obj.plain [("c", .num 1)], rfl, goodObj_plain _ _ (by decide) ?_⟩
      intro k b hb
      simp at hb
    · refine ⟨Obj.plain [("d", .num 2)], rfl, goodObj_plain _ _ (by decide) ?_⟩
      intro k b hb
      simp at hb
  · intro j ob hj
    simp [exHolder, State.empty] at hj


/-! ## The claims -/

/-- C1: when a call `observe(v)` returns an Observer `ob`, that Observer is stored in
`v.__ob__`, and a second call `observe(v)` returns the same `ob` and changes nothing in the
state (no new Observer, no new accessor), whatever `shouldObserve` is at the second call. -/
theorem C1_observe_idempotent (n : Nat) (s : State) (a : Addr) (asRootData : Bool) (ob : Nat)
    (s1 : State)
    (h : exec n (.observe (.ref a) asRootData) s = some (.retOb (some ob), s1)) :
    (∃ obj, s1.heap[a]? = some obj ∧ obj.__ob__ = some ob) ∧
    ∀ (m : Nat) (b : Bool),
      exec (m + 1) (.observe (.ref a) false) { s1 with shouldObserve := b } =
        some (.retOb (some ob), { s1 with shouldObserve := b }) := by
  cases n with
  | zero => exact absurd h (by simp [exec])
  | succ n =>
    obtain ⟨obj, h1, h2, h3⟩ := observe_attached
      (fun ob k t s0 c s1 hc hok => exec_closed (keepsOb_closed a ob k) n t s0 c s1 hc hok) h
    refine ⟨⟨obj, h1, h2⟩, ?_⟩
    intro m b
    exact observe_again (exec m) a _ obj ob h1 h2 h3

/-- Witness of C1 on the cyclic graph `exGraph`. -/
theorem C1_observe_idempotent_witness :
    (∃ obj, exObserved.heap[0]? = some obj ∧ obj.__ob__ = some 0) ∧
    exec 1 (.observe (.ref 0) false) { exObserved with shouldObserve := false } =
      some (.retOb (some 0), { exObserved with shouldObserve := false }) :=
  ⟨(C1_observe_idempotent 9 exGraph 0 false 0 exObserved (by rfl)).1,
    (C1_observe_idempotent 9 exGraph 0 false 0 exObserved (by rfl)).2 0 false⟩

/-- C4: for a reactive property (setter `reactiveSetter` of cell `c`), writing a value that
is `===` to the current value (the closed-over `val`, or the result of the pre-existing
getter) returns at once: the resulting state is the one in which the current value was read,
so `dep.notify()`, the pre-existing setter and the `customSetter` are not called and `val`
and `childOb` are unchanged. -/
theorem C4_same_value_noop (n : Nat) (s : State) (o : Addr) (k : Key) (obj : Obj)
    (p : Property) (g : Option Fn) (c : Nat) (cell : Cell) (newVal : Val)
    (ho : s.heap[o]? = some obj) (hp : obj.getOwnProperty k = some p)
    (hslot : p.slot = .accessor g (some (.reactiveSetter c)))
    (hc : s.cells[c]? = some cell) :
    (cell.getter = none → strictEq newVal cell.val = true →
      exec (n + 2) (.propSet o k newVal) s =
        some (.ret .undefined, s.log (.call (.reactiveSetter c) [newVal]))) ∧
    (∀ f value s1, cell.getter = some f →
      exec n (.callFn f []) (s.log (.call (.reactiveSetter c) [newVal])) = some (.ret value, s1) →
      strictEq newVal value = true →
      exec (n + 2) (.propSet o k newVal) s = some (.ret .undefined, s1)) := by
  refine ⟨?_, ?_⟩
  · intro hg heq
    rw [propSet_reactive n s o k obj p g c newVal ho hp hslot]
    exact reactiveSetter_same _ c cell newVal cell.val _ _ (by simpa using hc)
      (by simp [Cell.read, hg]) (by simp [heq])
  · intro f value s1 hg hcall heq
    rw [propSet_reactive n s o k obj p g c newVal ho hp hslot]
    exact reactiveSetter_same _ c cell newVal value _ _ (by simpa using hc)
      (by simp only [Cell.read, hg]; exact hcall) (by simp [heq])


/-- Witness of C4: writing `2` to the reactive property `x` of `exReactiveX`, which holds
`2`, only records the call of the setter. -/
theorem C4_same_value_noop_witness :
    exec 2 (.propSet 0 "x" (.num 2)) exReactiveX =
      some (.ret .undefined, exReactiveX.log (.call (.reactiveSetter 0) [.num 2])) :=
  (C4_same_value_noop 0 exReactiveX 0 "x" _ _ _ 0 _ (.num 2) (by rfl) (by rfl) (by rfl)
    (by rfl)).1 (by rfl) (by rfl)

/-- C5 (amended): for a reactive property without pre-existing getter or setter (and
without custom setter) that holds a non-NaN value, the write of `NaN` stores it and calls
`dep.notify()` once; in every state in which the property holds `NaN` the write of `NaN` is
a no-op; so with no subscriber on its Dep, two successive writes of `NaN` record exactly one
`notify`. -/
theorem C5_nan_once (n : Nat) (s : State) (o : Addr) (k : Key) (obj : Obj) (p : Property)
    (g : Option Fn) (c : Nat) (cell : Cell)
    (ho : s.heap[o]? = some obj) (hp : obj.getOwnProperty k = some p)
    (hslot : p.slot = .accessor g (some (.reactiveSetter c)))
    (hc : s.cells[c]? = some cell) (hg : cell.getter = none) (hs : cell.setter = none)
    (hcs : s.env.production = true ∨ cell.customSetter = none)
    (hval : strictEq cell.val cell.val = true) :
    exec (n + 3) (.propSet o k .nan) s =
      exec (n + 1) (.notify cell.dep)
        (((s.log (.call (.reactiveSetter c) [.nan])).modifyCell c fun x =>
          { x with val := .nan }).modifyCell c fun x => { x with childOb := none }) ∧
    (∀ (m : Nat) (t : State) (cellt : Cell), t.heap[o]? = some obj →
      t.cells[c]? = some cellt → cellt.getter = none → cellt.val = .nan →
      exec (m + 2) (.propSet o k .nan) t =
        some (.ret .undefined, t.log (.call (.reactiveSetter c) [.nan]))) ∧
    (∀ dep, s.deps[cell.dep]? = some dep → dep.subs = [] →
      ∃ s1 s2, exec (n + 3) (.propSet o k .nan) s = some (.ret .undefined, s1) ∧
        exec (n + 3) (.propSet o k .nan) s1 = some (.ret .undefined, s2) ∧
        s2.trace = s.trace ++ [.call (.reactiveSetter c) [.nan], .notify cell.dep,
          .call (.reactiveSetter c) [.nan]]) := by
  have hfirst : exec (n + 3) (.propSet o k .nan) s =
      exec (n + 1) (.notify cell.dep)
        (((s.log (.call (.reactiveSetter c) [.nan])).modifyCell c fun x =>
          { x with val := .nan }).modifyCell c fun x => { x with childOb := none }) := by
    rw [propSet_reactive (n + 1) s o k obj p g c .nan ho hp hslot]
    exact reactiveSetter_store n c cell .nan _ (by simpa using hc) hg hs (by simpa using hcs)
      (by
        cases hv : cell.val <;> simp [hv, strictEq] at hval ⊢) (Or.inr rfl)
  have hsecond : ∀ (m : Nat) (t : State) (cellt : Cell), t.heap[o]? = some obj →
      t.cells[c]? = some cellt → cellt.getter = none → cellt.val = .nan →
      exec (m + 2) (.propSet o k .nan) t =
        some (.ret .undefined, t.log (.call (.reactiveSetter c) [.nan])) := by
    intro m t cellt hto htc htg htv
    rw [propSet_reactive m t o k obj p g c .nan hto hp hslot]
    exact reactiveSetter_same _ c cellt .nan .nan _ _ (by simpa using htc)
      (by simp [Cell.read, htg, htv]) (by simp [strictEq])
  refine ⟨hfirst, hsecond, ?_⟩
  intro dep hd hsubs
  have hn := notify_no_subs n cell.dep dep
    (((s.log (.call (.reactiveSetter c) [.nan])).modifyCell c fun x =>
      { x with val := .nan }).modifyCell c fun x => { x with childOb := none })
    (by simpa using hd) hsubs
  have h2 := hsecond (n + 1) _ { cell with val := .nan, childOb := none }
    (show ((((s.log (.call (.reactiveSetter c) [.nan])).modifyCell c fun x =>
      { x with val := .nan }).modifyCell c fun x => { x with childOb := none }).log
        (.notify cell.dep)).heap[o]? = some obj from ho)
    (by simp [hc]) hg rfl
  exact ⟨_, _, hfirst.trans hn, h2, by simp⟩


/-- Witness of the amended C5 on `exReactiveX`. -/
theorem C5_nan_once_witness :
    ∃ s1 s2, exec 3 (.propSet 0 "x" .nan) exReactiveX = some (.ret .undefined, s1) ∧
      exec 3 (.propSet 0 "x" .nan) s1 = some (.ret .undefined, s2) ∧
      s2.trace = exReactiveX.trace ++ [.call (.reactiveSetter 0) [.nan], .notify 0,
        .call (.reactiveSetter 0) [.nan]] :=
  (C5_nan_once 0 exReactiveX 0 "x" _ _ _ 0
    { obj := 0, key := "x", dep := 0, val := .num 2, childOb := none, getter := none,
      setter := none, customSetter := none, shallow := false }
    (by rfl) (by rfl) (by rfl) (by rfl) rfl rfl (Or.inr rfl) (by rfl)).2.2
    { id := 0, subs := [] } (by rfl) rfl

/-- Counterexample to C5 as stated: the property `x` of `exGetterOnlyReactive` is reactive
and holds `1` (its pre-existing getter returns it; there is no setter); two successive writes
of `NaN` return without any call of `notify`. -/
theorem C5_counterexample :
    (∃ s, exec 4 (.propGet 0 "x") exGetterOnlyReactive = some (.ret (.num 1), s)) ∧
    execAll 5 [.propSet 0 "x" .nan, .propSet 0 "x" .nan] exGetterOnlyReactive =
      some exGetterOnlyWritten ∧
    (∀ d, Event.notify d ∉ exGetterOnlyWritten.trace) := by
  refine ⟨⟨_, by rfl⟩, by rfl, ?_⟩
  intro d hd
  have : exGetterOnlyWritten.trace =
      [.call (.reactiveSetter 0) [.nan], .call (.code (.lit (.num 1))) [],
       .call (.reactiveSetter 0) [.nan], .call (.code (.lit (.num 1))) []] := by rfl
  rw [this] at hd
  simp at hd

/-- C9: for an active watcher `w` whose vm is not being destroyed, pushed once on
`vm._watchers` and subscribed at most once to each Dep of `w.deps`: after `w.teardown()` the
watcher does not occur in `vm._watchers`, the other entries keep their relative order, and
`w` occurs in the subs of none of the Deps in `w.deps`. -/
theorem C9_teardown_removes (s : State) (w : Nat) (wt : Watcher) (vm : Component)
    (hw : s.watchers[w]? = some wt) (ha : wt.active = true)
    (hvm : s.vms[wt.vm]? = some vm) (hd : vm._isBeingDestroyed = false)
    (h1 : vm._watchers.count w ≤ 1)
    (h2 : ∀ d ∈ wt.deps, ∀ dep, s.deps[d]? = some dep → dep.subs.count w ≤ 1) :
    (∃ vm', (Watcher.teardown w s).vms[wt.vm]? = some vm' ∧ w ∉ vm'._watchers ∧
        vm'._watchers = vm._watchers.filter fun x => decide (x ≠ w)) ∧
    (∃ wt', (Watcher.teardown w s).watchers[w]? = some wt' ∧ wt'.deps = wt.deps ∧
        wt'.active = false) ∧
    (∀ d ∈ wt.deps, ∀ dep', (Watcher.teardown w s).deps[d]? = some dep' → w ∉ dep'.subs) :=
  teardown_unsubscribes s w wt vm hw ha hvm hd h1 h2

/-- Witness of C9 on `exTeardown`. -/
theorem C9_teardown_removes_witness :
    (∃ vm', (Watcher.teardown 0 exTeardown).vms[exWatcher.vm]? = some vm' ∧
        0 ∉ vm'._watchers ∧
        vm'._watchers = ([0] : List Nat).filter fun x => decide (x ≠ 0)) ∧
    (∃ wt', (Watcher.teardown 0 exTeardown).watchers[0]? = some wt' ∧
        wt'.deps = exWatcher.deps ∧ wt'.active = false) ∧
    (∀ d ∈ exWatcher.deps, ∀ dep', (Watcher.teardown 0 exTeardown).deps[d]? = some dep' →
        0 ∉ dep'.subs) :=
  C9_teardown_removes exTeardown 0 exWatcher
    { _watchers := [0], _isBeingDestroyed := false, _watcher := none } rfl rfl rfl rfl
    (by decide) (by
      intro d hd dep hdep
      simp only [exWatcher, List.mem_singleton] at hd
      subst hd
      simp only [exTeardown, State.empty, List.getElem?_cons_zero, Option.some.injEq] at hdep
      subst hdep
      decide)

/-- C10: `teardown` is idempotent: a second `w.teardown()` leaves exactly the state produced
by the first (so `vm._watchers`, every Dep's subs and `w.active` are unchanged). -/
theorem C10_teardown_idempotent (s : State) (w : Nat) :
    Watcher.teardown w (Watcher.teardown w s) = Watcher.teardown w s :=
  teardown_idem w s

/-! ## The claims on watchers and notification -/

/-- C11 (amended): `update()` dispatches on the flags.  For a lazy watcher (whether or not
`sync` is set) it makes no call at all: the state changes only in `dirty = true` of this
watcher (and the ghost record of the call).  Otherwise, for a sync watcher, it is exactly one
call of `run()`.  Otherwise it is exactly one call of `queueWatcher(this)`, whatever the
callee does; with the scheduler deferring the flush (`config.async`), the call returns with
the watcher recorded as queued and without any invocation of a getter or a callback. -/
theorem C11_update_dispatch (call : Call) (n : Nat) (s : State) (w : Nat) (wt : Watcher)
    (hw : s.watchers[w]? = some wt) :
    (wt.lazy = true →
      Watcher.update call w s =
        some (.ret .undefined,
          { s with
            watchers := s.watchers.modify (fun x => { x with dirty := true }) w,
            trace := s.trace ++ [.update w] })) ∧
    (wt.lazy = false → wt.sync = true →
      Watcher.update call w s = call (.run w) (s.log (.update w))) ∧
    (wt.lazy = false → wt.sync = false →
      Watcher.update call w s = call (.queueWatcher w) (s.log (.update w)) ∧
      (s.env.async = true →
        ∃ s', exec (n + 2) (.update w) s = some (.ret .undefined, s') ∧
          s'.trace = s.trace ++ [.update w, .queue w] ∧ s'.watchers = s.watchers ∧
          s'.deps = s.deps ∧ s'.heap = s.heap ∧ s'.cells = s.cells)) := by
  refine ⟨?_, ?_, ?_⟩
  · intro hl
    simp only [Watcher.update, hw, hl, if_true]
    rfl
  · intro hl hs
    simp only [Watcher.update, hw, hl, hs, if_true]
    rfl
  · intro hl hs
    refine ⟨?_, fun ha => update_async n s w wt hw hl hs ha⟩
    simp only [Watcher.update, hw, hl, hs]
    rfl

/-- Witness of C11 on the sync watcher of `exTeardown`. -/
theorem C11_update_dispatch_witness :
    Watcher.update (exec 3) 0 exTeardown = exec 3 (.run 0) (exTeardown.log (.update 0)) :=
  (C11_update_dispatch (exec 3) 0 exTeardown 0 exWatcher rfl).2.1 rfl rfl

/-- C12: for an active watcher `w`, `run()` calls `get()` once; with `value` the result and
`old` the value the watcher then holds, the callback is called, once, with `(value, old)`, in
the state in which `w.value = value` has been stored, when `value !== old` or `value` is an
object or `w.deep`; otherwise `run()` returns the state that `get()` left, so the callback is
not called and `w.value` is unchanged. -/
theorem C12_run_fires (n : Nat) (s s1 : State) (w : Nat) (wt wt1 : Watcher) (value : Val)
    (hw : s.watchers[w]? = some wt) (ha : wt.active = true)
    (hget : exec n (.get w) s = some (.ret value, s1))
    (hw1 : s1.watchers[w]? = some wt1) :
    ((!strictEq value wt1.value || isObject value || wt.deep) = true →
      ((s1.modifyWatcher w fun x => { x with value := value }).log
          (.cb w value wt1.value)).watchers[w]? = some { wt1 with value := value } ∧
      ((s1.modifyWatcher w fun x => { x with value := value }).log
          (.cb w value wt1.value)).trace = s1.trace ++ [.cb w value wt1.value] ∧
      ∀ r s3,
        exec n (.callFn wt.cb [value, wt1.value])
          ((s1.modifyWatcher w fun x => { x with value := value }).log
            (.cb w value wt1.value)) = some (.ret r, s3) →
        exec (n + 1) (.run w) s = some (.ret .undefined, s3)) ∧
    ((!strictEq value wt1.value || isObject value || wt.deep) = false →
      exec (n + 1) (.run w) s = some (.ret .undefined, s1)) := by
  refine ⟨?_, ?_⟩
  · intro hc
    refine ⟨by simp [State.log, hw1], rfl, ?_⟩
    intro r s3 hcb
    exact run_fires n s s1 s3 w wt wt1 value (.ret r) hw ha hget hw1 hc hcb
  · intro hc
    exact run_quiet n s s1 w wt wt1 value hw ha hget hw1 hc

/-- Witness of C12: in `exWritten` the property holds `5` and the watcher still `1`; the
callback `noop` is called with `(5, 1)` and `run()` returns. -/
theorem C12_run_fires_witness :
    ∃ s3, exec 6 (.run 0) exWritten = some (.ret .undefined, s3) ∧
      s3.trace = exGot.trace ++ [.cb 0 (.num 5) (.num 1), .call noop [.num 5, .num 1]] :=
  ⟨_, ((C12_run_fires 5 exWritten exGot 0 _ _ (.num 5) (by rfl) (by rfl) (by rfl)
    (by rfl)).1 (by rfl)).2.2 .undefined _ (by rfl), by rfl⟩

/-- C14: when the getter of `w` throws `e` during `get()`: a user watcher records exactly one
`handleError(e)` and `get()` returns `undefined`; any other watcher makes `get()` throw `e`.
When the callback throws `e` in `run()`: a user watcher passes `e` to `handleError` and
`run()` returns; any other watcher makes `run()` throw `e`. -/
theorem C14_failures_surface (n : Nat) (s : State) (w : Nat) (wt : Watcher)
    (hw : s.watchers[w]? = some wt) :
    (∀ e s1,
      exec n (.callFn wt.getter []) ((pushTarget (some w) s).log (.getter w)) =
        some (.thrown e, s1) →
      (wt.user = true →
        ∃ s2, exec (n + 1) (.get w) s = some (.ret .undefined, s2) ∧
          s2.trace = s1.trace ++ [.handleError e]) ∧
      (wt.user = false →
        ∃ s2, exec (n + 1) (.get w) s = some (.thrown e, s2) ∧ s2.trace = s1.trace)) ∧
    (∀ value s1 wt1 e s3, wt.active = true →
      exec n (.get w) s = some (.ret value, s1) → s1.watchers[w]? = some wt1 →
      (!strictEq value wt1.value || isObject value || wt.deep) = true →
      exec n (.callFn wt.cb [value, wt1.value])
        ((s1.modifyWatcher w fun x => { x with value := value }).log
          (.cb w value wt1.value)) = some (.thrown e, s3) →
      (wt.user = true →
        exec (n + 1) (.run w) s = some (.ret .undefined, s3.log (.handleError e))) ∧
      (wt.user = false → exec (n + 1) (.run w) s = some (.thrown e, s3))) := by
  refine ⟨?_, ?_⟩
  · intro e s1 hg
    have h := get_thrown n s s1 w wt e hw hg
    refine ⟨?_, ?_⟩
    · intro hu
      rw [hu, if_pos rfl] at h
      refine ⟨_, h, ?_⟩
      rw [cleanupDeps_eq]
      cases wt.deep <;> rfl
    · intro hu
      rw [hu] at h
      refine ⟨_, h, ?_⟩
      rw [cleanupDeps_eq]
      cases wt.deep <;> rfl
  · intro value s1 wt1 e s3 ha hget hw1 hc hcb
    have h := run_fires n s s1 s3 w wt wt1 value (.thrown e) hw ha hget hw1 hc hcb
    refine ⟨?_, ?_⟩
    · intro hu
      rw [h, hu]
      rfl
    · intro hu
      rw [h, hu]
      rfl

/-- Witness of C14 on the user watcher of `exThrower`, whose getter throws `"boom"`. -/
theorem C14_failures_surface_witness :
    ∃ s2, exec 3 (.get 0) exThrower = some (.ret .undefined, s2) ∧
      s2.trace = [.getter 0, .call (.code (.throw (.lit (.str "boom")))) []] ++
        [.handleError (.str "boom")] :=
  ((C14_failures_surface 2 exThrower 0 exThrowing rfl).1 (.str "boom") _ (by rfl)).1 rfl

/-- C20: `observe(value)` returns nothing, leaves the state as it is (so no `__ob__` is
attached) and does not throw when `value` is not an object, is a VNode, or is not yet
observed and is non-extensible, neither an array nor a plain object, a Vue instance, or
observation is globally disabled. -/
theorem C20_observe_skips (n : Nat) (s : State) (v : Val) (asRootData : Bool)
    (h : isObject v = false ∨
      ∃ a obj, v = .ref a ∧ s.heap[a]? = some obj ∧
        (obj.kind = .vnode ∨
          (obj.__ob__ = none ∧
            (obj.extensible = false ∨ (obj.kind ≠ .array ∧ obj.kind ≠ .plain) ∨
              obj._isVue = true ∨ s.shouldObserve = false)))) :
    exec (n + 1) (.observe v asRootData) s = some (.retOb none, s) :=
  observe_skip (exec n) s v asRootData h

/-- Witness of C20 on the frozen object of `exFrozen`. -/
theorem C20_observe_skips_witness :
    exec 1 (.observe (.ref 0) true) exFrozen = some (.retOb none, exFrozen) :=
  C20_observe_skips 0 exFrozen (.ref 0) true
    (Or.inr ⟨0, _, rfl, rfl, Or.inr ⟨rfl, Or.inl rfl⟩⟩)

/-- C18 (amended): `notify()` works on a snapshot: the list it passes over is fixed when it
begins, a permutation of `subs` at that moment (so each watcher is in it once per
occurrence), and it calls `update()` on the items of that list, in order, until one of these
calls throws, whatever the callee does: with an arbitrary effect `f w` standing for an
`update()` of `w` that returns (and may remove later watchers from `subs` or add new ones)
the result is the fold of `f` over the snapshot.  On the interpreter, a pass that returns has
recorded `update()` of every item of the snapshot, in order. -/
theorem C18_notify_snapshot (s : State) (d : Nat) (dep : Dep) (hd : s.deps[d]? = some dep) :
    ∃ snapshot : List Nat, snapshot.Perm dep.subs ∧
      (∀ call : Call,
        Dep.notify call d s = Dep.notifyLoop call snapshot (s.log (.notify d))) ∧
      (∀ f : Nat → State → State,
        Dep.notify (updateWith f) d s =
          some (.ret .undefined, snapshot.foldl (fun acc w => f w acc) (s.log (.notify d)))) ∧
      (∀ n v s', exec (n + 1) (.notify d) s = some (.ret v, s') →
        ∃ l, s'.trace = s.trace ++ .notify d :: l ∧ (snapshot.map Event.update).Sublist l) := by
  refine ⟨if !s.env.production && !s.env.async then sortById s dep.subs else dep.subs, ?_,
    fun call => notify_eq call s d dep hd, ?_, ?_⟩
  · split
    · exact sortById_perm s dep.subs
    · exact List.Perm.refl _
  · intro f
    rw [notify_eq _ s d dep hd]
    exact notifyLoop_updateWith f _ _
  · intro n v s' h
    rw [exec_succ, dispatch, notify_eq _ s d dep hd] at h
    obtain ⟨l, h1, h2⟩ := notifyLoop_trace n _ _ _ _ h
    exact ⟨l, by rw [h1]; simp [State.log], h2⟩

/-- Witness of C18 on `exProd`, whose Dep 0 has the subscribers `[1, 0]`. -/
theorem C18_notify_snapshot_witness :
    ∃ snapshot : List Nat, snapshot.Perm [1, 0] ∧
      (∀ call : Call,
        Dep.notify call 0 exProd = Dep.notifyLoop call snapshot (exProd.log (.notify 0))) ∧
      (∀ f : Nat → State → State,
        Dep.notify (updateWith f) 0 exProd =
          some (.ret .undefined,
            snapshot.foldl (fun acc w => f w acc) (exProd.log (.notify 0)))) ∧
      (∀ n v s', exec (n + 1) (.notify 0) exProd = some (.ret v, s') →
        ∃ l, s'.trace = exProd.trace ++ .notify 0 :: l ∧
          (snapshot.map Event.update).Sublist l) :=
  C18_notify_snapshot exProd 0 { id := 0, subs := [1, 0] } rfl

/-- C19 (amended): outside production and with `config.async` off, `notify()` passes over
the subscribers sorted by ascending watcher id (a sorted permutation of `subs`), calls
`update()` on them in that order, and the sort works on the copy: the state in which the
first `update()` runs has the Dep store unchanged. -/
theorem C19_notify_sorted (s : State) (d : Nat) (dep : Dep) (hd : s.deps[d]? = some dep)
    (hp : s.env.production = false) (ha : s.env.async = false) :
    (sortById s dep.subs).Perm dep.subs ∧
    (sortById s dep.subs).Sorted (fun a b => watcherId s a ≤ watcherId s b) ∧
    (∀ call : Call,
      Dep.notify call d s = Dep.notifyLoop call (sortById s dep.subs) (s.log (.notify d))) ∧
    (s.log (.notify d)).deps = s.deps ∧
    (∀ f : Nat → State → State,
      Dep.notify (updateWith f) d s =
        some (.ret .undefined,
          (sortById s dep.subs).foldl (fun acc w => f w acc) (s.log (.notify d)))) ∧
    (∀ n v s', exec (n + 1) (.notify d) s = some (.ret v, s') →
      ∃ l, s'.trace = s.trace ++ .notify d :: l ∧
        ((sortById s dep.subs).map Event.update).Sublist l) := by
  have heq : ∀ call : Call,
      Dep.notify call d s = Dep.notifyLoop call (sortById s dep.subs) (s.log (.notify d)) := by
    intro call
    rw [notify_eq call s d dep hd, hp, ha]
    rfl
  refine ⟨sortById_perm s dep.subs, sortById_sorted s dep.subs, heq, rfl, ?_, ?_⟩
  · intro f
    rw [heq]
    exact notifyLoop_updateWith f _ _
  · intro n v s' h
    rw [exec_succ, dispatch, heq] at h
    obtain ⟨l, h1, h2⟩ := notifyLoop_trace n _ _ _ _ h
    exact ⟨l, by rw [h1]; simp [State.log], h2⟩

/-- Witness of the amended C19 on `exDev`: the subscribers `[1, 0]` are updated in the order
`[0, 1]` of their ids, and `subs` is still `[1, 0]` afterwards. -/
theorem C19_notify_sorted_witness :
    sortById exDev [1, 0] = [0, 1] ∧
    ∃ s', exec 2 (.notify 0) exDev = some (.ret .undefined, s') ∧
      s'.trace = [.notify 0, .update 0, .update 1] ∧
      s'.deps = [{ id := 0, subs := [1, 0] }] :=
  ⟨by decide, _,
    ((C19_notify_sorted exDev 0 { id := 0, subs := [1, 0] } rfl rfl rfl).2.2.1 (exec 1)).trans
      (by rfl), by rfl, by rfl⟩

/-- Counterexample to C19 as stated: in a production build with `config.async` off, the
subscribers `[1, 0]` of ids `2` and `1` are updated in subscription order, not in id order. -/
theorem C19_counterexample :
    exProd.env.async = false ∧ watcherId exProd 0 < watcherId exProd 1 ∧
    ∃ s', exec 2 (.notify 0) exProd = some (.ret .undefined, s') ∧
      s'.trace = [.notify 0, .update 1, .update 0] :=
  ⟨rfl, by decide, _, by rfl, by rfl⟩

/-- C16: for the lazy watcher `w` of a computed property.  When `w` is dirty (as after its
construction, and after `update()`, which sets `dirty`), a read is one `evaluate()`: with `v`
the result of its one `get()`, the read returns `v` and leaves `w.value = v` and `dirty`
cleared, with no event after those of that `get()`.  When `w` is not dirty, any number `k` of
reads returns the cached value `k` times without any call (the trace is unchanged) and leaves
the value and the flag as they are. -/
theorem C16_computed_cache (n : Nat) (s : State) (w : Nat) (wt : Watcher)
    (hw : s.watchers[w]? = some wt) :
    (wt.dirty = true → ∀ v s1 wt1, exec n (.get w) s = some (.ret v, s1) →
      s1.watchers[w]? = some wt1 →
      ∃ s' wt', computedGetter (exec (n + 1)) (some w) s = some (.ret v, s') ∧
        s'.trace = s1.trace ∧ s'.watchers[w]? = some wt' ∧ wt'.value = v ∧
        wt'.dirty = false) ∧
    (wt.dirty = false → ∀ (call : Call) (k : Nat),
      ∃ s' wt', computedReads call w k s = some (List.replicate k wt.value, s') ∧
        s'.trace = s.trace ∧ s'.watchers[w]? = some wt' ∧ wt'.value = wt.value ∧
        wt'.dirty = false) ∧
    (wt.lazy = true → ∀ call : Call,
      ∃ s', Watcher.update call w s = some (.ret .undefined, s') ∧
        s'.watchers[w]? = some { wt with dirty := true }) := by
  refine ⟨?_, ?_, ?_⟩
  · intro hd v s1 wt1 hg hw1
    obtain ⟨s', wt', h1, h2, h3, h4, h5, -⟩ := computedGetter_dirty n w s s1 wt wt1 v hw hd hg hw1
    exact ⟨s', wt', h1, h2, h3, h4, h5⟩
  · intro hd call k
    exact computedReads_clean call w k s wt hw hd
  · intro hl call
    refine ⟨(s.log (.update w)).modifyWatcher w fun x => { x with dirty := true },
      by simp only [Watcher.update, hw, hl, if_true], ?_⟩
    simp [State.modifyWatcher, State.log, hw]

/-- Witness of C16 on `exComputed`: the first read of the computed property `() => obj.x`
evaluates the getter and returns `1`. -/
theorem C16_computed_cache_witness :
    ∃ s' wt', computedGetter (exec 6) (some 0) exComputed = some (.ret (.num 1), s') ∧
      s'.trace = exComputedGot.trace ∧ s'.watchers[0]? = some wt' ∧ wt'.value = .num 1 ∧
      wt'.dirty = false :=
  (C16_computed_cache 5 exComputed 0 _ (by rfl)).1 (by rfl) (.num 1) exComputedGot _
    (by rfl) (by rfl)
/-! ## The claims on reactive properties, `set`, `del`, events and batching -/

/-- C21: for a key whose existing property is not configurable, `defineReactive` returns at
once, whatever its other arguments and without calling anything (so the value is not
observed): the state it returns differs from the one it was called in only by the Dep it
created first; the heap (so the descriptor and the value), the cells (no accessor) and the
Observers are unchanged, and it does not throw.  A later write to such a data property
changes the heap only: no call is recorded and no subscriber list changes. -/
theorem C21_nonconfigurable_skipped (call : Call) (n : Nat) (s : State) (a : Addr) (obj : Obj)
    (key : Key) (p : Property) (val : Option Val) (cs : Option Fn) (shallow : Bool)
    (ho : s.heap[a]? = some obj) (hp : obj.getOwnProperty key = some p)
    (hc : p.configurable = false) :
    defineReactive call a key val cs shallow s = some (.ret .undefined, (Dep.new s).2) ∧
    (Dep.new s).2.heap = s.heap ∧ (Dep.new s).2.cells = s.cells ∧
    (Dep.new s).2.observers = s.observers ∧ (Dep.new s).2.trace = s.trace ∧
    (Dep.new s).2.watchers = s.watchers ∧
    (∀ x v, p.slot = .data x →
      ∃ s', exec (n + 1) (.propSet a key v) (Dep.new s).2 = some (.ret .undefined, s') ∧
        s'.trace = s.trace ∧ s'.deps = (Dep.new s).2.deps ∧ s'.cells = s.cells) := by
  refine ⟨defineReactive_skip call s a obj key p val cs shallow ho hp hc, rfl, rfl, rfl, rfl,
    rfl, ?_⟩
  intro x v hx
  cases hw : p.writable with
  | true => exact ⟨_, propSet_data n (Dep.new s).2 a key obj p x v ho hp hx hw, rfl, rfl, rfl⟩
  | false =>
    exact ⟨_, propSet_readonly n (Dep.new s).2 a key obj p x v ho hp hx hw, rfl, rfl, rfl⟩

/-- Witness of C21 on `exSealed`: `defineReactive(obj, 'x')` only creates its Dep. -/
theorem C21_nonconfigurable_skipped_witness :
    exec 1 (.defineReactive 0 "x" none none false) exSealed =
      some (.ret .undefined, (Dep.new exSealed).2) :=
  (C21_nonconfigurable_skipped (exec 0) 0 exSealed 0 _ "x" _ none none false (by rfl) (by rfl)
    (by rfl)).1

/-- C22: for a configurable property with a getter `g` and no setter, `defineReactive(obj,
key)` installs the reactive accessor of a cell that keeps `g` and no setter.  In every later
state, a write calls `g` for the current value and then returns: at once when the value is
the same; otherwise after the custom setter, if there is one outside production.  The state
it returns is the one those calls left, so nothing is stored and `dep.notify()` is not
called.  A read that returns yields the result of `g`. -/
theorem C22_getter_only_ignored (n : Nat) (s : State) (a : Addr) (obj : Obj) (key : Key)
    (p : Property) (g : Fn) (cs : Option Fn) (shallow : Bool)
    (ho : s.heap[a]? = some obj) (hp : obj.getOwnProperty key = some p)
    (hc : p.configurable = true) (hslot : p.slot = .accessor (some g) none) :
    exec (n + 2) (.defineReactive a key none cs shallow) s =
      some (.ret .undefined,
        installCell a key
          { obj := a, key := key, dep := s.deps.length, val := .undefined, childOb := none,
            getter := some g, setter := none, customSetter := cs, shallow := shallow }
          (Dep.new s).2) ∧
    ∀ t, Persists (installCell a key
          { obj := a, key := key, dep := s.deps.length, val := .undefined, childOb := none,
            getter := some g, setter := none, customSetter := cs, shallow := shallow }
          (Dep.new s).2) t →
      ∃ cellt, t.cells[s.cells.length]? = some cellt ∧ cellt.getter = some g ∧
        cellt.setter = none ∧
        ∀ (call : Call) (newVal value : Val) (t1 : State),
          call (.callFn g []) t = some (.ret value, t1) →
          ((strictEq newVal value || (!strictEq newVal newVal && !strictEq value value))
              = true →
            reactiveSetter call s.cells.length newVal t = some (.ret .undefined, t1)) ∧
          (t1.env.production = true ∨ cs = none →
            reactiveSetter call s.cells.length newVal t = some (.ret .undefined, t1)) ∧
          (∀ f u t2,
            (strictEq newVal value || (!strictEq newVal newVal && !strictEq value value))
              = false →
            t1.env.production = false → cs = some f →
            call (.callFn f []) (t1.log (.customSetter s.cells.length)) = some (.ret u, t2) →
            reactiveSetter call s.cells.length newVal t = some (.ret .undefined, t2)) ∧
          (∀ r t', reactiveGetter call s.cells.length t = some (.ret r, t') → r = value) := by
  refine ⟨defineReactive_getterOnly n s a obj key p g cs shallow ho hp hc hslot, ?_⟩
  intro t hper
  have hcell : (installCell a key
      { obj := a, key := key, dep := s.deps.length, val := .undefined, childOb := none,
        getter := some g, setter := none, customSetter := cs, shallow := shallow }
      (Dep.new s).2).cells[s.cells.length]? =
        some { obj := a, key := key, dep := s.deps.length, val := .undefined,
               childOb := none, getter := some g, setter := none, customSetter := cs,
               shallow := shallow } := by
    simp [installCell, State.modifyObj, Dep.new]
  obtain ⟨cellt, h1, -, -, -, h4, h5, h6, -⟩ := hper.cells s.cells.length _ hcell
  refine ⟨cellt, h1, h4, h5, ?_⟩
  intro call newVal value t1 hcur
  have hread : cellt.read call t = some (.ret value, t1) := by
    simp only [Cell.read, h4]
    exact hcur
  refine ⟨?_, ?_, ?_, ?_⟩
  · intro hsame
    exact reactiveSetter_same call _ cellt newVal value t t1 h1 hread hsame
  · intro hcs
    cases hsame : (strictEq newVal value ||
        (!strictEq newVal newVal && !strictEq value value)) with
    | true => exact reactiveSetter_same call _ cellt newVal value t t1 h1 hread hsame
    | false =>
      exact (reactiveSetter_getterOnly call _ cellt g newVal value t t1 h1 h4 h5 hcur hsame).1
        (hcs.imp id fun h => by rw [h6, h])
  · intro f u t2 hne hprod hf hcall
    exact (reactiveSetter_getterOnly call _ cellt g newVal value t t1 h1 h4 h5 hcur hne).2
      f u t2 hprod (by rw [h6, hf]) hcall
  · intro r t' hr
    exact reactiveGetter_value call _ cellt value r t t1 t' h1 hread hr

/-- Witness of C22 on `exGetterOnly`, whose property `x` has the getter `() => 1`. -/
theorem C22_getter_only_ignored_witness :
    exec 2 (.defineReactive 0 "x" none none false) exGetterOnly =
      some (.ret .undefined,
        installCell 0 "x"
          { obj := 0, key := "x", dep := exGetterOnly.deps.length, val := .undefined,
            childOb := none, getter := some (.code (.lit (.num 1))), setter := none,
            customSetter := none, shallow := false }
          (Dep.new exGetterOnly).2) :=
  (C22_getter_only_ignored 0 exGetterOnly 0 _ "x" _ (.code (.lit (.num 1))) none false
    (by rfl) (by rfl) (by rfl) (by rfl)).1
/-! ## Claims on `set`, `del`, events and batching -/

/-- C29: the closure `on` of `$once(e, f)` removes itself with `vm.$off(e, on)` and then
calls `f`; without re-entrant emits, two emits of `e` invoke `f` once, with the arguments of
the first.  With a handler `h1` registered before `$once(e, f)` whose body emits `e` again, a
single `vm.$emit('e', 1)` invokes `f` twice: the nested emit runs the wrapper (`f` gets `2`),
and the outer emit, whose copy of the handler list still holds the wrapper, runs it again
(`f` gets `1`). -/
theorem C29_once_reentrant :
    (∀ (call : EvCall) id e f args vm,
      invokeHandler call (.wrapper id e f) args vm =
        call (.invoke f args) (vmOff (some e) (some (.wrapper id e f)) vm)) ∧
    (exOnceAlone.cbs "e" = some [.wrapper 0 "e" (.fn 1)] ∧
      ∃ s1 s2, execEv 6 (.emit "e" [.num 1]) exOnceAlone = some s1 ∧ s1.cbs "e" = some [] ∧
        execEv 6 (.emit "e" [.num 2]) s1 = some s2 ∧ s2.callsOf (.fn 1) = [[.num 1]]) ∧
    (exOnce.cbs "e" = some [.fn 0, .wrapper 0 "e" (.fn 1)] ∧
      ∃ s', execEv 6 (.emit "e" [.num 1]) exOnce = some s' ∧
        s'.callsOf (.fn 1) = [[.num 2], [.num 1]] ∧ s'.cbs "e" = some []) :=
  ⟨fun _ _ _ _ _ _ => rfl, ⟨by rfl, _, _, by rfl, by rfl, by rfl, by rfl⟩,
    ⟨by rfl, _, by rfl, by rfl, by rfl⟩⟩

/-- C30 (amended): a watcher `w` that is neither lazy nor sync is the only subscriber of the
Deps of two different reactive properties (cells `c1` and `c2`); the scheduler is idle and
flushes are deferred (`config.async`).  Two writes that change the properties call
`w.update()` twice, and `queueWatcher` puts `w` in the pending batch once: after the writes
the queue is `[w]`, the pending ids are `[w.id]`, and the trace has grown by the two
notifications, the two updates and the two requests, without any getter or callback.  The
flush is then one `run` of `w`: when that run leaves the queue empty the flush ends after it;
the run evaluates the getter once and invokes the callback once when the new value differs
from the old one, is an object, or the watcher is deep, and not at all otherwise. -/
theorem C30_batching (n : Nat) (s : State) (w c1 c2 : Nat) (wt : Watcher)
    (cell1 cell2 : Cell) (dep1 dep2 : Dep) (v1 v2 : Val)
    (hw : s.watchers[w]? = some wt) (hl : wt.lazy = false) (hsy : wt.sync = false)
    (ha : s.env.async = true) (hf : s.flushing = false) (hwa : s.waiting = false)
    (hq : s.queue = []) (hh : s.has = [])
    (hc1 : s.cells[c1]? = some cell1) (hc2 : s.cells[c2]? = some cell2) (hcc : c1 ≠ c2)
    (hg1 : cell1.getter = none) (hs1 : cell1.setter = none)
    (hcs1 : s.env.production = true ∨ cell1.customSetter = none)
    (hg2 : cell2.getter = none) (hs2 : cell2.setter = none)
    (hcs2 : s.env.production = true ∨ cell2.customSetter = none)
    (hd1 : s.deps[cell1.dep]? = some dep1) (hsub1 : dep1.subs = [w])
    (hd2 : s.deps[cell2.dep]? = some dep2) (hsub2 : dep2.subs = [w])
    (hne1 : (strictEq v1 cell1.val || (!strictEq v1 v1 && !strictEq cell1.val cell1.val)) = false)
    (hne2 : (strictEq v2 cell2.val || (!strictEq v2 v2 && !strictEq cell2.val cell2.val)) = false)
    (hv1 : isObject v1 = false) (hv2 : isObject v2 = false) :
    reactiveSetter (exec (n + 3)) c1 v1 s =
      some (.ret .undefined, (s.written c1 v1 cell1.dep w).enqueued w wt.id) ∧
    reactiveSetter (exec (n + 3)) c2 v2 ((s.written c1 v1 cell1.dep w).enqueued w wt.id) =
      some (.ret .undefined, s.batched c1 v1 cell1.dep c2 v2 cell2.dep w wt.id) ∧
    (s.batched c1 v1 cell1.dep c2 v2 cell2.dep w wt.id).queue = [w] ∧
    (s.batched c1 v1 cell1.dep c2 v2 cell2.dep w wt.id).has = [wt.id] ∧
    (s.batched c1 v1 cell1.dep c2 v2 cell2.dep w wt.id).trace =
      s.trace ++ [.notify cell1.dep, .update w, .queue w, .notify cell2.dep, .update w,
        .queue w] ∧
    (∀ s3, exec (n + 1) (.run w)
        ((s.batched c1 v1 cell1.dep c2 v2 cell2.dep w wt.id).flushingAt wt.id) =
          some (.ret .undefined, s3) → s3.queue = [] →
      exec (n + 3) .flushSchedulerQueue (s.batched c1 v1 cell1.dep c2 v2 cell2.dep w wt.id) =
        some (.ret .undefined, s3.flushed)) ∧
    (∀ value sg wt1, wt.active = true →
      exec n (.get w) ((s.batched c1 v1 cell1.dep c2 v2 cell2.dep w wt.id).flushingAt wt.id) =
        some (.ret value, sg) →
      sg.watchers[w]? = some wt1 →
      ((!strictEq value wt1.value || isObject value || wt.deep) = true → ∀ r s3,
        exec n (.callFn wt.cb [value, wt1.value])
          ((sg.modifyWatcher w fun x => { x with value := value }).log
            (.cb w value wt1.value)) = some (.ret r, s3) →
        s3.queue = [] →
        exec (n + 3) .flushSchedulerQueue
          (s.batched c1 v1 cell1.dep c2 v2 cell2.dep w wt.id) =
            some (.ret .undefined, s3.flushed)) ∧
      ((!strictEq value wt1.value || isObject value || wt.deep) = false → sg.queue = [] →
        exec (n + 3) .flushSchedulerQueue
          (s.batched c1 v1 cell1.dep c2 v2 cell2.dep w wt.id) =
            some (.ret .undefined, sg.flushed))) := by
  obtain ⟨h1, h2⟩ := batched_write n s w c1 c2 wt cell1 cell2 dep1 dep2 v1 v2 hw hl hsy ha hf
    hwa hh hc1 hc2 hcc hg1 hs1 hcs1 hg2 hs2 hcs2 hd1 hsub1 hd2 hsub2 hne1 hne2 hv1 hv2
  have hqb : (s.batched c1 v1 cell1.dep c2 v2 cell2.dep w wt.id).queue = [w] := by
    show s.queue ++ [w] = [w]
    rw [hq]; rfl
  have hwb : (s.batched c1 v1 cell1.dep c2 v2 cell2.dep w wt.id).watchers[w]? = some wt := hw
  refine ⟨h1, h2, hqb, ?_, ?_, ?_, ?_⟩
  · show wt.id :: s.has = [wt.id]
    rw [hh]
  · simp [State.batched, State.written, State.enqueued, State.log]
  · intro s3 hrun hq3
    exact flush_once n _ s3 w wt hwb hqb hrun hq3
  · intro value sg wt1 hact hget hw1
    constructor
    · intro hc r s3 hcb hq3
      refine flush_once n _ s3 w wt hwb hqb ?_ hq3
      exact run_fires n _ sg s3 w wt wt1 value (.ret r) (by exact hw) hact hget hw1 hc hcb
    · intro hc hq3
      refine flush_once n _ sg w wt hwb hqb ?_ hq3
      exact run_quiet n _ sg w wt wt1 value (by exact hw) hact hget hw1 hc

/-- Witness of C30 on `exBatch`: the writes `obj.a = 5` and `obj.b = 6` leave the watcher
queued once, and the flush evaluates its getter once and invokes its callback once, with the
new value `5` and the old value `1`. -/
theorem C30_batching_witness :
    reactiveSetter (exec (6 + 3)) 0 (.num 5) exBatch =
      some (.ret .undefined, (exBatch.written 0 (.num 5) 1 0).enqueued 0 1) ∧
    (exBatch.batched 0 (.num 5) 1 1 (.num 6) 2 0 1).queue = [0] ∧
    ∃ s3 : State, exec (6 + 3) .flushSchedulerQueue (exBatch.batched 0 (.num 5) 1 1 (.num 6) 2 0 1) =
        some (.ret .undefined, s3.flushed) ∧
      wEvents 0 s3.trace = [.getter 0, .getter 0, .cb 0 (.num 5) (.num 1)] :=
  have h := C30_batching 6 exBatch 0 0 1
    { vm := 0, cb := noop, id := 1, deep := false, user := false, lazy := false,
      sync := false, dirty := false, active := true, deps := [2, 1], newDeps := [],
      depIds := [2, 1], newDepIds := [],
      getter := .code (.seq (.prop (.lit (.ref 0)) "b") (.prop (.lit (.ref 0)) "a")),
      value := .num 1 }
    { obj := 0, key := "a", dep := 1, val := .num 1, childOb := none, getter := none,
      setter := none, customSetter := none, shallow := false }
    { obj := 0, key := "b", dep := 2, val := .num 2, childOb := none, getter := none,
      setter := none, customSetter := none, shallow := false }
    { id := 1, subs := [0] } { id := 2, subs := [0] } (.num 5) (.num 6)
    (by rfl) rfl rfl (by rfl) (by rfl) (by rfl) (by rfl) (by rfl) (by rfl) (by rfl)
    (by decide) rfl rfl (Or.inr rfl) rfl rfl (Or.inr rfl) (by rfl) rfl (by rfl) rfl
    (by rfl) (by rfl) rfl rfl
  ⟨h.1, h.2.2.1, _, h.2.2.2.2.2.1 _ (by rfl) (by rfl), by rfl⟩

/-- Counterexample to C30 as stated: the watcher of `exBatchConst` is neither lazy nor sync
and is subscribed to the Deps of `a` and `b`; its getter reads both and returns `0`.  The
writes `obj.a = 5; obj.b = 6` call its `update` twice, and the flush evaluates the getter
once and does not invoke the callback. -/
theorem C30_counterexample :
    (∃ wt, exBatchConst.watchers[0]? = some wt ∧ wt.lazy = false ∧ wt.sync = false ∧
      wt.active = true ∧ wt.deps = [1, 2]) ∧
    exBatchConst.deps = [{ id := 0, subs := [] }, { id := 1, subs := [0] },
      { id := 2, subs := [0] }] ∧
    execAll 9 [.propSet 0 "a" (.num 5), .propSet 0 "b" (.num 6), .flushSchedulerQueue]
      exBatchConst = some (exBatchRun exBatchConst) ∧
    (exBatchRun exBatchConst).trace.filter (fun e => decide (e = .update 0)) =
      [.update 0, .update 0] ∧
    wEvents 0 (exBatchRun exBatchConst).trace = [.getter 0, .getter 0] ∧
    (exBatchRun exBatchConst).queue = [] ∧ (exBatchRun exBatchConst).flushing = false :=
  ⟨⟨_, by rfl, by rfl, by rfl, by rfl, by rfl⟩, by rfl, by decide!, by decide!, by decide!,
    by decide!, by decide!⟩

/-- C25 (amended): for an extensible array target, an index `i` below `2^32 - 1` and a value
`val`, `set(target, i, val)` is `target.splice(i, 1, val)` on the array padded to the length
`i`, followed by `return val`.  The items that the native splice leaves are `setItems`: `val`
is at index `i`, the length is `max(old length, i + 1)`, and every other item below the old
length is unchanged.  On an array that is not augmented `set` returns `val` in the state
with these items; on an augmented one the intercepted `splice` then observes `val` and
notifies the Dep of the Observer, from the state with these items, and when these calls
return `set` returns `val`.  On a frozen array `set` throws a TypeError and changes
nothing. -/
theorem C25_set_index (call : Call) (s : State) (target : Addr) (arr : Obj) (i : Nat)
    (val : Val) (ht : s.heap[target]? = some arr) (hk : arr.kind = .array)
    (hi : i < maxArrayLength) (hlen : arr.elems.length ≤ maxArrayLength) :
    (setItems arr.elems i val)[i]? = some val ∧
    (setItems arr.elems i val).length = max arr.elems.length (i + 1) ∧
    (∀ j, j < arr.elems.length → j ≠ i → (setItems arr.elems i val)[j]? = arr.elems[j]?) ∧
    (arr.extensible = true →
      set call target (.index i) val s =
        andThen (splice call target i 1 [val]
          (s.setElems target (arr.elems ++ List.replicate (i - arr.elems.length) .undefined)))
          (fun _ s2 => some (.ret val, s2))) ∧
    (arr.extensible = true → arr.augmented = false →
      set call target (.index i) val s =
        some (.ret val, s.setElems target (setItems arr.elems i val))) ∧
    (arr.extensible = true → arr.augmented = true →
      set call target (.index i) val s =
        andThen (mutatorTail call target [val]
          (s.setElems target (setItems arr.elems i val))) fun _ s2 => some (.ret val, s2)) ∧
    (arr.isFrozen = true → set call target (.index i) val s = some (.thrown typeError, s)) := by
  refine ⟨spliceItems_at _ _ _, spliceItems_length _ _ _,
    fun j hj hji => spliceItems_other _ _ _ _ hj hji,
    fun he => set_index_splice _ _ _ _ _ _ ht hk he hi hlen, ?_, ?_,
    fun hf => set_index_frozen call target arr i val s ht hk hf⟩
  · intro he ha
    rw [set_index call target arr i val s ht hk he hi hlen]
    simp [ha]
  · intro he ha
    rw [set_index call target arr i val s ht hk he hi hlen]
    simp [ha]

/-- Witness of C25 on the observed array `[1, 2]`: `set(arr, 3, 9)` is the tail of the
intercepted splice on the items `[1, 2, undefined, 9]`, and it returns `9`. -/
theorem C25_set_index_witness :
    set (exec 5) 0 (.index 3) (.num 9) exArrObserved =
      andThen (mutatorTail (exec 5) 0 [.num 9]
        (exArrObserved.setElems 0 (setItems [.num 1, .num 2] 3 (.num 9)))) (fun _ s2 =>
          some (.ret (.num 9), s2)) ∧
    setItems [.num 1, .num 2] 3 (.num 9) = [.num 1, .num 2, .undefined, .num 9] ∧
    set (exec 5) 0 (.index 3) (.num 9) exArrObserved = some (.ret (.num 9), exArrSet) :=
  ⟨(C25_set_index (exec 5) exArrObserved 0
      { kind := .array, extensible := true, _isVue := false, props := [],
        elems := [.num 1, .num 2], __ob__ := some 0, augmented := true }
      3 (.num 9) (by rfl) rfl (by decide) (by decide)).2.2.2.2.2.1 rfl rfl,
    by decide, by rfl⟩

/-- Counterexample to C25 as stated: the key `4294967296` is a non-negative integer, and
`set(arr, 4294967296, 9)` on the array `[1, 2]` does not return: the assignment of the length
throws a RangeError and the array is unchanged. -/
theorem C25_counterexample :
    set (exec 5) 0 (.index 4294967296) (.num 9) exArr = some (.thrown rangeError, exArr) := by
  rfl

/-- C26 (amended): for a target that is not an array and a key that is a property of the
object itself and not a name of `Object.prototype`, `key in target` holds and `set` is the
strict assignment `target[key] = val` followed by `return val`.  On a writable data property
the value is replaced and nothing else changes; on a data property that is not writable and
on an accessor without setter the assignment throws a TypeError and nothing changes; on a
reactive property the assignment is the call of its reactive setter.  Whenever `set`
completes, every reactive property and every Dep that existed is still there, a reactive
property with its Dep. -/
theorem C26_set_existing (n : Nat) (s : State) (target : Addr) (obj : Obj) (key : PropKey)
    (val : Val) (p : Property) (ht : s.heap[target]? = some obj) (hk : obj.kind ≠ .array)
    (hp : obj.getOwnProperty key.toKey = some p) (hnp : inObjectPrototype key.toKey = false) :
    obj.hasProperty key.toKey = true ∧
    (∀ call : Call, set call target key val s =
      andThen (propSetStrict call target key.toKey val s) fun _ s1 => some (.ret val, s1)) ∧
    (∀ x, p.slot = .data x → p.writable = true → ∀ call : Call,
      set call target key val s =
        some (.ret val, s.modifyObj target fun o =>
          { o with props := o.props.map fun q =>
              if q.key = key.toKey then { q with slot := .data val } else q })) ∧
    (∀ x, p.slot = .data x → p.writable = false → ∀ call : Call,
      set call target key val s = some (.thrown typeError, s)) ∧
    (∀ g, p.slot = .accessor g none → ∀ call : Call,
      set call target key val s = some (.thrown typeError, s)) ∧
    (∀ g c, p.slot = .accessor g (some (.reactiveSetter c)) →
      set (exec (n + 1)) target key val s =
        andThen (reactiveSetter (exec n) c val (s.log (.call (.reactiveSetter c) [val])))
          fun _ s1 => some (.ret val, s1)) ∧
    (∀ c s', set (exec n) target key val s = some (c, s') → Persists s s') := by
  refine ⟨hasProperty_of_own obj _ p hp,
    fun call => set_existing call target obj key val s p ht hk hp hnp, ?_, ?_, ?_, ?_, ?_⟩
  · intro x hx hw call
    rw [set_existing call target obj key val s p ht hk hp hnp,
      propSetStrict_data call target obj key.toKey p x val s ht hp hx hw]
    rfl
  · intro x hx hw call
    rw [set_existing call target obj key val s p ht hk hp hnp,
      propSetStrict_readonly call target obj key.toKey p x val s ht hp hx hw]
    rfl
  · intro g hx call
    rw [set_existing call target obj key val s p ht hk hp hnp,
      propSetStrict_noSetter call target obj key.toKey p g val s ht hp hx]
    rfl
  · intro g c hslot
    rw [set_existing _ target obj key val s p ht hk hp hnp,
      propSetStrict_reactive n target obj key.toKey p g c val s ht hp hslot]
  · intro c s' h
    rw [set_existing _ target obj key val s p ht hk hp hnp] at h
    exact andThen_ret_persists (fun c1 s1 h1 => propSetStrict_persists n _ _ _ _ c1 s1 h1) h

/-- Witness of C26 on `exTwo`: `set(obj0, 'x', 5)` on the reactive property `x` is the call
of its setter; it notifies the Dep `1` of the property, not the Dep `0` of the Observer, and
creates no reactive property. -/
theorem C26_set_existing_witness :
    (set (exec (4 + 1)) 0 (.name "x") (.num 5) exTwo =
      andThen (reactiveSetter (exec 4) 0 (.num 5)
        (exTwo.log (.call (.reactiveSetter 0) [.num 5])))
        fun _ s1 => some (.ret (.num 5), s1)) ∧
    ∃ s', set (exec 5) 0 (.name "x") (.num 5) exTwo = some (.ret (.num 5), s') ∧
      s'.trace = [.call (.reactiveSetter 0) [.num 5], .notify 1] ∧
      s'.cells.length = exTwo.cells.length :=
  ⟨(C26_set_existing 4 exTwo 0
      { kind := .plain, extensible := true, _isVue := false,
        props := [reactiveProperty "x" 0], elems := [], __ob__ := some 0,
        augmented := false }
      (.name "x") (.num 5) (reactiveProperty "x" 0) (by rfl) (by decide) (by rfl)
      (by rfl)).2.2.2.2.2.1 (some (.reactiveGetter 0)) 0 rfl,
    _, by rfl, by rfl, by rfl⟩

/-- Counterexample to C26 as stated: `'toString' in obj0` holds for the observed object of
`exTwo` (the key is inherited from `Object.prototype`), and `set(obj0, 'toString', 5)`
installs a new reactive property and notifies the Dep `0` of the Observer. -/
theorem C26_counterexample :
    (∃ obj, exTwo.heap[0]? = some obj ∧ obj.kind = .plain ∧ obj.hasProperty "toString" = true ∧
      obj.__ob__ = some 0) ∧
    exTwo.observers[0]? = some { value := 0, dep := 0, vmCount := 0 } ∧
    ∃ s', set (exec 5) 0 (.name "toString") (.num 5) exTwo = some (.ret (.num 5), s') ∧
      s'.cells.length = exTwo.cells.length + 1 ∧
      s'.trace = [.notify 0] ∧
      ∃ obj', s'.heap[0]? = some obj' ∧
        obj'.getOwnProperty "toString" = some (reactiveProperty "toString" 1) :=
  ⟨⟨_, by rfl, by rfl, by rfl, by rfl⟩, by rfl, _, by rfl, by rfl, by rfl, _, by rfl, by rfl⟩


/-- C27 (amended): `set(target, key, val)` on an object that is not a Vue instance, for a key
that is not an index of an array target and that the object does not have (`key in target`
is false).  Observed target whose Observer has `vmCount = 0`: `set` is
`defineReactive(ob.value, key, val)`, then one call `ob.dep.notify()`, then `return val`.
When `ob.value` is the target and `observe(val)` returns and leaves the target extensible
and without the key, `defineReactive` adds to the target the reactive accessor of a new cell
that holds `val`, a fresh Dep and the child Observer; for a value that is not an object this
is so on every extensible target.  When the target is not extensible after `observe(val)`,
`Object.defineProperty` throws a TypeError: no accessor is installed and `notify` is not
called.  Unobserved target: `set` is the assignment `target[key] = val` followed by
`return val`, which on an extensible object adds the data property and changes nothing else
and on a non-extensible one throws a TypeError. -/
theorem C27_set_new (n : Nat) (s : State) (target : Addr) (obj : Obj) (key : PropKey)
    (val : Val) (ht : s.heap[target]? = some obj) (hk : arrayIndex obj key = none)
    (hv : obj._isVue = false) (hin : obj.hasProperty key.toKey = false) :
    (∀ r o, obj.__ob__ = some r → s.observers[r]? = some o → o.vmCount = 0 →
      (∀ call : Call, set call target key val s =
        andThen (call (.defineReactive o.value key.toKey (some val) none false) s) fun _ s1 =>
          andThen (call (.notify o.dep) s1) fun _ s2 => some (.ret val, s2)) ∧
      (o.value = target → ∀ ob s3 obj3,
        exec n (.observe val false) (Dep.new s).2 = some (.retOb ob, s3) →
        s3.heap[target]? = some obj3 → obj3.getOwnProperty key.toKey = none →
        (obj3.extensible = true →
          set (exec (n + 1)) target key val s =
            andThen (exec (n + 1) (.notify o.dep)
              (addReactive target key.toKey
                { obj := target, key := key.toKey, dep := s.deps.length, val := val,
                  childOb := ob, getter := none, setter := none, customSetter := none,
                  shallow := false } s3)) fun _ s2 => some (.ret val, s2)) ∧
        (obj3.extensible = false →
          ∃ s4, set (exec (n + 1)) target key val s = some (.thrown typeError, s4) ∧
            s4.heap = s3.heap ∧ s4.trace = s3.trace)) ∧
      (o.value = target → isObject val = false → obj.extensible = true →
        set (exec (n + 2)) target key val s =
          andThen (exec (n + 2) (.notify o.dep)
            (addReactive target key.toKey
              { obj := target, key := key.toKey, dep := s.deps.length, val := val,
                childOb := none, getter := none, setter := none, customSetter := none,
                shallow := false } (Dep.new s).2)) fun _ s2 => some (.ret val, s2))) ∧
    (obj.__ob__ = none →
      (∀ call : Call, set call target key val s =
        andThen (propSetStrict call target key.toKey val s) fun _ s1 => some (.ret val, s1)) ∧
      (obj.extensible = true → ∀ call : Call,
        set call target key val s =
          some (.ret val, s.modifyObj target fun x =>
            { x with props := x.props ++
                [{ key := key.toKey, enumerable := true, configurable := true,
                   slot := .data val }] })) ∧
      (obj.extensible = false → ∀ call : Call,
        set call target key val s = some (.thrown typeError, s))) := by
  have hp := (hasProperty_absent obj key.toKey hin).1
  refine ⟨?_, ?_⟩
  · intro r o hob ho hvm
    have hset := fun call : Call =>
      set_new_observed call target obj key val s r o ht hk hv hin hob ho hvm
    have hd : ∀ m, exec (m + 1) (.defineReactive target key.toKey (some val) none false) s =
        defineReactive (exec m) target key.toKey (some val) none false s := fun _ => rfl
    refine ⟨hset, ?_, ?_⟩
    · intro hval ob s3 obj3 hobs ho3 hp3
      refine ⟨?_, ?_⟩
      · intro he3
        rw [hset, hval, hd, defineReactive_new (exec n) target obj key.toKey val s ht hp ob s3
          obj3 hobs ho3 hp3 he3]
        rfl
      · intro he3
        rw [hset, hval, hd, defineReactive_closedObj (exec n) target obj key.toKey val s ht hp
          ob s3 obj3 hobs ho3 hp3 he3]
        exact ⟨_, rfl, rfl, rfl⟩
    · intro hval hprim he
      have hobs : exec (n + 1) (.observe val false) (Dep.new s).2 =
          some (.retOb none, (Dep.new s).2) := by
        rw [exec_succ]
        exact observe_primitive (exec n) val false _ hprim
      rw [hset, hval, hd, defineReactive_new (exec (n + 1)) target obj key.toKey val s ht hp
        none (Dep.new s).2 obj hobs ht hp he]
      rfl
  · intro hob
    have hset := fun call : Call =>
      set_new_unobserved call target obj key val s ht hk hv hin hob
    refine ⟨hset, ?_, ?_⟩
    · intro he call
      rw [hset, propSetStrict_new call target obj key.toKey val s ht hin he]
      rfl
    · intro he call
      rw [hset, propSetStrict_closed call target obj key.toKey val s ht hin he]
      rfl

/-- Witness of C27 on `exTwo`: `set(obj0, 'z', 7)` on the observed object adds the reactive
property `z` (cell `1`) and notifies the Dep `0` of the Observer once; `set(obj1, 'z', 7)` on
the unobserved object adds a data property and notifies nobody. -/
theorem C27_set_new_witness :
    (set (exec (3 + 2)) 0 (.name "z") (.num 7) exTwo =
      andThen (exec (3 + 2) (.notify 0)
        (addReactive 0 "z"
          { obj := 0, key := "z", dep := exTwo.deps.length, val := .num 7, childOb := none,
            getter := none, setter := none, customSetter := none, shallow := false }
          (Dep.new exTwo).2)) fun _ s2 => some (.ret (.num 7), s2)) ∧
    (∃ s', set (exec 5) 0 (.name "z") (.num 7) exTwo = some (.ret (.num 7), s') ∧
      s'.trace = [.notify 0]) ∧
    (∃ s', set (exec 5) 1 (.name "z") (.num 7) exTwo = some (.ret (.num 7), s') ∧
      s'.trace = [] ∧ s'.cells = exTwo.cells) :=
  ⟨((C27_set_new 3 exTwo 0
      { kind := .plain, extensible := true, _isVue := false,
        props := [reactiveProperty "x" 0], elems := [], __ob__ := some 0,
        augmented := false }
      (.name "z") (.num 7) (by rfl) (by rfl) (by rfl) (by rfl)).1
      0 { value := 0, dep := 0, vmCount := 0 } (by rfl) (by rfl) rfl).2.2 rfl rfl rfl,
    ⟨_, by rfl, by rfl⟩, ⟨_, by rfl, by rfl, by rfl⟩⟩

/-- Counterexample to C27 as stated: the object of `exTwoClosed` is observed, is neither a
Vue instance nor root data and has no property `z`, but it is no longer extensible;
`set(obj0, 'z', 7)` throws a TypeError at `Object.defineProperty`: no property is added and
the Dep of the Observer is not notified. -/
theorem C27_counterexample :
    (∃ obj, exTwoClosed.heap[0]? = some obj ∧ obj.kind = .plain ∧ obj._isVue = false ∧
      obj.__ob__ = some 0 ∧ obj.hasProperty "z" = false ∧ obj.extensible = false) ∧
    exTwoClosed.observers[0]? = some { value := 0, dep := 0, vmCount := 0 } ∧
    ∃ s', set (exec 5) 0 (.name "z") (.num 7) exTwoClosed = some (.thrown typeError, s') ∧
      s'.heap = exTwoClosed.heap ∧ s'.trace = [] :=
  ⟨⟨_, by rfl, by rfl, by rfl, by rfl, by rfl, by rfl⟩, by rfl, _, by rfl, by rfl, by rfl⟩

/-- C28 (amended): `del(target, key)` on an object that is not a Vue instance, for a key
that is not an index of an array target.  Observed target whose Observer has `vmCount = 0`:
if `key` is a configurable property of the object, `del` removes it and is then the one call
`ob.dep.notify()`; if `key` is `__ob__` and the target is extensible, `del` removes the
reference to the Observer and is then the one call `ob.dep.notify()`; if `key` is not an own
property, `del` returns at once with the state unchanged.  Unobserved target: a configurable
property of the object is removed and nothing else changes, and for a key that is not an own
property nothing changes.  The removal leaves the other properties as they are. -/
theorem C28_del (s : State) (target : Addr) (obj : Obj) (key : PropKey)
    (ht : s.heap[target]? = some obj) (hk : arrayIndex obj key = none)
    (hv : obj._isVue = false) :
    (∀ r o, obj.__ob__ = some r → s.observers[r]? = some o → o.vmCount = 0 →
      (∀ p, obj.getOwnProperty key.toKey = some p → p.configurable = true →
        ∀ call : Call, del call target key s =
          call (.notify o.dep) (s.modifyObj target fun x => x.removeProp key.toKey)) ∧
      (key.toKey = "__ob__" → obj.getOwnProperty "__ob__" = none → obj.extensible = true →
        ∀ call : Call, del call target key s =
          call (.notify o.dep) (s.modifyObj target fun x => { x with __ob__ := none })) ∧
      (hasOwn obj key.toKey = false →
        ∀ call : Call, del call target key s = some (.ret .undefined, s))) ∧
    (obj.__ob__ = none →
      (∀ p, obj.getOwnProperty key.toKey = some p → p.configurable = true →
        ∀ call : Call, del call target key s =
          some (.ret .undefined, s.modifyObj target fun x => x.removeProp key.toKey)) ∧
      (hasOwn obj key.toKey = false →
        ∀ call : Call, del call target key s = some (.ret .undefined, s))) ∧
    (obj.removeProp key.toKey).getOwnProperty key.toKey = none ∧
    (∀ k, k ≠ key.toKey → (obj.removeProp key.toKey).getOwnProperty k = obj.getOwnProperty k) := by
  refine ⟨?_, ?_, removeProp_own _ _, fun k h => removeProp_other _ _ _ h⟩
  · intro r o hob ho hvm
    have hobs := observer_some obj s r o hob ho
    refine ⟨?_, ?_, ?_⟩
    · intro p hp hc call
      exact del_own call target obj key s p (some o) ht hk hv hobs
        (fun o' h => by cases h; exact hvm) hp hc
    · intro hkey hp he call
      exact del_hidden call target obj key s r o ht hk hv hob ho hvm hkey hp he
    · intro hp call
      exact del_absent call target obj key s (some o) ht hk hv hobs
        (fun o' h => by cases h; exact hvm) hp
  · intro hob
    refine ⟨?_, ?_⟩
    · intro p hp hc call
      exact del_own call target obj key s p none ht hk hv (observer_none obj s hob)
        (fun o' h => by cases h) hp hc
    · intro hp call
      exact del_absent call target obj key s none ht hk hv (observer_none obj s hob)
        (fun o' h => by cases h) hp

/-- Witness of C28 on `exTwo`: `del(obj0, 'x')` on the observed object removes `x` and
notifies the Dep `0` of the Observer; `del(obj0, '__ob__')` removes the reference to the
Observer and notifies its Dep; `del(obj1, 'y')` on the unobserved object removes `y` and
notifies nobody. -/
theorem C28_del_witness :
    del (exec 5) 0 (.name "x") exTwo =
      exec 5 (.notify 0) (exTwo.modifyObj 0 fun x => x.removeProp "x") ∧
    (∃ s', del (exec 5) 0 (.name "x") exTwo = some (.ret .undefined, s') ∧
      s'.trace = [.notify 0]) ∧
    (∃ s' obj', del (exec 5) 0 (.name "__ob__") exTwo = some (.ret .undefined, s') ∧
      s'.trace = [.notify 0] ∧ s'.heap[0]? = some obj' ∧ obj'.__ob__ = none) ∧
    del (exec 5) 1 (.name "y") exTwo =
      some (.ret .undefined, exTwo.modifyObj 1 fun x => x.removeProp "y") :=
  ⟨((C28_del exTwo 0
      { kind := .plain, extensible := true, _isVue := false,
        props := [reactiveProperty "x" 0], elems := [], __ob__ := some 0,
        augmented := false }
      (.name "x") (by rfl) (by rfl) (by rfl)).1 0
      { value := 0, dep := 0, vmCount := 0 } (by rfl) (by rfl) rfl).1
      (reactiveProperty "x" 0) (by rfl) rfl (exec 5),
    ⟨_, by rfl, by rfl⟩, ⟨_, _, by rfl, by rfl, by rfl, by rfl⟩, by rfl⟩

/-- Counterexample to C28 as stated: the observed object of `exSealedObserved` has the own
property `x`, which is not configurable; `del(obj, 'x')` throws a TypeError at the `delete`,
the property is still there and nobody is notified. -/
theorem C28_counterexample :
    (∃ obj, exSealedObserved.heap[0]? = some obj ∧ obj.kind = .plain ∧ obj._isVue = false ∧
      obj.__ob__ = some 0 ∧ hasOwn obj "x" = true) ∧
    exSealedObserved.observers[0]? = some { value := 0, dep := 0, vmCount := 0 } ∧
    del (exec 5) 0 (.name "x") exSealedObserved =
      some (.thrown typeError, exSealedObserved) :=
  ⟨⟨_, by rfl, by rfl, by rfl, by rfl, by rfl⟩, by rfl, by rfl⟩


/-! ## Claims on the round trip, the synchronous watcher and dependency pruning -/

/-- C6 (amended): a reactive property `obj[k]` without pre-existing accessor holds the value
`a` (cell `c`; no child Observer, no subscriber), and a watcher of `() => obj[k]` that is
neither lazy nor deep is constructed: the constructor returns the watcher `w` with
`w.value = a`.  A write of a value `b` that is not an object and that the setter takes as
changed (`b !== a`, not both `NaN`) then re-evaluates the watcher, at once when it is sync,
through the flush when it is not sync and the idle scheduler is forced to flush
synchronously: the callback is called in a state in which `w.value = b` and the trace has
grown by exactly one callback invocation of `w`, with the arguments `(b, a)`; when the
callback returns, the write returns. -/
theorem C6_sync_watcher (n : Nat) (s : State) (vm : Nat) (cb : Fn) (opts : WatcherOptions)
    (o : Addr) (k : Key) (obj : Obj) (c : Nat) (cell : Cell) (dep : Dep) (b : Val)
    (hlazy : opts.lazy = false) (hdeep : opts.deep = false)
    (ho : s.heap[o]? = some obj) (hp : obj.getOwnProperty k = some (reactiveProperty k c))
    (hc : s.cells[c]? = some cell) (hg : cell.getter = none) (hs : cell.setter = none)
    (hcs : s.env.production = true ∨ cell.customSetter = none) (hco : cell.childOb = none)
    (hd : s.deps[cell.dep]? = some dep) (hsubs : dep.subs = [])
    (hne : (strictEq b cell.val || (!strictEq b b && !strictEq cell.val cell.val)) = false)
    (hv : isObject b = false) :
    ∃ s1 wt1, exec (n + 5) (.newWatcher vm (readProp o k) cb (some opts) false) s =
        some (.retW s.watchers.length, s1) ∧
      s1.watchers[s.watchers.length]? = some wt1 ∧ wt1.value = cell.val ∧
      (opts.sync = true →
        (ranCallback (syncWritten s1 c b cell.dep s.watchers.length) s.watchers.length o k c
            cell.dep cell.val b).trace =
          s1.trace ++ [.call (.reactiveSetter c) [b], .notify cell.dep,
            .update s.watchers.length, .getter s.watchers.length, .call (readProp o k) [],
            .call (.reactiveGetter c) [], .cb s.watchers.length b cell.val] ∧
        (∃ wt', (ranCallback (syncWritten s1 c b cell.dep s.watchers.length) s.watchers.length
            o k c cell.dep cell.val b).watchers[s.watchers.length]? = some wt' ∧
          wt'.value = b) ∧
        ∀ r s', exec (n + 4) (.callFn cb [b, cell.val])
            (ranCallback (syncWritten s1 c b cell.dep s.watchers.length) s.watchers.length o k
              c cell.dep cell.val b) = some (.ret r, s') →
          exec (n + 9) (.propSet o k b) s1 = some (.ret .undefined, s')) ∧
      (opts.sync = false → s.env.async = false → s.flushing = false → s.waiting = false →
        s.queue = [] → s.has = [] →
        (ranCallback (forcedWritten s1 c b cell.dep s.watchers.length wt1.id)
            s.watchers.length o k c cell.dep cell.val b).trace =
          s1.trace ++ [.call (.reactiveSetter c) [b], .notify cell.dep,
            .update s.watchers.length, .queue s.watchers.length, .getter s.watchers.length,
            .call (readProp o k) [], .call (.reactiveGetter c) [],
            .cb s.watchers.length b cell.val] ∧
        (∃ wt', (ranCallback (forcedWritten s1 c b cell.dep s.watchers.length wt1.id)
            s.watchers.length o k c cell.dep cell.val b).watchers[s.watchers.length]? =
              some wt' ∧ wt'.value = b) ∧
        ∀ r s', exec (n + 4) (.callFn cb [b, cell.val])
            (ranCallback (forcedWritten s1 c b cell.dep s.watchers.length wt1.id)
              s.watchers.length o k c cell.dep cell.val b) = some (.ret r, s') →
          s'.queue = [] →
          exec (n + 12) (.propSet o k b) s1 = some (.ret .undefined, s'.flushed)) := by
  obtain ⟨s1, wt1, h1, h2, h3, h4, h5, h6, h7, h8, h9, h10, h11, h12, h13, h14, h15, h16, h17,
    h18⟩ := new_readProp n s vm cb opts o k obj c cell dep hlazy hdeep ho hp hc hg hco hd
  have hd1 : s1.deps[cell.dep]? = some { dep with subs := [s.watchers.length] } := by
    rw [h13, hsubs]; rfl
  refine ⟨s1, wt1, h1, h2, h3, ?_, ?_⟩
  · intro hsync
    refine ⟨?_, ranCallback_value _ _ wt1 _ _ _ _ _ _ (by exact h2), ?_⟩
    · rw [ranCallback_trace]
      simp [syncWritten, State.log, State.modifyCell]
    · have := write_sync n s1 s.watchers.length wt1 o k obj c cell _ b h2 h4
        (by rw [h5]; exact hsync) h6 h7 h8 h3 (by rw [h10]; exact ho) hp
        (by rw [h11]; exact hc) hg hs (by rw [h12]; exact hcs) hd1 rfl hne hv
      rw [h9] at this
      exact this
  · intro hsync hasync hf hwa hq hh
    refine ⟨?_, ranCallback_value _ _ wt1 _ _ _ _ _ _ (by exact h2), ?_⟩
    · rw [ranCallback_trace]
      simp [forcedWritten, syncWritten, State.log, State.modifyCell, State.enqueued,
        State.flushingAt]
    · have := write_forced n s1 s.watchers.length wt1 o k obj c cell _ b h2 h4
        (by rw [h5]; exact hsync) h6 h7 h8 h3 (by rw [h12]; exact hasync)
        (by rw [h15]; exact hf) (by rw [h16]; exact hwa) (by rw [h17]; exact hq)
        (by rw [h18]; exact hh) (by rw [h10]; exact ho) hp
        (by rw [h11]; exact hc) hg hs (by rw [h12]; exact hcs) hd1 rfl hne hv
      rw [h9] at this
      exact this

/-- Witness of C6 on `exDataObserved`: a sync watcher of `() => obj.x` is constructed with
the value `1`, and the write `obj.x = 5` returns after the callback has been called. -/
theorem C6_sync_watcher_witness :
    ∃ s1 wt1 s', exec (1 + 5) (.newWatcher 0 (readProp 0 "x") noop
        (some { deep := false, user := false, lazy := false, sync := true }) false)
        exDataObserved = some (.retW 0, s1) ∧
      s1.watchers[0]? = some wt1 ∧ wt1.value = .num 1 ∧
      exec (1 + 9) (.propSet 0 "x" (.num 5)) s1 = some (.ret .undefined, s') := by
  obtain ⟨s1, wt1, h1, h2, h3, h4, -⟩ := C6_sync_watcher 1 exDataObserved 0 noop
    { deep := false, user := false, lazy := false, sync := true } 0 "x"
    { kind := .plain, extensible := true, _isVue := false,
      props := [reactiveProperty "x" 0], elems := [], __ob__ := some 0, augmented := false }
    0
    { obj := 0, key := "x", dep := 1, val := .num 1, childOb := none, getter := none,
      setter := none, customSetter := none, shallow := false }
    { id := 1, subs := [] } (.num 5) rfl rfl (by rfl) (by rfl) (by rfl) rfl rfl (Or.inr rfl)
    rfl (by rfl) rfl (by rfl) rfl
  exact ⟨s1, wt1, _, h1, h2, h3, (h4 rfl).2.2 .undefined _ (by rfl)⟩

/-- Counterexample to C6 as stated: the reactive property `x` of `exNaNWatched` holds `NaN`
and has a sync watcher of `() => obj.x`, whose value is `NaN`.  The value `b = NaN` satisfies
`b !== a`, but the setter takes the write `obj.x = NaN` as unchanged: the watcher is not
updated and its callback is not invoked. -/
theorem C6_counterexample :
    strictEq .nan .nan = false ∧
    (∃ wt, exNaNWatched.watchers[0]? = some wt ∧ wt.sync = true ∧ wt.active = true ∧
      wt.getter = readProp 0 "x" ∧ wt.value = .nan) ∧
    (∃ cell, exNaNWatched.cells[0]? = some cell ∧ cell.val = .nan ∧ cell.dep = 1) ∧
    exNaNWatched.deps[1]? = some { id := 1, subs := [0] } ∧
    ∃ s', exec 10 (.propSet 0 "x" .nan) exNaNWatched = some (.ret .undefined, s') ∧
      s'.trace = exNaNWatched.trace ++ [.call (.reactiveSetter 0) [.nan]] :=
  ⟨rfl, ⟨_, by rfl, by rfl, by rfl, by rfl, by rfl⟩, ⟨_, by rfl, by rfl, by rfl⟩, by rfl, _,
    by rfl, by rfl⟩

/-- C7 (amended): a watcher `w` of `() => flag ? obj.a : obj.b` that is not deep and has
never been evaluated, `flag` being a writable data property of another object that holds a
truthy value and `a`, `b` reactive properties without pre-existing accessor (no custom
setter outside production, values that are not observed objects) whose Deps are different
and have no subscriber.  The written values are not objects.  The first
evaluation returns the value of `a` and subscribes `w` to the Dep of `a` only.  After the
flag has been set to a falsy value, the next evaluation returns the value of `b`; then `w`
is not in the subs of the Dep of `a`, is in the subs of the Dep of `b`, and has the Dep of
`b` as its only dependency.  A write that changes `obj.a` then notifies the Dep of `a` and
returns without any call of `update`; a write that changes `obj.b` notifies the Dep of `b`
and calls `w.update()`. -/
theorem C7_pruning (n : Nat) (s : State) (w : Nat) (wt : Watcher) (f o : Addr)
    (kf ka kb : Key) (fobj obj : Obj) (pf : Property) (fv fv2 : Val) (ca cb : Nat)
    (cella cellb : Cell) (depa depb : Dep) (va vb : Val)
    (hw : s.watchers[w]? = some wt) (hget : wt.getter = chooseProp f kf o ka kb)
    (hdeep : wt.deep = false)
    (hfresh : wt.deps = [] ∧ wt.depIds = [] ∧ wt.newDeps = [] ∧ wt.newDepIds = [])
    (hfo : f ≠ o)
    (hf : s.heap[f]? = some fobj) (hpf : fobj.getOwnProperty kf = some pf)
    (hfv : pf.slot = .data fv) (hfw : pf.writable = true) (htrue : truthy fv = true)
    (hfalse : truthy fv2 = false) (ho : s.heap[o]? = some obj)
    (hpa : obj.getOwnProperty ka = some (reactiveProperty ka ca))
    (hpb : obj.getOwnProperty kb = some (reactiveProperty kb cb))
    (hca : s.cells[ca]? = some cella) (hcb : s.cells[cb]? = some cellb)
    (hga : cella.getter = none ∧ cella.setter = none ∧ cella.childOb = none)
    (hgb : cellb.getter = none ∧ cellb.setter = none ∧ cellb.childOb = none)
    (hcs : s.env.production = true ∨ (cella.customSetter = none ∧ cellb.customSetter = none))
    (hda : s.deps[cella.dep]? = some depa) (hdb : s.deps[cellb.dep]? = some depb)
    (hsa : depa.subs = []) (hsb : depb.subs = [])
    (hdd : cella.dep ≠ cellb.dep) (hid : depa.id ≠ depb.id)
    (hna : (strictEq va cella.val || (!strictEq va va && !strictEq cella.val cella.val)) = false)
    (hnb : (strictEq vb cellb.val || (!strictEq vb vb && !strictEq cellb.val cellb.val)) = false)
    (hva : isObject va = false) (hvb : isObject vb = false) :
    exec (n + 4) (.get w) s =
      some (.ret cella.val, afterGet (chooseProp f kf o ka kb) s w ca cella.dep) ∧
    (afterGet (chooseProp f kf o ka kb) s w ca cella.dep).deps[cella.dep]? =
      some { depa with subs := [w] } ∧
    (afterGet (chooseProp f kf o ka kb) s w ca cella.dep).deps[cellb.dep]? = some depb ∧
    exec (n + 1) (.propSet f kf fv2) (afterGet (chooseProp f kf o ka kb) s w ca cella.dep) =
      some (.ret .undefined,
        (afterGet (chooseProp f kf o ka kb) s w ca cella.dep).setData f kf fv2) ∧
    exec (n + 4) (.get w)
        ((afterGet (chooseProp f kf o ka kb) s w ca cella.dep).setData f kf fv2) =
      some (.ret cellb.val,
        reevaluated (chooseProp f kf o ka kb) s w ca cella.dep f kf fv2 cb cellb.dep) ∧
    (reevaluated (chooseProp f kf o ka kb) s w ca cella.dep f kf fv2 cb cellb.dep).deps[
        cella.dep]? = some { depa with subs := [] } ∧
    (reevaluated (chooseProp f kf o ka kb) s w ca cella.dep f kf fv2 cb cellb.dep).deps[
        cellb.dep]? = some { depb with subs := [w] } ∧
    (∃ wt2, (reevaluated (chooseProp f kf o ka kb) s w ca cella.dep f kf fv2 cb
        cellb.dep).watchers[w]? = some wt2 ∧ wt2.deps = [cellb.dep]) ∧
    exec (n + 3) (.propSet o ka va)
        (reevaluated (chooseProp f kf o ka kb) s w ca cella.dep f kf fv2 cb cellb.dep) =
      some (.ret .undefined,
        (stored (reevaluated (chooseProp f kf o ka kb) s w ca cella.dep f kf fv2 cb cellb.dep)
          ca va).log (.notify cella.dep)) ∧
    exec (n + 3) (.propSet o kb vb)
        (reevaluated (chooseProp f kf o ka kb) s w ca cella.dep f kf fv2 cb cellb.dep) =
      andThen (exec n (.update w)
        ((stored (reevaluated (chooseProp f kf o ka kb) s w ca cella.dep f kf fv2 cb
          cellb.dep) cb vb).log (.notify cellb.dep))) fun _ s1 =>
        some (.ret .undefined, s1) := by
  obtain ⟨hd1, hd2, hd3, hd4⟩ := hfresh
  obtain ⟨ga1, ga2, ga3⟩ := hga
  obtain ⟨gb1, gb2, gb3⟩ := hgb
  -- first evaluation
  have hg1 := get_chooseProp n s w wt f o kf ka kb fobj obj pf (reactiveProperty ka ca) fv
    (some (.reactiveSetter ca)) ca cella hw hget hdeep hf hpf hfv ho
    (by rw [htrue]; exact hpa) rfl hca ga1 ga3
  obtain ⟨x1, x2, x3, -⟩ := afterGet_switch (chooseProp f kf o ka kb) s w ca cella.dep wt depa hw
    hda hd4 hd3 (by rw [hd2]; simp)
  obtain ⟨y1, y2, y3, y4⟩ := afterGet_frame (chooseProp f kf o ka kb) s w ca cella.dep
  have hdb1 : (afterGet (chooseProp f kf o ka kb) s w ca cella.dep).deps[cellb.dep]? =
      some depb := by
    rw [x3 hd1 cellb.dep (Ne.symm hdd)]; exact hdb
  -- the flag is set
  have hf1 : (afterGet (chooseProp f kf o ka kb) s w ca cella.dep).heap[f]? = some fobj := by
    rw [y1]; exact hf
  have hset := propSet_data n (afterGet (chooseProp f kf o ka kb) s w ca cella.dep) f kf fobj
    pf fv fv2 hf1 hpf hfv hfw
  obtain ⟨⟨fobj', z1, z2⟩, z3⟩ := setData_heap
    (afterGet (chooseProp f kf o ka kb) s w ca cella.dep) f kf fv2 fobj pf hf1 hpf
  have ho2 : ((afterGet (chooseProp f kf o ka kb) s w ca cella.dep).setData f kf
      fv2).heap[o]? = some obj := by
    rw [z3 o (Ne.symm hfo), y1]; exact ho
  -- second evaluation
  have hw2 : ((afterGet (chooseProp f kf o ka kb) s w ca cella.dep).setData f kf
      fv2).watchers[w]? = _ := x1
  have hcb2 : ((afterGet (chooseProp f kf o ka kb) s w ca cella.dep).setData f kf
      fv2).cells[cb]? = some cellb := by
    show (afterGet (chooseProp f kf o ka kb) s w ca cella.dep).cells[cb]? = _
    rw [y2]; exact hcb
  have hg2 := get_chooseProp n _ w _ f o kf ka kb fobj' obj { pf with slot := .data fv2 }
    (reactiveProperty kb cb) fv2 (some (.reactiveSetter cb)) cb cellb hw2 hget hdeep z1 z2 rfl
    ho2 (by rw [hfalse]; exact hpb) rfl hcb2 gb1 gb3
  have hdb2 : ((afterGet (chooseProp f kf o ka kb) s w ca cella.dep).setData f kf
      fv2).deps[cellb.dep]? = some depb := hdb1
  have hda2 : ((afterGet (chooseProp f kf o ka kb) s w ca cella.dep).setData f kf
      fv2).deps[cella.dep]? = some { depa with subs := depa.subs ++ [w] } := x2
  obtain ⟨u1, u2, -, u4⟩ := afterGet_switch (chooseProp f kf o ka kb) _ w cb cellb.dep _ depb
    hw2 hdb2 rfl rfl (by simpa using Ne.symm hid)
  obtain ⟨u5, -⟩ := u4 cella.dep _ rfl hdd hda2 hid
  obtain ⟨v1, v2, v3, v4⟩ := afterGet_frame (chooseProp f kf o ka kb)
    ((afterGet (chooseProp f kf o ka kb) s w ca cella.dep).setData f kf fv2) w cb cellb.dep
  have hda3 : (reevaluated (chooseProp f kf o ka kb) s w ca cella.dep f kf fv2 cb
      cellb.dep).deps[cella.dep]? = some { depa with subs := [] } := by
    unfold reevaluated
    rw [u5, hsa]
    simp [remove]
  have hdb3 : (reevaluated (chooseProp f kf o ka kb) s w ca cella.dep f kf fv2 cb
      cellb.dep).deps[cellb.dep]? = some { depb with subs := [w] } := by
    unfold reevaluated
    rw [u2, hsb]
    rfl
  have ho3 : (reevaluated (chooseProp f kf o ka kb) s w ca cella.dep f kf fv2 cb
      cellb.dep).heap[o]? = some obj := by
    unfold reevaluated
    rw [v1]; exact ho2
  have hcells3 : (reevaluated (chooseProp f kf o ka kb) s w ca cella.dep f kf fv2 cb
      cellb.dep).cells = s.cells := by
    unfold reevaluated
    rw [v2]
    show (afterGet (chooseProp f kf o ka kb) s w ca cella.dep).cells = _
    exact y2
  have henv3 : (reevaluated (chooseProp f kf o ka kb) s w ca cella.dep f kf fv2 cb
      cellb.dep).env = s.env := by
    unfold reevaluated
    rw [v3]
    show (afterGet (chooseProp f kf o ka kb) s w ca cella.dep).env = _
    exact y3
  have hcsa : (reevaluated (chooseProp f kf o ka kb) s w ca cella.dep f kf fv2 cb
      cellb.dep).env.production = true ∨ cella.customSetter = none := by
    rw [henv3]
    rcases hcs with h | h
    · exact Or.inl h
    · exact Or.inr h.1
  have hcsb : (reevaluated (chooseProp f kf o ka kb) s w ca cella.dep f kf fv2 cb
      cellb.dep).env.production = true ∨ cellb.customSetter = none := by
    rw [henv3]
    rcases hcs with h | h
    · exact Or.inl h
    · exact Or.inr h.2
  refine ⟨hg1, ?_, hdb1, hset, hg2, hda3, hdb3, ⟨_, u1, rfl⟩, ?_, ?_⟩
  · rw [x2, hsa]; rfl
  · exact write_quiet n _ o ka obj ca cella _ va ho3 hpa (by rw [hcells3]; exact hca) ga1 ga2
      hcsa hda3 rfl hna hva
  · exact write_updates n _ o kb obj cb cellb _ w vb ho3 hpb (by rw [hcells3]; exact hcb) gb1
      gb2 hcsb hdb3 rfl hnb hvb

/-- Witness of C7 on `exChoose`: the first evaluation returns `1`; after `flag = false` and
the second evaluation the Dep of `a` has no subscriber and the Dep of `b` has the watcher;
the write `obj.a = 5` then returns after its notification. -/
theorem C7_pruning_witness :
    exec (1 + 4) (.get 0) exChoose =
      some (.ret (.num 1), afterGet (chooseProp 1 "flag" 0 "a" "b") exChoose 0 0 1) ∧
    (reevaluated (chooseProp 1 "flag" 0 "a" "b") exChoose 0 0 1 1 "flag" (.bool false) 1
      2).deps[1]? = some { id := 1, subs := [] } ∧
    (reevaluated (chooseProp 1 "flag" 0 "a" "b") exChoose 0 0 1 1 "flag" (.bool false) 1
      2).deps[2]? = some { id := 2, subs := [0] } ∧
    exec (1 + 3) (.propSet 0 "a" (.num 5))
        (reevaluated (chooseProp 1 "flag" 0 "a" "b") exChoose 0 0 1 1 "flag" (.bool false) 1
          2) =
      some (.ret .undefined,
        (stored (reevaluated (chooseProp 1 "flag" 0 "a" "b") exChoose 0 0 1 1 "flag"
          (.bool false) 1 2) 0 (.num 5)).log (.notify 1)) :=
  have h := C7_pruning 1 exChoose 0
    { vm := 0, cb := noop, id := 1, deep := false, user := false, lazy := false,
      sync := false, dirty := false, active := true, deps := [], newDeps := [], depIds := [],
      newDepIds := [], getter := chooseProp 1 "flag" 0 "a" "b", value := .undefined }
    1 0 "flag" "a" "b" (Obj.plain [("flag", .bool true)])
    { kind := .plain, extensible := true, _isVue := false,
      props := [reactiveProperty "a" 0, reactiveProperty "b" 1], elems := [],
      __ob__ := some 0, augmented := false }
    { key := "flag", enumerable := true, configurable := true, slot := .data (.bool true) }
    (.bool true) (.bool false) 0 1
    { obj := 0, key := "a", dep := 1, val := .num 1, childOb := none, getter := none,
      setter := none, customSetter := none, shallow := false }
    { obj := 0, key := "b", dep := 2, val := .num 2, childOb := none, getter := none,
      setter := none, customSetter := none, shallow := false }
    { id := 1, subs := [] } { id := 2, subs := [] } (.num 5) (.num 6)
    (by rfl) rfl rfl ⟨rfl, rfl, rfl, rfl⟩ (by decide) (by rfl) (by rfl) rfl rfl rfl rfl
    (by rfl) (by rfl) (by rfl) (by rfl) (by rfl) ⟨rfl, rfl, rfl⟩ ⟨rfl, rfl, rfl⟩ (Or.inr ⟨rfl, rfl⟩)
    (by rfl) (by rfl) rfl rfl (by decide) (by decide) (by rfl) (by rfl) rfl rfl
  ⟨h.1, h.2.2.2.2.2.1, h.2.2.2.2.2.2.1, h.2.2.2.2.2.2.2.2.1⟩


/-! ## The claims on the subscription protocol, ids and events -/

/-- C36: `removeSub(w)` on the Dep `d` removes the first occurrence of `w` from `d.subs` and
keeps the other subscribers in their order; it changes nothing when `w` is not in `subs`; no
other Dep and no other part of the state changes.  On a Dep that does not contain `w`,
`addSub(w)` followed by `removeSub(w)` restores the state. -/
theorem C36_removeSub (s : State) (d w : Nat) (dep : Dep) (hd : s.deps[d]? = some dep) :
    (∀ l1 l2, dep.subs = l1 ++ w :: l2 → w ∉ l1 →
      (Dep.removeSub d w s).deps[d]? = some { dep with subs := l1 ++ l2 }) ∧
    (w ∉ dep.subs → Dep.removeSub d w s = s) ∧
    (∀ d', d' ≠ d → (Dep.removeSub d w s).deps[d']? = s.deps[d']?) ∧
    Dep.removeSub d w s = { s with deps := (Dep.removeSub d w s).deps } ∧
    (Dep.addSub d w s).deps[d]? = some { dep with subs := dep.subs ++ [w] } ∧
    (w ∉ dep.subs → Dep.removeSub d w (Dep.addSub d w s) = s) := by
  refine ⟨?_, ?_, ?_, rfl, ?_, addSub_removeSub s d w dep hd⟩
  · intro l1 l2 hs hn
    simp only [removeSub_deps, List.getElem?_modify_eq, hd, Option.map_eq_map, Option.map_some',
      remove, hs, erase_first l1 l2 w hn]
  · intro hn
    apply modifyDep_fix
    intro x hx
    rw [hd] at hx
    cases hx
    simp only [remove, List.erase_of_not_mem hn]
  · intro d' hne
    simp [removeSub_deps, List.getElem?_modify, Ne.symm hne]
  · simp [Dep.addSub, hd]

/-- Witness of C36 on `exSubs`: `removeSub` of watcher 2 removes the first of its two
occurrences, and `addSub` followed by `removeSub` of the absent watcher 7 restores the
state. -/
theorem C36_removeSub_witness :
    (Dep.removeSub 0 2 exSubs).deps[0]? = some { id := 0, subs := [1, 2] } ∧
    Dep.removeSub 0 7 (Dep.addSub 0 7 exSubs) = exSubs :=
  ⟨(C36_removeSub exSubs 0 2 { id := 0, subs := [2, 1, 2] } rfl).1 [] [1, 2] rfl (by simp),
   (C36_removeSub exSubs 0 7 { id := 0, subs := [2, 1, 2] } rfl).2.2.2.2.2 (by simp)⟩

/-- C35: in a state in which the active watcher `Dep.target` is the top of the target stack
(none on an empty stack), `pushTarget(t)` makes `t` the active watcher and the matching
`popTarget()` restores the state, so the active watcher is again the one before the push; a
balanced sequence of `pushTarget` and `popTarget` calls restores the state, with the stack
and the active watcher as they were.  The active watcher is the top of the stack in the
initial state, after every `pushTarget` and after every `popTarget`, hence after every
sequence of calls. -/
theorem C35_target_stack (s : State) (t : Option Nat) (hT : TargetOnTop s) :
    (pushTarget t s).target = t ∧
    (pushTarget t s).targetStack = s.targetStack ++ [t] ∧
    popTarget (pushTarget t s) = s ∧
    (∀ ops, balancedFrom 0 ops = true → runTargetOps ops s = s) ∧
    (∀ ops, TargetOnTop (runTargetOps ops s)) ∧
    TargetOnTop State.empty ∧
    (∀ (u : State) (x : Option Nat), TargetOnTop (pushTarget x u) ∧ TargetOnTop (popTarget u)) :=
  ⟨rfl, rfl, pop_push t s hT, fun ops h => balanced_restores ops s hT [] h,
    fun ops => runTargetOps_onTop ops s hT, rfl,
    fun u x => ⟨pushTarget_onTop x u, popTarget_onTop u⟩⟩

/-- Witness of C35 on `exDevTarget`, where watcher 1 is being evaluated: after
`pushTarget(0); pushTarget(); popTarget(); popTarget()` watcher 1 is the active watcher
again. -/
theorem C35_target_stack_witness :
    runTargetOps [.push (some 0), .push none, .pop, .pop] exDevTarget = exDevTarget ∧
    (runTargetOps [.push (some 0), .push none, .pop, .pop] exDevTarget).target = some 1 :=
  ⟨(C35_target_stack exDevTarget none rfl).2.2.2.1 [.push (some 0), .push none, .pop, .pop] rfl,
   by rw [(C35_target_stack exDevTarget none rfl).2.2.2.1
        [.push (some 0), .push none, .pop, .pop] rfl]; rfl⟩

/-- C33: `addDep` is idempotent within one evaluation pass: for every watcher `w` and Dep
`d`, a second `w.addDep(d)` before `cleanupDeps` leaves the state of the first call.  The
first call of the pass (the id of `d` is not yet in `w.newDepIds`) appends `d` to `w.newDeps`
and its id to `w.newDepIds`, and appends `w` to `d.subs` unless the id of `d` is in
`w.depIds` from the previous pass, in which case `d.subs` is unchanged; nothing else changes
in the Deps and the watchers.  A call that finds the id in `w.newDepIds` changes nothing. -/
theorem C33_addDep_idempotent (s : State) (w d : Nat) :
    Watcher.addDep w d (Watcher.addDep w d s) = Watcher.addDep w d s ∧
    (∀ wt dep, s.watchers[w]? = some wt → s.deps[d]? = some dep →
      (dep.id ∈ wt.newDepIds → Watcher.addDep w d s = s) ∧
      (dep.id ∉ wt.newDepIds →
        (Watcher.addDep w d s).watchers[w]? =
          some { wt with newDepIds := wt.newDepIds ++ [dep.id], newDeps := wt.newDeps ++ [d] } ∧
        (Watcher.addDep w d s).deps[d]? =
          some (if dep.id ∈ wt.depIds then dep else { dep with subs := dep.subs ++ [w] }) ∧
        (∀ d', d' ≠ d → (Watcher.addDep w d s).deps[d']? = s.deps[d']?) ∧
        (∀ w', w' ≠ w → (Watcher.addDep w d s).watchers[w']? = s.watchers[w']?))) ∧
    Watcher.addDep w d s =
      { s with deps := (Watcher.addDep w d s).deps,
               watchers := (Watcher.addDep w d s).watchers } :=
  ⟨addDep_idem w d s,
    fun wt dep hw hd => ⟨addDep_noop w d s wt dep hw hd, addDep_first w d s wt dep hw hd⟩,
    addDep_eq w d s⟩

/-- Witness of C33 on `exTeardown`, whose watcher holds the id of Dep 0 from the previous
pass: the first `addDep` registers the Dep without subscribing again, the second changes
nothing. -/
theorem C33_addDep_idempotent_witness :
    (Watcher.addDep 0 0 exTeardown).deps = [{ id := 0, subs := [0] }] ∧
    Watcher.addDep 0 0 (Watcher.addDep 0 0 exTeardown) = Watcher.addDep 0 0 exTeardown :=
  ⟨by decide, (C33_addDep_idempotent exTeardown 0 0).1⟩

/-- C40: for every vm, event name `e` and function `f`, `vm.$on(e, f)` followed by
`vm.$off(e, f)` leaves the handler list of `e` with the handlers it had before the `$on`, in
the same order (an event without a list has the empty list afterwards): the `$off` removes
the handler at the end of the list, which is the `f` just registered.  The handlers of every
other event are unchanged. -/
theorem C40_on_off (vm : EventVm) (e : String) (f : Handler) :
    (vmOn e f vm).cbs e = some ((vm.cbs e).getD [] ++ [f]) ∧
    (vmOff (some e) (some f) (vmOn e f vm)).cbs e = some ((vm.cbs e).getD []) ∧
    (∀ e', e' ≠ e → (vmOff (some e) (some f) (vmOn e f vm)).cbs e' = vm.cbs e') := by
  obtain ⟨h1, h2⟩ := vmOn_cbs vm e f
  refine ⟨h1, ?_, ?_⟩
  · simp only [vmOff, h1, offLoop_last]
    exact setCbs_same _ e _
  · intro e' hne
    simp only [vmOff, h1, offLoop_last]
    rw [setCbs_other _ e e' _ hne]
    exact h2 e' hne

/-- C34: for a watcher `w` with the lists `deps`, `depIds`, `newDeps`, `newDepIds`, after
`w.cleanupDeps()` the watcher has `deps` = the old `newDeps`, `depIds` = the old `newDepIds`
and empty `newDeps` and `newDepIds`, and no other watcher has changed.  For every Dep `d` of
the old `deps` whose id is not in the old `newDepIds`, `removeSub(w)` has been applied to
`d.subs` once per occurrence of `d` in `deps`, so `w` is not in `d.subs` any more when it
occurred there at most once; the subs of every other Dep are unchanged, and nothing but the
Deps and the watchers changes. -/
theorem C34_cleanupDeps (s : State) (w : Nat) (wt : Watcher) (hw : s.watchers[w]? = some wt) :
    (Watcher.cleanupDeps w s).watchers[w]? =
      some { wt with depIds := wt.newDepIds, newDepIds := [], deps := wt.newDeps,
                     newDeps := [] } ∧
    (∀ w', w' ≠ w → (Watcher.cleanupDeps w s).watchers[w']? = s.watchers[w']?) ∧
    (∀ d dep, s.deps[d]? = some dep → d ∈ wt.deps → dep.id ∉ wt.newDepIds →
      (Watcher.cleanupDeps w s).deps[d]? =
        some { dep with subs := (fun l => remove l w)^[wt.deps.count d] dep.subs } ∧
      (dep.subs.count w ≤ 1 →
        (Watcher.cleanupDeps w s).deps[d]? =
          some { dep with subs := dep.subs.filter fun x => decide (x ≠ w) })) ∧
    (∀ d dep, s.deps[d]? = some dep → (d ∉ wt.deps ∨ dep.id ∈ wt.newDepIds) →
      (Watcher.cleanupDeps w s).deps[d]? = some dep) ∧
    Watcher.cleanupDeps w s =
      { s with deps := (Watcher.cleanupDeps w s).deps,
               watchers := (Watcher.cleanupDeps w s).watchers } := by
  have hdeps : ∀ d : Nat, (Watcher.cleanupDeps w s).deps[d]? =
      (s.deps[d]?).map fun dep : Dep =>
        if dep.id ∈ wt.newDepIds then dep
        else { dep with subs := (fun l => remove l w)^[wt.deps.count d] dep.subs } := by
    intro d
    rw [cleanupDeps_deps w s wt hw, cleanupFold_deps, List.count_reverse]
  refine ⟨cleanupDeps_lookup w s wt hw, fun w' hne => cleanupDeps_other w w' s (Ne.symm hne),
    ?_, ?_, cleanupDeps_eq w s⟩
  · intro d dep hd hmem hid
    have h1 : (Watcher.cleanupDeps w s).deps[d]? =
        some { dep with subs := (fun l => remove l w)^[wt.deps.count d] dep.subs } := by
      rw [hdeps, hd]
      simp [hid]
    refine ⟨h1, fun hc => ?_⟩
    rw [h1]
    have hpos : 0 < wt.deps.count d := List.count_pos_iff.mpr hmem
    obtain ⟨k, hk⟩ : ∃ k, wt.deps.count d = k + 1 := ⟨wt.deps.count d - 1, by omega⟩
    rw [hk, Function.iterate_succ, Function.comp_apply, remove_eq_filter w _ hc]
    have hfix : ∀ j, (fun l => remove l w)^[j] (dep.subs.filter fun x => decide (x ≠ w)) =
        dep.subs.filter fun x => decide (x ≠ w) := by
      intro j
      induction j with
      | zero => rfl
      | succ j ih =>
        rw [Function.iterate_succ', Function.comp_apply, ih]
        simp only [remove]
        apply List.erase_of_not_mem
        simp
    rw [hfix]
  · intro d dep hd hor
    rw [hdeps, hd]
    rcases hor with hn | hin
    · simp [List.count_eq_zero.mpr hn]
    · simp [hin]

/-- Witness of C34 on `exStale`: the watcher is removed from the subs of Dep 0 and stays in
those of Dep 1. -/
theorem C34_cleanupDeps_witness :
    (Watcher.cleanupDeps 0 exStale).deps[0]? = some { id := 0, subs := [] } ∧
    (Watcher.cleanupDeps 0 exStale).deps[1]? = some { id := 1, subs := [0] } :=
  ⟨((C34_cleanupDeps exStale 0 _ rfl).2.2.1 0 { id := 0, subs := [0] } rfl (by decide)
      (by decide)).2 (by decide),
   (C34_cleanupDeps exStale 0 _ rfl).2.2.2.1 1 { id := 1, subs := [0] } rfl
      (Or.inr (by decide))⟩

/-- C39: for a target that is a Vue instance or whose Observer has `vmCount > 0` (the root
data of a component, which is not an array): `set(target, key, val)` with a key that is not
in the target returns `val` and leaves the whole state as it is, whatever the callee of the
calls it could make: no property is added, no accessor installed, no Dep notified.
`del(target, key)` with a key that is not an index of an array returns and leaves the whole
state as it is. -/
theorem C39_root_data (call : Call) (s : State) (target : Addr) (obj : Obj) (key : PropKey)
    (val : Val) (ob : Option Observer) (ht : s.heap[target]? = some obj)
    (hob : obj.observer s = some ob)
    (hroot : obj._isVue = true ∨ ∃ o, ob = some o ∧ 0 < o.vmCount) :
    (obj.kind ≠ .array → obj.hasProperty key.toKey = false →
      set call target key val s = some (.ret val, s)) ∧
    (arrayIndex obj key = none → del call target key s = some (.ret .undefined, s)) :=
  ⟨fun hk hin => set_root call target obj key val s ob ht hk hin hob hroot,
   fun hk => del_root call target obj key s ob ht hk hob hroot⟩

/-- Witness of C39 on the root data `{x: 1}` of `exRoot`: `set(data, 'y', 2)` and
`del(data, 'x')` change nothing. -/
theorem C39_root_data_witness :
    set (exec 5) 0 (.name "y") (.num 2) exRoot = some (.ret (.num 2), exRoot) ∧
    del (exec 5) 0 (.name "x") exRoot = some (.ret .undefined, exRoot) :=
  ⟨(C39_root_data (exec 5) exRoot 0 _ (.name "y") (.num 2) (some exRootObserver) (by rfl)
      (by rfl) (Or.inr ⟨_, rfl, by decide⟩)).1 (by decide) (by decide),
   (C39_root_data (exec 5) exRoot 0 _ (.name "x") (.num 2) (some exRootObserver) (by rfl)
      (by rfl) (Or.inr ⟨_, rfl, by decide⟩)).2 (by rfl)⟩

/-- C37: ids are handed out in the order of construction.  `new Dep()` gives the new Dep
the id of the counter `uid` and increments it, the Watcher constructor increments its
counter and gives the new watcher that id; both counters start at 0.  For every call of the
interpreter that returns, the Deps and watchers that existed keep their id and the ones
constructed during the call have the consecutive ids that follow the counters, in the order
of their construction.  So in every state reached from a state whose ids are those of a
program run from the start (the Deps have `0, 1, ...`, the watchers `1, 2, ...`), the ids
are again of that form, and no two Deps and no two watchers have the same id. -/
theorem C37_ids_increasing (n : Nat) (t : Task) (s : State) (c : Completion) (s' : State)
    (h : exec n t s = some (c, s')) :
    IdsStep s s' ∧
    (IdsInOrder s → IdsInOrder s' ∧ s'.depIdList.Nodup ∧ s'.watcherIdList.Nodup) ∧
    (∀ u : State, (Dep.new u).2.deps = u.deps ++ [{ id := u.depUid, subs := [] }] ∧
      (Dep.new u).2.depUid = u.depUid + 1) ∧
    (∀ (u : State) (vm : Nat) (expOrFn cb : Fn) (options : Option WatcherOptions)
        (isRenderWatcher : Bool),
      (Watcher.init vm expOrFn cb options isRenderWatcher u).watcherIdList =
        u.watcherIdList ++ [u.watcherUid + 1] ∧
      (Watcher.init vm expOrFn cb options isRenderWatcher u).watcherUid = u.watcherUid + 1) ∧
    State.empty.depUid = 0 ∧ State.empty.watcherUid = 0 ∧ IdsInOrder State.empty := by
  have hstep : IdsStep s s' :=
    exec_closed_any idsStep_closed (fun s w => idsStep_same rfl rfl rfl rfl) n t s c s' h
  refine ⟨hstep, fun hs => ?_, fun u => ⟨rfl, rfl⟩,
    fun u vm expOrFn cb options isRenderWatcher => init_ids vm expOrFn cb options isRenderWatcher u,
    rfl, rfl, ⟨rfl, rfl⟩⟩
  have h1 := idsInOrder_step hstep hs
  exact ⟨h1, idsInOrder_nodup h1⟩

/-- Witness of C37: the construction of the watcher of `exWatched` in the state
`exDataObserved`, which holds two Deps made by `observe`. -/
theorem C37_ids_increasing_witness :
    exDataObserved.depIdList = [0, 1] ∧ exWatched.depIdList = [0, 1] ∧
    exWatched.watcherIdList = [1] ∧ IdsInOrder exWatched :=
  ⟨by decide, by decide, by decide,
    ((C37_ids_increasing 6 (.newWatcher 0 exReadX noop none false) exDataObserved (.retW 0)
      exWatched (by decide)).2.1 ⟨by decide, by decide⟩).1⟩

/-- The dependency records after an evaluation that reaches `cleanupDeps()`: in a state
reached from a state without Deps and watchers through constructions, evaluations, reads,
writes, notifications and flushes (with the user code they run), a `w.get()` that returns,
or that throws the exception of the getter of a watcher that is not deep, leaves a reached
state in which, if `w` is still active (it was never torn down):
`w.newDeps` and `w.newDepIds` are empty; for every Dep `d`, `w` is in `d.subs` if and only
if `d` is in `w.deps`; every entry of `w.deps` is a Dep; and `w.depIds` holds exactly the ids
of the Deps in `w.deps`. -/
theorem get_subs_match (n : Nat) (s : State) (W : Nat) (wt : Watcher) (c : Completion)
    (s' : State) (wt' : Watcher) (hs : Reached s) (hw : s.watchers[W]? = some wt)
    (hget : exec (n + 1) (.get W) s = some (c, s'))
    (hfin : wt.deep = false ∨ ∃ v, c = .ret v)
    (hw' : s'.watchers[W]? = some wt') (hact : wt'.active = true) :
    Reached s' ∧ wt'.newDeps = [] ∧ wt'.newDepIds = [] ∧
    (∀ (d : Nat) (dep : Dep), s'.deps[d]? = some dep → (W ∈ dep.subs ↔ d ∈ wt'.deps)) ∧
    (∀ d ∈ wt'.deps, ∃ dep, s'.deps[d]? = some dep) ∧
    (∀ id : Nat, id ∈ wt'.depIds ↔
      ∃ d ∈ wt'.deps, ∃ dep, s'.deps[d]? = some dep ∧ dep.id = id) := by
  have hr : Reached s' := Reached.call (n + 1) (.get W) s c s' hs hget
  have hp := reached_protocol hr
  obtain ⟨s2, hs2⟩ := get_ends (exec n) W s wt c s' hw hget hfin
  have hlen := length_of_ids (cleanupDeps_watcherIds W s2)
  have hnew : wt'.newDeps = [] ∧ wt'.newDepIds = [] := by
    rw [hs2] at hw'
    obtain ⟨wt2, hw2⟩ := exists_of_length hlen W wt' hw'
    rw [cleanupDeps_lookup W s2 wt2 hw2] at hw'
    cases hw'
    exact ⟨rfl, rfl⟩
  obtain ⟨hold, -⟩ := hp.records W wt' hw'
  refine ⟨hr, hnew.1, hnew.2, ?_, ?_, ?_⟩
  · intro d dep hd
    constructor
    · intro hm
      rcases (hp.subs W wt' hw' d dep hd).2 hm with hx | hx
      · exact hx
      · rw [hnew.1] at hx
        simp at hx
    · intro hm
      obtain ⟨dep0, e1, -, e3⟩ := hold.1 d hm
      rw [hd] at e1
      cases e1
      exact e3 hact
  · intro d hm
    obtain ⟨dep0, e1, -, -⟩ := hold.1 d hm
    exact ⟨dep0, e1⟩
  · intro id
    constructor
    · intro hid
      exact hold.2 id hid
    · rintro ⟨d, hm, dep, hd, rfl⟩
      obtain ⟨dep0, e1, e2, -⟩ := hold.1 d hm
      rw [hd] at e1
      cases e1
      exact e2

/-- C32: in every state reached from a state without Deps and watchers through calls of the
interpreter (constructions, evaluations, reads, writes, notifications, flushes), `depend()`
of Deps, and `addDep(dep)`, `cleanupDeps()`, `teardown()` and `depend()` of watchers, the
subs of each Dep contain each watcher at most once, and the state is one that the protocol
maintains.  `addSub` itself makes no check: called twice with the same watcher it appends the
watcher twice. -/
theorem C32_subs_unique (s : State) (hs : Reached s) :
    (∀ (d : Nat) (dep : Dep) (W : Nat), s.deps[d]? = some dep → dep.subs.count W ≤ 1) ∧
    ProtocolOK s ∧
    (∀ (d w : Nat) (dep : Dep), s.deps[d]? = some dep →
      (Dep.addSub d w (Dep.addSub d w s)).deps[d]? =
        some { dep with subs := dep.subs ++ [w, w] }) := by
  have hp := reached_protocol hs
  refine ⟨?_, hp, ?_⟩
  · intro d dep W hd
    cases hw : s.watchers[W]? with
    | none =>
      have hn : W ∉ dep.subs := by
        intro hm
        have := hp.subsExist d dep hd W hm
        rw [List.getElem?_eq_none_iff] at hw
        omega
      rw [List.count_eq_zero.mpr hn]
      omega
    | some wt => exact (hp.subs W wt hw d dep hd).1
  · intro d w dep hd
    simp [Dep.addSub, State.modifyDep, hd]

/-- C38, amended: in a reached state, for an active watcher `w` that is not being evaluated
(it has collected no new Dep, it is neither the target nor in the target stack), after
`w.teardown()` and after every later sequence of `w.update()`, `w.run()` and `w.depend()`
calls that return, `w` is cancelled: it is inactive and occurs in the subs of no Dep. -/
theorem C38_teardown_cancels (n : Nat) (s : State) (W : Nat) (wt : Watcher)
    (calls : List WatcherCall) (s' : State) (hs : Reached s)
    (hw : s.watchers[W]? = some wt) (hact : wt.active = true)
    (hidle : wt.newDeps = [] ∧ s.target ≠ some W ∧ some W ∉ s.targetStack)
    (hcalls : WatcherCall.evaluate ∉ calls)
    (hrun : watcherCalls n W calls (Watcher.teardown W s) = some s') :
    Cancelled W (Watcher.teardown W s) ∧ Cancelled W s' ∧
    (∀ (d : Nat) (dep : Dep), s'.deps[d]? = some dep → W ∉ dep.subs) := by
  have h1 := teardown_cancels s W wt (reached_protocol hs) hw hact hidle.1 hidle.2.1 hidle.2.2
  have h2 := watcherCalls_cancelled n W calls hcalls _ s' hrun h1
  exact ⟨h1, h2, h2.2.2.2⟩

/-- Witness of C32 on `exTwiceAgain`: the getter reads the same property twice and has been
evaluated twice, and its watcher is once in the subs of the Dep of the property. -/
theorem C32_subs_unique_witness :
    exTwiceAgain.deps = [{ id := 0, subs := [] }, { id := 1, subs := [0] }] ∧
    ∀ (d : Nat) (dep : Dep) (W : Nat), exTwiceAgain.deps[d]? = some dep → dep.subs.count W ≤ 1 :=
  ⟨by decide, (C32_subs_unique exTwiceAgain exTwiceAgain_reached).1⟩

/-- Witness of C38 on `exWatched`: after `teardown()`, `update()`, `run()` and `depend()` the
watcher is in the subs of no Dep. -/
theorem C38_teardown_cancels_witness :
    exCancelled.deps = [{ id := 0, subs := [] }, { id := 1, subs := [] }] ∧
    Cancelled 0 exCancelled :=
  ⟨by decide,
    (C38_teardown_cancels 3 exWatched 0 exWatchedWatcher [.update, .run, .depend] exCancelled
      exWatched_reached (by decide) (by decide) ⟨by decide, by decide, by decide⟩ (by decide)
      (by decide)).2.1⟩

/-- Counterexample to C38 as stated: the lazy watcher of `exComputed` is active and not
being evaluated; after `teardown()` it is in the subs of no Dep, and the later `evaluate()`
runs its getter, which reads the property behind Dep 1 and subscribes the torn-down watcher
to that Dep. -/
theorem C38_counterexample :
    (∃ wt, exComputed.watchers[0]? = some wt ∧ wt.active = true ∧ wt.newDeps = []) ∧
    exComputed.target = none ∧ exComputed.targetStack = [] ∧
    (Watcher.teardown 0 exComputed).deps = [{ id := 0, subs := [] }, { id := 1, subs := [] }] ∧
    watcherCalls 6 0 [.evaluate] (Watcher.teardown 0 exComputed) = some exRevived ∧
    exRevived.deps = [{ id := 0, subs := [] }, { id := 1, subs := [0] }] ∧
    (∃ wt, exRevived.watchers[0]? = some wt ∧ wt.active = false) :=
  ⟨⟨_, rfl, by decide, by decide⟩, by decide, by decide, by decide, by decide, by decide,
    ⟨_, rfl, by decide⟩⟩


/-! ## The claim on the observation of a graph -/

/-- C2, amended: for a finite graph `g` of plain extensible objects and arrays none of which
carries an Observer yet, whose enumerable properties are configurable data properties, with
observation enabled: `observe(v)` on an object `v` of the graph returns, with any fuel from
`2 * pending + 1` on (`pending` is the number of objects of the graph).  Afterwards every
object `a` reachable from `v` carries an Observer whose `value` is `a` and no other Observer
has that `value`; it keeps its kind, its items and its enumerable keys; and every enumerable
key of a reachable object that is not an array is a reactive accessor whose cell holds the
former value, which a read outside any watcher evaluation returns. -/
theorem C2_observe_graph (g : Addr → Bool) (s0 : State) (v : Addr) (hg : GoodGraph g s0)
    (hv : g v = true) (n : Nat) (hn : 2 * pending g s0 + 1 ≤ n) :
    ∃ r s', exec n (.observe (.ref v) false) s0 = some (.retOb r, s') ∧
      ∀ a, Reach s0 v a →
        FullyDone s0 s' a ∧
        (∀ (i j : Nat) (obi obj : Observer), s'.observers[i]? = some obi →
          s'.observers[j]? = some obj → obi.value = a → obj.value = a → i = j) ∧
        (∀ obj0 obj, s0.heap[a]? = some obj0 → s'.heap[a]? = some obj →
          obj.keys = obj0.keys ∧ obj.kind = obj0.kind ∧ obj.elems = obj0.elems) ∧
        (s0.target = none → ∀ (obj0 : Obj) (p0 : Property) (x : Val),
          s0.heap[a]? = some obj0 → obj0.kind ≠ .array → p0 ∈ obj0.props →
          p0.enumerable = true → p0.slot = .data x →
          ∀ m, ∃ c, exec (m + 2) (.propGet a p0.key) s' =
            some (.ret x, s'.log (.call (.reactiveGetter c) []))) := by
  obtain ⟨r, s', hex, hstep, hobs⟩ := observe_ok hg (pending g s0) s0 (obsInv_init hg)
    (Nat.le_refl _) (.ref v) (by intro b hb; cases hb; exact hv) n hn
  refine ⟨r, s', hex, ?_⟩
  intro a hr
  have hga := reach_in_graph hg hv hr
  have hdone := reach_done hg hstep hv (hobs v rfl) hr
  refine ⟨hdone, ?_, ?_, ?_⟩
  · intro i j obi obj hi hj hvi hvj
    obtain ⟨o1, e1, e2⟩ := hstep.inv.observers i obi hi (by rw [hvi]; exact hga)
    obtain ⟨o2, f1, f2⟩ := hstep.inv.observers j obj hj (by rw [hvj]; exact hga)
    rw [hvi] at e1
    rw [hvj, e1] at f1
    cases f1
    rw [e2] at f2
    cases f2
    rfl
  · intro obj0 obj h0 h1
    obtain ⟨obj', e1, hrel⟩ := hstep.inv.objs a obj0 hga h0
    rw [h1] at e1
    cases e1
    exact ⟨keys_of_shape hrel.shape, hrel.kind, hrel.elems⟩
  · intro ht obj0 p0 x h0 hk hp he hx m
    obtain ⟨obj0', obj', i, ob, e1, e2, -, -, -, e6, -⟩ := hdone
    rw [h0] at e1
    cases e1
    obtain ⟨p0', x', c, cell, f1, -, f3, f4, f5, f6, f7, -⟩ := e6 hk p0 hp he
    have hgood := goodGraph_obj hg hga h0
    rw [getOwnProperty_of_mem hgood.nodup hp] at f1
    cases f1
    rw [hx] at f3
    cases f3
    refine ⟨c, ?_⟩
    rw [read_reactive m s' a p0.key obj' c cell e2 f4 f5 f7 (by rw [hstep.target]; exact ht), f6]


/-- Witness of C2 on `exGraph`, two objects that refer to each other: `observe` of the first
one returns with fuel 9 and leaves both fully observed. -/
theorem C2_observe_graph_witness :
    FullyDone exGraph exObserved 0 ∧ FullyDone exGraph exObserved 1 := by
  obtain ⟨r, s', h1, h2⟩ := C2_observe_graph (fun a => decide (a < 2)) exGraph 0 exGraph_good
    (by decide) 9 (by decide)
  have hs : exObserved = s' := by
    unfold exObserved
    rw [h1]
  rw [hs]
  refine ⟨(h2 0 (Reach.refl 0)).1, (h2 1 ?_).1⟩
  refine Reach.step 0 0 1 (Obj.plain [("a", .num 1), ("b", .ref 1)]) (Reach.refl 0) rfl ?_
  exact Or.inr ⟨by decide, ⟨"b", true, true, .data (.ref 1), true⟩, by simp [Obj.plain], rfl, rfl⟩

/-- Counterexample to C2 as stated: the object of `exLate` is a plain extensible object whose
only enumerable property `x` is a configurable data property, and observation is enabled;
it carries an Observer from an earlier `observe`, so `observe` returns that Observer and
leaves the state as it is, with `x` still a data property. -/
theorem C2_counterexample :
    exLate.heap =
      [{ kind := .plain, extensible := true, _isVue := false,
         props := [{ key := "x", enumerable := true, configurable := true,
                     slot := .data (.num 1) }],
         elems := [], __ob__ := some 0, augmented := false }] ∧
    exLate.shouldObserve = true ∧ exLate.env.isServerRendering = false ∧
    ∀ n, exec (n + 1) (.observe (.ref 0) false) exLate = some (.retOb (some 0), exLate) := by
  refine ⟨by decide, by decide, by decide, ?_⟩
  intro n
  have hh : exLate.heap[0]? = some
      { kind := .plain, extensible := true, _isVue := false,
        props := [{ key := "x", enumerable := true, configurable := true,
                    slot := .data (.num 1) }],
        elems := [], __ob__ := some 0, augmented := false } := by decide
  simp only [exec_succ, dispatch, observe, hh]
  rfl


/-! ## Claims settled by a failing input -/

/-- C13 (code bug): `get()` calls `traverse(value)` inside its `finally` block, before
`popTarget()` and `cleanupDeps()`.  On `exTrap` no watcher is being evaluated and the target
stack is empty; the constructor of a deep watcher of `() => o`, where reading `o.bad` throws,
runs `get()`: the getter returns, the traversal throws `'boom'`, and `get()` ends with that
exception while the watcher is still the target and still on the target stack.
With a getter that first reads `obj.x`, the Dep of `x` stays in `newDeps` and `deps` stays
empty: the dependencies are not reconciled. -/
theorem C13_traverse_throws :
    exTrap.target = none ∧ exTrap.targetStack = [] ∧
    exec 8 (.newWatcher 0 (.code (.lit (.ref 1))) noop (some exDeep) false) exTrap =
      some (.thrown (.str "boom"), exTrapped) ∧
    exTrapped.target = some 0 ∧ exTrapped.targetStack = [some 0] ∧
    exec 8 (.newWatcher 0 (.code (.seq (.prop (.lit (.ref 0)) "x") (.lit (.ref 1)))) noop
      (some exDeep) false) exTrap = some (.thrown (.str "boom"), exTrappedRead) ∧
    exTrappedRead.target = some 0 ∧ exTrappedRead.targetStack = [some 0] ∧
    (exTrappedRead.watchers[0]?.map fun x => (x.deps, x.newDeps, x.depIds, x.newDepIds)) =
      some ([], [1], [], [1]) := by
  refine ⟨by decide, by decide, by decide, by decide, by decide, by decide, by decide,
    by decide, by decide⟩

/-- C31 (code bug): the constructor of the deep watcher of `exTrappedRead` evaluates the
getter, which reads `obj.x` and returns an object whose traversal throws; `get()` completes
by throwing from its `finally` block before `cleanupDeps()`.  In the reached state the
watcher is active and is in the subs of the Dep of `x`, which is not in its `deps`, and
`depIds` is empty. -/
theorem C31_cleanup_skipped :
    Reached exTrappedRead ∧
    exec 7 (.get 0)
        (Watcher.init 0 (.code (.seq (.prop (.lit (.ref 0)) "x") (.lit (.ref 1)))) noop
          (some exDeep) false exTrap) = some (.thrown (.str "boom"), exTrappedRead) ∧
    exTrappedRead.deps = [{ id := 0, subs := [] }, { id := 1, subs := [0] }] ∧
    (exTrappedRead.watchers[0]?.map fun x => (x.active, x.deps, x.depIds)) =
      some (true, [], []) :=
  ⟨exTrappedRead_reached, by decide, by decide, by decide⟩

/-- C17 (amended): `L.depend()` changes nothing when there is no active watcher.  In a
reached state in which the watcher `W` is being evaluated (`Dep.target`) and has not been
torn down, after `L.depend()` every entry of `L.deps` is a Dep whose id is in `W.newDepIds`
and which has `W` in its subs. -/
theorem C17_depend_propagates (s : State) (L : Nat) (wtL : Watcher) (hs : Reached s)
    (hL : s.watchers[L]? = some wtL) :
    (s.target = none → Watcher.depend L s = s) ∧
    (∀ W wtW, s.target = some W → s.watchers[W]? = some wtW → wtW.active = true →
      ∃ wtW', (Watcher.depend L s).watchers[W]? = some wtW' ∧
        ∀ d ∈ wtL.deps, ∃ dep dep', s.deps[d]? = some dep ∧
          (Watcher.depend L s).deps[d]? = some dep' ∧ dep'.id = dep.id ∧
          dep.id ∈ wtW'.newDepIds ∧ W ∈ dep'.subs) := by
  refine ⟨?_, ?_⟩
  · intro ht
    simp only [Watcher.depend, hL]
    exact dependFold_none _ s ht
  · intro W wtW ht hW ha
    have hp := reached_protocol hs
    have hS := subscribed_of_protocol hp W wtW hW ha
    simp only [Watcher.depend, hL]
    obtain ⟨-, -, h3, -, h5, wt', h6, -, h8⟩ :=
      dependFold_spec W wtL.deps.reverse s wtW ht hW hS hp.unique
    refine ⟨wt', h6, ?_⟩
    intro d hd
    obtain ⟨dep, hdep, -, -⟩ := (hp.records L wtL hL).1.1 d hd
    have hin := h8 d (List.mem_reverse.mpr hd) dep hdep
    obtain ⟨dep', e1, e2⟩ := h5 d dep hdep
    exact ⟨dep, dep', hdep, e1, e2, hin, h3 wt' h6 d dep' e1 (Or.inr (by rw [e2]; exact hin))⟩

/-- Witness of C17 on `exBothTarget`: the lazy watcher 0 propagates the Dep 1 of `obj.x` to
the watcher 1 under evaluation. -/
theorem C17_depend_propagates_witness :
    (exBothTarget.watchers[0]?.map fun x => x.deps) = some [1] ∧
    ∃ wtW', (Watcher.depend 0 exBothTarget).watchers[1]? = some wtW' ∧
      ∀ d ∈ [1], ∃ dep dep', exBothTarget.deps[d]? = some dep ∧
        (Watcher.depend 0 exBothTarget).deps[d]? = some dep' ∧ dep'.id = dep.id ∧
        dep.id ∈ wtW'.newDepIds ∧ 1 ∈ dep'.subs :=
  ⟨by decide,
    (C17_depend_propagates exBothTarget 0
      { vm := 0, cb := noop, id := 1, deep := false, user := false, lazy := true,
        sync := false, dirty := true, active := true, deps := [1], newDeps := [],
        depIds := [1], newDepIds := [], getter := exReadX, value := .undefined }
      exBothTarget_reached (by decide)).2 1
      { vm := 0, cb := noop, id := 2, deep := false, user := false, lazy := false,
        sync := false, dirty := false, active := true, deps := [], newDeps := [],
        depIds := [], newDepIds := [], getter := noop, value := .undefined }
      (by decide) (by decide) rfl⟩

/-- Counterexample to C17 as stated: in `exTornTarget` the watcher 1 has read `obj.x`, has
been torn down and is being evaluated again; the lazy watcher 0 lists the Dep 1 of `obj.x`.
After `L.depend()` the id of that Dep is in `newDepIds` of the watcher 1, but `addDep` has
skipped `addSub` because the id is still in its `depIds`: the watcher 1 is not in the subs
of the Dep. -/
theorem C17_counterexample :
    exTornTarget.target = some 1 ∧
    (exTornTarget.watchers[0]?.map fun x => (x.lazy, x.deps)) = some (true, [1]) ∧
    (exTornTarget.watchers[1]?.map fun x => (x.active, x.depIds, x.newDepIds)) =
      some (false, [1], []) ∧
    ((Watcher.depend 0 exTornTarget).watchers[1]?.map fun x => x.newDepIds) = some [1] ∧
    (Watcher.depend 0 exTornTarget).deps = [{ id := 0, subs := [] }, { id := 1, subs := [0] }] := by
  refine ⟨by decide, by decide, by decide, by decide, by decide⟩

/-- C24 (amended): a read of a reactive property (cell `c`, without pre-existing getter).
Without active watcher it returns the value and leaves the state as it is.  In a reached
state in which the watcher `W` is being evaluated and has not been torn down (every Observer
having its Dep), the read returns the value and changes only the Dep store and the watchers;
`W` is then registered on the Dep of the property; when the property has a child Observer,
also on the Dep of that Observer; and when the value is an array (nesting bounded by the
fuel) also on the Observer Dep of every observed object among its items and the items of the
arrays nested in it. -/
theorem C24_read_collects (n : Nat) (W c : Nat) (cell : Cell) (s : State)
    (hc : s.cells[c]? = some cell) (hg : cell.getter = none) :
    (s.target = none → ∀ call : Call, reactiveGetter call c s = some (.ret cell.val, s)) ∧
    (Reached s → ∀ wt, s.target = some W → s.watchers[W]? = some wt → wt.active = true →
      ObDepsExist s → ∀ dep, s.deps[cell.dep]? = some dep →
      (cell.childOb = none →
        ∃ s', reactiveGetter (exec n) c s = some (.ret cell.val, s') ∧ CollectStep W s s' ∧
          Registered W cell.dep s') ∧
      (∀ ob o, cell.childOb = some ob → s.observers[ob]? = some o →
        (∀ a, cell.val = .ref a → ∃ vo, s.heap[a]? = some vo ∧ vo.kind ≠ .array) →
        ∃ s', reactiveGetter (exec n) c s = some (.ret cell.val, s') ∧ CollectStep W s s' ∧
          Registered W cell.dep s' ∧ Registered W o.dep s') ∧
      (∀ ob o a vo k, cell.childOb = some ob → s.observers[ob]? = some o →
        cell.val = .ref a → s.heap[a]? = some vo → vo.kind = .array → ArrDepth s k a →
        k ≤ n →
        ∃ s', reactiveGetter (exec n) c s = some (.ret cell.val, s') ∧ CollectStep W s s' ∧
          Registered W cell.dep s' ∧ Registered W o.dep s' ∧
          ∀ f, Nested s a f → ObRegistered W s s' f)) := by
  refine ⟨?_, ?_⟩
  · intro ht call
    exact reactiveGetter_noTarget call c cell cell.val s s hc (by simp [Cell.read, hg]) ht
  · intro hs wt ht hw ha hD dep hdep
    exact reactiveGetter_collect n W c cell s hc hg (collecting_of_reached hs W wt ht hw ha) hD
      dep hdep

/-- Witness of C24 on `exReading`: the read of `x` registers watcher 0 on Dep 1. -/
theorem C24_read_collects_witness :
    ∃ s', reactiveGetter (exec 0) 0 exReading = some (.ret (.num 1), s') ∧
      CollectStep 0 exReading s' ∧ Registered 0 1 s' :=
  ((C24_read_collects 0 0 0
    { obj := 0, key := "x", dep := 1, val := .num 1, childOb := none, getter := none,
      setter := none, customSetter := none, shallow := false }
    exReading (by rfl) rfl).2 exReading_reached exWatchedWatcher (by rfl) (by rfl) (by decide)
    exReading_obDeps _ (by rfl)).1 rfl

/-- C8 (amended): `teardown` makes `w` inactive without touching the trace, and from every
state in which `w` is inactive, no later sequence of calls of the interpreter (writes,
`update()`, `run()`, `notify()`, evaluations of other watchers, with the user code they
run) other than `get()` and `evaluate()` of `w` itself, and no notification pass over a
snapshot that still contains `w`, invokes the getter or the callback of `w`; `w` stays
inactive. -/
theorem C8_teardown_stops (n : Nat) (w : Nat) :
    (∀ s0 wt0, s0.watchers[w]? = some wt0 →
      ∃ wt, (Watcher.teardown w s0).watchers[w]? = some wt ∧ wt.active = false ∧
        (Watcher.teardown w s0).trace = s0.trace) ∧
    (∀ s wt, s.watchers[w]? = some wt → wt.active = false →
      (∀ ts s', (∀ t ∈ ts, t ≠ Task.get w ∧ t ≠ Task.evaluate w) →
        execAll n ts s = some s' →
        wEvents w s'.trace = wEvents w s.trace ∧
          ∃ wt', s'.watchers[w]? = some wt' ∧ wt'.active = false) ∧
      (∀ subs c s', Dep.notifyLoop (exec n) subs s = some (c, s') →
        wEvents w s'.trace = wEvents w s.trace ∧
          ∃ wt', s'.watchers[w]? = some wt' ∧ wt'.active = false)) := by
  refine ⟨?_, ?_⟩
  · intro s0 wt0 h0
    exact ⟨_, teardown_lookup w s0 wt0 h0, rfl, by rw [teardown_eq]⟩
  · intro s wt hw ha
    refine ⟨?_, ?_⟩
    · intro ts s' hts h
      obtain ⟨h1, h2⟩ := execAll_staysDown w n ts s s' hts h wt hw ha
      exact ⟨h2, h1⟩
    · intro subs c s' h
      obtain ⟨h1, h2⟩ := notifyLoop_closed (staysDown_closed w)
        (fun t s c s' hc hok => exec_closed (staysDown_closed w) n t s c s' hc hok) subs h
        wt hw ha
      exact ⟨h2, h1⟩

/-- Witness of C8 on `exTeardown`: after the teardown, `update()`, `run()` and a `notify()`
of the former Dep leave the trace without any invocation of the watcher. -/
theorem C8_teardown_stops_witness :
    wEvents 0 exAfterTeardown.trace = wEvents 0 (Watcher.teardown 0 exTeardown).trace ∧
      ∃ wt', exAfterTeardown.watchers[0]? = some wt' ∧ wt'.active = false :=
  ((C8_teardown_stops 4 0).2 (Watcher.teardown 0 exTeardown) { exWatcher with active := false }
    (by rfl) rfl).1 [.update 0, .run 0, .notify 0] exAfterTeardown
    (by
      intro t ht
      simp only [List.mem_cons, List.mem_singleton, List.not_mem_nil, or_false] at ht
      rcases ht with h | h | h <;> subst h <;> exact ⟨by simp, by simp⟩)
    (by rfl)

/-- Counterexample to C8 as stated: in `exCompDown` the lazy watcher 0 of the computed
property `comp` has been torn down before its first evaluation, and its getter has never
been invoked.  The later write `data.flag = true` notifies the live sync watcher 1, whose
getter now reads `vm.comp`: the getter of the computed property finds watcher 0 dirty and
calls `evaluate()`, which does not test `active`, and the getter of the torn-down watcher is
invoked. -/
theorem C8_counterexample :
    (exCompDown.watchers[0]?.map fun x => (x.active, x.lazy, x.dirty)) =
      some (false, true, true) ∧
    wEvents 0 exCompDown.trace = [] ∧
    execComputed 0 1 "comp" 14 (.propSet 0 "flag" (.bool true)) exCompDown =
      some (.ret .undefined, exCompWritten) ∧
    wEvents 0 exCompWritten.trace = [.getter 0] := by
  refine ⟨by decide!, by decide!, by decide!, by decide!⟩

/-- Counterexample to C11 as stated: in the development build of `exForced` with
`config.async` off, `update()` of the watcher, which is neither lazy nor sync, calls
`queueWatcher`, which flushes at once: the getter of the watcher has been invoked a second
time when `update()` returns. -/
theorem C11_counterexample :
    (exForced.watchers[0]?.map fun x => (x.lazy, x.sync)) = some (false, false) ∧
    exForced.env.async = false ∧ wEvents 0 exForced.trace = [.getter 0] ∧
    ((exec 9 (.update 0) exForced).map fun r => (r.1, wEvents 0 r.2.trace)) =
      some (.ret .undefined, [.getter 0, .getter 0]) := by
  refine ⟨by decide!, by decide!, by decide!, by decide!⟩

/-- Counterexample to C18 as stated: the Dep 1 of `data.x` in `exTwoSubs` has the subscribers
`[0, 1]`; watcher 0 is a sync watcher that is not a user watcher and whose getter throws once
`data.x` is falsy.  The write `data.x = 0` starts `notify()`: `update()` of watcher 0 throws
`'boom'`, the pass ends with that exception, and watcher 1, which was in the snapshot, gets
no `update()`. -/
theorem C18_counterexample :
    exTwoSubs.deps[1]? = some { id := 1, subs := [0, 1] } ∧
    ((exec 12 (.propSet 0 "x" (.num 0)) exTwoSubs).map fun r =>
      (r.1, r.2.trace.filter fun e => decide (e = .notify 1 ∨ e = .update 0 ∨ e = .update 1))) =
      some (.thrown (.str "boom"), [.notify 1, .update 0]) := by
  refine ⟨by decide!, by decide!⟩

/-- C15 (amended): the Watcher constructor, for a function getter, on a component `vm`.
In the state `Watcher.init …` in which the constructor has registered the watcher `w`: `w`
is active, its value is `undefined`, `dirty` equals `lazy`, `deps` is empty, `vm._watchers`
is the old list with `w` appended, and no call has been made.  With the lazy option the
constructor returns that state (the getter is not invoked).  Without it the constructor
calls `get()` once and, when that returns `v`, stores `v` as the value; in a reached state
`w` is then subscribed to every Dep of its `deps` if it is still active, and, for a watcher
that is not deep, `deps` is the list collected in `newDeps` when the getter returned. -/
theorem C15_constructor (n : Nat) (s : State) (vm : Nat) (c : Component) (expOrFn cb : Fn)
    (options : Option WatcherOptions) (isRenderWatcher : Bool) (hvm : s.vms[vm]? = some c) :
    (∃ wt0, (Watcher.init vm expOrFn cb options isRenderWatcher s).watchers[s.watchers.length]?
        = some wt0 ∧
      wt0.active = true ∧ wt0.value = .undefined ∧ wt0.deps = [] ∧ wt0.dirty = wt0.lazy ∧
      wt0.lazy = (options.map fun o => o.lazy).getD false ∧
      (Watcher.init vm expOrFn cb options isRenderWatcher s).vms[vm]? =
        some { c with
          _watchers := c._watchers ++ [s.watchers.length],
          _watcher := if isRenderWatcher then some s.watchers.length else c._watcher } ∧
      (Watcher.init vm expOrFn cb options isRenderWatcher s).trace = s.trace) ∧
    (∀ o, options = some o → o.lazy = true →
      exec (n + 1) (.newWatcher vm expOrFn cb options isRenderWatcher) s =
        some (.retW s.watchers.length, Watcher.init vm expOrFn cb options isRenderWatcher s)) ∧
    ((∀ o, options = some o → o.lazy = false) → ∀ v s4,
      exec n (.get s.watchers.length) (Watcher.init vm expOrFn cb options isRenderWatcher s) =
        some (.ret v, s4) →
      exec (n + 1) (.newWatcher vm expOrFn cb options isRenderWatcher) s =
        some (.retW s.watchers.length,
          s4.modifyWatcher s.watchers.length fun x => { x with value := v }) ∧
      (Reached s →
        ∃ wt', (s4.modifyWatcher s.watchers.length fun x =>
            { x with value := v }).watchers[s.watchers.length]? = some wt' ∧ wt'.value = v ∧
          ∀ d ∈ wt'.deps, ∃ dep, (s4.modifyWatcher s.watchers.length fun x =>
              { x with value := v }).deps[d]? = some dep ∧
            (wt'.active = true → s.watchers.length ∈ dep.subs))) ∧
    ((∀ o, options = some o → o.lazy = false ∧ o.deep = false) → ∀ v s1 wt1,
      exec n (.callFn expOrFn [])
        ((pushTarget (some s.watchers.length)
          (Watcher.init vm expOrFn cb options isRenderWatcher s)).log
            (.getter s.watchers.length)) = some (.ret v, s1) →
      s1.watchers[s.watchers.length]? = some wt1 →
      ∃ s', exec (n + 2) (.newWatcher vm expOrFn cb options isRenderWatcher) s =
          some (.retW s.watchers.length, s') ∧
        s'.watchers[s.watchers.length]? =
          some { wt1 with depIds := wt1.newDepIds, newDepIds := [], deps := wt1.newDeps,
                          newDeps := [], value := v }) := by
  obtain ⟨wt0, a1, a2, a3, a4, -, -, -, a8, a9, -, -, -, a13, a14, -, -⟩ :=
    init_lookup vm expOrFn cb options isRenderWatcher s
  refine ⟨⟨wt0, a1, a2, a3, a4, a8, a13,
    init_vm vm expOrFn cb options isRenderWatcher s c hvm,
    (init_frame vm expOrFn cb options isRenderWatcher s).1⟩, ?_, ?_, ?_⟩
  · intro o ho hl
    subst ho
    exact new_lazy (exec n) vm expOrFn cb o isRenderWatcher s hl
  · intro hl v s4 hg
    exact ⟨new_eager (exec n) vm expOrFn cb options isRenderWatcher s s4 v hl hg,
      fun hr => new_subscribed n vm expOrFn cb options isRenderWatcher s s4 v
        (reached_protocol hr).unique (reached_protocol hr).bound hg⟩
  · intro hl v s1 wt1 hg hw1
    have hdeep : wt0.deep = false := by
      rw [a14]
      cases options with
      | none => rfl
      | some o => exact (hl o rfl).2
    have hg' : exec n (.callFn wt0.getter [])
        ((pushTarget (some s.watchers.length)
          (Watcher.init vm expOrFn cb options isRenderWatcher s)).log
            (.getter s.watchers.length)) = some (.ret v, s1) := by
      rw [a9]
      exact hg
    obtain ⟨h1, h2⟩ := get_shallow n _ s1 s.watchers.length wt0 wt1 v a1 hdeep hg' hw1
    refine ⟨_, new_eager (exec (n + 1)) vm expOrFn cb options isRenderWatcher s _ v
      (fun o ho => (hl o ho).1) h1, ?_⟩
    simp only [State.modifyWatcher, List.getElem?_modify_eq, h2, Option.map_eq_map,
      Option.map_some']

/-- Witness of C15: `new Watcher(vm, () => obj.x, noop)` on `exDataObserved` evaluates the
getter, holds `1`, and has the Dep of `x` as its only dependency. -/
theorem C15_constructor_witness :
    ∃ s', exec 6 (.newWatcher 0 exReadX noop none false) exDataObserved =
        some (.retW 0, s') ∧
      (s'.watchers[0]?.map fun x => (x.value, x.deps, x.active)) =
        some (.num 1, [1], true) := by
  obtain ⟨s', h1, h2⟩ :=
    (C15_constructor 4 exDataObserved 0 _ exReadX noop none false (by rfl)).2.2.2
      (fun o ho => by cases ho) (.num 1) _ _ (by rfl) (by rfl)
  exact ⟨s', h1,
    (congrArg (Option.map fun x => (x.value, x.deps, x.active)) h2).trans (by rfl)⟩

/-- Counterexample to C7 as stated: in `exChooseBusy` the watcher 0 of
`() => flag ? obj.a : obj.b` has been evaluated with the flag true and again with the flag
false: it is in the subs of the Dep 2 of `b` and not in the subs of the Dep 1 of `a`, whose
only subscriber is the sync watcher 1.  The write `obj.a = 5` calls `update()` of watcher 1,
whose callback writes `obj.b`, and that write calls `update()` of watcher 0. -/
theorem C7_counterexample :
    (exChooseBusy.watchers[0]?.map fun x => (x.getter, x.deps)) =
      some (chooseProp 1 "flag" 0 "a" "b", [2]) ∧
    exChooseBusy.deps =
      [{ id := 0, subs := [] }, { id := 1, subs := [1] }, { id := 2, subs := [0] }] ∧
    ((exec 14 (.propSet 0 "a" (.num 5)) exChooseBusy).map fun r =>
      (r.1, r.2.trace.drop exChooseBusy.trace.length |>.filter fun e =>
        decide (e = .notify 1 ∨ e = .notify 2 ∨ e = .update 0 ∨ e = .update 1))) =
      some (.ret .undefined, [.notify 1, .update 1, .notify 2, .update 0]) := by
  refine ⟨by decide!, by decide!, by decide!⟩

/-- C3 (amended): for an object `obj` and a key `k` that is absent from the extensible
object or is a configurable data property of it, with no watcher being evaluated
(`Dep.target` empty), and values `v` and `v2` that are both not objects, or that are
primitives or objects of a set `g` of plain objects and arrays ready to be observed (no
Observer yet, extensible, enumerable properties that are configurable data properties with
distinct keys, children in `g`, observation enabled) which does not contain `obj`:
`defineReactive(obj, k, v)` returns, a read of `obj[k]` then returns `v`, the write
`obj[k] = v2` returns, and a read of `obj[k]` then returns `v2`. -/
theorem C3_round_trip (g : Addr → Bool) (n : Nat) (s : State) (a : Addr) (obj : Obj) (k : Key)
    (v v2 : Val)
    (ho : s.heap[a]? = some obj)
    (hk : (obj.getOwnProperty k = none ∧ obj.extensible = true) ∨
      ∃ p x, obj.getOwnProperty k = some p ∧ p.configurable = true ∧ p.slot = .data x)
    (ht : s.target = none)
    (hvals : (isObject v = false ∧ isObject v2 = false) ∨
      (GoodGraph g s ∧ g a = false ∧ (∀ b, v = .ref b → g b = true) ∧
        ∀ b, v2 = .ref b → g b = true))
    (hn : 2 * pending g s + 1 ≤ n) :
    ∃ sR s1 s2 s3,
      defineReactive (exec n) a k (some v) none false s = some (.ret .undefined, sR) ∧
      exec (n + 2) (.propGet a k) sR = some (.ret v, s1) ∧
      exec (n + 2) (.propSet a k v2) s1 = some (.ret .undefined, s2) ∧
      exec (n + 2) (.propGet a k) s2 = some (.ret v2, s3) := by
  obtain ⟨m, rfl⟩ : ∃ m, n = m + 1 := ⟨n - 1, by omega⟩
  have hd0 : (Dep.new s).2.deps[s.deps.length]? = some { id := s.depUid, subs := [] } := by
    simp [Dep.new]
  rcases hvals with ⟨hv, hv2⟩ | ⟨hg, hga, hv, hv2⟩
  · have hobs : exec (m + 1) (.observe v false) (Dep.new s).2 =
        some (.retOb none, (Dep.new s).2) := by
      rw [exec_succ]
      exact observe_primitive (exec m) v false _ hv
    obtain ⟨sR, hdef, hsR, hread, hsame, hdiff⟩ :=
      round_trip (m + 1) s a obj k v v2 none (Dep.new s).2 ho hk hobs ho hd0 ht
    cases hc : (strictEq v2 v || (!strictEq v2 v2 && !strictEq v v)) with
    | true =>
      obtain ⟨s7, h1, h2, h3⟩ := hsame hc
      have hvv : v = v2 := by
        rcases h3 with h | ⟨h, h'⟩
        · exact h.symm
        · rw [h, h']
      subst hvv
      exact ⟨sR, _, s7, _, hdef, hread, h1, h2⟩
    | false =>
      obtain ⟨s7, h1, h2⟩ := hdiff hc none _
        (by rw [exec_succ]; exact observe_primitive (exec m) v2 false _ hv2)
        ⟨rfl, rfl, rfl, rfl⟩
      exact ⟨sR, _, s7, _, hdef, hread, h1, h2⟩
  · have hg1 : GoodGraph g (Dep.new s).2 := goodGraph_depNew hg
    obtain ⟨r1, s3, hobs, hstep, -⟩ := observe_ok hg1 (pending g s) (Dep.new s).2
      (obsInv_init hg1) (le_refl _) v hv (m + 1) hn
    have h3a : s3.heap[a]? = some obj :=
      hstep.stable a obj (fun h => h) ho (Or.inl hga)
    have h3d : s3.deps[s.deps.length]? = some { id := s.depUid, subs := [] } := by
      obtain ⟨l, hl, -⟩ := hstep.deps
      rw [hl]
      exact getElem?_append_some _ _ _ _ hd0
    have h3t : s3.target = none := by
      rw [hstep.target]
      exact ht
    obtain ⟨sR, hdef, hsR, hread, hsame, hdiff⟩ :=
      round_trip (m + 1) s a obj k v v2 r1 s3 ho hk hobs h3a h3d h3t
    cases hc : (strictEq v2 v || (!strictEq v2 v2 && !strictEq v v)) with
    | true =>
      obtain ⟨s7, h1, h2, h3⟩ := hsame hc
      have hvv : v = v2 := by
        rcases h3 with h | ⟨h, h'⟩
        · exact h.symm
        · rw [h, h']
      subst hvv
      exact ⟨sR, _, s7, _, hdef, hread, h1, h2⟩
    | false =>
      subst hsR
      have hne : ∀ b, g b = true → b ≠ a := by
        intro b hb e
        rw [e, hga] at hb
        cases hb
      have hheap : ∀ b, g b = true →
          (((afterRead (putReactive a k
            { obj := a, key := k, dep := s.deps.length, val := v, childOb := r1,
              getter := none, setter := none, customSetter := none, shallow := false } s3)
            s3.cells.length).log
              (.call (.reactiveSetter s3.cells.length) [v2])).modifyCell s3.cells.length
                fun x => { x with val := v2 }).heap[b]? = s3.heap[b]? := by
        intro b hb
        show (s3.heap.modify _ a)[b]? = _
        rw [List.getElem?_modify]
        simp [Ne.symm (hne b hb)]
      have hinv5 : ObsInv g (Dep.new s).2 (((afterRead (putReactive a k
            { obj := a, key := k, dep := s.deps.length, val := v, childOb := r1,
              getter := none, setter := none, customSetter := none, shallow := false } s3)
            s3.cells.length).log
              (.call (.reactiveSetter s3.cells.length) [v2])).modifyCell s3.cells.length
                fun x => { x with val := v2 }) := obsInv_frame hstep.inv ⟨rfl, rfl⟩ hheap
        (by
          intro c cell hcell
          have hlt := (List.getElem?_eq_some.mp hcell).1
          show ((s3.cells ++ [_]).modify _ s3.cells.length)[c]? = _
          rw [List.getElem?_modify]
          simp [Nat.ne_of_gt hlt, List.getElem?_append_left hlt, hcell]) rfl
      have hpend5 := pending_frame g s3 _ (by
          show (s3.heap.modify _ a).length = s3.heap.length
          simp) hheap
      have hpend3 := obsStep_pending_le hstep
      have hp0 : pending g (Dep.new s).2 = pending g s := rfl
      obtain ⟨r2, s6, hobs2, hstep2, -⟩ := observe_ok hg1 (pending g s) _ hinv5
        (by omega) v2 hv2 (m + 1) hn
      obtain ⟨l2, hl2⟩ := hstep2.cells
      obtain ⟨l3, hl3, -⟩ := hstep2.deps
      obtain ⟨s7, h1, h2⟩ := hdiff hc r2 s6 hobs2
        ⟨by
          have h5a : (((afterRead (putReactive a k
            { obj := a, key := k, dep := s.deps.length, val := v, childOb := r1,
              getter := none, setter := none, customSetter := none, shallow := false } s3)
            s3.cells.length).log
              (.call (.reactiveSetter s3.cells.length) [v2])).modifyCell s3.cells.length
                fun x => { x with val := v2 }).heap[a]? =
              some (obj.putProp (reactiveProperty k s3.cells.length)) :=
            putReactive_heap a k _ s3 obj h3a
          rw [h5a]
          exact hstep2.stable a _ (fun h => h) h5a (Or.inl hga),
        by
          rw [hl2]
          have hlt : s3.cells.length < (((afterRead (putReactive a k
            { obj := a, key := k, dep := s.deps.length, val := v, childOb := r1,
              getter := none, setter := none, customSetter := none, shallow := false } s3)
            s3.cells.length).log
              (.call (.reactiveSetter s3.cells.length) [v2])).modifyCell s3.cells.length
                fun x => { x with val := v2 }).cells.length := by
            show s3.cells.length < ((s3.cells ++ [_]).modify _ s3.cells.length).length
            simp
          exact List.getElem?_append_left hlt,
        by
          rw [hl3]
          have hlt : s.deps.length < s3.deps.length := (List.getElem?_eq_some.mp h3d).1
          exact List.getElem?_append_left hlt,
        hstep2.target⟩
      exact ⟨_, _, s7, _, hdef, hread, h1, h2⟩

/-- Witness of C3 on `exHolder`: after `defineReactive(obj, 'x', o1)` the property reads
`o1`, and after `obj.x = o2` it reads `o2`. -/
theorem C3_round_trip_witness :
    ∃ sR s1 s2 s3,
      defineReactive (exec 5) 0 "x" (some (.ref 1)) none false exHolder =
        some (.ret .undefined, sR) ∧
      exec 7 (.propGet 0 "x") sR = some (.ret (.ref 1), s1) ∧
      exec 7 (.propSet 0 "x" (.ref 2)) s1 = some (.ret .undefined, s2) ∧
      exec 7 (.propGet 0 "x") s2 = some (.ret (.ref 2), s3) :=
  C3_round_trip (fun a => decide (a = 1 ∨ a = 2)) 5 exHolder 0 _ "x" (.ref 1) (.ref 2) (by rfl)
    (Or.inl ⟨by rfl, rfl⟩) (by rfl)
    (Or.inr ⟨exHolder_good, by rfl, fun b hb => by cases hb; rfl, fun b hb => by cases hb; rfl⟩)
    (by decide)

/-- C23 (amended): a write to a reactive property (cell `c`) that is not a getter-only
accessor, of the plain object or array at `v` that is not the current value, in which the
custom setter (development build) and the pre-existing setter, if any, return: the value is
stored in the cell or passed to the pre-existing setter.  Shallow: the rest of the setter is
the one call `dep.notify()`, without `observe`.  Not shallow: the setter calls `observe(v)`,
which returns at once when `v` carries an Observer, and when it returns, its result
becomes the child Observer of the cell, the rest of the setter is the one call
`dep.notify()`, and an observable `v` carries the Observer returned.  A later read under a
watcher of the property without pre-existing getter, with `v` as value and the child
Observer `ob`, performs `dep.depend()` on the Dep of the property and on the Dep of `ob`,
and for an array `v` then calls `dependArray(v)`. -/
theorem C23_write_observes (n : Nat) (s s1 s2 s3 : State) (c : Nat) (cell : Cell) (v : Addr)
    (value : Val) (hc : s.cells[c]? = some cell)
    (hgo : cell.getter = none ∨ cell.setter.isSome = true)
    (hread : cell.read (exec n) s = some (.ret value, s1)) (hne : value ≠ .ref v)
    (hcust : ((s1.env.production = true ∨ cell.customSetter = none) ∧ s2 = s1) ∨
      ∃ f x, s1.env.production = false ∧ cell.customSetter = some f ∧
        exec n (.callFn f []) (s1.log (.customSetter c)) = some (.ret x, s2))
    (hset : (cell.setter = none ∧ s3 = s2.modifyCell c fun x => { x with val := .ref v }) ∨
      ∃ st x, cell.setter = some st ∧ exec n (.callFn st [.ref v]) s2 = some (.ret x, s3)) :
    (cell.shallow = true →
      reactiveSetter (exec n) c (.ref v) s =
        exec n (.notify cell.dep) (s3.modifyCell c fun x => { x with childOb := none })) ∧
    (cell.shallow = false →
      (∀ obj o, s3.heap[v]? = some obj → (obj.kind = .plain ∨ obj.kind = .array) →
        obj.__ob__ = some o → 0 < n →
        exec n (.observe (.ref v) false) s3 = some (.retOb (some o), s3)) ∧
      ∀ r s4, exec n (.observe (.ref v) false) s3 = some (.retOb r, s4) →
        reactiveSetter (exec n) c (.ref v) s =
          exec n (.notify cell.dep) (s4.modifyCell c fun x => { x with childOb := r }) ∧
        (∃ cell4, s4.cells[c]? = some cell4 ∧
          (s4.modifyCell c fun x => { x with childOb := r }).cells[c]? =
            some { cell4 with childOb := r }) ∧
        ∀ obj, s3.heap[v]? = some obj → (obj.kind = .plain ∨ obj.kind = .array) →
          (obj.__ob__.isSome ∨
            (obj.extensible = true ∧ obj._isVue = false ∧ s3.shouldObserve = true ∧
              s3.env.isServerRendering = false)) →
          ∃ o objv, r = some o ∧ s4.heap[v]? = some objv ∧ objv.__ob__ = some o) ∧
    (∀ (call : Call) t W cellt ob o vo, t.cells[c]? = some cellt → cellt.getter = none →
      cellt.val = .ref v → cellt.childOb = some ob → t.observers[ob]? = some o →
      t.target = some W → t.heap[v]? = some vo →
      (vo.kind ≠ .array → reactiveGetter call c t =
        some (.ret (.ref v), Dep.depend o.dep (Dep.depend cellt.dep t))) ∧
      (vo.kind = .array → reactiveGetter call c t =
        andThen (call (.dependArray v) (Dep.depend o.dep (Dep.depend cellt.dep t)))
          fun _ s4 => some (.ret (.ref v), s4))) := by
  have hne2 : (strictEq (.ref v) value ||
      (!strictEq (.ref v) (.ref v) && !strictEq value value)) = false := by
    cases hv : value <;> simp [strictEq]
    rename_i a
    intro h
    exact hne (by rw [hv, h])
  have hgen := reactiveSetter_general (exec n) c cell (.ref v) value s s1 s2 s3 hc hgo hread
    hne2 hcust hset
  have hp1 : Persists s s1 := by
    unfold Cell.read at hread
    cases hg : cell.getter with
    | none =>
      rw [hg] at hread
      cases hread
      exact persists_refl s
    | some g =>
      rw [hg] at hread
      exact exec_closed persists_closed n _ _ _ _ hread trivial
  have hp2 : Persists s1 s2 := by
    rcases hcust with ⟨-, rfl⟩ | ⟨f, x, -, -, hcall⟩
    · exact persists_refl _
    · exact persists_trans (persists_closed.log s1 _ (by intro w h; cases h)
        (by intro w a b h; cases h)) (exec_closed persists_closed n _ _ _ _ hcall trivial)
  have hp3 : Persists s2 s3 := by
    rcases hset with ⟨-, rfl⟩ | ⟨st, x, -, hcall⟩
    · exact persists_closed.setCellVal s2 c _
    · exact exec_closed persists_closed n _ _ _ _ hcall trivial
  refine ⟨?_, ?_, ?_⟩
  · intro hsh
    rw [hgen]
    simp [hsh, andThenOb]
  · intro hsh
    refine ⟨?_, ?_⟩
    · intro obj o ho hk hob hn
      obtain ⟨m, rfl⟩ : ∃ m, n = m + 1 := ⟨n - 1, by omega⟩
      rw [exec_succ]
      refine observe_again (exec m) v s3 obj o ho hob ?_
      rcases hk with h | h <;> rw [h] <;> decide
    · intro r s4 hob
      refine ⟨?_, ?_, ?_⟩
      · rw [hgen]
        simp [hsh, andThenOb, hob]
      · have hp4 : Persists s3 s4 := exec_closed persists_closed n _ _ _ _ hob trivial
        obtain ⟨cell4, f1, -⟩ :=
          (persists_trans (persists_trans (persists_trans hp1 hp2) hp3) hp4).cells c cell hc
        exact ⟨cell4, f1, by simp [State.modifyCell, f1]⟩
      · intro obj ho hk hcond
        exact observe_observable n v s3 s4 obj r hob ho hk hcond
  · intro call t W cellt ob o vo htc htg htv hco hobs ht hvo
    refine ⟨?_, ?_⟩
    · intro hvk
      rw [← htv]
      refine reactiveGetter_child call W c cellt ob o t htc htg ht hco hobs ?_
      intro a ha
      rw [htv] at ha
      cases ha
      exact ⟨vo, hvo, hvk⟩
    · intro hvk
      exact reactiveGetter_childArray call W c cellt ob o t v vo htc htg ht hco hobs htv hvo hvk

/-- Witness of C23 on `exTwo`: the write `obj0.x = obj1` observes `obj1`, which then carries
Observer 1, the new child Observer of the cell. -/
theorem C23_write_observes_witness :
    reactiveSetter (exec 5) 0 (.ref 1) exTwo =
      exec 5 (.notify 1) (exTwoStored.modifyCell 0 fun x => { x with childOb := some 1 }) ∧
    (∃ cell4, exTwoStored.cells[0]? = some cell4 ∧
      (exTwoStored.modifyCell 0 fun x => { x with childOb := some 1 }).cells[0]? =
        some { cell4 with childOb := some 1 }) ∧
    ∃ o objv, some 1 = some o ∧ exTwoStored.heap[1]? = some objv ∧ objv.__ob__ = some o := by
  obtain ⟨h1, h2, h3⟩ := ((C23_write_observes 5 exTwo exTwo exTwo
    (exTwo.modifyCell 0 fun x => { x with val := .ref 1 }) 0
    { obj := 0, key := "x", dep := 1, val := .num 1, childOb := none, getter := none,
      setter := none, customSetter := none, shallow := false }
    1 (.num 1) (by rfl) (Or.inl rfl) (by rfl) (by simp) (Or.inl ⟨Or.inr rfl, rfl⟩)
    (Or.inl ⟨rfl, rfl⟩)).2.1 rfl).2 (some 1) exTwoStored (by rfl)
  exact ⟨h1, h2, h3 _ (by rfl) (Or.inl rfl) (Or.inr ⟨rfl, rfl, rfl, rfl⟩)⟩

/-- Counterexample to C23 as stated, in two runs.  In `exPrevObserved` the reactive property
`x` of `obj` holds the observed object `prev` (Observer 1, Dep 2); the write `obj.x = v`
with the array `v = [prev]` observes `v` (Observer 2, Dep 3) and notifies Dep 1 once; the
watcher of `() => obj.x` constructed afterwards reads the property and is subscribed to
the Dep of the property, to the Dep of the Observer of `v` and, through `dependArray`, to
the Dep 2 of the previous child.  In `exBoomObserved` the write `obj.x = v` of the plain
object `v = { get y () { throw 'boom' }, set y (_) {} }` stores `v`, `observe(v)` attaches
Observer 1 to `v` and throws in `walk`, and `dep.notify()` is not called. -/
theorem C23_counterexample :
    ((exPrevObserved.cells[0]?.map fun x => (x.val, x.childOb, x.dep, x.shallow)) =
        some (.ref 1, some 1, 1, false) ∧
      exPrevObserved.observers[1]? = some { value := 1, dep := 2, vmCount := 0 } ∧
      exec 7 (.propSet 0 "x" (.ref 2)) exPrevObserved = some (.ret .undefined, exPrevWritten) ∧
      exPrevWritten.trace = [.call (.reactiveSetter 0) [.ref 2], .notify 1] ∧
      (exPrevWritten.cells[0]?.map fun x => (x.val, x.childOb)) = some (.ref 2, some 2) ∧
      exPrevWritten.observers[2]? = some { value := 2, dep := 3, vmCount := 0 } ∧
      exec 8 (.newWatcher 0 (.code (.prop (.lit (.ref 0)) "x")) noop none false)
        exPrevWritten = some (.retW 0, exPrevWatched) ∧
      (exPrevWatched.watchers[0]?.map fun x => (x.value, x.deps)) =
        some (.ref 2, [1, 3, 2]) ∧
      (exPrevWatched.deps.map fun d => d.subs) = [[], [0], [0], [0]]) ∧
    ((exBoomObserved.cells[0]?.map fun x => (x.val, x.childOb, x.dep, x.shallow)) =
        some (.num 1, none, 1, false) ∧
      (exBoomObserved.heap[1]?.map fun o => (o.kind, o.extensible, o.__ob__)) =
        some (.plain, true, none) ∧
      exec 9 (.propSet 0 "x" (.ref 1)) exBoomObserved =
        some (.thrown (.str "boom"), exBoomWritten) ∧
      exBoomWritten.trace = [.call (.reactiveSetter 0) [.ref 1],
        .call (.code (.throw (.lit (.str "boom")))) []] ∧
      (exBoomWritten.cells[0]?.map fun x => (x.val, x.childOb)) = some (.ref 1, none) ∧
      (exBoomWritten.heap[1]?.map fun o => o.__ob__) = some (some 1)) := by
  refine ⟨⟨by decide, by decide, by decide, by decide, by decide, by decide, by decide,
    by decide, by decide⟩, by decide, by decide, by decide, by decide, by decide, by decide⟩

/-- Counterexample to C3 as stated, in three runs.  On the non-extensible object `{x: 2}`
the key `y` is no property at all, so it is neither non-configurable nor an accessor, yet
`defineReactive(obj, 'y', 1)` throws the TypeError of `Object.defineProperty`, the object
is left as it was, and a read of `obj.y` then returns `undefined`, not `1`.  In
`exReentDefined`, after `defineReactive(obj, 'k', 1)`, the sync watcher of
`() => flag.first ? (obj.k, flag.first = false, obj.k = 2, obj.k) : (obj.k = 3, 7)` is
constructed: its getter reads `obj.k`, which subscribes the watcher, writes `obj.k = 2`,
which runs the watcher again through `notify`, `update` and `run`, and that evaluation
writes `obj.k = 3`; the read of `obj.k` that follows the write `obj.k = 2` returns `3`, the
value of the watcher.  On `exBoomData`, `defineReactive(obj, 'x', v)` with
`v = { get y () { throw 'boom' }, set y (_) {} }` throws `'boom'` out of `observe(v)`, and
`obj.x` still reads `1`, not `v`. -/
theorem C3_counterexample :
    (exClosedX.heap[0]? = some { Obj.plain [("x", .num 2)] with extensible := false } ∧
      defineReactive (exec 1) 0 "y" (some (.num 1)) none false exClosedX =
        some (.thrown typeError, exClosedThrown) ∧
      exClosedThrown.heap = exClosedX.heap ∧
      exec 3 (.propGet 0 "y") exClosedThrown = some (.ret .undefined, exClosedThrown)) ∧
    (exec 3 (.defineReactive 0 "k" (some (.num 1)) none false) exReentData =
        some (.ret .undefined, exReentDefined) ∧
      exec 20 (.newWatcher 0 exReentGetter noop
        (some { deep := false, user := false, lazy := false, sync := true }) false)
        exReentDefined = some (.retW 0, exReentWatched) ∧
      (exReentWatched.watchers[0]?.map fun x => x.value) = some (.num 3) ∧
      (exReentWatched.cells[0]?.map fun x => x.val) = some (.num 3) ∧
      (exReentWatched.trace.filter fun e =>
          e = .call (.reactiveSetter 0) [.num 2] ∨ e = .call (.reactiveSetter 0) [.num 3] ∨
            e = .call (.reactiveGetter 0) []) =
        [.call (.reactiveGetter 0) [], .call (.reactiveSetter 0) [.num 2],
          .call (.reactiveSetter 0) [.num 3], .call (.reactiveSetter 0) [.num 3],
          .call (.reactiveGetter 0) []]) ∧
    (exec 9 (.defineReactive 0 "x" (some (.ref 1)) none false) exBoomData =
        some (.thrown (.str "boom"), exBoomDefined) ∧
      exec 3 (.propGet 0 "x") exBoomDefined = some (.ret (.num 1), exBoomDefined)) := by
  refine ⟨⟨by decide, by decide, by decide, by decide⟩,
    ⟨by decide, by decide, by decide, by decide, by decide⟩, by decide, by decide⟩

/-- Counterexample to C24 as stated: `defineReactive(obj, 'x', o1)` runs while observation
is switched off (`toggleObserving(false)`, as `initProps` does), so `observe(o1)` returns
nothing and the closure variable `childOb` of the property stays empty; observation is
switched on again and `observe(o1)` gives `o1` the Observer 0, whose Dep is Dep 1.  The
property `x` is not shallow, has no pre-existing getter, and its value `o1` is an observed
object: the watcher of `() => obj.x` gets the value `o1` and is subscribed to the Dep 0 of
the property, but not to the Dep of the Observer of `o1`. -/
theorem C24_counterexample :
    exec 3 (.defineReactive 0 "x" (some (.ref 1)) none false)
      (toggleObserving false exGateData) = some (.ret .undefined, exGateDefined) ∧
    exec 5 (.observe (.ref 1) false) (toggleObserving true exGateDefined) =
      some (.retOb (some 0), exGateObserved) ∧
    (exGateObserved.heap[1]?.map fun o => o.__ob__) = some (some 0) ∧
    exGateObserved.observers[0]? = some { value := 1, dep := 1, vmCount := 0 } ∧
    exGateObserved.cells[0]? = some
      { obj := 0, key := "x", dep := 0, val := .ref 1, childOb := none, getter := none,
        setter := none, customSetter := none, shallow := false } ∧
    exec 7 (.newWatcher 0 (.code (.prop (.lit (.ref 0)) "x")) noop none false)
      exGateObserved = some (.retW 0, exGateWatched) ∧
    (exGateWatched.watchers[0]?.map fun x => (x.active, x.value, x.deps)) =
      some (true, .ref 1, [0]) ∧
    (exGateWatched.deps.map fun d => d.subs) = [[0], [], []] := by
  refine ⟨by decide, by decide, by decide, by decide, by decide, by decide, by decide,
    by decide⟩

/-- Counterexample to C15 as stated: the getter of the watcher of `exSelfDown` tears its own
watcher down.  The constructor, called without the lazy option, returns the watcher, which
is then inactive and no longer in `vm._watchers`. -/
theorem C15_counterexample :
    (exDataObserved.vms[0]?.map fun x => x._watchers) = some [] ∧
    exDataObserved.watchers = [] ∧
    exec 5 (.newWatcher 0 (.code (.teardown 0)) noop none false) exDataObserved =
      some (.retW 0, exSelfDown) ∧
    (exSelfDown.watchers[0]?.map fun x => (x.active, x.lazy)) = some (false, false) ∧
    (exSelfDown.vms[0]?.map fun x => x._watchers) = some [] := by
  refine ⟨by decide!, by decide!, by decide!, by decide!, by decide!⟩


end Vue
